import Mathlib

/-!
# Navi: execution and orchestration engine

A shallow embedding of `cmd/navi/command.go`, `cmd/navi/runner.go` and
`cmd/navi/navi.go`.  Child processes, port probes and the file watcher are
external; their results are supplied by an environment `Env` that is a
function of the events emitted so far, so that every concrete execution of
the program corresponds to one environment.  Everything the program prints or
starts is appended to the `trace` of the `World`.
-/

namespace Navi

/-! ## Errors -/

/-- Errors of the engine: the two sentinels of `config.go` and every other
error, identified by its message. -/
inductive Err where
  | ErrProcessTerminated
  | ErrWatchModeRestart
  | other (msg : String)
  deriving DecidableEq, Repr

/-- The text of an error (`err.Error()`, what `%v` prints). -/
def Err.Error : Err → String
  | .ErrProcessTerminated => "Process terminated by \x27interrupt\x27 or \x27termination\x27 signal"
  | .ErrWatchModeRestart => "Process terminated by watch mode restart"
  | .other msg => msg

/-- The test `errors.Is(err, ErrProcessTerminated)`. -/
def Err.isTerminated : Err → Bool
  | .ErrProcessTerminated => true
  | _ => false

/-- The test `errors.Is(err, ErrWatchModeRestart)`. -/
def Err.isRestart : Err → Bool
  | .ErrWatchModeRestart => true
  | _ => false

/-! ## Events -/

/-- What the engine does that can be observed: processes it starts, lines it
logs, and (marked ghost) entries into the functions the claims count. -/
inductive Event where
  /-- `executeSingleCommand` starts the shell on a command list. -/
  | exec (isAfterCmd : Bool) (cmdArgs : List String)
  /-- Log line "Running `pre` command..." or "Running project-level `pre` command...". -/
  | runningPre (projectLevel : Bool)
  /-- Log line "Running main command...". -/
  | runningMain
  /-- Log line "Running `post` command..." or "Running project-level `post` command...". -/
  | runningPost (projectLevel : Bool)
  /-- Log line "Running `after%s` command..." or its project-level form; `hookType` is
  the `%s`: "", ".success", ".failure", ".change" or ".always". -/
  | runningAfter (projectLevel : Bool) (hookType : String)
  /-- Log line "After command(s) completed successfully". -/
  | afterCompleted
  /-- Log line "Command(s) completed successfully". -/
  | commandsCompleted
  /-- Log line "Starting in watch mode". -/
  | startingWatch
  /-- Log line "Starting with auto-restart", with or without "(max %d retries)". -/
  | startingAutoRestart (maxRetries : Int)
  /-- Log line "Waiting %s seconds before execution...". -/
  | waitingDelay
  /-- Log line "Restarting in %s seconds... (attempt %d/%d)". -/
  | restartingIn (attempt maxRetries : Int)
  /-- Log line "Restarting in %s seconds...", the form without a bound. -/
  | restarting
  /-- Log line "Maximum retry attempts (%d) reached. Terminating". -/
  | maxRetriesReached (maxRetries : Int)
  /-- An error printed with the format "%v". -/
  | errorLog (e : Err)
  /-- Log line "Fail during execution of after command(s)[ in watch mode]: %v". -/
  | afterFailed (watchMode : Bool) (e : Err)
  /-- Log line "A serial command in runner `%s` has failed". -/
  | serialFailed
  /-- Log line "A dependent command in runner `%s` has failed or finished". -/
  | dependentFailed
  /-- Log line "Shutting down processes... (do not close the terminal)". -/
  | shuttingDown
  /-- The call `process.TerminateAll()`. -/
  | terminateAll
  /-- The call `process.InterruptAll()`. -/
  | interruptAll
  /-- The call `process.KillAll()`. -/
  | killAll
  /-- The call `time.Sleep(d)`, with `d` in nanoseconds. -/
  | sleep (nanoseconds : Int)
  /-- The call `close(nextStartSignal)`. -/
  | closeNextStartSignal
  /-- Ghost: `executeAfterHooks` has been entered with these arguments. -/
  | afterHooks (executionErr : Option Err) (isAfterChange : Bool)
  /-- Ghost: `projectCmd.execute` has returned this result to
  `executeCommandWithAfterHandling`. -/
  | run (result : Option Err)
  /-- Ghost: `executeRestartableCommand` or `executeOneTimeCommand` calls
  `executeCommandWithAfterHandling`. -/
  | entered
  /-- Ghost: `executeCommandWithAfterHandling` has returned this result to
  `executeRestartableCommand` or to `executeOneTimeCommand`. -/
  | returned (result : Option Err)
  /-- Ghost: `tryWaitForPorts` has returned this error to
  `executeRestartableCommand` or to `executeOneTimeCommand` and the shutdown
  flag was found unset. -/
  | portWaitFailed (e : Err)
  /-- Ghost: `gracefulShutdown` has been called. -/
  | gracefulShutdown
  /-- The panic "sync: negative WaitGroup counter" of `processWg.Done()`; nothing
  recovers it, so it ends the program. -/
  | wgPanic
  deriving DecidableEq, Repr

/-! ## State and environment -/

/-- The mutable state the engine reads and writes: the package-level flags
`process.TerminatingProcesses` and `suppressNewAfterCommands`, the counter of
the wait group `processWg`, the two run-state flags of the root node being
run, and the trace. -/
structure World where
  TerminatingProcesses : Bool
  suppressNewAfterCommands : Bool
  AfterExecuted : Bool
  WatchExecuted : Bool
  processWg : Int
  trace : List Event
  deriving DecidableEq, Repr

/-- How a child process ended. `setupFailed` is an error of
`prepareShellCommands` or `setupCommandOutputHandling`, returned before the
process is started. -/
inductive ProcOutcome where
  | setupFailed (msg : String)
  | startFailed (msg : String)
  | exitFailed (msg : String)
  | exited
  deriving DecidableEq, Repr

/-- The external world, as functions of the trace so far. -/
structure Env where
  /-- How the next child process ends. -/
  proc : List Event → ProcOutcome
  /-- Whether `watchData.ErrStatus` is `ErrWatchModeRestart` when the next
  child process has ended (a file change interrupted it). -/
  restarted : List Event → Bool
  /-- Whether another goroutine has raised `process.TerminatingProcesses`. -/
  signal : List Event → Bool
  /-- The message of the error of `waitForRequiredPorts` when ports are
  awaited (an error of the package `port`, never a sentinel). -/
  ports : List Event → Option String
  /-- The message of the error of `watcher.NewFileWatcher` or of
  `fileWatcher.Start` (an error of the package `watcher`, never a sentinel). -/
  watcher : List Event → Option String
  /-- The test `len(process.ProcessRegistry) == 0`. -/
  registryEmpty : List Event → Bool
  /-- How many file changes restart a watched command before the parent
  context is cancelled. -/
  changes : Nat

/-- Append an event to the trace. -/
def emit (e : Event) (w : World) : World :=
  { w with trace := w.trace ++ [e] }

/-- Read `process.TerminatingProcesses`: the flag is set if it was set before
or if another goroutine has raised it meanwhile; it is never reset. -/
def readTerminating (env : Env) (w : World) : Bool × World :=
  let b := w.TerminatingProcesses || env.signal w.trace
  (b, { w with TerminatingProcesses := b })

/-! ## Command nodes -/

/-- A node of the hook tree (`ProjectCommand` of `types.go`). A nil pointer is
`none`. Of the data fields only the command list and the include patterns
decide control flow; directory, shell, environment and log prefix are passed
to the operating system and to the logger unchanged. -/
inductive ProjectCommand where
  | mk (CommandList : List String) (WatchInclude : List String)
      (ProjPreCommand PreCommand PostCommand ProjPostCommand : Option ProjectCommand)
      (AfterCommand AfterSuccessCommand AfterFailureCommand AfterAlwaysCommand
        AfterChangeCommand ProjAfterCommand : Option ProjectCommand)

namespace ProjectCommand

def CommandList : ProjectCommand → List String
  | .mk c _ _ _ _ _ _ _ _ _ _ _ => c

def WatchInclude : ProjectCommand → List String
  | .mk _ i _ _ _ _ _ _ _ _ _ _ => i

def ProjPreCommand : ProjectCommand → Option ProjectCommand
  | .mk _ _ x _ _ _ _ _ _ _ _ _ => x

def PreCommand : ProjectCommand → Option ProjectCommand
  | .mk _ _ _ x _ _ _ _ _ _ _ _ => x

def PostCommand : ProjectCommand → Option ProjectCommand
  | .mk _ _ _ _ x _ _ _ _ _ _ _ => x

def ProjPostCommand : ProjectCommand → Option ProjectCommand
  | .mk _ _ _ _ _ x _ _ _ _ _ _ => x

def AfterCommand : ProjectCommand → Option ProjectCommand
  | .mk _ _ _ _ _ _ x _ _ _ _ _ => x

def AfterSuccessCommand : ProjectCommand → Option ProjectCommand
  | .mk _ _ _ _ _ _ _ x _ _ _ _ => x

def AfterFailureCommand : ProjectCommand → Option ProjectCommand
  | .mk _ _ _ _ _ _ _ _ x _ _ _ => x

def AfterAlwaysCommand : ProjectCommand → Option ProjectCommand
  | .mk _ _ _ _ _ _ _ _ _ x _ _ => x

def AfterChangeCommand : ProjectCommand → Option ProjectCommand
  | .mk _ _ _ _ _ _ _ _ _ _ x _ => x

def ProjAfterCommand : ProjectCommand → Option ProjectCommand
  | .mk _ _ _ _ _ _ _ _ _ _ _ x => x

/-- A node with a command list and no hook. -/
def leaf (cmds : List String) : ProjectCommand :=
  .mk cmds [] none none none none none none none none none none

end ProjectCommand

/-! ## Command executor (`command.go`) -/

/-- `preserveWatchModeErrorState`: a sentinel is kept, any other error is
replaced by the new one. -/
def preserveWatchModeErrorState (currentErr newError : Err) : Err :=
  if currentErr.isRestart || currentErr.isTerminated then currentErr else newError

/-- The three identical blocks of `executeSingleCommand` that follow a failed
start, a failed wait and a successful wait: the shutdown sentinel first, then
the restart sentinel, then the result proper. -/
def sentinelOr (env : Env) (watchData isAfterCmd restarted : Bool)
    (result : Option Err) (w : World) : Option Err × World :=
  let (t, w1) := readTerminating env w
  if t && !isAfterCmd then (some .ErrProcessTerminated, w1)
  else if watchData && restarted then (some .ErrWatchModeRestart, w1)
  else (result, w1)

/-- `executeSingleCommand`: run the command list in the shell. `watchData` is
true when the pointer of that name is not nil. -/
def executeSingleCommand (env : Env) (watchData isAfterCmd : Bool)
    (cmdArgs : List String) (w : World) : Option Err × World :=
  let w1 := emit (.exec isAfterCmd cmdArgs) w
  match env.proc w.trace with
  | .setupFailed msg => (some (.other msg), w1)
  | .startFailed msg =>
    sentinelOr env watchData isAfterCmd (env.restarted w.trace)
      (some (.other ("The command has failed with error `" ++ msg ++ "`"))) w1
  | .exitFailed msg =>
    sentinelOr env watchData isAfterCmd (env.restarted w.trace)
      (some (.other ("The command has failed with exit code " ++ msg))) w1
  | .exited =>
    sentinelOr env watchData isAfterCmd (env.restarted w.trace) none w1

/-- The error branch of a hook call in `executePreHooks` and
`executePostHooks`: `preserveWatchModeErrorState(err, fmt.Errorf(role + "%v", err))`. -/
def hookResult (role : String) (r : Option Err × World) : Option Err × World :=
  match r with
  | (some err, w) => (some (preserveWatchModeErrorState err (.other (role ++ err.Error))), w)
  | (none, w) => (none, w)

/-- Sequencing with early return: `if err := f(); err != nil { return err }`. -/
def andThen (r : Option Err × World) (k : World → Option Err × World) : Option Err × World :=
  match r with
  | (some err, w) => (some err, w)
  | (none, w) => k w

/-- `executeCommand`: a node with its pre and post hooks. The bodies of
`executePreHooks` and `executePostHooks` are written out in place (the three
functions are mutually recursive in the source); `executeCommand_eq` below
restores the source's shape. -/
def executeCommand (env : Env) (watchData isAfterCmd : Bool) :
    ProjectCommand → Bool → World → Option Err × World
  | .mk CommandList _ ProjPreCommand PreCommand PostCommand ProjPostCommand _ _ _ _ _ _,
    isMainCommand, w =>
    let hasHooks :=
      if isAfterCmd then PreCommand.isSome || PostCommand.isSome
      else PreCommand.isSome || PostCommand.isSome ||
        ProjPreCommand.isSome || ProjPostCommand.isSome
    -- executePreHooks
    andThen
      (match ProjPreCommand with
        | some p =>
          if !isAfterCmd then
            hookResult "Project `pre` command failed: "
              (executeCommand env watchData isAfterCmd p false (emit (.runningPre true) w))
          else (none, w)
        | none => (none, w)) fun w =>
    andThen
      (match PreCommand with
        | some p =>
          hookResult "Command `pre` command failed: "
            (executeCommand env watchData isAfterCmd p false (emit (.runningPre false) w))
        | none => (none, w)) fun w =>
    -- main command
    andThen
      (executeSingleCommand env watchData isAfterCmd CommandList
        (if hasHooks && isMainCommand then emit .runningMain w else w)) fun w =>
    -- executePostHooks
    andThen
      (match PostCommand with
        | some p =>
          hookResult "Command `post` command failed: "
            (executeCommand env watchData isAfterCmd p false (emit (.runningPost false) w))
        | none => (none, w)) fun w =>
    match ProjPostCommand with
    | some p =>
      if !isAfterCmd then
        hookResult "Project `post` command failed: "
          (executeCommand env watchData isAfterCmd p false (emit (.runningPost true) w))
      else (none, w)
    | none => (none, w)

/-- `executePreHooks`: project-level pre, then command-level pre. -/
def executePreHooks (env : Env) (watchData isAfterCmd : Bool) (cmd : ProjectCommand)
    (w : World) : Option Err × World :=
  andThen
    (match cmd.ProjPreCommand with
      | some p =>
        if !isAfterCmd then
          hookResult "Project `pre` command failed: "
            (executeCommand env watchData isAfterCmd p false (emit (.runningPre true) w))
        else (none, w)
      | none => (none, w)) fun w =>
  match cmd.PreCommand with
  | some p =>
    hookResult "Command `pre` command failed: "
      (executeCommand env watchData isAfterCmd p false (emit (.runningPre false) w))
  | none => (none, w)

/-- `executePostHooks`: command-level post, then project-level post. -/
def executePostHooks (env : Env) (watchData isAfterCmd : Bool) (cmd : ProjectCommand)
    (w : World) : Option Err × World :=
  andThen
    (match cmd.PostCommand with
      | some p =>
        hookResult "Command `post` command failed: "
          (executeCommand env watchData isAfterCmd p false (emit (.runningPost false) w))
      | none => (none, w)) fun w =>
  match cmd.ProjPostCommand with
  | some p =>
    if !isAfterCmd then
      hookResult "Project `post` command failed: "
        (executeCommand env watchData isAfterCmd p false (emit (.runningPost true) w))
    else (none, w)
  | none => (none, w)

/-- The test `hasHooks` of `executeCommand`. -/
def hasHooks (isAfterCmd : Bool) (cmd : ProjectCommand) : Bool :=
  if isAfterCmd then cmd.PreCommand.isSome || cmd.PostCommand.isSome
  else cmd.PreCommand.isSome || cmd.PostCommand.isSome ||
    cmd.ProjPreCommand.isSome || cmd.ProjPostCommand.isSome

/-- The closure `runAfterHook` of `executeAfterHooks`. The variable
`executeRootAfter` it assigns is passed in and returned. -/
def runAfterHook (env : Env) (isProjectLevel : Bool) (hookCmd : Option ProjectCommand)
    (hookType : String) (executeRootAfter : Bool) (w : World) : Option Err × Bool × World :=
  match hookCmd with
  | none => (none, executeRootAfter, w)
  | some h =>
    let r := executeCommand env false true h true (emit (.runningAfter isProjectLevel hookType) w)
    (r.1, false, r.2)

/-- The closure `executeAfterCommandSet` of `executeAfterHooks`. -/
def executeAfterCommandSet (env : Env) (executionErr : Option Err) (isAfterChange : Bool)
    (afterCommandSet : Option ProjectCommand) (isProjectLevel : Bool) (w : World) :
    Option Err × World :=
  match afterCommandSet with
  | none => (none, w)
  | some s =>
    -- executeRootAfter := true
    match (if executionErr.isNone then
        runAfterHook env isProjectLevel s.AfterSuccessCommand ".success" true w
      else (none, true, w)) with
    | (some e, _, w1) => (some e, w1)
    | (none, f1, w1) =>
    match (if executionErr.isSome then
        runAfterHook env isProjectLevel s.AfterFailureCommand ".failure" f1 w1
      else (none, f1, w1)) with
    | (some e, _, w2) => (some e, w2)
    | (none, f2, w2) =>
    match (if isAfterChange then
        runAfterHook env isProjectLevel s.AfterChangeCommand ".change" f2 w2
      else (none, f2, w2)) with
    | (some e, _, w3) => (some e, w3)
    | (none, f3, w3) =>
    match runAfterHook env isProjectLevel s.AfterAlwaysCommand ".always" f3 w3 with
    | (some e, _, w4) => (some e, w4)
    | (none, f4, w4) =>
    if f4 then
      match runAfterHook env isProjectLevel (some s) "" f4 w4 with
      | (r, _, w5) => (r, w5)
    else (none, w4)

/-- The deferred `processWg.Done()`: the counter is decremented.
`sync.WaitGroup` panics when that takes the counter below zero, so a negative
counter is the mark of that panic: the function that has deferred the call
does not return to its caller. In `watchCycle` and in
`executeCommandWithAfterHandling` the `Done` of `executeAfterHooks` follows the
`Add` of `executeOneTime`, and the counter stays at or above its value before
the run (`executeAfterHooks_after_run_processWg`); `processCommandError` can
call `executeAfterHooks` without a run before it, and there the panic is part
of the model. -/
def wgDone (r : Option Err × World) : Option Err × World :=
  (r.1, { r.2 with processWg := r.2.processWg - 1 })

/-- `executeAfterHooks`: the after-commands of a root node. -/
def executeAfterHooks (env : Env) (cmd : ProjectCommand) (executionErr : Option Err)
    (isAfterChange : Bool) (w : World) : Option Err × World :=
  let w0 := emit (.afterHooks executionErr isAfterChange) w
  if (cmd.AfterCommand.isNone && cmd.ProjAfterCommand.isNone) || w0.suppressNewAfterCommands then
    (none, w0)
  else
    wgDone <|
      andThen (executeAfterCommandSet env executionErr isAfterChange cmd.AfterCommand false
        { w0 with AfterExecuted := true }) fun w =>
      andThen (executeAfterCommandSet env executionErr isAfterChange cmd.ProjAfterCommand true w)
        fun w => (none, emit .afterCompleted w)

/-- `executeOneTime`: one run of the node with its hooks. -/
def executeOneTime (env : Env) (watchData : Bool) (cmd : ProjectCommand) (w : World) :
    Option Err × World :=
  let w1 := { w with processWg := w.processWg + 1 }
  let w2 :=
    if cmd.AfterCommand.isSome || cmd.ProjAfterCommand.isSome then
      { w1 with processWg := w1.processWg + 1 }
    else w1
  wgDone <|
    match executeCommand env watchData false cmd true w2 with
    | (none, w3) => (none, emit .commandsCompleted w3)
    | (some e, w3) => (some e, w3)

/-- `hasFilesToWatch`. -/
def hasFilesToWatch (cmd : ProjectCommand) : Bool :=
  cmd.WatchInclude.length > 0

/-! ## Shutdown (`navi.go`) -/

/-- The result of a function that may end the process: either it returns, or
the process has ended inside it, by `os.Exit` or by a panic that nothing
recovers, and nothing after it is executed. -/
inductive Step (α : Type) where
  | ret (a : α) (w : World)
  | exit (w : World)

/-- Sequencing of functions that may end the process. -/
def Step.bind {α β : Type} (s : Step α) (k : α → World → Step β) : Step β :=
  match s with
  | .ret a w => k a w
  | .exit w => .exit w

/-- The world a step ends in. -/
def Step.world {α : Type} : Step α → World
  | .ret _ w => w
  | .exit w => w

/-- The call `gracefulShutdown(ctx, "")`, which every caller but the signal
handler makes: a call made while the flag is set returns at once; otherwise
the flag is set and the function ends in `os.Exit(1)`, after
`process.TerminateAll()` and `process.KillAll()` when a process is registered. -/
def gracefulShutdown (env : Env) (w : World) : Step Unit :=
  let w0 := emit .gracefulShutdown w
  let (t, w1) := readTerminating env w0
  if t then .ret () w1
  else
    let w2 := { w1 with TerminatingProcesses := true }
    if env.registryEmpty w2.trace then .exit w2
    else
      .exit (emit .killAll
        { (emit .terminateAll (emit .shuttingDown w2)) with suppressNewAfterCommands := true })

/-- `gracefulShutdown(ctx, signal)` for every value of `signal`; `windows` is
the test `runtime.GOOS == "windows"`. -/
def gracefulShutdownSignal (env : Env) (windows : Bool) (signal : String) (w : World) :
    Step Unit :=
  let w0 := emit .gracefulShutdown w
  let (t, w1) := readTerminating env w0
  if t then .ret () w1
  else
    let w2 := { w1 with TerminatingProcesses := true }
    if env.registryEmpty w2.trace then .exit w2
    else
      let w3 := emit .shuttingDown w2
      let w4 :=
        if !windows || signal == "" then
          if signal == "interrupt" then emit .interruptAll w3 else emit .terminateAll w3
        else w3
      .exit (emit .killAll { w4 with suppressNewAfterCommands := true })

/-! ## Watch session (`command.go`) -/

/-- The goroutine started by `startOrRestartCommand`: one run in watch mode
followed by its after hooks. -/
def watchCycle (env : Env) (cmd : ProjectCommand) (w : World) : Step (Option Err) :=
  match executeOneTime env true cmd w with
  | (execErr, w1) =>
    match executeAfterHooks env cmd execErr true w1 with
    | (some afterErr, w2) =>
      (gracefulShutdown env (emit (.afterFailed true afterErr) w2)).bind fun _ w3 =>
        .ret execErr w3
    | (none, w2) => .ret execErr w2

/-- The event loop of `executeWithFileWatcher`, one run after the other: a run
that ends with an error other than `ErrWatchModeRestart` ends the session with
that error; otherwise the next file change starts the next run, and when no
change is left the parent context ends the session with nil. -/
def watchLoop (env : Env) (cmd : ProjectCommand) : Nat → World → Step (Option Err)
  | 0, w =>
    (watchCycle env cmd w).bind fun execErr w1 =>
      match execErr with
      | some e => if e.isRestart then .ret none w1 else .ret (some e) w1
      | none => .ret none w1
  | n + 1, w =>
    (watchCycle env cmd w).bind fun execErr w1 =>
      match execErr with
      | some e => if e.isRestart then watchLoop env cmd n w1 else .ret (some e) w1
      | none => watchLoop env cmd n w1

/-- `executeWithFileWatcher`. -/
def executeWithFileWatcher (env : Env) (cmd : ProjectCommand) (w : World) : Step (Option Err) :=
  let w0 := { emit .startingWatch w with WatchExecuted := true }
  match env.watcher w0.trace with
  | some msg => .ret (some (.other msg)) w0
  | none => watchLoop env cmd env.changes w0

/-- `execute`: watch mode when there is a file to watch, one run otherwise. -/
def execute (env : Env) (cmd : ProjectCommand) (w : World) : Step (Option Err) :=
  if hasFilesToWatch cmd then executeWithFileWatcher env cmd w
  else
    match executeOneTime env false cmd w with
    | (r, w1) => .ret r w1

/-- The statement `if err != nil && !errors.Is(err, ErrProcessTerminated)` that
logs the error, at the head of `processCommandError` and of
`executeCommandWithAfterHandling`. -/
def logError (err : Option Err) (w : World) : World :=
  match err with
  | some e => if !e.isTerminated then emit (.errorLog e) w else w
  | none => w

/-- `processCommandError`: the top level's handling of a result. When the
deferred `processWg.Done()` of `executeAfterHooks` has taken the counter below
zero, the call has panicked and the program ends there: neither the log line
of `afterErr` nor the rest of the function is executed. -/
def processCommandError (env : Env) (err : Option Err) (projectCmd : Option ProjectCommand)
    (w : World) : Step Unit :=
  let w1 := logError err w
  let r : Step (Option Err) :=
    match projectCmd with
    | some cmd =>
      if !w1.AfterExecuted then
        match executeAfterHooks env cmd err false w1 with
        | (afterErr, w2) =>
          if w2.processWg < 0 then .exit (emit .wgPanic w2)
          else
            match afterErr with
            | some afterErr => .ret (some afterErr) (emit (.afterFailed false afterErr) w2)
            | none => .ret none w2
      else .ret none w1
    | none => .ret none w1
  r.bind fun afterErr w2 =>
    match err with
    | some e =>
      if e.isTerminated then .ret () w2 else gracefulShutdown env w2
    | none =>
      if afterErr.isSome then gracefulShutdown env w2 else .ret () w2

/-! ## Runner scheduler (`runner.go`) -/

/-- `RunnerFlags` of `types.go`. -/
structure RunnerFlags where
  Serial : Bool
  Dependent : Bool
  deriving DecidableEq, Repr

/-- `RunnerCommand` of `types.go`. `Delay` is in seconds, a rational number in
place of the `float64` of the source; `Awaits` is true when the field is not
nil. -/
structure RunnerCommand where
  Cmd : String
  Name : String
  Delay : ℚ
  Awaits : Bool
  Serial : Bool
  Dependent : Bool
  deriving DecidableEq, Repr

/-- `RunnerExecution` of `types.go`. -/
structure RunnerExecution where
  projectCmd : ProjectCommand
  runnerCmd : RunnerCommand
  maxRetries : Int
  enableRestart : Bool
  restartCondition : String

/-- `parseCommandFlags`: the entry's own flags (`none` when the key is absent
or not a boolean), overridden by the runner-wide flags. -/
def parseCommandFlags (runnerCmd : RunnerCommand) (serial dependent : Option Bool)
    (runnerFlags : RunnerFlags) : RunnerCommand :=
  let c1 := match serial with
    | some b => { runnerCmd with Serial := b }
    | none => runnerCmd
  let c2 := if runnerFlags.Serial then { c1 with Serial := true } else c1
  let c3 := match dependent with
    | some b => { c2 with Dependent := b }
    | none => c2
  if runnerFlags.Dependent then { c3 with Dependent := true } else c3

/-- The handler `serialFailure` built in `executeRunnerCommands`. -/
def serialFailure (env : Env) (runnerFlags : RunnerFlags) (cmdConfig : RunnerCommand)
    (w : World) : Step Unit :=
  if cmdConfig.Serial || runnerFlags.Serial then
    gracefulShutdown env (emit .serialFailed w)
  else .ret () w

/-- The handler `dependentCompletion` built in `executeRunnerCommands`. -/
def dependentCompletion (env : Env) (runnerFlags : RunnerFlags) (cmdConfig : RunnerCommand)
    (w : World) : Step Unit :=
  if cmdConfig.Dependent || runnerFlags.Dependent then
    gracefulShutdown env (emit .dependentFailed w)
  else .ret () w

/-- `waitForRequiredPorts`. -/
def waitForRequiredPorts (env : Env) (commandConfig : RunnerCommand) (w : World) :
    Option Err × World :=
  if commandConfig.Awaits then ((env.ports w.trace).map Err.other, w) else (none, w)

/-- `tryWaitForPorts`. -/
def tryWaitForPorts (env : Env) (cmdConfig : RunnerCommand) (w : World) : Option Err × World :=
  match readTerminating env w with
  | (true, w1) => (some .ErrProcessTerminated, w1)
  | (false, w1) => waitForRequiredPorts env cmdConfig w1

/-- The conversion `time.Duration(x)` of a `float64` to the integer type
`time.Duration`: the fraction is discarded (truncation towards zero). The
value is exact for `x` between `-2^63` and `2^63`, which is where the
language defines the conversion. -/
def timeDuration (x : ℚ) : Int :=
  if x < 0 then -Rat.floor (-x) else Rat.floor x

/-- The constant `time.Second`, in nanoseconds. -/
def timeSecond : Int := 1000000000

/-- Arithmetic of `int64`: the result wraps around. -/
def int64 (n : Int) : Int :=
  (n + 2 ^ 63) % 2 ^ 64 - 2 ^ 63

/-- `applyCommandDelay`: the log line, then
`time.Sleep(time.Duration(commandConfig.Delay) * time.Second)`. -/
def applyCommandDelay (commandConfig : RunnerCommand) (w : World) : World :=
  if commandConfig.Delay > 0 then
    emit (.sleep (int64 (timeDuration commandConfig.Delay * timeSecond))) (emit .waitingDelay w)
  else w

/-- `shouldRestartOnCondition`. -/
def shouldRestartOnCondition (outcome condition : String) : Bool :=
  condition == outcome || condition == "always"

/-- `scheduleRetry`: the counter is incremented; the result is the decision,
the new counter and the world. The counter is an `int` of the source, 64 bits
wide: the statement `*currentRetryCount++` wraps around at `2^63 - 1`. The
sleep between two attempts is left out. -/
def scheduleRetry (maxRetries : Int) (currentRetryCount : Int) (w : World) :
    Bool × Int × World :=
  let c := int64 (currentRetryCount + 1)
  if maxRetries > 0 then
    if c > maxRetries then (false, c, emit (.maxRetriesReached maxRetries) w)
    else (true, c, emit (.restartingIn c maxRetries) w)
  else (true, c, emit .restarting w)

/-- `handlePortWaitError`. -/
def handlePortWaitError (env : Env) (err : Err) (maxRetries : Int) (retryCount : Int)
    (w : World) : Bool × Int × World :=
  match readTerminating env w with
  | (true, w1) => (false, retryCount, w1)
  | (false, w1) =>
    scheduleRetry maxRetries retryCount (if !err.isTerminated then emit (.errorLog err) w1 else w1)

/-- `executeCommandWithAfterHandling`: a run followed by its after-commands. -/
def executeCommandWithAfterHandling (env : Env) (projectCmd : ProjectCommand) (w : World) :
    Step (Option Err) :=
  (execute env projectCmd w).bind fun err w1 =>
    let w3 := logError err (emit (.run err) w1)
    if !w3.WatchExecuted then
      match executeAfterHooks env projectCmd err false w3 with
      | (some afterErr, w4) =>
        (gracefulShutdown env (emit (.afterFailed false afterErr) w4)).bind fun _ w5 =>
          .ret err w5
      | (none, w4) => .ret err w4
    else .ret err w3

/-- The statement `err := executeCommandWithAfterHandling(contextCmd, projectCmd)`
of `executeRestartableCommand` and of `executeOneTimeCommand`, with the ghost
events that record the call and the result the runner receives. -/
def runEntry (env : Env) (projectCmd : ProjectCommand) (w : World) : Step (Option Err) :=
  (executeCommandWithAfterHandling env projectCmd (emit .entered w)).bind fun err w1 =>
    .ret err (emit (.returned err) w1)

/-- The loop of `executeRestartableCommand`. The loop of the source has no
bound; `fuel` bounds the number of iterations and `none` means that it was
used up. -/
def restartLoop (env : Env) (runnerFlags : RunnerFlags) (projectCmd : ProjectCommand)
    (cmdConfig : RunnerCommand) (maxRetries : Int) (restartCondition : String) :
    Nat → Int → World → Option (Step Unit)
  | 0, _, _ => none
  | fuel + 1, retryCount, w =>
    match tryWaitForPorts env cmdConfig w with
    | (some err, w1) =>
      match readTerminating env w1 with
      | (true, w2) => some (.ret () w2)
      | (false, w2) =>
        match handlePortWaitError env err maxRetries retryCount
            (emit (.portWaitFailed err) w2) with
        | (true, c, w3) =>
          restartLoop env runnerFlags projectCmd cmdConfig maxRetries restartCondition fuel c w3
        | (false, _, w3) =>
          some ((serialFailure env runnerFlags cmdConfig w3).bind fun _ w4 =>
            dependentCompletion env runnerFlags cmdConfig w4)
    | (none, w1) =>
      match readTerminating env (applyCommandDelay cmdConfig w1) with
      | (true, w2) => some (.ret () w2)
      | (false, w2) =>
        match runEntry env projectCmd w2 with
        | .exit w3 => some (.exit w3)
        | .ret (some e) w3 =>
          if e.isTerminated then some (.ret () w3)
          else if shouldRestartOnCondition "failure" restartCondition then
            match scheduleRetry maxRetries retryCount w3 with
            | (true, c, w4) =>
              restartLoop env runnerFlags projectCmd cmdConfig maxRetries restartCondition fuel c w4
            | (false, _, w4) =>
              some ((serialFailure env runnerFlags cmdConfig w4).bind fun _ w5 =>
                dependentCompletion env runnerFlags cmdConfig w5)
          else
            some ((serialFailure env runnerFlags cmdConfig w3).bind fun _ w5 =>
              dependentCompletion env runnerFlags cmdConfig w5)
        | .ret none w3 =>
          if shouldRestartOnCondition "success" restartCondition then
            match scheduleRetry maxRetries retryCount w3 with
            | (true, c, w4) =>
              restartLoop env runnerFlags projectCmd cmdConfig maxRetries restartCondition fuel c w4
            | (false, _, w4) => some (dependentCompletion env runnerFlags cmdConfig w4)
          else some (dependentCompletion env runnerFlags cmdConfig w3)

/-- `executeRestartableCommand`. -/
def executeRestartableCommand (env : Env) (runnerFlags : RunnerFlags)
    (projectCmd : ProjectCommand) (cmdConfig : RunnerCommand) (maxRetries : Int)
    (restartCondition : String) (fuel : Nat) (w : World) : Option (Step Unit) :=
  restartLoop env runnerFlags projectCmd cmdConfig maxRetries restartCondition fuel 0
    (emit (.startingAutoRestart maxRetries) w)

/-- `executeOneTimeCommand`. -/
def executeOneTimeCommand (env : Env) (runnerFlags : RunnerFlags) (projectCmd : ProjectCommand)
    (cmdConfig : RunnerCommand) (w : World) : Step Unit :=
  match tryWaitForPorts env cmdConfig w with
  | (some err, w1) =>
    match readTerminating env w1 with
    | (true, w2) => .ret () w2
    | (false, w2) =>
      let w0 := emit (.portWaitFailed err) w2
      (serialFailure env runnerFlags cmdConfig
        (if !err.isTerminated then emit (.errorLog err) w0 else w0)).bind fun _ w3 =>
      (dependentCompletion env runnerFlags cmdConfig w3).bind fun _ w4 =>
        match readTerminating env w4 with
        | (t, w5) =>
          if cmdConfig.Serial && !t then .ret () (emit .closeNextStartSignal w5)
          else .ret () w5
  | (none, w1) =>
    match readTerminating env (applyCommandDelay cmdConfig w1) with
    | (true, w2) => .ret () w2
    | (false, w2) =>
      (runEntry env projectCmd w2).bind fun err w3 =>
        match err with
        | some e =>
          if !e.isTerminated then
            (serialFailure env runnerFlags cmdConfig w3).bind fun _ w4 =>
              dependentCompletion env runnerFlags cmdConfig w4
          else .ret () w3
        | none => .ret () w3

/-- The goroutine of `launchRunnerCommand`, from the point where its start
signal has been received. -/
def launchRunnerCommand (env : Env) (runnerFlags : RunnerFlags) (execution : RunnerExecution)
    (fuel : Nat) (w : World) : Option (Step Unit) :=
  let cmdConfig := execution.runnerCmd
  match readTerminating env w with
  | (t, w0) =>
    let w1 := if !cmdConfig.Serial && !t then emit .closeNextStartSignal w0 else w0
    let body : Option (Step Unit) :=
      if execution.enableRestart then
        executeRestartableCommand env runnerFlags execution.projectCmd cmdConfig
          execution.maxRetries execution.restartCondition fuel w1
      else some (executeOneTimeCommand env runnerFlags execution.projectCmd cmdConfig w1)
    body.map fun s =>
      s.bind fun _ w2 =>
        match readTerminating env w2 with
        | (t2, w3) =>
          if cmdConfig.Serial && !t2 then .ret () (emit .closeNextStartSignal w3)
          else .ret () w3

/-! ## The goroutines of `executeRunnerCommands`

`executeRunnerCommands` starts one goroutine per entry; goroutine `i` waits on
signal `i` and owns signal `i + 1`; signal `0` is closed before the first
goroutine is started. The goroutines interleave freely, so the runner is a
transition system whose actions are the steps of `launchRunnerCommand`. -/

/-- Where the goroutine of an entry stands in `launchRunnerCommand`. -/
inductive Phase where
  /-- Blocked in `<-startSignal`. -/
  | waiting
  /-- The start signal has been received. -/
  | woken
  /-- Past the first `if`; inside `executeRestartableCommand` or
  `executeOneTimeCommand`. -/
  | running
  /-- Inside the port-failure branch of `executeOneTimeCommand`, after the
  two handlers. -/
  | handled
  /-- The cycle has returned to `launchRunnerCommand`. -/
  | returned
  /-- Past the last `if`; the goroutine is over. -/
  | done
  deriving DecidableEq, Repr

/-- The shared state of the goroutines. `closes i` counts the calls of
`close` on signal `i`. -/
structure Sched where
  phase : Nat → Phase
  closed : Nat → Bool
  closes : Nat → Nat
  terminating : Bool

/-- One step of one goroutine, or of the rest of the program. -/
inductive Action where
  /-- The receive `<-startSignal` of entry `i` returns. -/
  | wake (i : Nat)
  /-- The first `if` of the goroutine of entry `i`. -/
  | release (i : Nat)
  /-- The port wait of the one-time entry `i` fails while the flag is not
  set, and the two handlers are called. -/
  | portFail (i : Nat)
  /-- The `if` that ends the port-failure branch of `executeOneTimeCommand`. -/
  | innerClose (i : Nat)
  /-- The cycle of entry `i` returns on any other path; `shutdown` tells
  whether it has raised the shutdown flag on the way. -/
  | cycleReturn (i : Nat) (shutdown : Bool)
  /-- The last `if` of the goroutine of entry `i`. -/
  | finalClose (i : Nat)
  /-- Something else raises the shutdown flag. -/
  | shutdown
  deriving DecidableEq, Repr

/-- The serial flag of entry `i` (`cmdConfig.Serial`). -/
def serialOf (cfg : List RunnerExecution) (i : Nat) : Bool :=
  match cfg[i]? with
  | some e => e.runnerCmd.Serial
  | none => false

/-- The dependent flag of entry `i` (`cmdConfig.Dependent`). -/
def dependentOf (cfg : List RunnerExecution) (i : Nat) : Bool :=
  match cfg[i]? with
  | some e => e.runnerCmd.Dependent
  | none => false

/-- Whether entry `i` has a restart policy (`execution.enableRestart`). -/
def restartOf (cfg : List RunnerExecution) (i : Nat) : Bool :=
  match cfg[i]? with
  | some e => e.enableRestart
  | none => false

/-- The call `close(nextStartSignal)` of entry `i`, made when `b` holds. -/
def Sched.closeNext (s : Sched) (i : Nat) (b : Bool) : Sched :=
  if b then
    { s with closed := Function.update s.closed (i + 1) true,
             closes := Function.update s.closes (i + 1) (s.closes (i + 1) + 1) }
  else s

/-- The state in which `executeRunnerCommands` starts its goroutines. -/
def Sched.init : Sched where
  phase := fun _ => .waiting
  closed := fun i => i == 0
  closes := fun _ => 0
  terminating := false

/-- The effect of an action; an action that is not enabled changes nothing. -/
def Sched.step (cfg : List RunnerExecution) (s : Sched) : Action → Sched
  | .wake i =>
    if i < cfg.length ∧ s.phase i = .waiting ∧ s.closed i = true then
      { s with phase := Function.update s.phase i .woken }
    else s
  | .release i =>
    if s.phase i = .woken then
      { s.closeNext i (!serialOf cfg i && !s.terminating) with
        phase := Function.update s.phase i .running }
    else s
  | .portFail i =>
    if s.phase i = .running ∧ restartOf cfg i = false ∧ s.terminating = false then
      { s with phase := Function.update s.phase i .handled,
               terminating := serialOf cfg i || dependentOf cfg i }
    else s
  | .innerClose i =>
    if s.phase i = .handled then
      { s.closeNext i (serialOf cfg i && !s.terminating) with
        phase := Function.update s.phase i .returned }
    else s
  | .cycleReturn i shutdown =>
    if s.phase i = .running then
      { s with phase := Function.update s.phase i .returned,
               terminating := s.terminating || shutdown }
    else s
  | .finalClose i =>
    if s.phase i = .returned then
      { s.closeNext i (serialOf cfg i && !s.terminating) with
        phase := Function.update s.phase i .done }
    else s
  | .shutdown => { s with terminating := true }

/-- The state reached from the start by a sequence of actions. -/
def Sched.run (cfg : List RunnerExecution) (acts : List Action) : Sched :=
  acts.foldl (Sched.step cfg) Sched.init

/-- Entry `i` has started: its goroutine is past `<-startSignal`. -/
def Sched.started (s : Sched) (i : Nat) : Bool :=
  s.phase i != .waiting

/-- Entry `i` has begun its port-wait, delay and run cycle. -/
def Sched.inCycle (s : Sched) (i : Nat) : Bool :=
  s.phase i != .waiting && s.phase i != .woken

/-- Entry `i` has completed: its whole cycle, restarts included, has returned
to `launchRunnerCommand`. -/
def Sched.completed (s : Sched) (i : Nat) : Bool :=
  s.phase i == .returned || s.phase i == .done

/-! ## The order of the stages, as the specification words it -/

/-- The events of a run of a node that is not an after-hook in which every
stage succeeds, in the order of the specification: project-level pre,
command-level pre, main, command-level post, project-level post; a stage that
is absent contributes nothing. A hook is announced by its log line and is
itself a node run the same way. -/
def fixedOrder : ProjectCommand → Bool → List Event
  | .mk CommandList _ ProjPreCommand PreCommand PostCommand ProjPostCommand _ _ _ _ _ _,
    isMainCommand =>
    (match ProjPreCommand with
      | some p => Event.runningPre true :: fixedOrder p false
      | none => []) ++
    (match PreCommand with
      | some p => Event.runningPre false :: fixedOrder p false
      | none => []) ++
    ((if (PreCommand.isSome || PostCommand.isSome || ProjPreCommand.isSome ||
          ProjPostCommand.isSome) && isMainCommand then [Event.runningMain] else []) ++
      [Event.exec false CommandList]) ++
    (match PostCommand with
      | some p => Event.runningPost false :: fixedOrder p false
      | none => []) ++
    (match ProjPostCommand with
      | some p => Event.runningPost true :: fixedOrder p false
      | none => [])

/-- The result `r`, obtained from the world `w`, has added to the trace a
prefix of `expected`, and all of it when it reports no error. -/
def Follows (r : Option Err × World) (w : World) (expected : List Event) : Prop :=
  ∃ p, p <+: expected ∧ r.2.trace = w.trace ++ p ∧ (r.1 = none → p = expected)

/-- A child hook with its type, when it is defined. -/
def hookOf (hookType : String) (hookCmd : Option ProjectCommand) :
    List (String × ProjectCommand) :=
  match hookCmd with
  | some h => [(hookType, h)]
  | none => []

/-- The children of an after-hook set that apply to an outcome, in the order
in which `executeAfterCommandSet` visits them. -/
def selectedHooks (s : ProjectCommand) (executionErr : Option Err) (isAfterChange : Bool) :
    List (String × ProjectCommand) :=
  (if executionErr.isNone then hookOf ".success" s.AfterSuccessCommand else []) ++
  ((if executionErr.isSome then hookOf ".failure" s.AfterFailureCommand else []) ++
  ((if isAfterChange then hookOf ".change" s.AfterChangeCommand else []) ++
  hookOf ".always" s.AfterAlwaysCommand))

/-- The hooks `executeAfterCommandSet` is to run for a set: the children that
apply, or the set itself when no child applies. -/
def hookList (s : ProjectCommand) (executionErr : Option Err) (isAfterChange : Bool) :
    List (String × ProjectCommand) :=
  if (selectedHooks s executionErr isAfterChange).isEmpty then [("", s)]
  else selectedHooks s executionErr isAfterChange

/-- Run a list of after hooks in order, each announced by its log line, up to
the first that fails. -/
def runHooks (env : Env) (isProjectLevel : Bool) :
    List (String × ProjectCommand) → World → Option Err × World
  | [], w => (none, w)
  | (hookType, h) :: rest, w =>
    andThen (executeCommand env false true h true (emit (.runningAfter isProjectLevel hookType) w))
      (runHooks env isProjectLevel rest)

/-- The after-hook set of a level: the project-level set (`ProjAfterCommand`)
or the command-level set (`AfterCommand`). -/
def afterSetOf (cmd : ProjectCommand) (isProjectLevel : Bool) : Option ProjectCommand :=
  if isProjectLevel then cmd.ProjAfterCommand else cmd.AfterCommand

/-- The world in which `executeAfterHooks` hands the command-level set to
`executeAfterCommandSet`. -/
def afterEntry (executionErr : Option Err) (isAfterChange : Bool) (w : World) : World :=
  { emit (.afterHooks executionErr isAfterChange) w with AfterExecuted := true }

/-- Whether `executeAfterHooks`, once past its guard, hands the set of a level
to `executeAfterCommandSet`: the command-level set always, the project-level
set when the command-level set has returned no error. -/
def setReached (env : Env) (cmd : ProjectCommand) (executionErr : Option Err)
    (isAfterChange : Bool) (w : World) (isProjectLevel : Bool) : Bool :=
  !isProjectLevel ||
    (executeAfterCommandSet env executionErr isAfterChange cmd.AfterCommand false
      (afterEntry executionErr isAfterChange w)).1.isNone

/-- The world `w2` continues `w1`: the trace has grown by events that satisfy
`P`, the shutdown flag has not been reset, and nothing else has changed. -/
def Extends (P : Event → Prop) (w1 w2 : World) : Prop :=
  (∃ added, w2.trace = w1.trace ++ added ∧ ∀ e ∈ added, P e) ∧
  w2.suppressNewAfterCommands = w1.suppressNewAfterCommands ∧
  w2.AfterExecuted = w1.AfterExecuted ∧
  w2.WatchExecuted = w1.WatchExecuted ∧
  w2.processWg = w1.processWg ∧
  (w1.TerminatingProcesses = true → w2.TerminatingProcesses = true)

/-- The events of `executeCommand`: a process started, or the log line that
announces a pre hook, the main command or a post hook. -/
def isPlain : Event → Bool
  | .exec _ _ => true
  | .runningPre _ => true
  | .runningMain => true
  | .runningPost _ => true
  | _ => false

/-- The events of the after hooks: those of `executeCommand`, the log line
that announces an after hook, and the closing log line. -/
def isHookEvent : Event → Bool
  | .runningAfter _ _ => true
  | .afterCompleted => true
  | e => isPlain e

/-- The trace of `w2` is the trace of `w1` followed by events that satisfy `P`. -/
def Grows (P : Event → Prop) (w1 w2 : World) : Prop :=
  ∃ added, w2.trace = w1.trace ++ added ∧ ∀ e ∈ added, P e

/-- Events other than the return of a run to `executeCommandWithAfterHandling`
and the entry into `executeAfterHooks` with `isAfterChange = false`. -/
def notCounted : Event → Bool
  | .afterHooks _ false => false
  | .run _ => false
  | _ => true

/-- The number of entries into `executeAfterHooks` with the given value of
`isAfterChange`. -/
def afterCalls (isAfterChange : Bool) (tr : List Event) : Nat :=
  tr.countP fun e =>
    match e with
    | .afterHooks _ c => c == isAfterChange
    | _ => false

/-- The number of runs that have returned to `executeCommandWithAfterHandling`. -/
def runCount (tr : List Event) : Nat :=
  tr.countP fun e =>
    match e with
    | .run _ => true
    | _ => false

/-- `w2` is reached from `w1` without a counted event and without a change
of the flag `WatchExecuted`. -/
def Quiet (w1 w2 : World) : Prop :=
  Grows (fun e => notCounted e = true) w1 w2 ∧ w2.WatchExecuted = w1.WatchExecuted

/-- Between `w1` and `w2` there are as many entries into `executeAfterHooks`
with `isAfterChange = false` as runs returned, and `WatchExecuted` is
unchanged. -/
def Balanced (w1 w2 : World) : Prop :=
  afterCalls false w2.trace + runCount w1.trace = runCount w2.trace + afterCalls false w1.trace ∧
    w2.WatchExecuted = w1.WatchExecuted

/-- The events of error reporting and shutdown. -/
def isShutdownEvent : Event → Bool
  | .errorLog _ => true
  | .gracefulShutdown => true
  | .shuttingDown => true
  | .terminateAll => true
  | .interruptAll => true
  | .killAll => true
  | _ => false

/-- The events of the runner's own decisions: the results it receives and what
it logs about retries and handlers. -/
def isLoopEvent : Event → Bool
  | .entered => true
  | .returned _ => true
  | .portWaitFailed _ => true
  | .restartingIn _ _ => true
  | .restarting => true
  | .maxRetriesReached _ => true
  | .serialFailed => true
  | .dependentFailed => true
  | _ => false

/-- The events of the runner, the return of a run included. -/
def isRunnerEvent : Event → Bool
  | .run _ => true
  | e => isLoopEvent e

/-- `w2` is reached from `w1` inside a run: no event of the runner is added
and the shutdown flag is not reset. -/
def Inner (w1 w2 : World) : Prop :=
  Grows (fun e => isRunnerEvent e = false) w1 w2 ∧
    (w1.TerminatingProcesses = true → w2.TerminatingProcesses = true)

/-- A result that is `ErrProcessTerminated` comes with the shutdown flag set. -/
def TermOk (r : Option Err) (w : World) : Prop :=
  ∀ e, r = some e → e.isTerminated = true → w.TerminatingProcesses = true

/-- Between `w1` and `w2` the events of the runner are exactly `L`, in order. -/
def Proj (w1 w2 : World) (L : List Event) : Prop :=
  ∃ E, w2.trace = w1.trace ++ E ∧ E.filter isRunnerEvent = L

/-- What holds of every result of a run: no event of the runner inside it, a
result `ErrProcessTerminated` only with the shutdown flag set, and an exit of
the process only with the shutdown flag set. -/
def StepOk (w : World) (s : Step (Option Err)) : Prop :=
  Inner w s.world ∧ (∀ r w1, s = .ret r w1 → TermOk r w1) ∧
    (∀ w1, s = .exit w1 → w1.TerminatingProcesses = true)

/-- An environment in which every process exits with status zero, no port
wait fails, no file changes and nothing raises the shutdown flag. -/
def envOk : Env where
  proc := fun _ => .exited
  restarted := fun _ => false
  signal := fun _ => false
  ports := fun _ => none
  watcher := fun _ => none
  registryEmpty := fun _ => true
  changes := 0

/-- An environment in which every process exits with a non-zero status. -/
def envFail : Env where
  proc := fun _ => .exitFailed "exit status 1"
  restarted := fun _ => false
  signal := fun _ => false
  ports := fun _ => none
  watcher := fun _ => none
  registryEmpty := fun _ => true
  changes := 0

/-- The world at the start of the program. -/
def world0 : World where
  TerminatingProcesses := false
  suppressNewAfterCommands := false
  AfterExecuted := false
  WatchExecuted := false
  processWg := 0
  trace := []

/-- A command `build` with a project-level pre hook and a command-level post
hook. -/
def sampleCmd : ProjectCommand :=
  .mk ["build"] [] (some (.leaf ["setup"])) none (some (.leaf ["cleanup"])) none
    none none none none none none

/-- An after-hook set with a success, a failure and an `always` child. -/
def afterSet : ProjectCommand :=
  .mk [] [] none none none none none
    (some (.leaf ["notify ok"])) (some (.leaf ["notify failed"])) (some (.leaf ["cleanup"]))
    none none

/-- A command `serve` whose command-level after hooks are `afterSet`. -/
def cmdWithAfter : ProjectCommand :=
  .mk ["serve"] [] none none none none (some afterSet) none none none none none

/-- An after-hook set whose only child is `always`. -/
def alwaysOnlySet : ProjectCommand :=
  .mk [] [] none none none none none none none (some (.leaf ["cleanup"])) none none

/-- A command `serve` whose command-level after hooks are `alwaysOnlySet`. -/
def cmdAlwaysOnly : ProjectCommand :=
  .mk ["serve"] [] none none none none (some alwaysOnlySet) none none none none none

/-- An after-hook set whose only child is `success`. -/
def successOnlySet : ProjectCommand :=
  .mk [] [] none none none none none (some (.leaf ["notify ok"])) none none none none

/-- A command `serve` whose command-level after hooks are `successOnlySet`. -/
def cmdSuccessOnly : ProjectCommand :=
  .mk ["serve"] [] none none none none (some successOnlySet) none none none none none

/-- A runner started without `--serial` and without `--dependent`. -/
def noFlags : RunnerFlags where
  Serial := false
  Dependent := false

/-- A runner entry without delay, awaited ports, serial or dependent flag. -/
def plainEntry : RunnerCommand where
  Cmd := "serve"
  Name := ""
  Delay := 0
  Awaits := false
  Serial := false
  Dependent := false

/-- The invariant of the goroutines of a runner: an entry past its receive
has its start signal closed; a closed signal `i + 1` means that a serial
entry `i` is over and that a non-serial entry `i` is past its first `if`; a
non-serial entry past its first `if` has closed signal `i + 1` unless the
shutdown flag is set; and a serial entry in the port-failure branch has set
the shutdown flag. -/
def Sched.Inv (cfg : List RunnerExecution) (s : Sched) : Prop :=
  (∀ i, s.phase i ≠ .waiting → s.closed i = true) ∧
  (∀ i, s.closed (i + 1) = true →
    (serialOf cfg i = true → s.phase i = .done) ∧
    (serialOf cfg i = false → s.phase i ≠ .waiting ∧ s.phase i ≠ .woken)) ∧
  (∀ i, serialOf cfg i = false → s.terminating = false →
    s.phase i ≠ .waiting → s.phase i ≠ .woken → s.closed (i + 1) = true) ∧
  (∀ i, s.phase i = .handled → serialOf cfg i = true → s.terminating = true)

/-- Two entries, the first serial, without restart policy. -/
def twoEntries : List RunnerExecution :=
  [{ projectCmd := .leaf ["build"], runnerCmd := { plainEntry with Serial := true },
     maxRetries := 0, enableRestart := false, restartCondition := "failure" },
   { projectCmd := .leaf ["serve"], runnerCmd := plainEntry,
     maxRetries := 0, enableRestart := false, restartCondition := "failure" }]

/-- An after-hook set whose only child is `change`. -/
def changeOnlySet : ProjectCommand :=
  .mk [] [] none none none none none none none none (some (.leaf ["reload"])) none

/-- A watched command `serve` whose after hooks are `changeOnlySet`. -/
def cmdWatched : ProjectCommand :=
  .mk ["serve"] ["src/**"] none none none none (some changeOnlySet) none none none none none

/-! ## The loop of `executeRestartableCommand`, turn by turn -/

/-- How one turn of the loop of `executeRestartableCommand` ends: with
`continue`, or with the end of the function (`break`, `return`, or the exit of
the process). -/
inductive LoopStep where
  | next (retryCount : Int) (w : World)
  | stop (s : Step Unit)

/-- The body of the loop of `executeRestartableCommand`. -/
def loopBody (env : Env) (runnerFlags : RunnerFlags) (projectCmd : ProjectCommand)
    (cmdConfig : RunnerCommand) (maxRetries : Int) (restartCondition : String)
    (retryCount : Int) (w : World) : LoopStep :=
  match tryWaitForPorts env cmdConfig w with
  | (some err, w1) =>
    match readTerminating env w1 with
    | (true, w2) => .stop (.ret () w2)
    | (false, w2) =>
      match handlePortWaitError env err maxRetries retryCount
          (emit (.portWaitFailed err) w2) with
      | (true, c, w3) => .next c w3
      | (false, _, w3) =>
        .stop ((serialFailure env runnerFlags cmdConfig w3).bind fun _ w4 =>
          dependentCompletion env runnerFlags cmdConfig w4)
  | (none, w1) =>
    match readTerminating env (applyCommandDelay cmdConfig w1) with
    | (true, w2) => .stop (.ret () w2)
    | (false, w2) =>
      match runEntry env projectCmd w2 with
      | .exit w3 => .stop (.exit w3)
      | .ret (some e) w3 =>
        if e.isTerminated then .stop (.ret () w3)
        else if shouldRestartOnCondition "failure" restartCondition then
          match scheduleRetry maxRetries retryCount w3 with
          | (true, c, w4) => .next c w4
          | (false, _, w4) =>
            .stop ((serialFailure env runnerFlags cmdConfig w4).bind fun _ w5 =>
              dependentCompletion env runnerFlags cmdConfig w5)
        else
          .stop ((serialFailure env runnerFlags cmdConfig w3).bind fun _ w5 =>
            dependentCompletion env runnerFlags cmdConfig w5)
      | .ret none w3 =>
        if shouldRestartOnCondition "success" restartCondition then
          match scheduleRetry maxRetries retryCount w3 with
          | (true, c, w4) => .next c w4
          | (false, _, w4) => .stop (dependentCompletion env runnerFlags cmdConfig w4)
        else .stop (dependentCompletion env runnerFlags cmdConfig w3)

/-- The log line of `scheduleRetry` when it lets the loop go on. -/
def retryEvent (maxRetries retryCount : Int) : Event :=
  if maxRetries > 0 then .restartingIn (int64 (retryCount + 1)) maxRetries else .restarting

/-- The log line of the handler `serialFailure`, if the entry is serial. -/
def serialEvents (serial : Bool) : List Event :=
  if serial then [.serialFailed] else []

/-- The events of the runner in one turn of the loop of
`executeRestartableCommand` that ends with `continue`: a failed port wait or
a run whose result meets the restart condition, and the log line of the retry. -/
inductive NextShape (maxRetries : Int) (cond : String) (awaits : Bool) (retryCount : Int) :
    List Event → Prop
  | port (err : Err) (ha : awaits = true) :
    NextShape maxRetries cond awaits retryCount
      [.portWaitFailed err, retryEvent maxRetries retryCount]
  | failed (e : Err) (he : e.isTerminated = false)
      (hc : shouldRestartOnCondition "failure" cond = true) :
    NextShape maxRetries cond awaits retryCount
      [.entered, .run (some e), .returned (some e), retryEvent maxRetries retryCount]
  | succeeded (hc : shouldRestartOnCondition "success" cond = true) :
    NextShape maxRetries cond awaits retryCount
      [.entered, .run none, .returned none, retryEvent maxRetries retryCount]

/-- Whether the process has ended: `os.Exit` has been reached, or a panic
has been raised. -/
def Step.exited {α : Type} : Step α → Bool
  | .ret _ _ => false
  | .exit _ => true

/-- The events of the runner in the last turn of the loop of
`executeRestartableCommand`, with the value `t` of the shutdown flag at its
end and whether the process has exited (`x`): `M` is the warning of
`scheduleRetry`, if it was asked and refused, and `D` the log line of
`dependentCompletion`, if it was reached and the entry is dependent. -/
inductive StopShape (serial dependent : Bool) (maxRetries : Int) (cond : String)
    (awaits : Bool) (retryCount : Int) : List Event → Bool → Bool → Prop
  | quiet : StopShape serial dependent maxRetries cond awaits retryCount [] true false
  | exitedInside :
    StopShape serial dependent maxRetries cond awaits retryCount [.entered] true true
  | exited (r : Option Err) :
    StopShape serial dependent maxRetries cond awaits retryCount [.entered, .run r] true true
  | terminated (e : Err) (he : e.isTerminated = true) :
    StopShape serial dependent maxRetries cond awaits retryCount
      [.entered, .run (some e), .returned (some e)] true false
  | port (err : Err) (M D : List Event) (t x : Bool) (ha : awaits = true)
      (hM : M = [] ∨ (M = [.maxRetriesReached maxRetries] ∧ 0 < maxRetries ∧
        maxRetries < int64 (retryCount + 1)))
      (hD : D = [] ∨ D = [.dependentFailed])
      (ht : (serial || dependent) = true → t = true) :
    StopShape serial dependent maxRetries cond awaits retryCount
      (.portWaitFailed err :: (M ++ serialEvents serial ++ D)) t x
  | failed (e : Err) (M D : List Event) (t x : Bool) (he : e.isTerminated = false)
      (hM : (shouldRestartOnCondition "failure" cond = false ∧ M = []) ∨
        (shouldRestartOnCondition "failure" cond = true ∧ M = [.maxRetriesReached maxRetries] ∧
          0 < maxRetries ∧ maxRetries < int64 (retryCount + 1)))
      (hD : D = [] ∨ D = [.dependentFailed])
      (ht : (serial || dependent) = true → t = true) :
    StopShape serial dependent maxRetries cond awaits retryCount
      (.entered :: .run (some e) :: .returned (some e) :: (M ++ serialEvents serial ++ D)) t x
  | succeeded (M D : List Event) (t x : Bool)
      (hM : (shouldRestartOnCondition "success" cond = false ∧ M = []) ∨
        (shouldRestartOnCondition "success" cond = true ∧ M = [.maxRetriesReached maxRetries] ∧
          0 < maxRetries ∧ maxRetries < int64 (retryCount + 1)))
      (hD : D = [] ∨ D = [.dependentFailed])
      (ht : dependent = true → t = true) :
    StopShape serial dependent maxRetries cond awaits retryCount
      (.entered :: .run none :: .returned none :: (M ++ D)) t x

/-- The events of the runner in `executeOneTimeCommand`, with the value `t`
of the shutdown flag at its end. -/
inductive OneTimeShape (serial dependent : Bool) : List Event → Bool → Prop
  | quiet : OneTimeShape serial dependent [] true
  | exitedInside : OneTimeShape serial dependent [.entered] true
  | exited (r : Option Err) : OneTimeShape serial dependent [.entered, .run r] true
  | terminated (e : Err) (he : e.isTerminated = true) :
    OneTimeShape serial dependent [.entered, .run (some e), .returned (some e)] true
  | port (err : Err) (D : List Event) (t : Bool)
      (hD : D = [] ∨ D = [.dependentFailed])
      (ht : (serial || dependent) = true → t = true) :
    OneTimeShape serial dependent (.portWaitFailed err :: (serialEvents serial ++ D)) t
  | failed (e : Err) (D : List Event) (t : Bool) (he : e.isTerminated = false)
      (hD : D = [] ∨ D = [.dependentFailed])
      (ht : (serial || dependent) = true → t = true) :
    OneTimeShape serial dependent
      (.entered :: .run (some e) :: .returned (some e) :: (serialEvents serial ++ D)) t
  | succeeded (t : Bool) :
    OneTimeShape serial dependent [.entered, .run none, .returned none] t

/-- Whether a failure the runner has seen is still unanswered after the next
event: a result other than nil and `ErrProcessTerminated`, or a failed port
wait, raises the question; the log line of a retry or of the handler
`serialFailure` answers it. -/
def pendingStep (pending : Bool) : Event → Bool
  | .returned (some e) => if e.isTerminated then pending else true
  | .portWaitFailed e => if e.isTerminated then pending else true
  | .restartingIn _ _ => false
  | .restarting => false
  | .serialFailed => false
  | _ => pending

/-- Whether a trace ends with a failure seen by the runner that neither a
retry nor the handler `serialFailure` has answered. -/
def unanswered (tr : List Event) : Bool :=
  tr.foldl pendingStep false

/-- The number of results other than nil and `ErrProcessTerminated` that the
runner has received from `executeCommandWithAfterHandling`. -/
def failedReturns (tr : List Event) : Nat :=
  tr.countP fun e =>
    match e with
    | .returned (some e) => !e.isTerminated
    | _ => false

/-- The number of calls of `executeCommandWithAfterHandling` by the runner. -/
def callCount (tr : List Event) : Nat :=
  tr.countP fun e =>
    match e with
    | .entered => true
    | _ => false

/-- The number of runs that have ended with a result other than nil and
`ErrProcessTerminated`. -/
def failedRuns (tr : List Event) : Nat :=
  tr.countP fun e =>
    match e with
    | .run (some e) => !e.isTerminated
    | _ => false

/-- A dependent runner entry. -/
def dependentEntry : RunnerCommand :=
  { plainEntry with Dependent := true }

/-- A serial runner entry. -/
def serialEntry : RunnerCommand :=
  { plainEntry with Serial := true }

/-! ## The chain of a node, stage by stage -/

/-- One hook call of `executePreHooks` or of `executePostHooks`: the block
`if hook != nil { ... }`, with `enabled` the further test `!isAfterCmd` of
the project-level hooks. -/
def hookStage (env : Env) (watchData isAfterCmd : Bool) (role : String) (announce : Event)
    (hook : Option ProjectCommand) (enabled : Bool) (w : World) : Option Err × World :=
  match hook with
  | some h =>
    if enabled then
      hookResult role (executeCommand env watchData isAfterCmd h false (emit announce w))
    else (none, w)
  | none => (none, w)

/-- The main command list of a node, with its log line. -/
def mainStage (env : Env) (watchData isAfterCmd : Bool) (cmd : ProjectCommand)
    (isMainCommand : Bool) (w : World) : Option Err × World :=
  executeSingleCommand env watchData isAfterCmd cmd.CommandList
    (if hasHooks isAfterCmd cmd && isMainCommand then emit .runningMain w else w)

/-- The two hook calls of `executePreHooks`, in order. -/
def preStages (env : Env) (watchData isAfterCmd : Bool) (cmd : ProjectCommand) :
    List (World → Option Err × World) :=
  [hookStage env watchData isAfterCmd "Project `pre` command failed: " (.runningPre true)
      cmd.ProjPreCommand (!isAfterCmd),
    hookStage env watchData isAfterCmd "Command `pre` command failed: " (.runningPre false)
      cmd.PreCommand true]

/-- The two hook calls of `executePostHooks`, in order. -/
def postStages (env : Env) (watchData isAfterCmd : Bool) (cmd : ProjectCommand) :
    List (World → Option Err × World) :=
  [hookStage env watchData isAfterCmd "Command `post` command failed: " (.runningPost false)
      cmd.PostCommand true,
    hookStage env watchData isAfterCmd "Project `post` command failed: " (.runningPost true)
      cmd.ProjPostCommand (!isAfterCmd)]

/-- The five stages of `executeCommand`, in order. -/
def chainStages (env : Env) (watchData isAfterCmd : Bool) (cmd : ProjectCommand)
    (isMainCommand : Bool) : List (World → Option Err × World) :=
  preStages env watchData isAfterCmd cmd ++
    mainStage env watchData isAfterCmd cmd isMainCommand ::
      postStages env watchData isAfterCmd cmd

/-- Stages run one after the other; the first error is returned at once. -/
def runStages : List (World → Option Err × World) → World → Option Err × World
  | [], w => (none, w)
  | s :: rest, w => andThen (s w) (runStages rest)

/-- The hook that stage `i` of the chain of a node calls, with its role
prefix and the event of its log line; `none` for the main stage and for a
hook that is absent or skipped. -/
def hookAt (isAfterCmd : Bool) (cmd : ProjectCommand) :
    Nat → Option (String × Event × ProjectCommand)
  | 0 =>
    if !isAfterCmd then
      cmd.ProjPreCommand.map fun h => ("Project `pre` command failed: ", .runningPre true, h)
    else none
  | 1 => cmd.PreCommand.map fun h => ("Command `pre` command failed: ", .runningPre false, h)
  | 3 => cmd.PostCommand.map fun h => ("Command `post` command failed: ", .runningPost false, h)
  | 4 =>
    if !isAfterCmd then
      cmd.ProjPostCommand.map fun h => ("Project `post` command failed: ", .runningPost true, h)
    else none
  | _ => none

/-- The error `e` and the world `w1` are what a hook call at some depth below
the node returns: either the node itself returns them, or a hook of its chain
that is reached (every stage before it has returned nil) raises them. -/
inductive Raised (env : Env) (watchData isAfterCmd : Bool) (e : Err) (wEnd : World) :
    ProjectCommand → Bool → World → Prop
  | here (cmd : ProjectCommand) (isMainCommand : Bool) (w : World)
      (h : executeCommand env watchData isAfterCmd cmd isMainCommand w = (some e, wEnd)) :
    Raised env watchData isAfterCmd e wEnd cmd isMainCommand w
  | inHook (cmd : ProjectCommand) (isMainCommand : Bool) (w : World) (i : Nat) (role : String)
      (announce : Event) (hook : ProjectCommand) (w1 : World)
      (hi : hookAt isAfterCmd cmd i = some (role, announce, hook))
      (hpre : runStages ((chainStages env watchData isAfterCmd cmd isMainCommand).take i) w =
        (none, w1))
      (hr : Raised env watchData isAfterCmd e wEnd hook false (emit announce w1)) :
    Raised env watchData isAfterCmd e wEnd cmd isMainCommand w

/-- A node whose pre hook has itself a pre hook. -/
def nestedCmd : ProjectCommand :=
  .mk ["serve"] [] none
    (some (.mk ["prepare"] [] none (some (.leaf ["fetch"])) none none
      none none none none none none))
    none none none none none none none none

/-- A delay of 0.2 seconds. -/
def delayFifth : ℚ := ⟨1, 5, by decide, by decide⟩

/-- A delay of 1.5 seconds. -/
def delayThreeHalves : ℚ := ⟨3, 2, by decide, by decide⟩

/-- The block of `processCommandError` that runs the after commands: the
value of `afterErr` and the world after it. -/
def processAfterCommands (env : Env) (err : Option Err) (projectCmd : Option ProjectCommand)
    (w : World) : Option Err × World :=
  match projectCmd with
  | some cmd =>
    if !w.AfterExecuted then
      match executeAfterHooks env cmd err false w with
      | (some afterErr, w2) => (some afterErr, emit (.afterFailed false afterErr) w2)
      | (none, w2) => (none, w2)
    else (none, w)
  | none => (none, w)

/-- The world in which the call of `executeAfterHooks` in `processCommandError`
ends, when the call is made. -/
def afterHooksWorld (env : Env) (err : Option Err) (projectCmd : Option ProjectCommand)
    (w : World) : World :=
  match projectCmd with
  | some cmd => if !w.AfterExecuted then (executeAfterHooks env cmd err false w).2 else w
  | none => w

/-- Whether the call of `executeAfterHooks` in `processCommandError` panics:
the call is made and its deferred `processWg.Done()` takes the counter below
zero. -/
def afterHooksPanic (env : Env) (err : Option Err) (projectCmd : Option ProjectCommand)
    (w : World) : Bool :=
  match projectCmd with
  | some _ => !w.AfterExecuted && decide ((afterHooksWorld env err projectCmd w).processWg < 0)
  | none => false

/-- The events that the call `gracefulShutdown` adds besides the ghost event
of the call itself. -/
def isShutdownEffect : Event → Bool
  | .shuttingDown => true
  | .terminateAll => true
  | .interruptAll => true
  | .killAll => true
  | _ => false

/-! ## Process registry (`internal/process`) -/

/-- A handle `*exec.Cmd` as the registry sees it: which handle it is, and the
pid of its process (`none` when `cmd.Process` is nil). -/
structure ExecCmd where
  id : Nat
  Process : Option Nat
  deriving DecidableEq, Repr

/-- The signals the package sends. -/
inductive Signal where
  | SIGTERM
  | SIGINT
  | SIGKILL
  deriving DecidableEq, Repr

/-- A map `map[int]*exec.Cmd`, as the list of its entries; no key occurs
twice. -/
abbrev ProcessMap := List (Nat × ExecCmd)

/-- The statement `delete(m, pid)`. -/
def mapDelete (m : ProcessMap) (pid : Nat) : ProcessMap :=
  m.filter fun p => p.1 != pid

/-- The assignment `m[pid] = cmd`. -/
def mapSet (m : ProcessMap) (pid : Nat) (cmd : ExecCmd) : ProcessMap :=
  (pid, cmd) :: mapDelete m pid

/-- The state of the package `process`: its flag, its two registries, and the
signals sent so far, each with its target (a pid, or the negated pid for a
process group). -/
structure Registry where
  TerminatingProcesses : Bool
  ProcessRegistry : ProcessMap
  afterProcessesRegistry : ProcessMap
  sent : List (Signal × Int)
  deriving DecidableEq, Repr

/-- `Register`. -/
def Register (cmd : ExecCmd) (r : Registry) : Registry :=
  match cmd.Process with
  | none => r
  | some pid => { r with ProcessRegistry := mapSet r.ProcessRegistry pid cmd }

/-- `RegisterAfter`. -/
def RegisterAfter (cmd : ExecCmd) (r : Registry) : Registry :=
  match cmd.Process with
  | none => r
  | some pid => { r with afterProcessesRegistry := mapSet r.afterProcessesRegistry pid cmd }

/-- `TerminateProcess` of `process_unix.go`: `SIGTERM` to the process group. -/
def TerminateProcess (cmd : ExecCmd) (r : Registry) : Registry :=
  match cmd.Process with
  | none => r
  | some pid => { r with sent := r.sent ++ [(.SIGTERM, -(pid : Int))] }

/-- `InterruptProcess` of `process_unix.go`: `SIGINT` to the process group. -/
def InterruptProcess (cmd : ExecCmd) (r : Registry) : Registry :=
  match cmd.Process with
  | none => r
  | some pid => { r with sent := r.sent ++ [(.SIGINT, -(pid : Int))] }

/-- `KillProcess` of `process_unix.go`: `unix.Kill(pid, SIGKILL)`, then
`cmd.Process.Kill()`, which sends the same signal. -/
def KillProcess (cmd : ExecCmd) (r : Registry) : Registry :=
  match cmd.Process with
  | none => r
  | some pid => { r with sent := r.sent ++ [(.SIGKILL, (pid : Int)), (.SIGKILL, (pid : Int))] }

/-- `TerminateProcessGroup` of `process_unix.go`: the loop over
`ProcessRegistry`. -/
def TerminateProcessGroup (r : Registry) : Registry :=
  r.ProcessRegistry.foldl (fun acc p => TerminateProcess p.2 acc) r

/-- `InterruptProcessGroup` of `process_unix.go`: the loop over
`ProcessRegistry`. -/
def InterruptProcessGroup (r : Registry) : Registry :=
  r.ProcessRegistry.foldl (fun acc p => InterruptProcess p.2 acc) r

/-- `TerminateAll`. -/
def TerminateAll (r : Registry) : Registry :=
  TerminateProcessGroup { r with TerminatingProcesses := true }

/-- `InterruptAll`. -/
def InterruptAll (r : Registry) : Registry :=
  InterruptProcessGroup { r with TerminatingProcesses := true }

/-- `KillAll`: each loop visits the entries of its map, kills the process and
deletes the entry. `TerminateJobObject` does nothing outside Windows. -/
def KillAll (r : Registry) : Registry :=
  let r1 := r.ProcessRegistry.foldl
    (fun acc p =>
      { KillProcess p.2 acc with ProcessRegistry := mapDelete acc.ProcessRegistry p.1 }) r
  r1.afterProcessesRegistry.foldl
    (fun acc p =>
      { KillProcess p.2 acc with
        afterProcessesRegistry := mapDelete acc.afterProcessesRegistry p.1 }) r1

/-- What happens to the registry: the calls of its functions by the engine,
and the exit of a child process. -/
inductive RegistryEvent where
  | register (cmd : ExecCmd)
  | registerAfter (cmd : ExecCmd)
  | processExit (pid : Nat)
  | killAll
  deriving DecidableEq, Repr

/-- The effect of an event on the registry. No function of the package is
called when a child process exits: `executeSingleCommand` returns from
`processCmd.Wait()` without a call into the package. -/
def Registry.step (r : Registry) : RegistryEvent → Registry
  | .register cmd => Register cmd r
  | .registerAfter cmd => RegisterAfter cmd r
  | .processExit _ => r
  | .killAll => KillAll r

/-- The registry after a sequence of events. -/
def Registry.run (r : Registry) (events : List RegistryEvent) : Registry :=
  events.foldl Registry.step r

/-- The registry at the start of the program. -/
def Registry.init : Registry where
  TerminatingProcesses := false
  ProcessRegistry := []
  afterProcessesRegistry := []
  sent := []

/-- The pids in a map. -/
def pids (m : ProcessMap) : List Nat :=
  m.map Prod.fst

/-- The pids an event sequence registers, in either pool. -/
def registeredPids : List RegistryEvent → List Nat
  | [] => []
  | .register cmd :: es => cmd.Process.toList ++ registeredPids es
  | .registerAfter cmd :: es => cmd.Process.toList ++ registeredPids es
  | _ :: es => registeredPids es

/-- The signals `sig` to the targets `target pid`, one for each handle of a
map that has a process. -/
def signalsTo (sig : Signal) (target : Nat → Int) (m : ProcessMap) : List (Signal × Int) :=
  m.filterMap fun p => p.2.Process.map fun pid => (sig, target pid)

/-- A registry with one process in each pool. -/
def registryTwo : Registry where
  TerminatingProcesses := false
  ProcessRegistry := [(101, { id := 1, Process := some 101 })]
  afterProcessesRegistry := [(202, { id := 2, Process := some 202 })]
  sent := []

/-- The signals of `KillProcess` for the handles of a map that have a
process. -/
def killSignals (m : ProcessMap) : List (Signal × Int) :=
  (m.filterMap fun p => p.2.Process).flatMap fun pid =>
    [(Signal.SIGKILL, (pid : Int)), (Signal.SIGKILL, (pid : Int))]

/-- Whether an event is a call of `KillAll`. -/
def RegistryEvent.isKillAll : RegistryEvent → Bool
  | .killAll => true
  | _ => false

/-- An environment in which a file change interrupts every run: every
process exits and `watchData.ErrStatus` is `ErrWatchModeRestart`. -/
def envRestart : Env where
  proc := fun _ => .exited
  restarted := fun _ => true
  signal := fun _ => false
  ports := fun _ => none
  watcher := fun _ => none
  registryEmpty := fun _ => true
  changes := 0

/-! ## Strings (`strings`, `unicode/utf8`, `strconv`)

A string of the source is a sequence of bytes; a text is turned into its
UTF-8 encoding by `goString`. -/

/-- A string of the source: its bytes. -/
abbrev GoString := List Nat

/-- The UTF-8 encoding of a code point (`utf8.AppendRune` on a valid rune). -/
def encodeRune (c : Nat) : GoString :=
  if c < 0x80 then [c]
  else if c < 0x800 then [0xC0 + c / 64, 0x80 + c % 64]
  else if c < 0x10000 then [0xE0 + c / 4096, 0x80 + c / 64 % 64, 0x80 + c % 64]
  else [0xF0 + c / 262144, 0x80 + c / 4096 % 64, 0x80 + c / 64 % 64, 0x80 + c % 64]

/-- The bytes of a string literal of the source. -/
def goString (s : String) : GoString :=
  s.toList.flatMap fun c => encodeRune c.toNat

/-- Whether a byte is a continuation byte of UTF-8, `0x80` to `0xBF`. -/
def isContinuation (b : Nat) : Bool :=
  0x80 ≤ b && b ≤ 0xBF

/-- The range `utf8` accepts for the second byte of an encoding that starts
with `b`. -/
def acceptRange (b : Nat) : Nat × Nat :=
  if b = 0xE0 then (0xA0, 0xBF)
  else if b = 0xED then (0x80, 0x9F)
  else if b = 0xF0 then (0x90, 0xBF)
  else if b = 0xF4 then (0x80, 0x8F)
  else (0x80, 0xBF)

/-- The width `utf8.DecodeRuneInString` reports for the rune at the head of
the string: the length of a valid encoding, and 1 for a byte that starts
none. -/
def runeWidth : GoString → Nat
  | [] => 0
  | b :: rest =>
    if b < 0x80 then 1
    else if 0xC2 ≤ b && b ≤ 0xDF then
      match rest with
      | b1 :: _ => if isContinuation b1 then 2 else 1
      | _ => 1
    else if 0xE0 ≤ b && b ≤ 0xEF then
      match rest with
      | b1 :: b2 :: _ =>
        if (acceptRange b).1 ≤ b1 && b1 ≤ (acceptRange b).2 && isContinuation b2 then 3 else 1
      | _ => 1
    else if 0xF0 ≤ b && b ≤ 0xF4 then
      match rest with
      | b1 :: b2 :: b3 :: _ =>
        if (acceptRange b).1 ≤ b1 && b1 ≤ (acceptRange b).2 && isContinuation b2 &&
            isContinuation b3 then 4
        else 1
      | _ => 1
    else 1

/-- The loop of `utf8.RuneCountInString`; `fuel` bounds the number of runes. -/
def runeCountLoop : Nat → GoString → Nat
  | 0, _ => 0
  | fuel + 1, s =>
    match s with
    | [] => 0
    | _ :: _ => 1 + runeCountLoop fuel (s.drop (runeWidth s))

/-- `utf8.RuneCountInString`: the number of runes, a byte outside a valid
encoding counting as one rune. -/
def RuneCountInString (s : GoString) : Nat :=
  runeCountLoop s.length s

/-- The slice expression `s[lo:hi]`: `none` is the run-time panic
"slice bounds out of range". -/
def sliceString (s : GoString) (lo hi : Int) : Option GoString :=
  if 0 ≤ lo ∧ lo ≤ hi ∧ hi ≤ s.length then some ((s.take hi.toNat).drop lo.toNat) else none

/-- `strings.HasPrefix`. -/
def HasPrefix (s pre : GoString) : Bool :=
  pre.isPrefixOf s

/-- `strings.HasSuffix`. -/
def HasSuffix (s suffix : GoString) : Bool :=
  suffix.isSuffixOf s

/-- `strings.TrimPrefix`. -/
def TrimPrefix (s pre : GoString) : GoString :=
  if HasPrefix s pre then s.drop pre.length else s

/-- The search of `strings.LastIndex` from index `i` downwards. -/
def lastIndexFrom (s substr : GoString) : Nat → Int
  | 0 => if HasPrefix s substr then 0 else -1
  | i + 1 => if HasPrefix (s.drop (i + 1)) substr then (i + 1 : Nat) else lastIndexFrom s substr i

/-- `strings.LastIndex`: the index of the last occurrence of `substr` in `s`,
or -1. -/
def LastIndex (s substr : GoString) : Int :=
  lastIndexFrom s substr s.length

/-- The encodings of the code points for which `unicode.IsSpace` holds: tab,
line feed, vertical tab, form feed, carriage return, space, U+0085, U+00A0,
U+1680, U+2000 to U+200A, U+2028, U+2029, U+202F, U+205F and U+3000. -/
def spaceEncodings : List GoString :=
  [[9], [10], [11], [12], [13], [32], [0xC2, 0x85], [0xC2, 0xA0], [0xE1, 0x9A, 0x80],
    [0xE2, 0x80, 0x80], [0xE2, 0x80, 0x81], [0xE2, 0x80, 0x82], [0xE2, 0x80, 0x83],
    [0xE2, 0x80, 0x84], [0xE2, 0x80, 0x85], [0xE2, 0x80, 0x86], [0xE2, 0x80, 0x87],
    [0xE2, 0x80, 0x88], [0xE2, 0x80, 0x89], [0xE2, 0x80, 0x8A], [0xE2, 0x80, 0xA8],
    [0xE2, 0x80, 0xA9], [0xE2, 0x80, 0xAF], [0xE2, 0x81, 0x9F], [0xE3, 0x80, 0x80]]

/-- The leading white space is removed, one rune at a time. -/
def trimLeft : Nat → GoString → GoString
  | 0, s => s
  | fuel + 1, s =>
    match spaceEncodings.find? fun p => HasPrefix s p with
    | some p => trimLeft fuel (s.drop p.length)
    | none => s

/-- The trailing white space is removed, one rune at a time. -/
def trimRight : Nat → GoString → GoString
  | 0, s => s
  | fuel + 1, s =>
    match spaceEncodings.find? fun p => HasSuffix s p with
    | some p => trimRight fuel (s.take (s.length - p.length))
    | none => s

/-- `strings.TrimSpace`: the string without its leading and trailing white
space, as `unicode.IsSpace` defines it. -/
def TrimSpace (s : GoString) : GoString :=
  trimRight s.length (trimLeft s.length s)

/-- `strings.Split(s, sep)` for a separator of one byte. -/
def Split : GoString → Nat → List GoString
  | [], _ => [[]]
  | b :: rest, sep =>
    if b = sep then [] :: Split rest sep
    else
      match Split rest sep with
      | [] => [[b]]
      | x :: xs => (b :: x) :: xs

/-- `utils.SliceContainsValue`. -/
def SliceContainsValue (collection : List GoString) (searchValue : GoString) : Bool :=
  collection.any fun element => element == searchValue

/-- The digits of `n` in base ten put in front of `acc`, the last digit
first; `fuel` bounds the number of digits. -/
def itoaLoop : Nat → Nat → GoString → GoString
  | 0, _, acc => acc
  | fuel + 1, n, acc =>
    if n < 10 then (48 + n) :: acc else itoaLoop fuel (n / 10) ((48 + n % 10) :: acc)

/-- `strconv.Itoa` on a number that is not negative. -/
def Itoa (n : Nat) : GoString :=
  itoaLoop (n + 1) n []

/-! ## Runner keys and flags (`runner.go`) -/

/-- `extractRunnerNameAndFlags`: the name and the flags of a runner key of the
form `name[flag1,flag2,...]`; `none` is the panic of the slice expression. -/
def extractRunnerNameAndFlags (keyString : GoString) (existingFlags : List GoString) :
    Option (GoString × List GoString) :=
  let bracketIdx := LastIndex keyString (goString "[")
  if bracketIdx ≤ 0 || !HasSuffix keyString (goString "]") then
    some (keyString, existingFlags)
  else
    match sliceString keyString 0 bracketIdx,
      sliceString keyString (bracketIdx + 1) ((RuneCountInString keyString : Int) - 1) with
    | some namePart, some inner =>
      let runnerName := TrimSpace namePart
      let flagsPart := TrimSpace inner
      if flagsPart = [] then some (runnerName, existingFlags)
      else
        some (runnerName, (Split flagsPart 44).map fun flagName =>
          if SliceContainsValue existingFlags flagName then flagName else TrimSpace flagName)
    | _, _ => none

/-- `RunnerFlags.GetFlags`. -/
def GetFlags (runnerFlags : RunnerFlags) : List GoString :=
  (if runnerFlags.Serial then [goString "serial"] else []) ++
    (if runnerFlags.Dependent then [goString "dependent"] else [])

/-- `convertStringFlagsToRunnerFlags`. -/
def convertStringFlagsToRunnerFlags (flagStrings : List GoString) : RunnerFlags :=
  flagStrings.foldl
    (fun flagsConfig flagName =>
      if flagName = goString "serial" then { flagsConfig with Serial := true }
      else if flagName = goString "dependent" then { flagsConfig with Dependent := true }
      else flagsConfig)
    { Serial := false, Dependent := false }

/-! ## Log prefixes (`logger.go`, `command.go`, `runner.go`) -/

/-- `AnsiColors` of the package `logger`: cyan, gray, green, magenta, blue,
yellow and bright magenta. -/
def AnsiColors : List GoString :=
  [27 :: goString "[0;36m", 27 :: goString "[0;90m", 27 :: goString "[0;32m",
    27 :: goString "[0;35m", 27 :: goString "[0;34m", 27 :: goString "[0;33m",
    27 :: goString "[0;95m"]

/-- `colorReset` of the package `logger`. -/
def colorReset : GoString :=
  27 :: goString "[0m"

/-- `logger.GetColorizedPrefix`; `testMode` is `utils.IsRunningInTestMode()`. -/
def GetColorizedPrefix (testMode : Bool) (id name color : GoString) (showId : Bool) :
    GoString :=
  let id := if !showId then [] else id ++ goString " "
  let pre := id ++ name ++ goString " ⟫"
  if testMode then pre else color ++ pre ++ colorReset

/-- `logger.GetLogPrefixColor`: the next colour in rotation, with the new
value of `currentColorIndex`. -/
def GetLogPrefixColor (currentColorIndex : Nat) : GoString × Nat :=
  let i := if currentColorIndex ≥ AnsiColors.length then 0 else currentColorIndex
  (AnsiColors.getD i [], i + 1)

/-- The three fields of a `ProjectCommand` that make its log prefix. -/
structure PrefixFields where
  LogPrefix : GoString
  LogPrefixId : GoString
  LogPrefixColor : GoString
  deriving DecidableEq, Repr

/-- The package-level state behind the log prefixes: `logPrefixCounterMap` of
`runner.go` and `currentColorIndex` of `logger.go`. -/
structure PrefixState where
  logPrefixCounterMap : GoString → Nat
  currentColorIndex : Nat

/-- `GetLogPrefix`. The slice `logPrefix[:47]` is taken when the text has more
than 50 runes and therefore more than 50 bytes, so that it is within bounds. -/
def GetLogPrefix (testMode : Bool) (st : PrefixState) (cmd : PrefixFields) : GoString :=
  if TrimSpace cmd.LogPrefixId = [] || TrimSpace cmd.LogPrefix = [] ||
      TrimSpace cmd.LogPrefixColor = [] then []
  else
    let showId := decide (st.logPrefixCounterMap cmd.LogPrefix > 1)
    let logPrefix :=
      if RuneCountInString cmd.LogPrefix > 50 then cmd.LogPrefix.take 47 ++ goString "..."
      else cmd.LogPrefix
    GetColorizedPrefix testMode cmd.LogPrefixId logPrefix cmd.LogPrefixColor showId

/-- `setupCommandLogPrefix`: the fields it gives the node, and the new state. -/
def setupCommandLogPrefix (defaultPrefix customName : GoString) (st : PrefixState) :
    PrefixFields × PrefixState :=
  let LogPrefix :=
    if customName ≠ [] ∧ TrimSpace customName ≠ [] then customName else defaultPrefix
  let counter := st.logPrefixCounterMap LogPrefix + 1
  let color := GetLogPrefixColor st.currentColorIndex
  ({ LogPrefix := LogPrefix, LogPrefixId := Itoa counter, LogPrefixColor := color.1 },
    { logPrefixCounterMap := fun k => if k = LogPrefix then counter else st.logPrefixCounterMap k,
      currentColorIndex := color.2 })

/-- The state at the start of the program: no prefix registered, the first
colour next. -/
def PrefixState.init : PrefixState where
  logPrefixCounterMap := fun _ => 0
  currentColorIndex := 0

/-- The nodes of a runner registered one after the other, as
`prepareRunnerExecutions` does it: the fields of each node, in order, and the
final state. Each registration is a pair of `defaultPrefix` and `customName`. -/
def registerAll : List (GoString × GoString) → PrefixState → List PrefixFields × PrefixState
  | [], st => ([], st)
  | (defaultPrefix, customName) :: rest, st =>
    let r := setupCommandLogPrefix defaultPrefix customName st
    let rs := registerAll rest r.2
    (r.1 :: rs.1, rs.2)

/-- The prefix text `setupCommandLogPrefix` chooses. -/
def prefixText (reg : GoString × GoString) : GoString :=
  if reg.2 ≠ [] ∧ TrimSpace reg.2 ≠ [] then reg.2 else reg.1

/-- A text of 51 code points, each `é`: 102 bytes. -/
def accentedText : GoString :=
  (List.replicate 51 (goString "é")).flatten

/-- A text of 51 code points: `é` and fifty times `a`. -/
def accentFirstText : GoString :=
  goString "é" ++ List.replicate 50 97

/-! ## Port configuration (`internal/port`) -/

/-- A value of the configuration as the YAML decoder hands it over (`any`).
`int n` is a value of one of the integer types of the language, `n` being
what the conversion `int(v)` of `utils.ToInt` gives; `float x` is a `float32`
or a `float64`, with a rational number in place of the floating-point value;
`other` is a value of any other dynamic type. -/
inductive YamlValue where
  | int (n : Int)
  | float (x : ℚ)
  | str (s : String)
  | bool (b : Bool)
  | null
  | list (items : List YamlValue)
  | map (entries : List (String × YamlValue))
  | other

/-- `utils.ToInt`. -/
def ToInt : YamlValue → Option Int
  | .int n => some n
  | _ => none

/-- `utils.ToFloat64`. -/
def ToFloat64 : YamlValue → Option ℚ
  | .int n => some n
  | .float x => some x
  | _ => none

/-- The errors of `ParsePortConfiguration`, by their messages. -/
inductive PortError where
  /-- "Parameter `awaits` must be a list of port numbers, or have the nested
  fields `ports` or `timeout`". -/
  | awaitsShape
  /-- "Invalid port specification in `awaits`: %v". -/
  | awaitsItem (val : YamlValue)
  /-- "Parameter `awaits.timeout` must be a number". -/
  | timeoutNotNumber
  /-- "Invalid port specification in `awaits.ports`: %v". -/
  | portsItem (val : YamlValue)
  /-- "Parameter `awaits.ports` must be a list of port numbers". -/
  | portsShape

/-- The loop over a port list, in `parsePortList` and in `extractPorts`: the
ports in order, or the first item that is not an integer. -/
def portItems : List YamlValue → Except YamlValue (List Int)
  | [] => .ok []
  | val :: rest =>
    match ToInt val with
    | some port =>
      match portItems rest with
      | .ok ports => .ok (port :: ports)
      | .error bad => .error bad
    | none => .error val

/-- `parsePortList`: the ports, the timeout in seconds and the error. -/
def parsePortList (portList : List YamlValue) : List Int × ℚ × Option PortError :=
  match portItems portList with
  | .ok portNumbers => (portNumbers, 30, none)
  | .error val => ([], 0, some (.awaitsItem val))

/-- `extractPorts`. -/
def extractPorts (portsConfig : YamlValue) : List Int × Option PortError :=
  match ToInt portsConfig with
  | some port => ([port], none)
  | none =>
    match portsConfig with
    | .list portList =>
      match portItems portList with
      | .ok portNumbers => (portNumbers, none)
      | .error val => ([], some (.portsItem val))
    | _ => ([], some .portsShape)

/-- `parseConfigMap`. -/
def parseConfigMap (configMap : List (String × YamlValue)) : List Int × ℚ × Option PortError :=
  let ports : List Int × Option PortError :=
    match configMap.lookup "ports" with
    | some portsConfig => extractPorts portsConfig
    | none => ([], none)
  match ports with
  | (_, some err) => ([], 0, some err)
  | (portNumbers, none) =>
    match configMap.lookup "timeout" with
    | some timeoutConfig =>
      match ToFloat64 timeoutConfig with
      | some timeout => (portNumbers, timeout, none)
      | none => ([], 0, some .timeoutNotNumber)
    | none => (portNumbers, 30, none)

/-- `ParsePortConfiguration`: the ports, the timeout in seconds and the error. -/
def ParsePortConfiguration (portConfig : YamlValue) : List Int × ℚ × Option PortError :=
  match ToInt portConfig with
  | some port => ([port], 30, none)
  | none =>
    match portConfig with
    | .list portList => parsePortList portList
    | .map configMap => parseConfigMap configMap
    | _ => ([], 0, some .awaitsShape)

/-! ### The accepted shapes, as the specification words them -/

/-- The integers of a list all of whose items are integers. -/
def allIntegers : List YamlValue → Option (List Int)
  | [] => some []
  | .int n :: rest => (allIntegers rest).map fun ns => n :: ns
  | _ :: _ => none

/-- The ports of a `ports` entry that is an integer or an all-integer list. -/
def portsShape : YamlValue → Option (List Int)
  | .int n => some [n]
  | .list items => allIntegers items
  | _ => none

/-- The seconds of a `timeout` entry that is a number. -/
def timeoutShape : YamlValue → Option ℚ
  | .int n => some n
  | .float x => some x
  | _ => none

/-- The shapes the specification lists, with the ports and the timeout of
each: an integer, an all-integer list, or a map whose optional `ports` entry
is an integer or an all-integer list and whose optional `timeout` entry is a
number. -/
def acceptedShape : YamlValue → Option (List Int × ℚ)
  | .int n => some ([n], 30)
  | .list items => (allIntegers items).map fun ns => (ns, 30)
  | .map entries =>
    let ports : Option (List Int) :=
      match entries.lookup "ports" with
      | none => some []
      | some v => portsShape v
    let timeout : Option ℚ :=
      match entries.lookup "timeout" with
      | none => some 30
      | some v => timeoutShape v
    match ports, timeout with
    | some ps, some t => some (ps, t)
    | _, _ => none
  | _ => none

/-! ## Closes of the completion signal -/

/-- Whether an event is the call `close(nextStartSignal)`. -/
def isCloseSignal : Event → Bool
  | .closeNextStartSignal => true
  | _ => false

/-- The number of calls `close(nextStartSignal)` in a trace. -/
def closeCount (tr : List Event) : Nat :=
  tr.countP isCloseSignal

/-- `w2` is reached from `w1` without a call `close(nextStartSignal)`. -/
def Sealed (w1 w2 : World) : Prop :=
  Grows (fun e => isCloseSignal e = false) w1 w2

/-- A serial entry whose ports are awaited. -/
def serialAwaiting : RunnerCommand :=
  { plainEntry with Awaits := true, Serial := true }

/-- An environment in which the awaited ports do not open. -/
def envPortsClosed : Env where
  proc := fun _ => .exited
  restarted := fun _ => false
  signal := fun _ => false
  ports := fun _ => some "Timeout reached after 30 seconds waiting for port 3000"
  watcher := fun _ => none
  registryEmpty := fun _ => true
  changes := 0

/-- An entry `build`, serial, with awaited ports and without restart policy. -/
def serialAwaitingExecution : RunnerExecution where
  projectCmd := .leaf ["build"]
  runnerCmd := serialAwaiting
  maxRetries := 0
  enableRestart := false
  restartCondition := "failure"

/-! ## Resolution of a command-line argument (`command.go`) -/

/-- The part of `ProjectConfig` the resolution reads: the names of the
commands of the project, in the order in which `range cfg.Cmds` visits them. -/
structure ProjectConfig where
  Cmds : List GoString
  deriving DecidableEq, Repr

/-- The part of `YamlConfig` the resolution reads: the projects, in the order
in which `range yamlConfig.Projects` visits them, and the names of the global
commands. The keys of a map are distinct. -/
structure YamlConfig where
  Projects : List (GoString × ProjectConfig)
  Commands : List GoString
  deriving DecidableEq, Repr

/-- What `findGlobalCommandOrProjectOrProjectCommand` returns; `err` is true
when the error "Command, project or project command ... was not found in
configuration" is returned. -/
structure Resolution where
  projectName : GoString
  commandName : GoString
  found : Bool
  isGlobalCommand : Bool
  err : Bool
  deriving DecidableEq, Repr

/-- The first loop of `findGlobalCommandOrProjectOrProjectCommand` over the
projects, from the values of `projectName` and `commandName` at the head of
an iteration. -/
def projectLoop (arg : GoString) :
    List (GoString × ProjectConfig) → GoString × GoString → GoString × GoString
  | [], names => names
  | (name, cfg) :: rest, (projectName, commandName) =>
    if projectName ≠ [] ∨ commandName ≠ [] then (projectName, commandName)
    else if name = arg then (name, commandName)
    else
      match cfg.Cmds.find? fun cmdName => arg = name ++ goString ":" ++ cmdName with
      | some cmdName => projectLoop arg rest (name, cmdName)
      | none => projectLoop arg rest (projectName, commandName)

/-- The second loop: the first project whose name followed by `:` starts the
argument. -/
def prefixLoop (arg : GoString) (projects : List (GoString × ProjectConfig)) :
    Option (GoString × GoString) :=
  (projects.find? fun p => HasPrefix arg (p.1 ++ goString ":")).map fun p =>
    (p.1, TrimPrefix arg (p.1 ++ goString ":"))

/-- `strings.SplitN(s, ":", 2)`: the parts before and after the first `:`. -/
def SplitN2 (s : GoString) : List GoString :=
  match s.span fun b => b != 58 with
  | (before, []) => [before]
  | (before, _ :: after) => [before, after]

/-- `findGlobalCommandOrProjectOrProjectCommand` on its first argument, for
the configuration `getYamlConfiguration` has loaded (the error of the loading
is left out). The two loops over the projects visit them in the order of
`yamlConfig.Projects`. -/
def findGlobalCommandOrProjectOrProjectCommand (yamlConfig : YamlConfig) (arg : GoString) :
    Resolution :=
  if yamlConfig.Commands.contains arg then
    { projectName := [], commandName := arg, found := true, isGlobalCommand := true,
      err := false }
  else
    let names1 := projectLoop arg yamlConfig.Projects ([], [])
    let names2 :=
      if names1.1 = [] ∧ names1.2 = [] then
        match prefixLoop arg yamlConfig.Projects with
        | some names => names
        | none => names1
      else names1
    let names3 :=
      if names2.1 = [] ∧ names2.2 = [] then
        match SplitN2 arg with
        | [p] => (p, names2.2)
        | [p, c] => (p, c)
        | _ => names2
      else names2
    if (yamlConfig.Projects.map Prod.fst).contains names3.1 then
      { projectName := names3.1, commandName := names3.2, found := true,
        isGlobalCommand := false, err := false }
    else
      { projectName := [], commandName := [], found := false, isGlobalCommand := false,
        err := true }

/-- A configuration with the project `a`, which has the command `b`, and the
project `a:b`; `range` visits `a:b` first. -/
def colonFirst : YamlConfig where
  Projects := [(goString "a:b", { Cmds := [] }), (goString "a", { Cmds := [goString "b"] })]
  Commands := []

/-- The same configuration; `range` visits `a` first. -/
def colonLast : YamlConfig where
  Projects := [(goString "a", { Cmds := [goString "b"] }), (goString "a:b", { Cmds := [] })]
  Commands := []

/-! ## The top level (`navi.go`) -/

/-- The last two statements of `Main` for a project command:
`err = projectCmd.execute(commandContext)` and
`processCommandError(err, projectCmd, commandContext)`. -/
def mainProjectCommand (env : Env) (projectCmd : ProjectCommand) (w : World) : Step Unit :=
  (execute env projectCmd w).bind fun err w1 =>
    processCommandError env err (some projectCmd) w1

/-- An environment in which the file watcher cannot be created. -/
def envNoWatcher : Env where
  proc := fun _ => .exited
  restarted := fun _ => false
  signal := fun _ => false
  ports := fun _ => none
  watcher := fun _ => some "too many open files"
  registryEmpty := fun _ => true
  changes := 0

/-- A watched command `serve` whose after hooks are `alwaysOnlySet`. -/
def cmdWatchedAlways : ProjectCommand :=
  .mk ["serve"] ["src/**"] none none none none (some alwaysOnlySet) none none none none none

/-! ## The debounce of file changes (`executeWithFileWatcher`)

The event loop of `executeWithFileWatcher` and the functions of its timers
change the variables `isDebouncingActive` and `debounceTimer`. The loop
handles one notification at a time. A timer made by `time.AfterFunc` runs its
function in a goroutine of its own once it has expired, so the steps of the
session are the notifications, the expiries of timers and the runs of their
functions, in any order in which a function runs after the expiry of its
timer. -/

/-- The state of the debounce: the two variables of the source, the timers
made by `time.AfterFunc` that have neither expired nor been stopped (timers
are numbered in the order in which they are made), the timers that have
expired and whose function has not run yet, the number of timers made, the
number of lines "File change detected. Stopping running command..." logged,
and the number of calls of `startOrRestartCommand` made by timers. -/
structure Debounce where
  isDebouncingActive : Bool
  debounceTimer : Option Nat
  pending : List Nat
  started : List Nat
  made : Nat
  logged : Nat
  restarts : Nat
  deriving DecidableEq, Repr

/-- A step of the session: a notification received from `fileChangeEvents`,
with the values the handler reads from `process.TerminatingProcesses` and
from `isRestartInProcess`; the expiry of a timer, which starts the goroutine
of its function; or the run of the function of an expired timer. -/
inductive WatchEvent where
  | change (terminating restartInProcess : Bool)
  | expire (timer : Nat)
  | timerFunc (timer : Nat)
  deriving DecidableEq, Repr

/-- The call `debounceTimer.Stop()`: a timer that has expired already is
left as it is, and so is the goroutine of its function. -/
def Debounce.stop (s : Debounce) : Debounce :=
  match s.debounceTimer with
  | some timer => { s with pending := s.pending.erase timer }
  | none => s

/-- The statement `debounceTimer = time.AfterFunc(debounceDelayMs, ...)`. -/
def Debounce.afterFunc (s : Debounce) : Debounce :=
  { s with debounceTimer := some s.made, pending := s.pending ++ [s.made], made := s.made + 1 }

/-- One step of the session: the case `<-fileChangeEvents` of the event loop;
the expiry of a pending timer; or the function of an expired timer,
`isDebouncingActive = false` followed by `startOrRestartCommand()`. A timer
that is not pending does not expire, and a function runs once, after the
expiry of its timer. -/
def Debounce.step (s : Debounce) : WatchEvent → Debounce
  | .change terminating restartInProcess =>
    if !terminating then
      Debounce.afterFunc
        (if s.isDebouncingActive then s.stop
         else
          { s with
            isDebouncingActive := true
            logged := if !restartInProcess then s.logged + 1 else s.logged })
    else s
  | .expire timer =>
    if timer ∈ s.pending then
      { s with
        pending := s.pending.erase timer
        started := s.started ++ [timer] }
    else s
  | .timerFunc timer =>
    if timer ∈ s.started then
      { s with
        started := s.started.erase timer
        isDebouncingActive := false
        restarts := s.restarts + 1 }
    else s

/-- The state after a series of steps. -/
def Debounce.run (s : Debounce) (events : List WatchEvent) : Debounce :=
  events.foldl Debounce.step s

/-- The state when the event loop is entered. -/
def Debounce.init : Debounce where
  isDebouncingActive := false
  debounceTimer := none
  pending := []
  started := []
  made := 0
  logged := 0
  restarts := 0

/-- Whether a step is a notification. -/
def WatchEvent.isChange : WatchEvent → Bool
  | .change _ _ => true
  | _ => false

/-- A step of a session in which the function of a timer runs as soon as the
timer has expired, before the loop handles the next notification. -/
inductive SeqEvent where
  | change (terminating restartInProcess : Bool)
  | expiry (timer : Nat)
  deriving DecidableEq, Repr

/-- The steps a step of such a session stands for. -/
def SeqEvent.events : SeqEvent → List WatchEvent
  | .change terminating restartInProcess => [.change terminating restartInProcess]
  | .expiry timer => [.expire timer, .timerFunc timer]

/-- The steps of a session in which the function of a timer runs as soon as
the timer has expired. -/
def sequential : List SeqEvent → List WatchEvent
  | [] => []
  | e :: rest => e.events ++ sequential rest

/-- Whether a step of such a session is a notification. -/
def SeqEvent.isChange : SeqEvent → Bool
  | .change _ _ => true
  | .expiry _ => false

/-- What holds of the debounce in a session in which the function of a timer
runs as soon as the timer has expired: at most one timer is pending, it is
the one `debounceTimer` refers to, it was made before, `isDebouncingActive`
is set exactly while a timer is pending, and no function is waiting to run. -/
def Debounce.Inv (s : Debounce) : Prop :=
  s.pending.length ≤ 1 ∧ (∀ t ∈ s.pending, s.debounceTimer = some t ∧ t < s.made) ∧
    (s.isDebouncingActive = true ↔ s.pending ≠ []) ∧ s.started = []

/-- The children of an after-hook set that apply to an outcome and that
`executeAfterCommandSet` visits before the `always` child: success, failure
and change, in that order. -/
def childrenBefore (s : ProjectCommand) (executionErr : Option Err) (isAfterChange : Bool) :
    List (String × ProjectCommand) :=
  (if executionErr.isNone then hookOf ".success" s.AfterSuccessCommand else []) ++
  ((if executionErr.isSome then hookOf ".failure" s.AfterFailureCommand else []) ++
  (if isAfterChange then hookOf ".change" s.AfterChangeCommand else []))

/-- The world in which `executeAfterHooks`, once past its guard, hands the set
of a level to `executeAfterCommandSet`: for the command-level set the world of
the entry, for the project-level set the world the command-level set has
left. -/
def setEntry (env : Env) (cmd : ProjectCommand) (executionErr : Option Err)
    (isAfterChange : Bool) (w : World) (isProjectLevel : Bool) : World :=
  if isProjectLevel then
    (executeAfterCommandSet env executionErr isAfterChange cmd.AfterCommand false
      (afterEntry executionErr isAfterChange w)).2
  else afterEntry executionErr isAfterChange w

/-- A command `serve` with the set `successOnlySet` at both levels: as its
command-level and as its project-level after hooks. -/
def cmdBothLevels : ProjectCommand :=
  .mk ["serve"] [] none none none none (some successOnlySet) none none none none
    (some successOnlySet)

/-- A watched command `serve` without hooks. -/
def cmdWatchedPlain : ProjectCommand :=
  .mk ["serve"] ["src/**"] none none none none none none none none none none

/-- An environment in which every process exits with status zero and two file
changes arrive before the parent context is cancelled. -/
def envTwoChanges : Env :=
  { envOk with changes := 2 }

/-- The world in which `execute` returns when the file watcher of a node
cannot be created at the start of the program: no run has been made. -/
def worldWatcherFailed : World :=
  { world0 with WatchExecuted := true, trace := [.startingWatch] }

/-! # Theorems -/

/-! ## Stage order (C1) -/

theorem follows_nil (w : World) : Follows (none, w) w [] :=
  ⟨[], List.prefix_refl _, by simp, fun _ => rfl⟩

theorem follows_andThen {r : Option Err × World} {w : World} {e1 e2 : List Event}
    {k : World → Option Err × World} (h1 : Follows r w e1)
    (h2 : ∀ w1, w1.trace = w.trace ++ e1 → Follows (k w1) w1 e2) :
    Follows (andThen r k) w (e1 ++ e2) := by
  obtain ⟨p, hp, ht, hn⟩ := h1
  rcases r with ⟨_ | e, w1⟩
  · have hpe : p = e1 := hn rfl
    subst hpe
    obtain ⟨p2, hp2, ht2, hn2⟩ := h2 w1 ht
    refine ⟨p ++ p2, (List.prefix_append_right_inj p).2 hp2, ?_, ?_⟩
    · show (k w1).2.trace = _
      rw [ht2, ht, List.append_assoc]
    · intro h
      rw [hn2 h]
  · exact ⟨p, hp.trans (List.prefix_append e1 e2), ht, fun h => by cases h⟩

theorem follows_hookResult {r : Option Err × World} {w : World} {e : List Event}
    (role : String) (h : Follows r w e) : Follows (hookResult role r) w e := by
  obtain ⟨p, hp, ht, hn⟩ := h
  rcases r with ⟨_ | err, w1⟩
  · exact ⟨p, hp, ht, hn⟩
  · exact ⟨p, hp, ht, fun h => by cases h⟩

theorem follows_emit {r : Option Err × World} {w : World} {e : List Event} {ev : Event}
    (h : Follows r (emit ev w) e) : Follows r w (ev :: e) := by
  obtain ⟨p, hp, ht, hn⟩ := h
  refine ⟨ev :: p, List.cons_prefix_cons.2 ⟨rfl, hp⟩, ?_, fun h => by rw [hn h]⟩
  rw [ht]
  simp [Navi.emit]

theorem sentinelOr_trace (env : Env) (wd ia rs : Bool) (res : Option Err) (w : World) :
    (sentinelOr env wd ia rs res w).2.trace = w.trace := by
  unfold sentinelOr readTerminating
  simp only
  split_ifs <;> rfl

theorem executeSingleCommand_trace (env : Env) (wd ia : Bool) (cmds : List String) (w : World) :
    (executeSingleCommand env wd ia cmds w).2.trace = w.trace ++ [Event.exec ia cmds] := by
  unfold executeSingleCommand
  simp only
  split <;> simp [sentinelOr_trace, Navi.emit]

theorem executeSingleCommand_follows (env : Env) (wd ia : Bool) (cmds : List String)
    (w : World) :
    Follows (executeSingleCommand env wd ia cmds w) w [Event.exec ia cmds] :=
  ⟨_, List.prefix_refl _, executeSingleCommand_trace env wd ia cmds w, fun _ => rfl⟩

theorem executeCommand_mk (env : Env) (watchData isAfterCmd : Bool) (cl wi : List String)
    (pp p po ppo a b c d e f : Option ProjectCommand) (isMainCommand : Bool) (w : World) :
    executeCommand env watchData isAfterCmd (.mk cl wi pp p po ppo a b c d e f) isMainCommand w =
      andThen
        (match pp with
          | some h =>
            if !isAfterCmd then
              hookResult "Project `pre` command failed: "
                (executeCommand env watchData isAfterCmd h false (emit (.runningPre true) w))
            else (none, w)
          | none => (none, w)) fun w =>
      andThen
        (match p with
          | some h =>
            hookResult "Command `pre` command failed: "
              (executeCommand env watchData isAfterCmd h false (emit (.runningPre false) w))
          | none => (none, w)) fun w =>
      andThen
        (executeSingleCommand env watchData isAfterCmd cl
          (if hasHooks isAfterCmd (.mk cl wi pp p po ppo a b c d e f) && isMainCommand then
            emit .runningMain w else w)) fun w =>
      andThen
        (match po with
          | some h =>
            hookResult "Command `post` command failed: "
              (executeCommand env watchData isAfterCmd h false (emit (.runningPost false) w))
          | none => (none, w)) fun w =>
      match ppo with
      | some h =>
        if !isAfterCmd then
          hookResult "Project `post` command failed: "
            (executeCommand env watchData isAfterCmd h false (emit (.runningPost true) w))
        else (none, w)
      | none => (none, w) := by
  cases pp <;> cases p <;> cases po <;> cases ppo <;> rfl

theorem fixedOrder_mk (cl wi : List String) (pp p po ppo a b c d e f : Option ProjectCommand)
    (isMainCommand : Bool) :
    fixedOrder (.mk cl wi pp p po ppo a b c d e f) isMainCommand =
      (match pp with
        | some h => Event.runningPre true :: fixedOrder h false
        | none => []) ++
      (match p with
        | some h => Event.runningPre false :: fixedOrder h false
        | none => []) ++
      ((if hasHooks false (.mk cl wi pp p po ppo a b c d e f) && isMainCommand then
          [Event.runningMain] else []) ++ [Event.exec false cl]) ++
      (match po with
        | some h => Event.runningPost false :: fixedOrder h false
        | none => []) ++
      (match ppo with
        | some h => Event.runningPost true :: fixedOrder h false
        | none => []) := by
  cases pp <;> cases p <;> cases po <;> cases ppo <;> rfl

theorem fixedOrder_nested (cl wi : List String) (pp p po ppo a b c d e f : Option ProjectCommand)
    (isMainCommand : Bool) :
    fixedOrder (.mk cl wi pp p po ppo a b c d e f) isMainCommand =
      (match pp with
        | some h => Event.runningPre true :: fixedOrder h false
        | none => []) ++
      ((match p with
        | some h => Event.runningPre false :: fixedOrder h false
        | none => []) ++
      (((if hasHooks false (.mk cl wi pp p po ppo a b c d e f) && isMainCommand then
          [Event.runningMain] else []) ++ [Event.exec false cl]) ++
      ((match po with
        | some h => Event.runningPost false :: fixedOrder h false
        | none => []) ++
      (match ppo with
        | some h => Event.runningPost true :: fixedOrder h false
        | none => [])))) := by
  rw [fixedOrder_mk]
  simp only [List.append_assoc]

theorem executeCommand_follows (env : Env) (wd : Bool) :
    ∀ (cmd : ProjectCommand) (isMain : Bool) (w : World),
      Follows (executeCommand env wd false cmd isMain w) w (fixedOrder cmd isMain)
  | .mk cl wi pp p po ppo a b c d e f, isMain, w => by
    rw [executeCommand_mk, fixedOrder_nested]
    refine follows_andThen ?_ fun w1 _ => follows_andThen ?_ fun w2 _ =>
      follows_andThen ?_ fun w3 _ => follows_andThen ?_ fun w4 _ => ?_
    · match pp with
      | none => exact follows_nil w
      | some h =>
        exact follows_emit (follows_hookResult _ (executeCommand_follows env wd h false _))
    · match p with
      | none => exact follows_nil _
      | some h =>
        exact follows_emit (follows_hookResult _ (executeCommand_follows env wd h false _))
    · split_ifs with hh
      · exact follows_emit (executeSingleCommand_follows env wd false cl _)
      · exact executeSingleCommand_follows env wd false cl _
    · match po with
      | none => exact follows_nil _
      | some h =>
        exact follows_emit (follows_hookResult _ (executeCommand_follows env wd h false _))
    · match ppo with
      | none => exact follows_nil _
      | some h =>
        exact follows_emit (follows_hookResult _ (executeCommand_follows env wd h false _))

/-- C1. For a node that is not an after-hook, `executeCommand` adds to the
trace a prefix of the fixed order project-level pre, command-level pre, main,
command-level post, project-level post (absent hooks contribute nothing), and
when it reports no error it has added exactly that sequence, each present
stage once. -/
theorem executeCommand_fixed_order (env : Env) (watchData : Bool) (cmd : ProjectCommand)
    (isMainCommand : Bool) (w : World) :
    (∃ p, p <+: fixedOrder cmd isMainCommand ∧
      (executeCommand env watchData false cmd isMainCommand w).2.trace = w.trace ++ p) ∧
    ((executeCommand env watchData false cmd isMainCommand w).1 = none →
      (executeCommand env watchData false cmd isMainCommand w).2.trace =
        w.trace ++ fixedOrder cmd isMainCommand) := by
  obtain ⟨p, hp, ht, hn⟩ := executeCommand_follows env watchData cmd isMainCommand w
  exact ⟨⟨p, hp, ht⟩, fun h => by rw [ht, hn h]⟩

/-- Witness of C1: the sample command in the environment where every process
succeeds. -/
theorem executeCommand_fixed_order_witness :
    (executeCommand envOk false false sampleCmd true world0).1 = none ∧
    (executeCommand envOk false false sampleCmd true world0).2.trace =
      [Event.runningPre true, Event.exec false ["setup"], Event.runningMain,
        Event.exec false ["build"], Event.runningPost false, Event.exec false ["cleanup"]] :=
  ⟨by decide, (executeCommand_fixed_order envOk false sampleCmd true world0).2 (by decide)⟩

/-! ## Worlds reached by the command executor -/

theorem extends_refl (P : Event → Prop) (w : World) : Extends P w w :=
  ⟨⟨[], by simp, by simp⟩, rfl, rfl, rfl, rfl, id⟩

theorem extends_trans {P : Event → Prop} {w1 w2 w3 : World} (h1 : Extends P w1 w2)
    (h2 : Extends P w2 w3) : Extends P w1 w3 := by
  obtain ⟨⟨a1, ht1, hp1⟩, hs1, ha1, hw1, hg1, hf1⟩ := h1
  obtain ⟨⟨a2, ht2, hp2⟩, hs2, ha2, hw2, hg2, hf2⟩ := h2
  refine ⟨⟨a1 ++ a2, by rw [ht2, ht1, List.append_assoc], ?_⟩, hs2.trans hs1, ha2.trans ha1,
    hw2.trans hw1, hg2.trans hg1, fun h => hf2 (hf1 h)⟩
  intro e he
  rcases List.mem_append.1 he with h | h
  · exact hp1 e h
  · exact hp2 e h

theorem extends_mono {P Q : Event → Prop} {w1 w2 : World} (hPQ : ∀ e, P e → Q e)
    (h : Extends P w1 w2) : Extends Q w1 w2 := by
  obtain ⟨⟨a1, ht1, hp1⟩, rest⟩ := h
  exact ⟨⟨a1, ht1, fun e he => hPQ e (hp1 e he)⟩, rest⟩

theorem extends_emit {P : Event → Prop} (e : Event) (w : World) (he : P e) :
    Extends P w (Navi.emit e w) :=
  ⟨⟨[e], rfl, by simpa using he⟩, rfl, rfl, rfl, rfl, id⟩

theorem extends_readTerminating (P : Event → Prop) (env : Env) (w : World) :
    Extends P w (readTerminating env w).2 :=
  ⟨⟨[], by simp [Navi.readTerminating], by simp⟩, rfl, rfl, rfl, rfl,
    fun h => by simp [Navi.readTerminating, h]⟩

theorem extends_andThen {P : Event → Prop} {w : World} {r : Option Err × World}
    {k : World → Option Err × World} (h1 : Extends P w r.2)
    (h2 : ∀ w1, Extends P w1 (k w1).2) : Extends P w (andThen r k).2 := by
  rcases r with ⟨_ | e, w1⟩
  · exact extends_trans h1 (h2 w1)
  · exact h1

theorem hookResult_world (role : String) (r : Option Err × World) :
    (hookResult role r).2 = r.2 := by
  rcases r with ⟨_ | e, w1⟩ <;> rfl

theorem hookResult_isNone (role : String) (r : Option Err × World) :
    (hookResult role r).1 = none ↔ r.1 = none := by
  rcases r with ⟨_ | e, w1⟩ <;> simp [hookResult]

theorem sentinelOr_extends (P : Event → Prop) (env : Env) (wd ia rs : Bool)
    (res : Option Err) (w : World) : Extends P w (sentinelOr env wd ia rs res w).2 := by
  have h := extends_readTerminating P env w
  unfold sentinelOr
  simp only
  split_ifs <;> exact h

theorem executeSingleCommand_extends {P : Event → Prop} (env : Env) (wd ia : Bool)
    (cmds : List String) (w : World) (hP : P (Event.exec ia cmds)) :
    Extends P w (executeSingleCommand env wd ia cmds w).2 := by
  have h := extends_emit (Event.exec ia cmds) w hP
  unfold executeSingleCommand
  simp only
  split
  · exact h
  · exact extends_trans h (sentinelOr_extends P env wd ia _ _ _)
  · exact extends_trans h (sentinelOr_extends P env wd ia _ _ _)
  · exact extends_trans h (sentinelOr_extends P env wd ia _ _ _)

theorem plain_emit (e : Event) (w : World) (he : isPlain e = true) :
    Extends (fun e => isPlain e = true) w (Navi.emit e w) :=
  extends_emit e w he

theorem executeSingleCommand_plain (env : Env) (wd ia : Bool) (cmds : List String) (w : World) :
    Extends (fun e => isPlain e = true) w (executeSingleCommand env wd ia cmds w).2 :=
  executeSingleCommand_extends env wd ia cmds w rfl

theorem executeCommand_extends (env : Env) (wd ia : Bool) :
    ∀ (cmd : ProjectCommand) (isMain : Bool) (w : World),
      Extends (fun e => isPlain e = true) w (executeCommand env wd ia cmd isMain w).2
  | .mk cl wi pp p po ppo a b c d e f, isMain, w => by
    rw [executeCommand_mk]
    refine extends_andThen ?_ fun w1 => extends_andThen ?_ fun w2 =>
      extends_andThen ?_ fun w3 => extends_andThen ?_ fun w4 => ?_
    · match pp with
      | none => exact extends_refl _ _
      | some h =>
        simp only
        split_ifs
        · rw [hookResult_world]
          exact extends_trans (plain_emit _ _ (by rfl)) (executeCommand_extends env wd ia h false _)
        · exact extends_refl _ _
    · match p with
      | none => exact extends_refl _ _
      | some h =>
        simp only
        rw [hookResult_world]
        exact extends_trans (plain_emit _ _ (by rfl)) (executeCommand_extends env wd ia h false _)
    · split_ifs with hh
      · exact extends_trans (plain_emit _ _ (by rfl)) (executeSingleCommand_plain env wd ia cl _)
      · exact executeSingleCommand_plain env wd ia cl _
    · match po with
      | none => exact extends_refl _ _
      | some h =>
        simp only
        rw [hookResult_world]
        exact extends_trans (plain_emit _ _ (by rfl)) (executeCommand_extends env wd ia h false _)
    · match ppo with
      | none => exact extends_refl _ _
      | some h =>
        simp only
        split_ifs
        · rw [hookResult_world]
          exact extends_trans (plain_emit _ _ (by rfl)) (executeCommand_extends env wd ia h false _)
        · exact extends_refl _ _

/-! ## After hooks (C2, C3, C4) -/

theorem runAfterHook_step {α : Type} (env : Env) (lvl : Bool) (o : Option ProjectCommand)
    (t : String) (f : Bool) (w : World) (E : Err → World → α) (K : Bool → World → α) :
    (match runAfterHook env lvl o t f w with
      | (some e, _, w1) => E e w1
      | (none, f1, w1) => K f1 w1) =
    match o with
    | none => K f w
    | some h =>
      match executeCommand env false true h true (emit (.runningAfter lvl t) w) with
      | (some e, w1) => E e w1
      | (none, w1) => K false w1 := by
  cases o with
  | none => rfl
  | some h =>
    simp only [runAfterHook]
    rcases executeCommand env false true h true (emit (.runningAfter lvl t) w) with ⟨_ | e, w1⟩ <;> rfl

theorem andThen_eq_match (r : Option Err × World) (k : World → Option Err × World) :
    andThen r k = match r with
      | (some e, w1) => (some e, w1)
      | (none, w1) => k w1 := by
  rcases r with ⟨_ | e, w1⟩ <;> rfl

theorem runHooks_nil (env : Env) (lvl : Bool) (w : World) : runHooks env lvl [] w = (none, w) :=
  rfl

theorem runHooks_cons (env : Env) (lvl : Bool) (t : String) (h : ProjectCommand)
    (rest : List (String × ProjectCommand)) (w : World) :
    runHooks env lvl ((t, h) :: rest) w =
      andThen (executeCommand env false true h true (emit (.runningAfter lvl t) w))
        (runHooks env lvl rest) :=
  rfl

/-- The closure `executeAfterCommandSet` runs the hooks of `hookList`. -/
theorem executeAfterCommandSet_eq (env : Env) (err : Option Err) (chg : Bool)
    (s : ProjectCommand) (lvl : Bool) (w : World) :
    executeAfterCommandSet env err chg (some s) lvl w = runHooks env lvl (hookList s err chg) w := by
  unfold executeAfterCommandSet hookList selectedHooks
  simp only
  cases hs : s.AfterSuccessCommand <;> cases hf : s.AfterFailureCommand <;>
    cases hc : s.AfterChangeCommand <;> cases ha : s.AfterAlwaysCommand <;>
    cases err <;> cases chg <;>
    simp [runAfterHook, hookOf, runHooks_cons, runHooks_nil, andThen_eq_match] <;>
    repeat (first
      | rfl
      | (generalize executeCommand env false true _ true _ = r
         rcases r with ⟨_ | e, w1⟩ <;> simp))

theorem isPlain_not_runningAfter {e : Event} (h : isPlain e = true) (l : Bool) (t : String) :
    e ≠ Event.runningAfter l t := by
  rintro rfl
  simp [isPlain] at h

theorem isHookEvent_of_isPlain (e : Event) (h : isPlain e = true) : isHookEvent e = true := by
  cases e <;> simp_all [isPlain, isHookEvent]

theorem isSetEvent_of_isPlain (e : Event) (h : isPlain e = true) :
    isHookEvent e = true ∧ e ≠ Event.afterCompleted := by
  cases e <;> simp_all [isPlain, isHookEvent]

theorem runHooks_extends (env : Env) (lvl : Bool) :
    ∀ (L : List (String × ProjectCommand)) (w : World),
      Extends (fun e => isHookEvent e = true ∧ e ≠ Event.afterCompleted) w
        (runHooks env lvl L w).2
  | [], w => extends_refl _ _
  | (t, h) :: rest, w => by
    rw [runHooks_cons]
    refine extends_andThen ?_ fun w1 => runHooks_extends env lvl rest w1
    exact extends_trans (extends_emit _ _ (by simp [isHookEvent]))
      (extends_mono isSetEvent_of_isPlain (executeCommand_extends env false true h true _))

/-- The hooks that `runHooks` announces are the first `k` of its list: all of
them when it reports no error, and at least one when there is one. -/
theorem runHooks_marks (env : Env) (lvl : Bool) :
    ∀ (L : List (String × ProjectCommand)) (w : World),
      ∃ k added, k ≤ L.length ∧ (L ≠ [] → 0 < k) ∧
        (runHooks env lvl L w).2.trace = w.trace ++ added ∧
        (∀ l t, Event.runningAfter l t ∈ added ↔ l = lvl ∧ t ∈ (L.take k).map Prod.fst) ∧
        ((runHooks env lvl L w).1 = none → k = L.length)
  | [], w => ⟨0, [], le_refl _, fun h => absurd rfl h, by simp [runHooks_nil], by simp, fun _ => rfl⟩
  | (t, h) :: rest, w => by
    obtain ⟨⟨a1, ht1, hp1⟩, -⟩ :=
      executeCommand_extends env false true h true (emit (.runningAfter lvl t) w)
    have hna : ∀ l t', Event.runningAfter l t' ∉ a1 := fun l t' hm =>
      isPlain_not_runningAfter (hp1 _ hm) l t' rfl
    rw [runHooks_cons]
    rcases hr : executeCommand env false true h true (emit (.runningAfter lvl t) w) with ⟨_ | e, w1⟩
    · rw [hr] at ht1
      obtain ⟨k, added, hk, -, htr, hm, hn⟩ := runHooks_marks env lvl rest w1
      refine ⟨k + 1, Event.runningAfter lvl t :: (a1 ++ added), by simpa using hk,
        fun _ => Nat.succ_pos _, ?_, ?_, ?_⟩
      · show (runHooks env lvl rest w1).2.trace = _
        rw [htr, ht1]
        simp [Navi.emit]
      · intro l t'
        simp only [List.mem_cons, List.mem_append, List.take_succ_cons, List.map_cons,
          Event.runningAfter.injEq, hm l t']
        constructor
        · rintro (⟨rfl, rfl⟩ | h1 | ⟨rfl, h2⟩)
          · exact ⟨rfl, Or.inl rfl⟩
          · exact absurd h1 (hna l t')
          · exact ⟨rfl, Or.inr h2⟩
        · rintro ⟨rfl, rfl | h2⟩
          · exact Or.inl ⟨rfl, rfl⟩
          · exact Or.inr (Or.inr ⟨rfl, h2⟩)
      · intro hnone
        have : k = rest.length := hn hnone
        simp [this]
    · rw [hr] at ht1
      refine ⟨1, Event.runningAfter lvl t :: a1, by simp, fun _ => Nat.one_pos, ?_, ?_, ?_⟩
      · show w1.trace = _
        rw [ht1]
        simp [Navi.emit]
      · intro l t'
        simp only [List.mem_cons, Event.runningAfter.injEq, List.take_succ_cons, List.take_zero,
          List.map_cons, List.map_nil, List.not_mem_nil, or_false]
        constructor
        · rintro (⟨rfl, rfl⟩ | h1)
          · exact ⟨rfl, rfl⟩
          · exact absurd h1 (hna l t')
        · rintro ⟨rfl, rfl⟩
          exact Or.inl ⟨rfl, rfl⟩
      · intro hnone
        cases hnone

/-- A hook is reached when none of the hooks before it can fail. -/
theorem runHooks_reach (env : Env) (lvl : Bool) :
    ∀ (pre : List (String × ProjectCommand)) (x : String × ProjectCommand)
      (post : List (String × ProjectCommand)) (w : World),
      (∀ y ∈ pre, ∀ w1, (executeCommand env false true y.2 true w1).1 = none) →
      ∃ added, (runHooks env lvl (pre ++ x :: post) w).2.trace = w.trace ++ added ∧
        Event.runningAfter lvl x.1 ∈ added
  | [], (t, h), post, w, _ => by
    obtain ⟨⟨a, ha, -⟩, -⟩ := runHooks_extends env lvl post
      (executeCommand env false true h true (emit (.runningAfter lvl t) w)).2
    obtain ⟨⟨a1, ht1, -⟩, -⟩ :=
      executeCommand_extends env false true h true (emit (.runningAfter lvl t) w)
    simp only [List.nil_append, runHooks_cons]
    rcases hr : executeCommand env false true h true (emit (.runningAfter lvl t) w) with ⟨_ | e, w1⟩
    · rw [hr] at ha ht1
      refine ⟨Event.runningAfter lvl t :: (a1 ++ a), ?_, by simp⟩
      show (runHooks env lvl post w1).2.trace = _
      rw [ha, ht1]
      simp [Navi.emit]
    · rw [hr] at ht1
      refine ⟨Event.runningAfter lvl t :: a1, ?_, by simp⟩
      show w1.trace = _
      rw [ht1]
      simp [Navi.emit]
  | (t, h) :: pre, x, post, w, hok => by
    obtain ⟨⟨a1, ht1, -⟩, -⟩ :=
      executeCommand_extends env false true h true (emit (.runningAfter lvl t) w)
    have h1 := hok (t, h) (by simp) (emit (.runningAfter lvl t) w)
    simp only [List.cons_append, runHooks_cons]
    rcases hr : executeCommand env false true h true (emit (.runningAfter lvl t) w) with ⟨_ | e, w1⟩
    · rw [hr] at ht1
      obtain ⟨added, hta, hma⟩ := runHooks_reach env lvl pre x post w1
        (fun y hy => hok y (List.mem_cons_of_mem _ hy))
      refine ⟨Event.runningAfter lvl t :: (a1 ++ added), ?_, by simp [hma]⟩
      show (runHooks env lvl (pre ++ x :: post) w1).2.trace = _
      rw [hta, ht1]
      simp [Navi.emit]
    · rw [hr] at h1
      cases h1

theorem hookList_ne_nil (s : ProjectCommand) (err : Option Err) (chg : Bool) :
    hookList s err chg ≠ [] := by
  unfold hookList
  split_ifs with h
  · simp
  · intro h2
    rw [h2] at h
    simp at h

theorem executeAfterCommandSet_extends (env : Env) (err : Option Err) (chg : Bool)
    (o : Option ProjectCommand) (lvl : Bool) (w : World) :
    Extends (fun e => isHookEvent e = true ∧ e ≠ Event.afterCompleted) w
      (executeAfterCommandSet env err chg o lvl w).2 := by
  cases o with
  | none => exact extends_refl _ _
  | some s =>
    rw [executeAfterCommandSet_eq]
    exact runHooks_extends env lvl _ w

/-- What `executeAfterCommandSet` announces for a set. -/
theorem executeAfterCommandSet_marks (env : Env) (err : Option Err) (chg : Bool)
    (o : Option ProjectCommand) (lvl : Bool) (w : World) :
    ∃ added, (executeAfterCommandSet env err chg o lvl w).2.trace = w.trace ++ added ∧
      (∀ e ∈ added, isHookEvent e = true ∧ e ≠ Event.afterCompleted) ∧
      (∀ l t, Event.runningAfter l t ∈ added → l = lvl ∧ o.isSome = true) ∧
      ∀ s, o = some s →
        (∃ k, 0 < k ∧ k ≤ (hookList s err chg).length ∧
          (∀ t, Event.runningAfter lvl t ∈ added ↔
            t ∈ ((hookList s err chg).take k).map Prod.fst) ∧
          ((executeAfterCommandSet env err chg o lvl w).1 = none →
            k = (hookList s err chg).length)) ∧
        ∀ pre x post, hookList s err chg = pre ++ x :: post →
          (∀ y ∈ pre, ∀ w1, (executeCommand env false true y.2 true w1).1 = none) →
          Event.runningAfter lvl x.1 ∈ added := by
  cases o with
  | none =>
    exact ⟨[], by simp [executeAfterCommandSet], by simp, by simp, by simp⟩
  | some s =>
    rw [executeAfterCommandSet_eq]
    obtain ⟨k, added, hk, hpos, htr, hm, hn⟩ := runHooks_marks env lvl (hookList s err chg) w
    refine ⟨added, htr, ?_, fun l t h => ⟨((hm l t).1 h).1, rfl⟩, ?_⟩
    · obtain ⟨⟨a, ha, hpa⟩, -⟩ := runHooks_extends env lvl (hookList s err chg) w
      rw [htr] at ha
      rw [List.append_cancel_left ha]
      exact hpa
    · intro s' hs'
      cases hs'
      refine ⟨⟨k, hpos (hookList_ne_nil s err chg), hk, fun t => ?_, hn⟩, ?_⟩
      · rw [hm lvl t]
        simp
      · intro pre x post hL hok
        obtain ⟨added', htr', hmem⟩ := runHooks_reach env lvl pre x post w hok
        rw [← hL, htr] at htr'
        rw [List.append_cancel_left htr']
        exact hmem

theorem executeAfterHooks_guard (env : Env) (cmd : ProjectCommand) (err : Option Err)
    (chg : Bool) (w : World)
    (h : ((cmd.AfterCommand.isNone && cmd.ProjAfterCommand.isNone) ||
      w.suppressNewAfterCommands) = true) :
    executeAfterHooks env cmd err chg w = (none, emit (.afterHooks err chg) w) := by
  unfold executeAfterHooks
  simp only [Navi.emit] at h ⊢
  rw [if_pos h]

theorem executeAfterHooks_run (env : Env) (cmd : ProjectCommand) (err : Option Err)
    (chg : Bool) (w : World)
    (h : ((cmd.AfterCommand.isNone && cmd.ProjAfterCommand.isNone) ||
      w.suppressNewAfterCommands) = false) :
    executeAfterHooks env cmd err chg w =
      wgDone (andThen (executeAfterCommandSet env err chg cmd.AfterCommand false
        (afterEntry err chg w)) fun w =>
          andThen (executeAfterCommandSet env err chg cmd.ProjAfterCommand true w)
            fun w => (none, emit .afterCompleted w)) := by
  unfold executeAfterHooks
  simp only [Navi.emit] at h ⊢
  rw [if_neg (by simp [h])]
  rfl

/-- What `executeAfterHooks` announces when after commands are not
suppressed: for each level whose set is reached, the first `k` hooks of its
list, all of them when the function reports no error. -/
theorem executeAfterHooks_marks (env : Env) (cmd : ProjectCommand) (err : Option Err)
    (chg : Bool) (w : World) (hs : w.suppressNewAfterCommands = false) :
    ∃ added, (executeAfterHooks env cmd err chg w).2.trace =
        w.trace ++ Event.afterHooks err chg :: added ∧
      (∀ e ∈ added, isHookEvent e = true) ∧
      ∀ lvl,
        (∀ t, Event.runningAfter lvl t ∈ added →
          (afterSetOf cmd lvl).isSome = true ∧ setReached env cmd err chg w lvl = true) ∧
        ∀ s, afterSetOf cmd lvl = some s → setReached env cmd err chg w lvl = true →
          (∃ k, 0 < k ∧ k ≤ (hookList s err chg).length ∧
            (∀ t, Event.runningAfter lvl t ∈ added ↔
              t ∈ ((hookList s err chg).take k).map Prod.fst) ∧
            ((executeAfterHooks env cmd err chg w).1 = none →
              k = (hookList s err chg).length)) ∧
          ∀ pre x post, hookList s err chg = pre ++ x :: post →
            (∀ y ∈ pre, ∀ w1, (executeCommand env false true y.2 true w1).1 = none) →
            Event.runningAfter lvl x.1 ∈ added := by
  by_cases hg : (cmd.AfterCommand.isNone && cmd.ProjAfterCommand.isNone) = true
  · rw [executeAfterHooks_guard env cmd err chg w (by simp [hg])]
    simp only [Bool.and_eq_true, Option.isNone_iff_eq_none] at hg
    refine ⟨[], by simp [Navi.emit], by simp, fun lvl => ⟨by simp, fun s hs' => ?_⟩⟩
    cases lvl <;> simp [afterSetOf, hg.1, hg.2] at hs'
  · rw [executeAfterHooks_run env cmd err chg w (by
      rw [hs, Bool.or_false]
      exact Bool.eq_false_iff.2 hg)]
    obtain ⟨aC, hCt, hCe, hCl, hCs⟩ :=
      executeAfterCommandSet_marks env err chg cmd.AfterCommand false (afterEntry err chg w)
    have hw1 : (afterEntry err chg w).trace = w.trace ++ [Event.afterHooks err chg] := rfl
    rcases hC : executeAfterCommandSet env err chg cmd.AfterCommand false
      (afterEntry err chg w) with ⟨_ | e, w2⟩
    · -- the command-level set has returned no error
      rw [hC] at hCt hCs
      obtain ⟨aP, hPt, hPe, hPl, hPs⟩ :=
        executeAfterCommandSet_marks env err chg cmd.ProjAfterCommand true w2
      have hreach : ∀ lvl, setReached env cmd err chg w lvl = true := fun lvl => by
        simp [setReached, hC]
      rcases hP : executeAfterCommandSet env err chg cmd.ProjAfterCommand true w2 with
        ⟨_ | e, w3⟩
      · rw [hP] at hPt hPs
        refine ⟨aC ++ aP ++ [Event.afterCompleted], ?_, ?_, fun lvl => ?_⟩
        · simp only [wgDone, andThen, hP, Navi.emit]
          rw [hPt, hCt, hw1]
          simp
        · intro e he
          simp only [List.mem_append, List.mem_singleton] at he
          rcases he with (h | h) | h
          · exact (hCe e h).1
          · exact (hPe e h).1
          · subst h; rfl
        · have hmem : ∀ t, Event.runningAfter lvl t ∈ aC ++ aP ++ [Event.afterCompleted] ↔
              Event.runningAfter lvl t ∈ (if lvl then aP else aC) := by
            intro t
            simp only [List.mem_append, List.mem_singleton]
            cases lvl
            · constructor
              · rintro ((h | h) | h)
                · exact h
                · exact absurd (hPl _ _ h).1 (by simp)
                · cases h
              · intro h; exact Or.inl (Or.inl h)
            · constructor
              · rintro ((h | h) | h)
                · exact absurd (hCl _ _ h).1 (by simp)
                · exact h
                · cases h
              · intro h; exact Or.inl (Or.inr h)
          refine ⟨fun t ht => ⟨?_, hreach lvl⟩, fun s hs' _ => ?_⟩
          · have := (hmem t).1 ht
            cases lvl
            · exact (hCl _ _ this).2
            · exact (hPl _ _ this).2
          · cases lvl
            · obtain ⟨⟨k, hk0, hkl, hkm, hkn⟩, hre⟩ := hCs s hs'
              refine ⟨⟨k, hk0, hkl, fun t => ?_, fun _ => hkn rfl⟩, fun pre x post hL hok => ?_⟩
              · rw [hmem t]; exact hkm t
              · rw [hmem]; exact hre pre x post hL hok
            · obtain ⟨⟨k, hk0, hkl, hkm, hkn⟩, hre⟩ := hPs s hs'
              refine ⟨⟨k, hk0, hkl, fun t => ?_, fun _ => hkn rfl⟩, fun pre x post hL hok => ?_⟩
              · rw [hmem t]; exact hkm t
              · rw [hmem]; exact hre pre x post hL hok
      · rw [hP] at hPt hPs
        refine ⟨aC ++ aP, ?_, ?_, fun lvl => ?_⟩
        · simp only [wgDone, andThen, hP]
          rw [hPt, hCt, hw1]
          simp
        · intro e he
          simp only [List.mem_append] at he
          rcases he with h | h
          · exact (hCe e h).1
          · exact (hPe e h).1
        · have hmem : ∀ t, Event.runningAfter lvl t ∈ aC ++ aP ↔
              Event.runningAfter lvl t ∈ (if lvl then aP else aC) := by
            intro t
            simp only [List.mem_append]
            cases lvl
            · constructor
              · rintro (h | h)
                · exact h
                · exact absurd (hPl _ _ h).1 (by simp)
              · intro h; exact Or.inl h
            · constructor
              · rintro (h | h)
                · exact absurd (hCl _ _ h).1 (by simp)
                · exact h
              · intro h; exact Or.inr h
          refine ⟨fun t ht => ⟨?_, hreach lvl⟩, fun s hs' _ => ?_⟩
          · have := (hmem t).1 ht
            cases lvl
            · exact (hCl _ _ this).2
            · exact (hPl _ _ this).2
          · cases lvl
            · obtain ⟨⟨k, hk0, hkl, hkm, hkn⟩, hre⟩ := hCs s hs'
              refine ⟨⟨k, hk0, hkl, fun t => ?_, fun _ => hkn rfl⟩, fun pre x post hL hok => ?_⟩
              · rw [hmem t]; exact hkm t
              · rw [hmem]; exact hre pre x post hL hok
            · obtain ⟨⟨k, hk0, hkl, hkm, hkn⟩, hre⟩ := hPs s hs'
              refine ⟨⟨k, hk0, hkl, fun t => ?_, fun h => ?_⟩, fun pre x post hL hok => ?_⟩
              · rw [hmem t]; exact hkm t
              · simp [wgDone, andThen, hP] at h
              · rw [hmem]; exact hre pre x post hL hok
    · -- the command-level set has returned an error
      rw [hC] at hCt hCs
      refine ⟨aC, ?_, fun e he => (hCe e he).1, fun lvl => ?_⟩
      · simp only [wgDone, andThen]
        rw [hCt, hw1]
        simp
      · cases lvl
        · refine ⟨fun t ht => ⟨(hCl _ _ ht).2, by simp [setReached]⟩, fun s hs' _ => ?_⟩
          obtain ⟨⟨k, hk0, hkl, hkm, hkn⟩, hre⟩ := hCs s hs'
          exact ⟨⟨k, hk0, hkl, hkm, fun h => by simp [wgDone, andThen] at h⟩, hre⟩
        · refine ⟨fun t ht => absurd (hCl _ _ ht).1 (by simp), fun s _ hr => ?_⟩
          simp [setReached, hC] at hr

theorem mem_take_map_fst {k : Nat} {L : List (String × ProjectCommand)} {t : String}
    (h : t ∈ (L.take k).map Prod.fst) : t ∈ L.map Prod.fst := by
  obtain ⟨x, hx, rfl⟩ := List.mem_map.1 h
  exact List.mem_map.2 ⟨x, List.mem_of_mem_take hx, rfl⟩

theorem head_mem_take_map_fst {k : Nat} {x : String × ProjectCommand}
    {L : List (String × ProjectCommand)} (hk : 0 < k) :
    x.1 ∈ ((x :: L).take k).map Prod.fst := by
  obtain ⟨n, rfl⟩ := Nat.exists_eq_succ_of_ne_zero (Nat.pos_iff_ne_zero.1 hk)
  simp

theorem hookList_success (s : ProjectCommand) (err : Option Err) (chg : Bool) {k : Nat}
    (hk : 0 < k) :
    ".success" ∈ ((hookList s err chg).take k).map Prod.fst ↔
      s.AfterSuccessCommand.isSome = true ∧ err = none := by
  constructor
  · intro h
    have h2 := mem_take_map_fst h
    revert h2
    unfold hookList selectedHooks hookOf
    cases s.AfterSuccessCommand <;> cases s.AfterFailureCommand <;>
      cases s.AfterChangeCommand <;> cases s.AfterAlwaysCommand <;>
      cases err <;> cases chg <;> simp
  · rintro ⟨h1, rfl⟩
    obtain ⟨h, hh⟩ := Option.isSome_iff_exists.1 h1
    have : ∃ rest, hookList s none chg = (".success", h) :: rest := by
      unfold hookList selectedHooks hookOf
      simp [hh]
    obtain ⟨rest, hrest⟩ := this
    rw [hrest]
    exact head_mem_take_map_fst hk

theorem hookList_failure (s : ProjectCommand) (err : Option Err) (chg : Bool) {k : Nat}
    (hk : 0 < k) :
    ".failure" ∈ ((hookList s err chg).take k).map Prod.fst ↔
      s.AfterFailureCommand.isSome = true ∧ err ≠ none := by
  constructor
  · intro h
    have h2 := mem_take_map_fst h
    revert h2
    unfold hookList selectedHooks hookOf
    cases s.AfterSuccessCommand <;> cases s.AfterFailureCommand <;>
      cases s.AfterChangeCommand <;> cases s.AfterAlwaysCommand <;>
      cases err <;> cases chg <;> simp
  · rintro ⟨h1, h2⟩
    obtain ⟨h, hh⟩ := Option.isSome_iff_exists.1 h1
    obtain ⟨e, rfl⟩ := Option.ne_none_iff_exists'.1 h2
    have : ∃ rest, hookList s (some e) chg = (".failure", h) :: rest := by
      unfold hookList selectedHooks hookOf
      simp [hh]
    obtain ⟨rest, hrest⟩ := this
    rw [hrest]
    exact head_mem_take_map_fst hk

/-- The set itself is in its hook list exactly when no child applies. -/
theorem hookList_root (s : ProjectCommand) (err : Option Err) (chg : Bool) {k : Nat}
    (hk : 0 < k) :
    "" ∈ ((hookList s err chg).take k).map Prod.fst ↔
      ¬(s.AfterSuccessCommand.isSome = true ∧ err = none) ∧
      ¬(s.AfterFailureCommand.isSome = true ∧ err ≠ none) ∧
      ¬(s.AfterChangeCommand.isSome = true ∧ chg = true) ∧
      ¬(s.AfterAlwaysCommand.isSome = true) := by
  constructor
  · intro h
    have h2 := mem_take_map_fst h
    revert h2
    unfold hookList selectedHooks hookOf
    cases s.AfterSuccessCommand <;> cases s.AfterFailureCommand <;>
      cases s.AfterChangeCommand <;> cases s.AfterAlwaysCommand <;>
      cases err <;> cases chg <;> simp
  · intro h
    have : hookList s err chg = [("", s)] := by
      revert h
      unfold hookList selectedHooks hookOf
      cases s.AfterSuccessCommand <;> cases s.AfterFailureCommand <;>
        cases s.AfterChangeCommand <;> cases s.AfterAlwaysCommand <;>
        cases err <;> cases chg <;> simp
    rw [this]
    exact head_mem_take_map_fst hk

/-- When the `always` child is defined it is the last hook of the list, and
the hooks before it are children among success, failure and change. -/
theorem hookList_always (s a : ProjectCommand) (err : Option Err) (chg : Bool)
    (ha : s.AfterAlwaysCommand = some a) :
    ∃ pre, hookList s err chg = pre ++ (".always", a) :: [] ∧
      ∀ y ∈ pre, s.AfterSuccessCommand = some y.2 ∨ s.AfterFailureCommand = some y.2 ∨
        s.AfterChangeCommand = some y.2 := by
  unfold hookList selectedHooks hookOf
  rw [ha]
  cases s.AfterSuccessCommand <;> cases s.AfterFailureCommand <;>
    cases s.AfterChangeCommand <;> cases err <;> cases chg <;>
    simp only [Option.isNone_none, Option.isNone_some, Option.isSome_none, Option.isSome_some,
      if_true, if_false, List.nil_append, List.cons_append, List.isEmpty_cons, Bool.false_eq_true]
  all_goals first
    | exact ⟨[], rfl, by simp⟩
    | exact ⟨[_], rfl, by simp⟩
    | exact ⟨[_, _], rfl, by simp⟩

/-- The success and failure children of a set handed to `executeAfterCommandSet`. -/
theorem executeAfterCommandSet_success_failure (env : Env) (err : Option Err) (chg : Bool)
    (s : ProjectCommand) (lvl : Bool) (w : World) :
    ∃ added, (executeAfterCommandSet env err chg (some s) lvl w).2.trace = w.trace ++ added ∧
      (Event.runningAfter lvl ".success" ∈ added ↔
        s.AfterSuccessCommand.isSome = true ∧ err = none) ∧
      (Event.runningAfter lvl ".failure" ∈ added ↔
        s.AfterFailureCommand.isSome = true ∧ err ≠ none) := by
  obtain ⟨added, ht, -, -, hs⟩ := executeAfterCommandSet_marks env err chg (some s) lvl w
  obtain ⟨⟨k, hk0, -, hkm, -⟩, -⟩ := hs s rfl
  exact ⟨added, ht, (hkm _).trans (hookList_success s err chg hk0),
    (hkm _).trans (hookList_failure s err chg hk0)⟩

/-- C2, counterexample. The execution error is nil and the set defines a
success child, yet the child is not run: at the project level when the success
child of the command-level set has failed (after commands are not
suppressed), and at the command level when after commands are suppressed. -/
theorem executeAfterHooks_success_failure_counterexample :
    (afterSetOf cmdBothLevels true = some successOnlySet ∧
      successOnlySet.AfterSuccessCommand.isSome = true ∧
      world0.suppressNewAfterCommands = false ∧
      Event.runningAfter true ".success" ∉
        (executeAfterHooks envFail cmdBothLevels none false world0).2.trace) ∧
    (afterSetOf cmdSuccessOnly false = some successOnlySet ∧
      Event.runningAfter false ".success" ∉
        (executeAfterHooks envOk cmdSuccessOnly none false
          { world0 with suppressNewAfterCommands := true }).2.trace) :=
  ⟨⟨rfl, rfl, rfl, by decide⟩, rfl, by decide⟩

/-- C2, amended. In every invocation of `executeAfterHooks`, the success child
of a level is run iff after commands are not suppressed, the set of that level
is handed to `executeAfterCommandSet` (the command-level set always, the
project-level set when the command-level set has returned no error), the child
is defined and the execution error is nil; the failure child is run iff the
same holds with a non-nil execution error, whatever that error is (the two
sentinels included); and the success and failure children are never both run. -/
theorem executeAfterHooks_success_failure (env : Env) (cmd : ProjectCommand)
    (err : Option Err) (chg : Bool) (w : World) :
    ∃ added, (executeAfterHooks env cmd err chg w).2.trace =
        w.trace ++ Event.afterHooks err chg :: added ∧
      (∀ lvl,
        (Event.runningAfter lvl ".success" ∈ added ↔
          w.suppressNewAfterCommands = false ∧ setReached env cmd err chg w lvl = true ∧
            ∃ s, afterSetOf cmd lvl = some s ∧ s.AfterSuccessCommand.isSome = true ∧
              err = none) ∧
        (Event.runningAfter lvl ".failure" ∈ added ↔
          w.suppressNewAfterCommands = false ∧ setReached env cmd err chg w lvl = true ∧
            ∃ s, afterSetOf cmd lvl = some s ∧ s.AfterFailureCommand.isSome = true ∧
              err ≠ none)) ∧
      (∀ lvl s, w.suppressNewAfterCommands = false → setReached env cmd err chg w lvl = true →
        afterSetOf cmd lvl = some s → s.AfterFailureCommand.isSome = true →
        (err = some .ErrWatchModeRestart ∨ err = some .ErrProcessTerminated) →
        Event.runningAfter lvl ".failure" ∈ added) ∧
      ∀ lvl1 lvl2, ¬(Event.runningAfter lvl1 ".success" ∈ added ∧
        Event.runningAfter lvl2 ".failure" ∈ added) := by
  by_cases hs : w.suppressNewAfterCommands = false
  · obtain ⟨added, ht, -, hm⟩ := executeAfterHooks_marks env cmd err chg w hs
    have key : ∀ lvl,
        (Event.runningAfter lvl ".success" ∈ added ↔
          w.suppressNewAfterCommands = false ∧ setReached env cmd err chg w lvl = true ∧
            ∃ s, afterSetOf cmd lvl = some s ∧ s.AfterSuccessCommand.isSome = true ∧
              err = none) ∧
        (Event.runningAfter lvl ".failure" ∈ added ↔
          w.suppressNewAfterCommands = false ∧ setReached env cmd err chg w lvl = true ∧
            ∃ s, afterSetOf cmd lvl = some s ∧ s.AfterFailureCommand.isSome = true ∧
              err ≠ none) := by
      intro lvl
      have hk : ∀ s, afterSetOf cmd lvl = some s → setReached env cmd err chg w lvl = true →
          (Event.runningAfter lvl ".success" ∈ added ↔
            s.AfterSuccessCommand.isSome = true ∧ err = none) ∧
          (Event.runningAfter lvl ".failure" ∈ added ↔
            s.AfterFailureCommand.isSome = true ∧ err ≠ none) := by
        intro s hset hreach
        obtain ⟨⟨k, hk0, -, hkm, -⟩, -⟩ := (hm lvl).2 s hset hreach
        exact ⟨(hkm _).trans (hookList_success s err chg hk0),
          (hkm _).trans (hookList_failure s err chg hk0)⟩
      constructor
      · constructor
        · intro h
          obtain ⟨h1, h2⟩ := (hm lvl).1 _ h
          obtain ⟨s, hset⟩ := Option.isSome_iff_exists.1 h1
          exact ⟨hs, h2, s, hset, (hk s hset h2).1.1 h⟩
        · rintro ⟨-, h2, s, hset, h3⟩
          exact (hk s hset h2).1.2 h3
      · constructor
        · intro h
          obtain ⟨h1, h2⟩ := (hm lvl).1 _ h
          obtain ⟨s, hset⟩ := Option.isSome_iff_exists.1 h1
          exact ⟨hs, h2, s, hset, (hk s hset h2).2.1 h⟩
        · rintro ⟨-, h2, s, hset, h3⟩
          exact (hk s hset h2).2.2 h3
    refine ⟨added, ht, key, ?_, ?_⟩
    · intro lvl s _ hreach hset hf he
      refine (key lvl).2.2 ⟨hs, hreach, s, hset, hf, ?_⟩
      rcases he with rfl | rfl <;> simp
    · rintro lvl1 lvl2 ⟨h1, h2⟩
      obtain ⟨-, -, s1, -, -, he1⟩ := (key lvl1).1.1 h1
      obtain ⟨-, -, s2, -, -, he2⟩ := (key lvl2).2.1 h2
      exact he2 he1
  · have hs1 : w.suppressNewAfterCommands = true := by simpa using hs
    refine ⟨[], ?_, fun lvl => ⟨?_, ?_⟩, ?_, ?_⟩
    · rw [executeAfterHooks_guard env cmd err chg w (by simp [hs1])]
      simp [Navi.emit]
    · simp [hs1]
    · simp [hs1]
    · intro lvl s h
      rw [hs1] at h
      cases h
    · simp

/-- Witness of C2: with after commands not suppressed and a nil execution
error, the success child of the sample set is run and its failure child is
not. -/
theorem executeAfterHooks_success_failure_witness :
    ∃ added, (executeAfterHooks envOk cmdWithAfter none false world0).2.trace =
        world0.trace ++ Event.afterHooks none false :: added ∧
      Event.runningAfter false ".success" ∈ added ∧
      Event.runningAfter false ".failure" ∉ added := by
  obtain ⟨added, ht, h, -, -⟩ :=
    executeAfterHooks_success_failure envOk cmdWithAfter none false world0
  exact ⟨added, ht, (h false).1.2 ⟨rfl, rfl, afterSet, rfl, rfl, rfl⟩,
    fun hf => by
      obtain ⟨-, -, -, -, -, he⟩ := (h false).2.1 hf
      exact he rfl⟩

/-- C3, counterexample. The set defines a success child and an `always`
child, after commands are not suppressed and the execution error is nil; the
success child fails, `executeAfterHooks` returns its error, and the `always`
child is not run. -/
theorem executeAfterHooks_always_counterexample :
    afterSet.AfterAlwaysCommand.isSome = true ∧
    world0.suppressNewAfterCommands = false ∧
    (executeAfterHooks envFail cmdWithAfter none false world0).1 ≠ none ∧
    Event.runningAfter false ".always" ∉
      (executeAfterHooks envFail cmdWithAfter none false world0).2.trace :=
  ⟨rfl, rfl, by decide, by decide⟩

theorem andThen_assoc (r : Option Err × World) (f g : World → Option Err × World) :
    andThen (andThen r f) g = andThen r fun w => andThen (f w) g := by
  rcases r with ⟨_ | e, w⟩ <;> rfl

theorem runHooks_append (env : Env) (lvl : Bool) :
    ∀ (A B : List (String × ProjectCommand)) (w : World),
      runHooks env lvl (A ++ B) w = andThen (runHooks env lvl A w) (runHooks env lvl B)
  | [], B, w => rfl
  | (t, h) :: A, B, w => by
    simp only [List.cons_append, runHooks_cons, andThen_assoc]
    congr 1
    funext w1
    exact runHooks_append env lvl A B w1

/-- With an `always` child the hooks of a set are the children before it,
then the `always` child. -/
theorem hookList_childrenBefore (s a : ProjectCommand) (err : Option Err) (chg : Bool)
    (ha : s.AfterAlwaysCommand = some a) :
    hookList s err chg = childrenBefore s err chg ++ [(".always", a)] ∧
      ∀ y ∈ childrenBefore s err chg, y.1 ≠ ".always" := by
  unfold hookList selectedHooks childrenBefore hookOf
  rw [ha]
  cases s.AfterSuccessCommand <;> cases s.AfterFailureCommand <;>
    cases s.AfterChangeCommand <;> cases err <;> cases chg <;> simp

/-- The `always` child of a set handed to `executeAfterCommandSet` is
announced exactly when the children run before it have returned no error;
when one of them has failed, the result is the result of that child. -/
theorem executeAfterCommandSet_always (env : Env) (err : Option Err) (chg : Bool)
    (s a : ProjectCommand) (lvl : Bool) (w : World) (ha : s.AfterAlwaysCommand = some a) :
    ∃ added, (executeAfterCommandSet env err chg (some s) lvl w).2.trace = w.trace ++ added ∧
      (Event.runningAfter lvl ".always" ∈ added ↔
        (runHooks env lvl (childrenBefore s err chg) w).1 = none) ∧
      ((runHooks env lvl (childrenBefore s err chg) w).1 ≠ none →
        executeAfterCommandSet env err chg (some s) lvl w =
          runHooks env lvl (childrenBefore s err chg) w) := by
  obtain ⟨hL, hne⟩ := hookList_childrenBefore s a err chg ha
  rw [executeAfterCommandSet_eq, hL, runHooks_append]
  obtain ⟨k, added, -, -, htr, hm, -⟩ := runHooks_marks env lvl (childrenBefore s err chg) w
  have hnot : Event.runningAfter lvl ".always" ∉ added := fun h => by
    obtain ⟨-, h2⟩ := (hm _ _).1 h
    obtain ⟨x, hx, hx1⟩ := List.mem_map.1 h2
    exact hne x (List.mem_of_mem_take hx) hx1
  rcases hr : runHooks env lvl (childrenBefore s err chg) w with ⟨_ | e, w1⟩
  · rw [hr] at htr
    simp only [andThen, runHooks_cons, runHooks_nil]
    obtain ⟨⟨a1, ht1, -⟩, -⟩ :=
      executeCommand_extends env false true a true (emit (.runningAfter lvl ".always") w1)
    refine ⟨added ++ Event.runningAfter lvl ".always" :: a1, ?_, by simp, by simp⟩
    rcases hr2 : executeCommand env false true a true (emit (.runningAfter lvl ".always") w1)
      with ⟨_ | e, w2⟩ <;> rw [hr2] at ht1 <;> simp only at ht1 htr ⊢ <;>
      rw [ht1] <;> simp [Navi.emit, htr]
  · rw [hr] at htr
    exact ⟨added, htr, by simp [hnot], fun _ => rfl⟩

/-- C3, amended. For every execution outcome and every value of
`isAfterChange`, when after commands are not suppressed and a set that
`executeAfterHooks` hands to `executeAfterCommandSet` defines an `always`
child: that child is run iff the success, failure and change children that
are run before it have returned no error, which is the case whenever
`executeAfterHooks` itself returns no error; and when one of them has failed,
`executeAfterHooks` returns the error of that child at once: its result is the
result of that child, followed only by the deferred `processWg.Done()`. -/
theorem executeAfterHooks_always (env : Env) (cmd : ProjectCommand) (err : Option Err)
    (chg : Bool) (w : World) (hs : w.suppressNewAfterCommands = false) (lvl : Bool)
    (s a : ProjectCommand) (hset : afterSetOf cmd lvl = some s)
    (hreach : setReached env cmd err chg w lvl = true) (ha : s.AfterAlwaysCommand = some a) :
    ∃ added, (executeAfterHooks env cmd err chg w).2.trace =
        w.trace ++ Event.afterHooks err chg :: added ∧
      (Event.runningAfter lvl ".always" ∈ added ↔
        (runHooks env lvl (childrenBefore s err chg) (setEntry env cmd err chg w lvl)).1 = none) ∧
      ((runHooks env lvl (childrenBefore s err chg) (setEntry env cmd err chg w lvl)).1 ≠ none →
        executeAfterHooks env cmd err chg w =
          wgDone (runHooks env lvl (childrenBefore s err chg) (setEntry env cmd err chg w lvl))) ∧
      ((executeAfterHooks env cmd err chg w).1 = none →
        Event.runningAfter lvl ".always" ∈ added) := by
  have hg : ((cmd.AfterCommand.isNone && cmd.ProjAfterCommand.isNone) ||
      w.suppressNewAfterCommands) = false := by
    rw [hs, Bool.or_false]
    cases lvl <;> simp only [afterSetOf, if_true, Bool.false_eq_true, if_false] at hset <;>
      simp [hset]
  obtain ⟨added, ht, -, hm⟩ := executeAfterHooks_marks env cmd err chg w hs
  obtain ⟨⟨k, hk0, hkl, hkm, hkn⟩, -⟩ := (hm lvl).2 s hset hreach
  obtain ⟨pre, hL, -⟩ := hookList_always s a err chg ha
  have hlast : (executeAfterHooks env cmd err chg w).1 = none →
      Event.runningAfter lvl ".always" ∈ added := fun hnone => by
    rw [hkm, hkn hnone, List.take_length, hL]
    simp
  have hw1 : (afterEntry err chg w).trace = w.trace ++ [Event.afterHooks err chg] := rfl
  have hrun := executeAfterHooks_run env cmd err chg w hg
  refine ⟨added, ht, ?_, ?_, hlast⟩
  · -- the `always` child is announced iff the children before it have succeeded
    rw [hrun] at ht
    obtain ⟨aC, hCt, -, hCl, -⟩ :=
      executeAfterCommandSet_marks env err chg cmd.AfterCommand false (afterEntry err chg w)
    cases lvl
    · simp only [afterSetOf, Bool.false_eq_true, if_false] at hset
      simp only [setEntry, Bool.false_eq_true, if_false]
      obtain ⟨aC1, hCt1, hCa, -⟩ :=
        executeAfterCommandSet_always env err chg s a false (afterEntry err chg w) ha
      rw [← hCa]
      rw [hset] at ht hCt
      have haC : aC1 = aC := List.append_cancel_left (hCt1.symm.trans hCt)
      subst haC
      rcases hC : executeAfterCommandSet env err chg (some s) false (afterEntry err chg w)
        with ⟨_ | e, w2⟩
      · rw [hC] at hCt ht
        simp only at hCt
        obtain ⟨aP, hPt, -, hPl, -⟩ :=
          executeAfterCommandSet_marks env err chg cmd.ProjAfterCommand true w2
        have hrest : ∃ X, added = aC1 ++ aP ++ X ∧ Event.runningAfter false ".always" ∉ X := by
          rcases hP : executeAfterCommandSet env err chg cmd.ProjAfterCommand true w2 with
            ⟨_ | e, w3⟩
          · rw [hP] at hPt
            refine ⟨[Event.afterCompleted], ?_, by simp⟩
            simp only [wgDone, andThen, hP, Navi.emit] at ht
            simp only at hPt
            rw [hPt, hCt, hw1] at ht
            simpa using ht.symm
          · rw [hP] at hPt
            refine ⟨[], ?_, by simp⟩
            simp only [wgDone, andThen, hP] at ht
            simp only at hPt
            rw [hPt, hCt, hw1] at ht
            simpa using ht.symm
        obtain ⟨X, hX, hXn⟩ := hrest
        rw [hX]
        simp only [List.mem_append]
        constructor
        · rintro ((h | h) | h)
          · exact h
          · exact absurd (hPl _ _ h).1 (by simp)
          · exact absurd h hXn
        · intro h
          exact Or.inl (Or.inl h)
      · rw [hC] at hCt ht
        simp only [wgDone, andThen] at ht
        simp only at hCt
        rw [hCt, hw1] at ht
        have : added = aC1 := by simpa using ht.symm
        rw [this]
    · simp only [afterSetOf, if_true] at hset
      simp only [setEntry, if_true]
      have hreach2 : (executeAfterCommandSet env err chg cmd.AfterCommand false
          (afterEntry err chg w)).1 = none := by
        simpa [setReached] using hreach
      generalize executeAfterCommandSet env err chg cmd.AfterCommand false
        (afterEntry err chg w) = rC at hreach2 hCt ht ⊢
      rcases rC with ⟨r, w2⟩
      simp only at hreach2 hCt
      subst hreach2
      simp only [andThen] at ht
      rw [hset] at ht
      obtain ⟨aP, hPt, hPa, -⟩ := executeAfterCommandSet_always env err chg s a true w2 ha
      rw [← hPa]
      have hrest : ∃ X, added = aC ++ aP ++ X ∧ Event.runningAfter true ".always" ∉ X := by
        rcases hP : executeAfterCommandSet env err chg (some s) true w2 with ⟨_ | e, w3⟩
        · rw [hP] at hPt
          refine ⟨[Event.afterCompleted], ?_, by simp⟩
          simp only [wgDone, andThen, hP, Navi.emit] at ht
          simp only at hPt
          rw [hPt, hCt, hw1] at ht
          simpa using ht.symm
        · rw [hP] at hPt
          refine ⟨[], ?_, by simp⟩
          simp only [wgDone, andThen, hP] at ht
          simp only at hPt
          rw [hPt, hCt, hw1] at ht
          simpa using ht.symm
      obtain ⟨X, hX, hXn⟩ := hrest
      rw [hX]
      simp only [List.mem_append]
      constructor
      · rintro ((h | h) | h)
        · exact absurd (hCl _ _ h).1 (by simp)
        · exact h
        · exact absurd h hXn
      · intro h
        exact Or.inl (Or.inr h)
  · -- a child that fails ends the invocation
    rw [hrun]
    cases lvl
    · simp only [afterSetOf, Bool.false_eq_true, if_false] at hset
      simp only [setEntry, Bool.false_eq_true, if_false]
      intro hne
      obtain ⟨-, -, -, hCf⟩ :=
        executeAfterCommandSet_always env err chg s a false (afterEntry err chg w) ha
      rw [hset, hCf hne]
      rcases hr : runHooks env false (childrenBefore s err chg) (afterEntry err chg w) with
        ⟨_ | e, w1⟩
      · rw [hr] at hne
        exact absurd rfl hne
      · rfl
    · simp only [afterSetOf, if_true] at hset
      simp only [setEntry, if_true]
      have hreach2 : (executeAfterCommandSet env err chg cmd.AfterCommand false
          (afterEntry err chg w)).1 = none := by
        simpa [setReached] using hreach
      generalize executeAfterCommandSet env err chg cmd.AfterCommand false
        (afterEntry err chg w) = rC at hreach2 ⊢
      rcases rC with ⟨r, w2⟩
      simp only at hreach2
      subst hreach2
      intro hne
      obtain ⟨-, -, -, hPf⟩ := executeAfterCommandSet_always env err chg s a true w2 ha
      simp only [andThen]
      rw [hset, hPf hne]
      rcases hr : runHooks env true (childrenBefore s err chg) w2 with ⟨_ | e, w1⟩
      · rw [hr] at hne
        exact absurd rfl hne
      · rfl

/-- Witness of C3: every hook succeeds and the `always` child of the sample
set is run after its success child. -/
theorem executeAfterHooks_always_witness :
    ∃ added, (executeAfterHooks envOk cmdWithAfter none false world0).2.trace =
        world0.trace ++ Event.afterHooks none false :: added ∧
      Event.runningAfter false ".always" ∈ added := by
  obtain ⟨added, ht, h, -, -⟩ := executeAfterHooks_always envOk cmdWithAfter none false world0
    rfl false afterSet (.leaf ["cleanup"]) rfl rfl rfl
  exact ⟨added, ht, h.2 (by decide)⟩

/-- C4, counterexample. A set whose only child is `always`: none of success,
failure and change is defined, yet the set itself is not run as a fallback.
And a set whose only child is `success`, after a failed execution: the
success child is defined, yet the set itself is run as a fallback. -/
theorem executeAfterHooks_root_counterexample :
    (alwaysOnlySet.AfterSuccessCommand = none ∧ alwaysOnlySet.AfterFailureCommand = none ∧
      alwaysOnlySet.AfterChangeCommand = none ∧
      Event.runningAfter false "" ∉
        (executeAfterHooks envOk cmdAlwaysOnly none false world0).2.trace) ∧
    (successOnlySet.AfterSuccessCommand.isSome = true ∧
      Event.runningAfter false "" ∈
        (executeAfterHooks envOk cmdSuccessOnly (some (.other "exit status 1")) false
          world0).2.trace) :=
  ⟨⟨rfl, rfl, rfl, by decide⟩, rfl, by decide⟩

/-- C4, amended. When after commands are not suppressed, for every set that
`executeAfterHooks` hands to `executeAfterCommandSet` the set itself is run
as a fallback exactly when no child applies to the outcome: no success child
with a nil error, no failure child with a non-nil error, no change child with
`isAfterChange`, and no `always` child. -/
theorem executeAfterHooks_root_fallback (env : Env) (cmd : ProjectCommand) (err : Option Err)
    (chg : Bool) (w : World) (hs : w.suppressNewAfterCommands = false) (lvl : Bool)
    (s : ProjectCommand) (hset : afterSetOf cmd lvl = some s)
    (hreach : setReached env cmd err chg w lvl = true) :
    ∃ added, (executeAfterHooks env cmd err chg w).2.trace =
        w.trace ++ Event.afterHooks err chg :: added ∧
      (Event.runningAfter lvl "" ∈ added ↔
        ¬(s.AfterSuccessCommand.isSome = true ∧ err = none) ∧
        ¬(s.AfterFailureCommand.isSome = true ∧ err ≠ none) ∧
        ¬(s.AfterChangeCommand.isSome = true ∧ chg = true) ∧
        ¬(s.AfterAlwaysCommand.isSome = true)) := by
  obtain ⟨added, ht, -, hm⟩ := executeAfterHooks_marks env cmd err chg w hs
  obtain ⟨⟨k, hk0, -, hkm, -⟩, -⟩ := (hm lvl).2 s hset hreach
  exact ⟨added, ht, (hkm _).trans (hookList_root s err chg hk0)⟩

/-- Witness of C4: a plain after command, without children, is itself run. -/
theorem executeAfterHooks_root_fallback_witness :
    ∃ added, (executeAfterHooks envOk
        (.mk ["serve"] [] none none none none (some (.leaf ["notify"])) none none none none none)
        none false world0).2.trace = world0.trace ++ Event.afterHooks none false :: added ∧
      Event.runningAfter false "" ∈ added := by
  obtain ⟨added, ht, h⟩ := executeAfterHooks_root_fallback envOk
    (.mk ["serve"] [] none none none none (some (.leaf ["notify"])) none none none none none)
    none false world0 rfl false (.leaf ["notify"]) rfl rfl
  exact ⟨added, ht, h.2 (by decide)⟩

/-! ## One invocation of the after hooks per run (C5) -/

theorem grows_refl (P : Event → Prop) (w : World) : Grows P w w :=
  ⟨[], by simp, by simp⟩

theorem grows_trans {P : Event → Prop} {w1 w2 w3 : World} (h1 : Grows P w1 w2)
    (h2 : Grows P w2 w3) : Grows P w1 w3 := by
  obtain ⟨a1, ht1, hp1⟩ := h1
  obtain ⟨a2, ht2, hp2⟩ := h2
  refine ⟨a1 ++ a2, by rw [ht2, ht1, List.append_assoc], ?_⟩
  intro e he
  rcases List.mem_append.1 he with h | h
  · exact hp1 e h
  · exact hp2 e h

theorem grows_of_extends {P Q : Event → Prop} {w1 w2 : World} (hPQ : ∀ e, P e → Q e)
    (h : Extends P w1 w2) : Grows Q w1 w2 := by
  obtain ⟨⟨a, ht, hp⟩, -⟩ := h
  exact ⟨a, ht, fun e he => hPQ e (hp e he)⟩

theorem notCounted_of_isHookEvent (e : Event) (h : isHookEvent e = true) :
    notCounted e = true := by
  cases e <;> simp_all [isHookEvent, isPlain, notCounted]

theorem notCounted_of_isPlain (e : Event) (h : isPlain e = true) : notCounted e = true :=
  notCounted_of_isHookEvent e (isHookEvent_of_isPlain e h)

theorem quiet_refl (w : World) : Quiet w w :=
  ⟨grows_refl _ w, rfl⟩

theorem quiet_trans {w1 w2 w3 : World} (h1 : Quiet w1 w2) (h2 : Quiet w2 w3) : Quiet w1 w3 :=
  ⟨grows_trans h1.1 h2.1, h2.2.trans h1.2⟩

theorem quiet_emit (e : Event) (w : World) (he : notCounted e = true) : Quiet w (emit e w) :=
  ⟨⟨[e], rfl, by simpa using he⟩, rfl⟩

theorem quiet_of_extends {P : Event → Prop} {w1 w2 : World}
    (hP : ∀ e, P e → notCounted e = true) (h : Extends P w1 w2) : Quiet w1 w2 :=
  ⟨grows_of_extends hP h, h.2.2.2.1⟩

theorem quiet_readTerminating (env : Env) (w : World) : Quiet w (readTerminating env w).2 :=
  quiet_of_extends (P := fun _ => False) (fun _ h => h.elim) (extends_readTerminating _ env w)

theorem afterCalls_append (b : Bool) (l1 l2 : List Event) :
    afterCalls b (l1 ++ l2) = afterCalls b l1 + afterCalls b l2 := by
  simp [afterCalls, List.countP_append]

theorem runCount_append (l1 l2 : List Event) :
    runCount (l1 ++ l2) = runCount l1 + runCount l2 := by
  simp [runCount, List.countP_append]

theorem afterCalls_quiet (l : List Event) (h : ∀ e ∈ l, notCounted e = true) :
    afterCalls false l = 0 := by
  unfold afterCalls
  rw [List.countP_eq_zero]
  intro e he
  have hq := h e he
  cases e with
  | afterHooks x c =>
    cases c with
    | false => simp [notCounted] at hq
    | true => simp
  | _ => simp

theorem runCount_quiet (l : List Event) (h : ∀ e ∈ l, notCounted e = true) :
    runCount l = 0 := by
  unfold runCount
  rw [List.countP_eq_zero]
  intro e he
  have := h e he
  cases e <;> simp_all [notCounted]

theorem quiet_counts {w1 w2 : World} (h : Quiet w1 w2) :
    afterCalls false w2.trace = afterCalls false w1.trace ∧
      runCount w2.trace = runCount w1.trace := by
  obtain ⟨⟨a, ht, hp⟩, -⟩ := h
  rw [ht, afterCalls_append, runCount_append, afterCalls_quiet a hp, runCount_quiet a hp]
  simp

theorem wgDone_world_trace (r : Option Err × World) :
    (wgDone r).2.trace = r.2.trace ∧ (wgDone r).2.WatchExecuted = r.2.WatchExecuted ∧
      (wgDone r).2.AfterExecuted = r.2.AfterExecuted ∧ (wgDone r).1 = r.1 :=
  ⟨rfl, rfl, rfl, rfl⟩

theorem quiet_wgDone (r : Option Err × World) : Quiet r.2 (wgDone r).2 :=
  ⟨⟨[], by simp [wgDone], by simp⟩, rfl⟩

theorem executeOneTime_quiet (env : Env) (wd : Bool) (cmd : ProjectCommand) (w : World) :
    Quiet w (executeOneTime env wd cmd w).2 := by
  unfold executeOneTime
  simp only
  refine quiet_trans ?_ (quiet_wgDone _)
  have h0 : ∀ w0 : World, Quiet w0 (match executeCommand env wd false cmd true w0 with
      | (none, w3) => (none, emit .commandsCompleted w3)
      | (some e, w3) => (some e, w3)).2 := by
    intro w0
    have h := quiet_of_extends notCounted_of_isPlain (executeCommand_extends env wd false cmd true w0)
    rcases hr : executeCommand env wd false cmd true w0 with ⟨_ | e, w3⟩
    · rw [hr] at h
      exact quiet_trans h (quiet_emit _ _ (by rfl))
    · rw [hr] at h
      exact h
  refine quiet_trans ?_ (h0 _)
  split_ifs
  · exact ⟨⟨[], by simp, by simp⟩, rfl⟩
  · exact ⟨⟨[], by simp, by simp⟩, rfl⟩

/-- The trace of `executeAfterHooks`: its entry, then events of the hooks. -/
theorem executeAfterHooks_trace (env : Env) (cmd : ProjectCommand) (err : Option Err)
    (chg : Bool) (w : World) :
    (∃ added, (executeAfterHooks env cmd err chg w).2.trace =
        w.trace ++ Event.afterHooks err chg :: added ∧
      ∀ e ∈ added, isHookEvent e = true) ∧
    (executeAfterHooks env cmd err chg w).2.WatchExecuted = w.WatchExecuted := by
  by_cases hg : ((cmd.AfterCommand.isNone && cmd.ProjAfterCommand.isNone) ||
      w.suppressNewAfterCommands) = true
  · rw [executeAfterHooks_guard env cmd err chg w hg]
    exact ⟨⟨[], rfl, by simp⟩, rfl⟩
  · rw [executeAfterHooks_run env cmd err chg w (Bool.eq_false_iff.2 hg)]
    have h : Extends (fun e => isHookEvent e = true) (afterEntry err chg w)
        (andThen (executeAfterCommandSet env err chg cmd.AfterCommand false
          (afterEntry err chg w)) fun w =>
            andThen (executeAfterCommandSet env err chg cmd.ProjAfterCommand true w)
              fun w => (none, emit .afterCompleted w)).2 := by
      refine extends_andThen ?_ fun w1 => extends_andThen ?_ fun w2 => ?_
      · exact extends_mono (fun e h => h.1) (executeAfterCommandSet_extends _ _ _ _ _ _)
      · exact extends_mono (fun e h => h.1) (executeAfterCommandSet_extends _ _ _ _ _ _)
      · exact extends_emit _ _ rfl
    obtain ⟨⟨a, ht, hp⟩, -, -, hw, -⟩ := h
    refine ⟨⟨a, ?_, hp⟩, ?_⟩
    · rw [(wgDone_world_trace _).1, ht]
      simp [afterEntry, Navi.emit]
    · rw [(wgDone_world_trace _).2.1, hw]
      rfl

theorem executeAfterHooks_quiet (env : Env) (cmd : ProjectCommand) (err : Option Err)
    (w : World) : Quiet w (executeAfterHooks env cmd err true w).2 := by
  obtain ⟨⟨a, ht, hp⟩, hw⟩ := executeAfterHooks_trace env cmd err true w
  refine ⟨⟨Event.afterHooks err true :: a, ht, ?_⟩, hw⟩
  intro e he
  rcases List.mem_cons.1 he with rfl | h
  · rfl
  · exact notCounted_of_isHookEvent e (hp e h)

theorem gracefulShutdown_quiet (env : Env) (w : World) :
    Quiet w (gracefulShutdown env w).world := by
  unfold gracefulShutdown readTerminating
  simp only
  split_ifs <;>
    first
    | exact ⟨⟨[Event.gracefulShutdown], rfl, by simp [notCounted]⟩, rfl⟩
    | exact ⟨⟨[Event.gracefulShutdown, Event.shuttingDown, Event.terminateAll, Event.killAll], by simp [Step.world, Navi.emit],
        by simp [notCounted]⟩, rfl⟩

theorem step_bind_quiet {α β : Type} {w : World} {s : Step α} {k : α → World → Step β}
    (h1 : Quiet w s.world) (h2 : ∀ a w1, Quiet w1 (k a w1).world) :
    Quiet w (s.bind k).world := by
  cases s with
  | ret a w1 => exact quiet_trans h1 (h2 a w1)
  | exit w1 => exact h1

theorem watchCycle_quiet (env : Env) (cmd : ProjectCommand) (w : World) :
    Quiet w (watchCycle env cmd w).world := by
  unfold watchCycle
  have h1 := executeOneTime_quiet env true cmd w
  rcases hr1 : executeOneTime env true cmd w with ⟨execErr, w1⟩
  rw [hr1] at h1
  have h2 := executeAfterHooks_quiet env cmd execErr w1
  simp only
  rcases hr2 : executeAfterHooks env cmd execErr true w1 with ⟨_ | afterErr, w2⟩
  · rw [hr2] at h2
    exact quiet_trans h1 h2
  · rw [hr2] at h2
    refine quiet_trans h1 (quiet_trans h2 ?_)
    refine step_bind_quiet
      (quiet_trans (quiet_emit _ _ (by rfl)) (gracefulShutdown_quiet env _)) ?_
    intro _ w3
    exact quiet_refl w3

theorem watchLoop_quiet (env : Env) (cmd : ProjectCommand) :
    ∀ (n : Nat) (w : World), Quiet w (watchLoop env cmd n w).world
  | 0, w => by
    unfold watchLoop
    refine step_bind_quiet (watchCycle_quiet env cmd w) fun execErr w1 => ?_
    rcases execErr with _ | e
    · exact quiet_refl _
    · simp only
      split_ifs <;> exact quiet_refl _
  | n + 1, w => by
    unfold watchLoop
    refine step_bind_quiet (watchCycle_quiet env cmd w) fun execErr w1 => ?_
    rcases execErr with _ | e
    · exact watchLoop_quiet env cmd n w1
    · simp only
      split_ifs
      · exact watchLoop_quiet env cmd n w1
      · exact quiet_refl _

theorem executeWithFileWatcher_spec (env : Env) (cmd : ProjectCommand) (w : World) :
    Grows (fun e => notCounted e = true) w (executeWithFileWatcher env cmd w).world ∧
      (executeWithFileWatcher env cmd w).world.WatchExecuted = true := by
  unfold executeWithFileWatcher
  have h0 : Grows (fun e => notCounted e = true) w
      { emit .startingWatch w with WatchExecuted := true } :=
    ⟨[Event.startingWatch], rfl, by simp [notCounted]⟩
  simp only
  split
  · exact ⟨h0, rfl⟩
  · have h := watchLoop_quiet env cmd env.changes { emit .startingWatch w with WatchExecuted := true }
    exact ⟨grows_trans h0 h.1, h.2⟩

theorem logError_spec (err : Option Err) (w : World) :
    ∃ M, (logError err w).trace = w.trace ++ M ∧ (∀ e ∈ M, notCounted e = true) ∧
      (logError err w).WatchExecuted = w.WatchExecuted := by
  unfold logError
  rcases err with _ | e
  · exact ⟨[], by simp, by simp, rfl⟩
  · simp only
    split_ifs
    · exact ⟨[Event.errorLog e], rfl, by simp [notCounted], rfl⟩
    · exact ⟨[], by simp, by simp, rfl⟩

theorem logError_quiet (err : Option Err) (w : World) : Quiet w (logError err w) := by
  obtain ⟨M, h1, h2, h3⟩ := logError_spec err w
  exact ⟨⟨M, h1, h2⟩, h3⟩

theorem step_bind_ret {α β : Type} (a : α) (w : World) (k : α → World → Step β) :
    (Step.ret a w).bind k = k a w :=
  rfl

theorem step_bind_world_ret {α β : Type} (s : Step α) (b : β) :
    (s.bind fun _ w => Step.ret b w).world = s.world := by
  cases s <;> rfl

/-- A run outside watch mode is followed by one entry into `executeAfterHooks`
that carries its result. -/
theorem executeCommandWithAfterHandling_once (env : Env) (cmd : ProjectCommand) (w : World)
    (hw : w.WatchExecuted = false) (hf : hasFilesToWatch cmd = false) :
    ∃ A r M B, (executeCommandWithAfterHandling env cmd w).world.trace =
        w.trace ++ A ++ Event.run r :: M ++ Event.afterHooks r false :: B ∧
      (∀ e ∈ A, notCounted e = true) ∧ (∀ e ∈ M, notCounted e = true) ∧
      (∀ e ∈ B, notCounted e = true) ∧
      (executeCommandWithAfterHandling env cmd w).world.WatchExecuted = false := by
  unfold executeCommandWithAfterHandling execute
  rw [hf]
  simp only [Bool.false_eq_true, if_false]
  obtain ⟨⟨A, hA, hAq⟩, hAw⟩ := executeOneTime_quiet env false cmd w
  rcases hr : executeOneTime env false cmd w with ⟨r, w1⟩
  rw [hr] at hA hAw
  simp only [step_bind_ret]
  -- the world in which the after hooks are entered
  obtain ⟨M, hMt, hMq, hMw⟩ := logError_spec r (emit (.run r) w1)
  generalize logError r (emit (.run r) w1) = w3 at hMt hMq hMw ⊢
  have hw3t : w3.trace = w1.trace ++ Event.run r :: M := by
    rw [hMt]
    simp [Navi.emit]
  have hw3w : w3.WatchExecuted = false := by
    rw [hMw]
    exact (show w1.WatchExecuted = _ from hAw).trans hw
  simp only [hw3w, Bool.not_false, if_true]
  obtain ⟨⟨H, hH, hHq⟩, hHw⟩ := executeAfterHooks_trace env cmd r false w3
  rcases hr2 : executeAfterHooks env cmd r false w3 with ⟨_ | afterErr, w4⟩
  · rw [hr2] at hH hHw
    refine ⟨A, r, M, H, ?_, hAq, hMq, fun e he => notCounted_of_isHookEvent e (hHq e he),
      hHw.trans hw3w⟩
    show w4.trace = _
    rw [show w4.trace = _ from hH, hw3t, show w1.trace = _ from hA]
  · rw [hr2] at hH hHw
    obtain ⟨⟨G, hG, hGq⟩, hGw⟩ := gracefulShutdown_quiet env (emit (.afterFailed false afterErr) w4)
    simp only [step_bind_world_ret]
    refine ⟨A, r, M, H ++ Event.afterFailed false afterErr :: G, ?_, hAq, hMq, ?_, ?_⟩
    · rw [hG]
      simp only [Navi.emit]
      rw [show w4.trace = _ from hH, hw3t, show w1.trace = _ from hA]
      simp
    · intro e he
      rcases List.mem_append.1 he with h | h
      · exact notCounted_of_isHookEvent e (hHq e h)
      · rcases List.mem_cons.1 h with rfl | h
        · rfl
        · exact hGq e h
    · rw [hGw]
      exact hHw.trans hw3w

/-- A run in watch mode is not followed by an entry into `executeAfterHooks`
made by `executeCommandWithAfterHandling`. -/
theorem executeCommandWithAfterHandling_watch (env : Env) (cmd : ProjectCommand) (w : World)
    (hf : hasFilesToWatch cmd = true) :
    afterCalls false (executeCommandWithAfterHandling env cmd w).world.trace =
      afterCalls false w.trace := by
  unfold executeCommandWithAfterHandling execute
  rw [hf]
  simp only [if_true]
  obtain ⟨⟨A, hA, hAq⟩, hAw⟩ := executeWithFileWatcher_spec env cmd w
  have key : ∀ X : List Event, afterCalls false X = 0 →
      afterCalls false (w.trace ++ A ++ X) = afterCalls false w.trace := by
    intro X hX
    rw [afterCalls_append, afterCalls_append, afterCalls_quiet A hAq, hX]
    rfl
  rcases hr : executeWithFileWatcher env cmd w with ⟨err, w1⟩ | w1
  · rw [hr] at hA hAw
    have hA1 : w1.trace = w.trace ++ A := hA
    have hW1 : w1.WatchExecuted = true := hAw
    simp only [step_bind_ret]
    obtain ⟨M, hMt, hMq, hMw⟩ := logError_spec err (emit (.run err) w1)
    generalize logError err (emit (.run err) w1) = w3 at hMt hMq hMw ⊢
    have hw3w : w3.WatchExecuted = true := by
      rw [hMw]
      exact hW1
    simp only [hw3w, Bool.not_true, Bool.false_eq_true, if_false, Step.world]
    rw [hMt]
    simp only [Navi.emit]
    rw [hA1, List.append_assoc (w.trace ++ A)]
    refine key _ ?_
    rw [afterCalls_append, afterCalls_quiet M hMq]
    simp [afterCalls]
  · rw [hr] at hA
    have hA1 : w1.trace = w.trace ++ A := hA
    simp only [Step.bind, Step.world]
    rw [hA1, afterCalls_append, afterCalls_quiet A hAq]
    rfl

theorem balanced_refl (w : World) : Balanced w w :=
  ⟨Nat.add_comm _ _, rfl⟩

theorem balanced_trans {w1 w2 w3 : World} (h1 : Balanced w1 w2) (h2 : Balanced w2 w3) :
    Balanced w1 w3 := by
  obtain ⟨a1, b1⟩ := h1
  obtain ⟨a2, b2⟩ := h2
  exact ⟨by omega, b2.trans b1⟩

theorem balanced_of_quiet {w1 w2 : World} (h : Quiet w1 w2) : Balanced w1 w2 := by
  obtain ⟨c1, c2⟩ := quiet_counts h
  exact ⟨by omega, h.2⟩

theorem executeCommandWithAfterHandling_balanced (env : Env) (cmd : ProjectCommand) (w : World)
    (hw : w.WatchExecuted = false) (hf : hasFilesToWatch cmd = false) :
    Balanced w (executeCommandWithAfterHandling env cmd w).world := by
  obtain ⟨A, r, M, B, ht, hA, hM, hB, hW⟩ := executeCommandWithAfterHandling_once env cmd w hw hf
  refine ⟨?_, hW.trans hw.symm⟩
  rw [ht]
  simp only [afterCalls_append, runCount_append, afterCalls_quiet A hA, runCount_quiet A hA]
  have e1 : afterCalls false (Event.run r :: M) = 0 := by
    rw [show Event.run r :: M = [Event.run r] ++ M from rfl, afterCalls_append,
      afterCalls_quiet M hM]
    simp [afterCalls]
  have e2 : afterCalls false (Event.afterHooks r false :: B) = 1 := by
    rw [show Event.afterHooks r false :: B = [Event.afterHooks r false] ++ B from rfl,
      afterCalls_append, afterCalls_quiet B hB]
    simp [afterCalls]
  have e3 : runCount (Event.run r :: M) = 1 := by
    rw [show Event.run r :: M = [Event.run r] ++ M from rfl, runCount_append,
      runCount_quiet M hM]
    simp [runCount]
  have e4 : runCount (Event.afterHooks r false :: B) = 0 := by
    rw [show Event.afterHooks r false :: B = [Event.afterHooks r false] ++ B from rfl,
      runCount_append, runCount_quiet B hB]
    simp [runCount]
  rw [e1, e2, e3, e4]
  omega

theorem runEntry_balanced (env : Env) (cmd : ProjectCommand) (w : World)
    (hw : w.WatchExecuted = false) (hf : hasFilesToWatch cmd = false) :
    Balanced w (runEntry env cmd w).world := by
  have h0 : Balanced w (emit .entered w) := balanced_of_quiet (quiet_emit .entered w rfl)
  have h := executeCommandWithAfterHandling_balanced env cmd (emit .entered w) hw hf
  unfold runEntry
  rcases hr : executeCommandWithAfterHandling env cmd (emit .entered w) with ⟨err, w1⟩ | w1
  · rw [hr] at h
    exact balanced_trans h0
      (balanced_trans h (balanced_of_quiet (quiet_emit (.returned err) w1 rfl)))
  · rw [hr] at h
    exact balanced_trans h0 h

theorem tryWaitForPorts_quiet (env : Env) (cmdConfig : RunnerCommand) (w : World) :
    Quiet w (tryWaitForPorts env cmdConfig w).2 := by
  unfold tryWaitForPorts waitForRequiredPorts
  have h := quiet_readTerminating env w
  rcases hr : readTerminating env w with ⟨_ | _, w1⟩ <;> rw [hr] at h
  · simp only
    split_ifs <;> exact h
  · exact h

theorem scheduleRetry_quiet (maxRetries c : Int) (w : World) :
    Quiet w (scheduleRetry maxRetries c w).2.2 := by
  unfold scheduleRetry
  simp only
  split_ifs <;> exact quiet_emit _ _ (by rfl)

theorem handlePortWaitError_quiet (env : Env) (err : Err) (maxRetries c : Int) (w : World) :
    Quiet w (handlePortWaitError env err maxRetries c w).2.2 := by
  unfold handlePortWaitError
  have h := quiet_readTerminating env w
  rcases hr : readTerminating env w with ⟨_ | _, w1⟩ <;> rw [hr] at h
  · simp only
    refine quiet_trans h (quiet_trans ?_ (scheduleRetry_quiet _ _ _))
    split_ifs
    · exact quiet_emit _ _ (by rfl)
    · exact quiet_refl _
  · exact h

theorem applyCommandDelay_quiet (cmdConfig : RunnerCommand) (w : World) :
    Quiet w (applyCommandDelay cmdConfig w) := by
  unfold applyCommandDelay
  split_ifs
  · exact quiet_trans (quiet_emit .waitingDelay _ (by rfl)) (quiet_emit (.sleep _) _ (by rfl))
  · exact quiet_refl _

theorem serialFailure_quiet (env : Env) (flags : RunnerFlags) (c : RunnerCommand) (w : World) :
    Quiet w (serialFailure env flags c w).world := by
  unfold serialFailure
  split_ifs
  · exact quiet_trans (quiet_emit _ _ (by rfl)) (gracefulShutdown_quiet env _)
  · exact quiet_refl _

theorem dependentCompletion_quiet (env : Env) (flags : RunnerFlags) (c : RunnerCommand)
    (w : World) : Quiet w (dependentCompletion env flags c w).world := by
  unfold dependentCompletion
  split_ifs
  · exact quiet_trans (quiet_emit _ _ (by rfl)) (gracefulShutdown_quiet env _)
  · exact quiet_refl _

theorem handlers_quiet (env : Env) (flags : RunnerFlags) (c : RunnerCommand) (w : World) :
    Quiet w ((serialFailure env flags c w).bind fun _ w1 =>
      dependentCompletion env flags c w1).world :=
  step_bind_quiet (serialFailure_quiet env flags c w)
    fun _ w1 => dependentCompletion_quiet env flags c w1

theorem restartLoop_zero (env : Env) (flags : RunnerFlags) (cmd : ProjectCommand)
    (cfg : RunnerCommand) (maxRetries : Int) (cond : String) (c : Int) (w : World) :
    restartLoop env flags cmd cfg maxRetries cond 0 c w = none :=
  rfl

theorem restartLoop_succ (env : Env) (flags : RunnerFlags) (cmd : ProjectCommand)
    (cfg : RunnerCommand) (maxRetries : Int) (cond : String) (fuel : Nat) (c : Int) (w : World) :
    restartLoop env flags cmd cfg maxRetries cond (fuel + 1) c w =
      match tryWaitForPorts env cfg w with
      | (some err, w1) =>
        match readTerminating env w1 with
        | (true, w2) => some (.ret () w2)
        | (false, w2) =>
          match handlePortWaitError env err maxRetries c (emit (.portWaitFailed err) w2) with
          | (true, c1, w3) => restartLoop env flags cmd cfg maxRetries cond fuel c1 w3
          | (false, _, w3) =>
            some ((serialFailure env flags cfg w3).bind fun _ w4 =>
              dependentCompletion env flags cfg w4)
      | (none, w1) =>
        match readTerminating env (applyCommandDelay cfg w1) with
        | (true, w2) => some (.ret () w2)
        | (false, w2) =>
          match runEntry env cmd w2 with
          | .exit w3 => some (.exit w3)
          | .ret (some e) w3 =>
            if e.isTerminated then some (.ret () w3)
            else if shouldRestartOnCondition "failure" cond then
              match scheduleRetry maxRetries c w3 with
              | (true, c1, w4) => restartLoop env flags cmd cfg maxRetries cond fuel c1 w4
              | (false, _, w4) =>
                some ((serialFailure env flags cfg w4).bind fun _ w5 =>
                  dependentCompletion env flags cfg w5)
            else
              some ((serialFailure env flags cfg w3).bind fun _ w5 =>
                dependentCompletion env flags cfg w5)
          | .ret none w3 =>
            if shouldRestartOnCondition "success" cond then
              match scheduleRetry maxRetries c w3 with
              | (true, c1, w4) => restartLoop env flags cmd cfg maxRetries cond fuel c1 w4
              | (false, _, w4) => some (dependentCompletion env flags cfg w4)
            else some (dependentCompletion env flags cfg w3) :=
  rfl

/-- In the restart loop of an entry that is not in watch mode, every run is
followed by one entry into `executeAfterHooks`. -/
theorem restartLoop_balanced (env : Env) (flags : RunnerFlags) (cmd : ProjectCommand)
    (cfg : RunnerCommand) (maxRetries : Int) (cond : String)
    (hf : hasFilesToWatch cmd = false) :
    ∀ (fuel : Nat) (c : Int) (w : World) (s : Step Unit), w.WatchExecuted = false →
      restartLoop env flags cmd cfg maxRetries cond fuel c w = some s → Balanced w s.world
  | 0, c, w, s, _, h => by
    rw [restartLoop_zero] at h
    cases h
  | fuel + 1, c, w, s, hw, h => by
    rw [restartLoop_succ] at h
    have h1 := tryWaitForPorts_quiet env cfg w
    rcases hr1 : tryWaitForPorts env cfg w with ⟨_ | err, w1⟩ <;> rw [hr1] at h h1 <;>
      simp only at h h1
    · -- the ports are ready
      have h2 := quiet_trans (applyCommandDelay_quiet cfg w1)
        (quiet_readTerminating env (applyCommandDelay cfg w1))
      rcases hr2 : readTerminating env (applyCommandDelay cfg w1) with ⟨_ | _, w2⟩ <;>
        rw [hr2] at h h2 <;> simp only at h h2
      · have hq2 : Quiet w w2 := quiet_trans h1 h2
        have hw2 : w2.WatchExecuted = false := hq2.2.trans hw
        have h3 := runEntry_balanced env cmd w2 hw2 hf
        have hb2 : Balanced w w2 := balanced_of_quiet hq2
        rcases hr3 : runEntry env cmd w2 with ⟨_ | e, w3⟩ | w3 <;>
          rw [hr3] at h h3 <;> simp only at h
        · -- the run succeeded
          have hb3 : Balanced w w3 := balanced_trans hb2 h3
          have hw3 : w3.WatchExecuted = false := hb3.2.trans hw
          split_ifs at h
          · have h4 := scheduleRetry_quiet maxRetries c w3
            rcases hr4 : scheduleRetry maxRetries c w3 with ⟨_ | _, c1, w4⟩ <;>
              rw [hr4] at h h4 <;> simp only at h h4
            · cases h
              exact balanced_trans hb3 (balanced_of_quiet
                (quiet_trans h4 (dependentCompletion_quiet env flags cfg w4)))
            · exact balanced_trans (balanced_trans hb3 (balanced_of_quiet h4))
                (restartLoop_balanced env flags cmd cfg maxRetries cond hf fuel c1 w4 s
                  (h4.2.trans hw3) h)
          · cases h
            exact balanced_trans hb3 (balanced_of_quiet
              (dependentCompletion_quiet env flags cfg w3))
        · -- the run failed
          have hb3 : Balanced w w3 := balanced_trans hb2 h3
          have hw3 : w3.WatchExecuted = false := hb3.2.trans hw
          split_ifs at h
          · cases h
            exact hb3
          · have h4 := scheduleRetry_quiet maxRetries c w3
            rcases hr4 : scheduleRetry maxRetries c w3 with ⟨_ | _, c1, w4⟩ <;>
              rw [hr4] at h h4 <;> simp only at h h4
            · cases h
              exact balanced_trans hb3 (balanced_of_quiet
                (quiet_trans h4 (handlers_quiet env flags cfg w4)))
            · exact balanced_trans (balanced_trans hb3 (balanced_of_quiet h4))
                (restartLoop_balanced env flags cmd cfg maxRetries cond hf fuel c1 w4 s
                  (h4.2.trans hw3) h)
          · cases h
            exact balanced_trans hb3 (balanced_of_quiet (handlers_quiet env flags cfg w3))
        · -- the process has exited
          cases h
          exact balanced_trans hb2 h3
      · cases h
        exact balanced_of_quiet (quiet_trans h1 h2)
    · -- the port wait failed
      have h2 := quiet_readTerminating env w1
      rcases hr2 : readTerminating env w1 with ⟨_ | _, w2⟩ <;>
        rw [hr2] at h h2 <;> simp only at h h2
      · have h3 := quiet_trans (quiet_emit (.portWaitFailed err) w2 (by rfl))
          (handlePortWaitError_quiet env err maxRetries c (emit (.portWaitFailed err) w2))
        have hq2 : Quiet w w2 := quiet_trans h1 h2
        rcases hr3 : handlePortWaitError env err maxRetries c (emit (.portWaitFailed err) w2)
          with ⟨_ | _, c1, w3⟩ <;>
          rw [hr3] at h h3 <;> simp only at h h3
        · cases h
          exact balanced_of_quiet (quiet_trans hq2
            (quiet_trans h3 (handlers_quiet env flags cfg w3)))
        · have hq3 : Quiet w w3 := quiet_trans hq2 h3
          exact balanced_trans (balanced_of_quiet hq3)
            (restartLoop_balanced env flags cmd cfg maxRetries cond hf fuel c1 w3 s
              (hq3.2.trans hw) h)
      · cases h
        exact balanced_of_quiet (quiet_trans h1 h2)

theorem isShutdownEvent_notCounted (e : Event) (h : isShutdownEvent e = true) :
    notCounted e = true := by
  cases e <;> simp_all [isShutdownEvent, notCounted]

theorem gracefulShutdown_grows (env : Env) (w : World) :
    Grows (fun e => isShutdownEvent e = true) w (gracefulShutdown env w).world ∧
      (gracefulShutdown env w).world.AfterExecuted = w.AfterExecuted := by
  unfold gracefulShutdown readTerminating
  simp only
  split_ifs <;>
    first
    | exact ⟨⟨[Event.gracefulShutdown], rfl, by simp [isShutdownEvent]⟩, rfl⟩
    | exact ⟨⟨[Event.gracefulShutdown, Event.shuttingDown, Event.terminateAll, Event.killAll], by simp [Step.world, Navi.emit],
        by simp [isShutdownEvent]⟩, rfl⟩

theorem logError_grows (err : Option Err) (w : World) :
    Grows (fun e => isShutdownEvent e = true) w (logError err w) ∧
      (logError err w).AfterExecuted = w.AfterExecuted := by
  unfold logError
  rcases err with _ | e
  · exact ⟨grows_refl _ _, rfl⟩
  · simp only
    split_ifs
    · exact ⟨⟨[Event.errorLog e], rfl, by simp [isShutdownEvent]⟩, rfl⟩
    · exact ⟨grows_refl _ _, rfl⟩

/-- The end of `processCommandError`: nothing, or `gracefulShutdown`. -/
theorem processCommandError_tail (env : Env) (err : Option Err) (r : Option Err × World) :
    Grows (fun e => isShutdownEvent e = true) r.2
      (match err with
        | some e => if e.isTerminated then Step.ret () r.2 else gracefulShutdown env r.2
        | none => if r.1.isSome then gracefulShutdown env r.2 else Step.ret () r.2).world := by
  rcases err with _ | e
  · simp only
    split_ifs
    · exact (gracefulShutdown_grows env r.2).1
    · exact grows_refl _ _
  · simp only
    split_ifs
    · exact grows_refl _ _
    · exact (gracefulShutdown_grows env r.2).1

theorem afterCalls_grows {w1 w2 : World} (h : Grows (fun e => notCounted e = true) w1 w2) :
    afterCalls false w2.trace = afterCalls false w1.trace :=
  (@quiet_counts w1 { w2 with WatchExecuted := w1.WatchExecuted } ⟨h, rfl⟩).1

theorem grows_mono {P Q : Event → Prop} {w1 w2 : World} (hPQ : ∀ e, P e → Q e)
    (h : Grows P w1 w2) : Grows Q w1 w2 := by
  obtain ⟨a, ht, hp⟩ := h
  exact ⟨a, ht, fun e he => hPQ e (hp e he)⟩

/-- `processCommandError`, case by case: the panic of the deferred
`processWg.Done()` of `executeAfterHooks`, the call of `gracefulShutdown`, or
the return. -/
theorem processCommandError_eq (env : Env) (err : Option Err)
    (projectCmd : Option ProjectCommand) (w : World) :
    processCommandError env err projectCmd w =
      if afterHooksPanic env err projectCmd (logError err w) then
        .exit (emit .wgPanic (afterHooksWorld env err projectCmd (logError err w)))
      else if (err.all (fun e => !e.isTerminated) &&
          (err.isSome || (processAfterCommands env err projectCmd (logError err w)).1.isSome)) then
        gracefulShutdown env (processAfterCommands env err projectCmd (logError err w)).2
      else .ret () (processAfterCommands env err projectCmd (logError err w)).2 := by
  unfold processCommandError afterHooksPanic afterHooksWorld processAfterCommands
  simp only
  generalize logError err w = w1
  rcases projectCmd with _ | cmd
  · simp only [Step.bind, Bool.false_eq_true, if_false]
    rcases err with _ | e
    · simp
    · cases hT : e.isTerminated <;> simp [hT]
  · simp only
    by_cases ha : (!w1.AfterExecuted) = true
    · simp only [ha, if_true, Bool.true_and, decide_eq_true_eq]
      rcases hr : executeAfterHooks env cmd err false w1 with ⟨afterErr, w2⟩
      simp only
      by_cases hp : w2.processWg < 0
      · simp only [hp, if_true, Step.bind]
      · simp only [hp, if_false]
        rcases err with _ | e
        · rcases afterErr with _ | ae <;> simp [Step.bind]
        · rcases afterErr with _ | ae <;> cases hT : e.isTerminated <;> simp [Step.bind, hT]
    · simp only [ha, if_false, Bool.false_and, Bool.false_eq_true, Step.bind]
      rcases err with _ | e
      · simp
      · cases hT : e.isTerminated <;> simp [hT]

/-- `processCommandError` enters `executeAfterHooks` once when it is given a
node whose flag `AfterExecuted` is not set, and not at all otherwise. -/
theorem processCommandError_calls (env : Env) (err : Option Err)
    (projectCmd : Option ProjectCommand) (w : World) :
    afterCalls false (processCommandError env err projectCmd w).world.trace =
      afterCalls false w.trace +
        (if projectCmd.isSome = true ∧ w.AfterExecuted = false then 1 else 0) := by
  obtain ⟨hL, hLa⟩ := logError_grows err w
  have hcL := afterCalls_grows (grows_mono isShutdownEvent_notCounted hL)
  have htail : ∀ r : Option Err × World,
      afterCalls false
        (if (err.all (fun e => !e.isTerminated) && (err.isSome || r.1.isSome)) then
          gracefulShutdown env r.2 else Step.ret () r.2).world.trace =
        afterCalls false r.2.trace := by
    intro r
    refine afterCalls_grows (grows_mono isShutdownEvent_notCounted ?_)
    split_ifs
    · exact (gracefulShutdown_grows env r.2).1
    · exact grows_refl _ _
  rw [processCommandError_eq]
  generalize logError err w = w1 at hL hLa hcL ⊢
  rcases projectCmd with _ | cmd
  · have hp : afterHooksPanic env err none w1 = false := rfl
    rw [hp]
    simp only [Bool.false_eq_true, if_false]
    rw [htail]
    simp [processAfterCommands, hcL]
  · simp only [Option.isSome_some, true_and]
    by_cases ha : w.AfterExecuted = false
    · have ha1 : w1.AfterExecuted = false := hLa.trans ha
      simp only [ha, if_true]
      obtain ⟨⟨H, hH, hHq⟩, -⟩ := executeAfterHooks_trace env cmd err false w1
      have hc : ∀ X : List Event, (∀ e ∈ X, notCounted e = true) →
          afterCalls false (w1.trace ++ Event.afterHooks err false :: (H ++ X)) =
            afterCalls false w.trace + 1 := by
        intro X hX
        rw [afterCalls_append, hcL,
          show Event.afterHooks err false :: (H ++ X) = [Event.afterHooks err false] ++ (H ++ X)
            from rfl, afterCalls_append, afterCalls_append,
          afterCalls_quiet H (fun e he => notCounted_of_isHookEvent e (hHq e he)),
          afterCalls_quiet X hX]
        simp [afterCalls]
      by_cases hp : afterHooksPanic env err (some cmd) w1 = true
      · rw [if_pos hp]
        simp only [Step.world, afterHooksWorld, ha1, Bool.not_false, if_true, Navi.emit]
        rw [show (executeAfterHooks env cmd err false w1).2.trace = _ from hH]
        simpa using hc [Event.wgPanic] (by simp [notCounted])
      · rw [if_neg hp, htail]
        simp only [processAfterCommands, ha1, Bool.not_false, if_true]
        rcases hr : executeAfterHooks env cmd err false w1 with ⟨_ | afterErr, w2⟩
        · rw [hr] at hH
          simp only
          rw [show w2.trace = _ from hH]
          simpa using hc [] (by simp)
        · rw [hr] at hH
          simp only [Navi.emit]
          rw [show w2.trace = _ from hH]
          simpa using hc [Event.afterFailed false afterErr] (by simp [notCounted])
    · have ha2 : w.AfterExecuted = true := by simpa using ha
      have ha1 : w1.AfterExecuted = true := hLa.trans ha2
      have hp : afterHooksPanic env err (some cmd) w1 = false := by
        simp [afterHooksPanic, ha1]
      rw [hp]
      simp only [Bool.false_eq_true, if_false]
      rw [htail]
      simp [processAfterCommands, ha1, ha2, hcL]

/-- Once `AfterExecuted` is set, `processCommandError` runs no hook: it only
reports the error and shuts down. -/
theorem processCommandError_no_second_run (env : Env) (err : Option Err)
    (projectCmd : Option ProjectCommand) (w : World) (ha : w.AfterExecuted = true) :
    Grows (fun e => isShutdownEvent e = true) w
      (processCommandError env err projectCmd w).world := by
  obtain ⟨hL, hLa⟩ := logError_grows err w
  have ha1 : (logError err w).AfterExecuted = true := hLa.trans ha
  have hp : afterHooksPanic env err projectCmd (logError err w) = false := by
    rcases projectCmd with _ | cmd
    · rfl
    · simp [afterHooksPanic, ha1]
  have hw : (processAfterCommands env err projectCmd (logError err w)).2 = logError err w := by
    rcases projectCmd with _ | cmd
    · rfl
    · simp [processAfterCommands, ha1]
  rw [processCommandError_eq, hp, hw]
  simp only [Bool.false_eq_true, if_false]
  refine grows_trans hL ?_
  split_ifs
  · exact (gracefulShutdown_grows env _).1
  · exact grows_refl _ _

/-- The hooks that `executeAfterHooks` runs set the flag `AfterExecuted`. -/
theorem executeAfterHooks_sets_flag (env : Env) (cmd : ProjectCommand) (err : Option Err)
    (chg : Bool) (w : World)
    (hg : ((cmd.AfterCommand.isNone && cmd.ProjAfterCommand.isNone) ||
      w.suppressNewAfterCommands) = false) :
    (executeAfterHooks env cmd err chg w).2.AfterExecuted = true := by
  rw [executeAfterHooks_run env cmd err chg w hg, (wgDone_world_trace _).2.2.1]
  have h : Extends (fun e => isHookEvent e = true) (afterEntry err chg w)
      (andThen (executeAfterCommandSet env err chg cmd.AfterCommand false
        (afterEntry err chg w)) fun w =>
          andThen (executeAfterCommandSet env err chg cmd.ProjAfterCommand true w)
            fun w => (none, emit .afterCompleted w)).2 := by
    refine extends_andThen ?_ fun w1 => extends_andThen ?_ fun w2 => ?_
    · exact extends_mono (fun e h => h.1) (executeAfterCommandSet_extends _ _ _ _ _ _)
    · exact extends_mono (fun e h => h.1) (executeAfterCommandSet_extends _ _ _ _ _ _)
    · exact extends_emit _ _ rfl
  rw [h.2.2.1]
  rfl

/-- C5. For a node whose flag `WatchExecuted` is not yet set:
`executeCommandWithAfterHandling` enters `executeAfterHooks` once, right after
the run and with its result, when the node is not in watch mode, and not at
all when it is; in the restart loop of an entry that is not in watch mode
there are as many entries into `executeAfterHooks` as runs; and
`processCommandError` enters `executeAfterHooks` once when it is given a node
whose flag `AfterExecuted` is still false and never otherwise, in which case
it runs no hook at all. -/
theorem after_hooks_once_per_run (env : Env) (runnerFlags : RunnerFlags)
    (projectCmd : ProjectCommand) (cmdConfig : RunnerCommand) (maxRetries : Int)
    (restartCondition : String) (w : World) (hw : w.WatchExecuted = false) :
    afterCalls false (executeCommandWithAfterHandling env projectCmd w).world.trace =
      afterCalls false w.trace + (if hasFilesToWatch projectCmd then 0 else 1) ∧
    (hasFilesToWatch projectCmd = false →
      ∃ A r M B, (executeCommandWithAfterHandling env projectCmd w).world.trace =
          w.trace ++ A ++ Event.run r :: M ++ Event.afterHooks r false :: B ∧
        (∀ e ∈ A, notCounted e = true) ∧ (∀ e ∈ M, notCounted e = true) ∧
        (∀ e ∈ B, notCounted e = true)) ∧
    (hasFilesToWatch projectCmd = false → ∀ fuel s,
      executeRestartableCommand env runnerFlags projectCmd cmdConfig maxRetries
        restartCondition fuel w = some s →
      afterCalls false s.world.trace - afterCalls false w.trace =
        runCount s.world.trace - runCount w.trace) ∧
    (∀ err cmd w0,
      afterCalls false (processCommandError env err cmd w0).world.trace =
        afterCalls false w0.trace +
          (if cmd.isSome = true ∧ w0.AfterExecuted = false then 1 else 0)) ∧
    (∀ err cmd w0, w0.AfterExecuted = true →
      Grows (fun e => isShutdownEvent e = true) w0
        (processCommandError env err cmd w0).world) := by
  refine ⟨?_, ?_, ?_, processCommandError_calls env, processCommandError_no_second_run env⟩
  · by_cases hf : hasFilesToWatch projectCmd = true
    · rw [executeCommandWithAfterHandling_watch env projectCmd w hf, hf]
      rfl
    · have hf2 : hasFilesToWatch projectCmd = false := by simpa using hf
      obtain ⟨h1, -⟩ := executeCommandWithAfterHandling_balanced env projectCmd w hw hf2
      obtain ⟨A, r, M, B, ht, hA, hM, hB, -⟩ :=
        executeCommandWithAfterHandling_once env projectCmd w hw hf2
      have hrun : runCount (executeCommandWithAfterHandling env projectCmd w).world.trace =
          runCount w.trace + 1 := by
        rw [ht]
        simp only [runCount_append, runCount_quiet A hA,
          show Event.run r :: M = [Event.run r] ++ M from rfl,
          show Event.afterHooks r false :: B = [Event.afterHooks r false] ++ B from rfl,
          runCount_quiet M hM, runCount_quiet B hB]
        simp [runCount]
      rw [hf2]
      simp only [Bool.false_eq_true, if_false]
      omega
  · intro hf
    obtain ⟨A, r, M, B, ht, hA, hM, hB, -⟩ :=
      executeCommandWithAfterHandling_once env projectCmd w hw hf
    exact ⟨A, r, M, B, ht, hA, hM, hB⟩
  · intro hf fuel s hs
    unfold executeRestartableCommand at hs
    have hq : Quiet w (emit (.startingAutoRestart maxRetries) w) := quiet_emit _ _ (by rfl)
    have hb := balanced_trans (balanced_of_quiet hq)
      (restartLoop_balanced env runnerFlags projectCmd cmdConfig maxRetries restartCondition hf
        fuel 0 _ s (hq.2.trans hw) hs)
    have := hb.1
    omega

/-- Witness of C5: an entry that restarts on success with two retries, every
process succeeding: three runs and three entries into `executeAfterHooks`. -/
theorem after_hooks_once_per_run_witness :
    ∃ s, executeRestartableCommand envOk noFlags cmdWithAfter plainEntry 2 "success" 5 world0 =
        some s ∧
      runCount s.world.trace = 3 ∧ afterCalls false s.world.trace = 3 := by
  have h := (after_hooks_once_per_run envOk noFlags cmdWithAfter plainEntry 2 "success" world0
    rfl).2.2.1 rfl 5
  have he : ∃ s, executeRestartableCommand envOk noFlags cmdWithAfter plainEntry 2 "success" 5
      world0 = some s ∧ runCount s.world.trace = 3 := by
    refine ⟨_, rfl, ?_⟩
    decide
  obtain ⟨s, hs, hr⟩ := he
  have h2 := h s hs
  rw [hr] at h2
  refine ⟨s, hs, hr, ?_⟩
  have h0 : afterCalls false world0.trace = 0 := rfl
  have h1 : runCount world0.trace = 0 := rfl
  omega

/-! ## The after hooks of a run in watch mode (C6) -/

/-- C6, the code at the failing input. A watched command whose process exits
with status zero on its own, no file having changed: the run returns nil, not
`ErrWatchModeRestart`, yet the goroutine enters `executeAfterHooks` with
`isAfterChange = true` and the `change` child is run. -/
theorem watchCycle_change_without_restart :
    hasFilesToWatch cmdWatched = true ∧
    (executeOneTime envOk true cmdWatched world0).1 = none ∧
    Event.afterHooks none true ∈ (watchCycle envOk cmdWatched world0).world.trace ∧
    Event.afterHooks none false ∉ (watchCycle envOk cmdWatched world0).world.trace ∧
    Event.runningAfter false ".change" ∈ (watchCycle envOk cmdWatched world0).world.trace := by
  decide

/-! ## Sequencing of the entries of a runner (C7) -/

theorem sched_inv_init (cfg : List RunnerExecution) : Sched.Inv cfg Sched.init := by
  refine ⟨fun i h => ?_, fun i h => ?_, fun i _ _ h _ => ?_, fun i h => ?_⟩
  · exact absurd rfl h
  · simp [Sched.init] at h
  · exact absurd rfl h
  · simp [Sched.init] at h

theorem sched_inv_step (cfg : List RunnerExecution) (s : Sched) (a : Action)
    (h : Sched.Inv cfg s) : Sched.Inv cfg (Sched.step cfg s a) := by
  obtain ⟨h1, h2, h3, h4⟩ := h
  cases a with
  | wake i =>
    simp only [Sched.step]
    split_ifs with hg
    · obtain ⟨-, hp, hc⟩ := hg
      refine ⟨fun j hj => ?_, fun j hj => ?_, fun j hs ht hj1 hj2 => ?_, fun j hj hs => ?_⟩
      · by_cases e : j = i
        · subst e; exact hc
        · simp only [Function.update_noteq e] at hj; exact h1 j hj
      · by_cases e : j = i
        · subst e
          have := h2 j hj
          rcases hsj : serialOf cfg j with _ | _
          · exact absurd hp (this.2 hsj).1
          · rw [(this.1 hsj)] at hp; cases hp
        · simp only [Function.update_noteq e]; exact h2 j hj
      · by_cases e : j = i
        · subst e; simp at hj2
        · simp only [Function.update_noteq e] at hj1 hj2; exact h3 j hs ht hj1 hj2
      · by_cases e : j = i
        · subst e; simp at hj
        · simp only [Function.update_noteq e] at hj; exact h4 j hj hs
    · exact ⟨h1, h2, h3, h4⟩
  | release i =>
    simp only [Sched.step]
    split_ifs with hg
    · have hci : s.closed i = true := h1 i (by rw [hg]; simp)
      refine ⟨fun j hj => ?_, fun j hj => ?_, fun j hs ht hj1 hj2 => ?_, fun j hj hs => ?_⟩
      · have hphase : s.phase j ≠ .waiting := by
          by_cases e : j = i
          · subst e; rw [hg]; simp
          · simpa only [Function.update_noteq e] using hj
        have := h1 j hphase
        simp only [Sched.closeNext]
        split_ifs
        · simp only [Function.update_apply]
          split_ifs <;> simp [this]
        · exact this
      · simp only [Sched.closeNext] at hj ⊢
        split_ifs at hj with hb
        · simp only [Bool.and_eq_true, Bool.not_eq_true'] at hb
          by_cases e : j = i
          · subst e
            simp [hb.1]
          · have e2 : j + 1 ≠ i + 1 := fun h => e (by omega)
            simp only [Function.update_noteq e2] at hj
            simp only [Function.update_noteq e]
            exact h2 j hj
        · by_cases e : j = i
          · subst e
            have := h2 j hj
            rcases hsj : serialOf cfg j with _ | _
            · exact absurd hg (this.2 hsj).2
            · rw [(this.1 hsj)] at hg; cases hg
          · simp only [Function.update_noteq e]
            exact h2 j hj
      · simp only [Sched.closeNext] at ht ⊢
        by_cases e : j = i
        · subst e
          have hb : (!serialOf cfg j && !s.terminating) = true := by
            have ht' : s.terminating = false := by split_ifs at ht <;> exact ht
            simp [hs, ht']
          simp [hb]
        · have e2 : j + 1 ≠ i + 1 := fun h => e (by omega)
          simp only [Function.update_noteq e] at hj1 hj2
          have ht' : s.terminating = false := by split_ifs at ht <;> exact ht
          have := h3 j hs ht' hj1 hj2
          split_ifs
          · simp only [Function.update_noteq e2]; exact this
          · exact this
      · have ht' : s.terminating = true := by
          by_cases e : j = i
          · subst e; simp at hj
          · simp only [Function.update_noteq e] at hj; exact h4 j hj hs
        simp only [Sched.closeNext]
        split_ifs <;> exact ht'
    · exact ⟨h1, h2, h3, h4⟩
  | portFail i =>
    simp only [Sched.step]
    split_ifs with hg
    · obtain ⟨hp, -, hterm⟩ := hg
      refine ⟨fun j hj => ?_, fun j hj => ?_, fun j hs ht hj1 hj2 => ?_, fun j hj hs => ?_⟩
      · by_cases e : j = i
        · subst e; exact h1 j (by rw [hp]; simp)
        · simp only [Function.update_noteq e] at hj; exact h1 j hj
      · by_cases e : j = i
        · subst e
          have := h2 j hj
          rcases hsj : serialOf cfg j with _ | _
          · simp
          · rw [(this.1 hsj)] at hp; cases hp
        · simp only [Function.update_noteq e]; exact h2 j hj
      · by_cases e : j = i
        · subst e; exact h3 j hs hterm (by rw [hp]; simp) (by rw [hp]; simp)
        · simp only [Function.update_noteq e] at hj1 hj2; exact h3 j hs hterm hj1 hj2
      · by_cases e : j = i
        · subst e; simp [hs]
        · simp only [Function.update_noteq e] at hj
          have := h4 j hj hs
          rw [hterm] at this; cases this
    · exact ⟨h1, h2, h3, h4⟩
  | innerClose i =>
    simp only [Sched.step]
    split_ifs with hg
    · have hb : (serialOf cfg i && !s.terminating) = false := by
        rcases hsi : serialOf cfg i with _ | _
        · simp
        · simp [h4 i hg hsi]
      simp only [Sched.closeNext, hb, Bool.false_eq_true, if_false]
      refine ⟨fun j hj => ?_, fun j hj => ?_, fun j hs ht hj1 hj2 => ?_, fun j hj hs => ?_⟩
      · by_cases e : j = i
        · subst e; exact h1 j (by rw [hg]; simp)
        · simp only [Function.update_noteq e] at hj; exact h1 j hj
      · by_cases e : j = i
        · subst e
          have := h2 j hj
          rcases hsj : serialOf cfg j with _ | _
          · simp
          · rw [(this.1 hsj)] at hg; cases hg
        · simp only [Function.update_noteq e]; exact h2 j hj
      · by_cases e : j = i
        · subst e; exact h3 j hs ht (by rw [hg]; simp) (by rw [hg]; simp)
        · simp only [Function.update_noteq e] at hj1 hj2; exact h3 j hs ht hj1 hj2
      · by_cases e : j = i
        · subst e; simp at hj
        · simp only [Function.update_noteq e] at hj; exact h4 j hj hs
    · exact ⟨h1, h2, h3, h4⟩
  | cycleReturn i b =>
    simp only [Sched.step]
    split_ifs with hg
    · refine ⟨fun j hj => ?_, fun j hj => ?_, fun j hs ht hj1 hj2 => ?_, fun j hj hs => ?_⟩
      · by_cases e : j = i
        · subst e; exact h1 j (by rw [hg]; simp)
        · simp only [Function.update_noteq e] at hj; exact h1 j hj
      · by_cases e : j = i
        · subst e
          have := h2 j hj
          rcases hsj : serialOf cfg j with _ | _
          · simp
          · rw [(this.1 hsj)] at hg; cases hg
        · simp only [Function.update_noteq e]; exact h2 j hj
      · simp only [Bool.or_eq_false_iff] at ht
        by_cases e : j = i
        · subst e; exact h3 j hs ht.1 (by rw [hg]; simp) (by rw [hg]; simp)
        · simp only [Function.update_noteq e] at hj1 hj2; exact h3 j hs ht.1 hj1 hj2
      · by_cases e : j = i
        · subst e; simp at hj
        · simp only [Function.update_noteq e] at hj; simp [h4 j hj hs]
    · exact ⟨h1, h2, h3, h4⟩
  | finalClose i =>
    simp only [Sched.step]
    split_ifs with hg
    · refine ⟨fun j hj => ?_, fun j hj => ?_, fun j hs ht hj1 hj2 => ?_, fun j hj hs => ?_⟩
      · have hphase : s.phase j ≠ .waiting := by
          by_cases e : j = i
          · subst e; rw [hg]; simp
          · simpa only [Function.update_noteq e] using hj
        have := h1 j hphase
        simp only [Sched.closeNext]
        split_ifs
        · simp only [Function.update_apply]
          split_ifs <;> simp [this]
        · exact this
      · by_cases e : j = i
        · subst e; simp
        · have e2 : j + 1 ≠ i + 1 := fun h => e (by omega)
          simp only [Sched.closeNext] at hj ⊢
          simp only [Function.update_noteq e]
          split_ifs at hj
          · simp only [Function.update_noteq e2] at hj; exact h2 j hj
          · exact h2 j hj
      · simp only [Sched.closeNext] at ht ⊢
        have ht' : s.terminating = false := by split_ifs at ht <;> exact ht
        have hj' : s.closed (j + 1) = true := by
          by_cases e : j = i
          · subst e; exact h3 j hs ht' (by rw [hg]; simp) (by rw [hg]; simp)
          · simp only [Function.update_noteq e] at hj1 hj2; exact h3 j hs ht' hj1 hj2
        split_ifs
        · simp only [Function.update_apply]
          split_ifs <;> simp [hj']
        · exact hj'
      · have ht' : s.terminating = true := by
          by_cases e : j = i
          · subst e; simp at hj
          · simp only [Function.update_noteq e] at hj; exact h4 j hj hs
        simp only [Sched.closeNext]
        split_ifs <;> exact ht'
    · exact ⟨h1, h2, h3, h4⟩
  | shutdown =>
    simp only [Sched.step]
    refine ⟨h1, h2, fun j _ ht _ _ => ?_, fun _ _ _ => rfl⟩
    simp at ht

theorem sched_inv_run (cfg : List RunnerExecution) (acts : List Action) :
    Sched.Inv cfg (Sched.run cfg acts) := by
  unfold Sched.run
  induction acts using List.reverseRecOn with
  | nil => exact sched_inv_init cfg
  | append_singleton l a ih =>
    rw [List.foldl_append]
    exact sched_inv_step cfg _ a ih

/-- C7. In every state the goroutines of a runner can reach: an entry that
has started has received its start signal; a non-serial entry that has begun
its cycle has already released its successor (unless the shutdown flag was
set); a serial entry has released its successor only once its goroutine is
over; hence when entry `i` is serial, entry `i + 1` has not started before
entry `i` has completed. A runner-wide serial flag makes every entry serial. -/
theorem serial_entry_blocks_successor (cfg : List RunnerExecution) (acts : List Action)
    (i : Nat) :
    ((Sched.run cfg acts).started i = true → (Sched.run cfg acts).closed i = true) ∧
    (serialOf cfg i = false → (Sched.run cfg acts).inCycle i = true →
      (Sched.run cfg acts).terminating = false →
      (Sched.run cfg acts).closed (i + 1) = true) ∧
    (serialOf cfg i = true → (Sched.run cfg acts).closed (i + 1) = true →
      (Sched.run cfg acts).phase i = .done) ∧
    (serialOf cfg i = true → (Sched.run cfg acts).started (i + 1) = true →
      (Sched.run cfg acts).completed i = true) ∧
    ∀ (c : RunnerCommand) (serial dependent : Option Bool) (flags : RunnerFlags),
      (parseCommandFlags c serial dependent flags).Serial =
        (flags.Serial || serial.getD c.Serial) := by
  obtain ⟨h1, h2, h3, -⟩ := sched_inv_run cfg acts
  refine ⟨fun h => h1 i (by simpa [Sched.started] using h), fun hs hc ht => ?_,
    fun hs hc => (h2 i hc).1 hs, fun hs hst => ?_, fun c serial dependent flags => ?_⟩
  · simp only [Sched.inCycle, Bool.and_eq_true, bne_iff_ne, ne_eq] at hc
    exact h3 i hs ht hc.1 hc.2
  · have hc := h1 (i + 1) (by simpa [Sched.started] using hst)
    simp [Sched.completed, (h2 i hc).1 hs]
  · unfold parseCommandFlags
    cases serial <;> cases dependent <;> cases hf : flags.Serial <;>
      cases hd : flags.Dependent <;> simp

/-- Witness of C7: the first of two entries is serial; once the second entry
has started, the first has completed. -/
theorem serial_entry_blocks_successor_witness :
    (Sched.run twoEntries
      [.wake 0, .release 0, .cycleReturn 0 false, .finalClose 0, .wake 1]).started 1 = true ∧
    (Sched.run twoEntries
      [.wake 0, .release 0, .cycleReturn 0 false, .finalClose 0, .wake 1]).completed 0 = true :=
  ⟨by decide, (serial_entry_blocks_successor twoEntries
    [.wake 0, .release 0, .cycleReturn 0 false, .finalClose 0, .wake 1] 0).2.2.2.1
      (by decide) (by decide)⟩

/-! ## Runs as the runner sees them (C8, C9, C10) -/

theorem inner_refl (w : World) : Inner w w :=
  ⟨grows_refl _ w, id⟩

theorem inner_trans {w1 w2 w3 : World} (h1 : Inner w1 w2) (h2 : Inner w2 w3) : Inner w1 w3 :=
  ⟨grows_trans h1.1 h2.1, fun h => h2.2 (h1.2 h)⟩

theorem inner_emit (e : Event) (w : World) (he : isRunnerEvent e = false) :
    Inner w (emit e w) :=
  ⟨⟨[e], rfl, by simpa using he⟩, id⟩

theorem inner_of_extends {P : Event → Prop} {w1 w2 : World}
    (hP : ∀ e, P e → isRunnerEvent e = false) (h : Extends P w1 w2) : Inner w1 w2 :=
  ⟨grows_of_extends hP h, h.2.2.2.2.2⟩

theorem isRunnerEvent_of_isHookEvent (e : Event) (h : isHookEvent e = true) :
    isRunnerEvent e = false := by
  cases e <;> simp_all [isHookEvent, isPlain, isRunnerEvent, isLoopEvent]

theorem isRunnerEvent_of_isPlain (e : Event) (h : isPlain e = true) :
    isRunnerEvent e = false :=
  isRunnerEvent_of_isHookEvent e (isHookEvent_of_isPlain e h)

theorem inner_readTerminating (env : Env) (w : World) : Inner w (readTerminating env w).2 :=
  inner_of_extends (P := fun _ => False) (fun _ h => h.elim) (extends_readTerminating _ env w)

theorem readTerminating_flag (env : Env) (w : World) :
    (readTerminating env w).2.TerminatingProcesses = (readTerminating env w).1 :=
  rfl

theorem termOk_andThen {r : Option Err × World} {k : World → Option Err × World}
    (h1 : TermOk r.1 r.2) (h2 : ∀ w1, TermOk (k w1).1 (k w1).2) :
    TermOk (andThen r k).1 (andThen r k).2 := by
  rcases r with ⟨_ | e, w1⟩
  · exact h2 w1
  · exact h1

theorem termOk_hookResult {role : String} {r : Option Err × World} (h : TermOk r.1 r.2) :
    TermOk (hookResult role r).1 (hookResult role r).2 := by
  rcases r with ⟨_ | e, w1⟩
  · exact h
  · intro e' he' ht
    simp only [hookResult, Option.some.injEq] at he'
    subst he'
    apply h e rfl
    unfold preserveWatchModeErrorState at ht
    split_ifs at ht with hc
    · exact ht
    · simp [Err.isTerminated] at ht

theorem termOk_none (w : World) : TermOk none w :=
  fun _ h => by cases h

theorem sentinelOr_termOk (env : Env) (wd ia rs : Bool) (res : Option Err) (w : World)
    (hres : ∀ e, res = some e → e.isTerminated = false) :
    TermOk (sentinelOr env wd ia rs res w).1 (sentinelOr env wd ia rs res w).2 := by
  unfold sentinelOr
  simp only
  split_ifs with h1 h2
  · intro _ _ _
    rw [readTerminating_flag]
    simp only [Bool.and_eq_true] at h1
    exact h1.1
  · intro e he ht
    simp only [Option.some.injEq] at he
    subst he
    simp [Err.isTerminated] at ht
  · intro e he ht
    rw [hres e he] at ht
    cases ht

theorem executeSingleCommand_termOk (env : Env) (wd ia : Bool) (cmds : List String)
    (w : World) :
    TermOk (executeSingleCommand env wd ia cmds w).1 (executeSingleCommand env wd ia cmds w).2 := by
  unfold executeSingleCommand
  simp only
  split
  · intro e he ht
    simp only [Option.some.injEq] at he
    subst he
    simp [Err.isTerminated] at ht
  · exact sentinelOr_termOk _ _ _ _ _ _ (fun e he => by cases he; rfl)
  · exact sentinelOr_termOk _ _ _ _ _ _ (fun e he => by cases he; rfl)
  · exact sentinelOr_termOk _ _ _ _ _ _ (fun e he => by cases he)

theorem executeCommand_termOk (env : Env) (wd ia : Bool) :
    ∀ (cmd : ProjectCommand) (isMain : Bool) (w : World),
      TermOk (executeCommand env wd ia cmd isMain w).1 (executeCommand env wd ia cmd isMain w).2
  | .mk cl wi pp p po ppo a b c d e f, isMain, w => by
    rw [executeCommand_mk]
    refine termOk_andThen ?_ fun w1 => termOk_andThen ?_ fun w2 =>
      termOk_andThen ?_ fun w3 => termOk_andThen ?_ fun w4 => ?_
    · match pp with
      | none => exact termOk_none _
      | some h =>
        simp only
        split_ifs
        · exact termOk_hookResult (executeCommand_termOk env wd ia h false _)
        · exact termOk_none _
    · match p with
      | none => exact termOk_none _
      | some h => exact termOk_hookResult (executeCommand_termOk env wd ia h false _)
    · exact executeSingleCommand_termOk env wd ia cl _
    · match po with
      | none => exact termOk_none _
      | some h => exact termOk_hookResult (executeCommand_termOk env wd ia h false _)
    · match ppo with
      | none => exact termOk_none _
      | some h =>
        simp only
        split_ifs
        · exact termOk_hookResult (executeCommand_termOk env wd ia h false _)
        · exact termOk_none _

theorem inner_wgDone (r : Option Err × World) : Inner r.2 (wgDone r).2 :=
  ⟨⟨[], by simp [wgDone], by simp⟩, id⟩

theorem executeOneTime_inner (env : Env) (wd : Bool) (cmd : ProjectCommand) (w : World) :
    Inner w (executeOneTime env wd cmd w).2 ∧
      TermOk (executeOneTime env wd cmd w).1 (executeOneTime env wd cmd w).2 := by
  unfold executeOneTime
  simp only
  have h0 : ∀ w0 : World, Inner w0 (match executeCommand env wd false cmd true w0 with
      | (none, w3) => (none, emit .commandsCompleted w3)
      | (some e, w3) => (some e, w3)).2 ∧
      TermOk (match executeCommand env wd false cmd true w0 with
      | (none, w3) => (none, emit .commandsCompleted w3)
      | (some e, w3) => (some e, w3)).1 (match executeCommand env wd false cmd true w0 with
      | (none, w3) => (none, emit .commandsCompleted w3)
      | (some e, w3) => (some e, w3)).2 := by
    intro w0
    have h := inner_of_extends isRunnerEvent_of_isPlain
      (executeCommand_extends env wd false cmd true w0)
    have ht := executeCommand_termOk env wd false cmd true w0
    rcases hr : executeCommand env wd false cmd true w0 with ⟨_ | e, w3⟩
    · rw [hr] at h
      exact ⟨inner_trans h (inner_emit _ _ rfl), termOk_none _⟩
    · rw [hr] at h ht
      exact ⟨h, ht⟩
  constructor
  · refine inner_trans ?_ (inner_trans (h0 _).1 (inner_wgDone _))
    split_ifs
    · exact ⟨⟨[], by simp, by simp⟩, id⟩
    · exact ⟨⟨[], by simp, by simp⟩, id⟩
  · exact (h0 _).2

theorem executeAfterHooks_inner (env : Env) (cmd : ProjectCommand) (err : Option Err)
    (chg : Bool) (w : World) : Inner w (executeAfterHooks env cmd err chg w).2 := by
  by_cases hg : ((cmd.AfterCommand.isNone && cmd.ProjAfterCommand.isNone) ||
      w.suppressNewAfterCommands) = true
  · rw [executeAfterHooks_guard env cmd err chg w hg]
    exact inner_emit _ _ rfl
  · rw [executeAfterHooks_run env cmd err chg w (Bool.eq_false_iff.2 hg)]
    have h : Extends (fun e => isHookEvent e = true) (afterEntry err chg w)
        (andThen (executeAfterCommandSet env err chg cmd.AfterCommand false
          (afterEntry err chg w)) fun w =>
            andThen (executeAfterCommandSet env err chg cmd.ProjAfterCommand true w)
              fun w => (none, emit .afterCompleted w)).2 := by
      refine extends_andThen ?_ fun w1 => extends_andThen ?_ fun w2 => ?_
      · exact extends_mono (fun e h => h.1) (executeAfterCommandSet_extends _ _ _ _ _ _)
      · exact extends_mono (fun e h => h.1) (executeAfterCommandSet_extends _ _ _ _ _ _)
      · exact extends_emit _ _ rfl
    have h0 : Inner w (afterEntry err chg w) :=
      ⟨⟨[Event.afterHooks err chg], rfl, by simp [isRunnerEvent, isLoopEvent]⟩, id⟩
    exact inner_trans h0 (inner_trans (inner_of_extends isRunnerEvent_of_isHookEvent h)
      (inner_wgDone _))

theorem gracefulShutdown_inner (env : Env) (w : World) :
    Inner w (gracefulShutdown env w).world ∧
      (gracefulShutdown env w).world.TerminatingProcesses = true := by
  unfold gracefulShutdown readTerminating
  simp only
  split_ifs with h
  · exact ⟨⟨⟨[Event.gracefulShutdown], rfl, by simp [isRunnerEvent, isLoopEvent]⟩,
      fun _ => h⟩, h⟩
  · exact ⟨⟨⟨[Event.gracefulShutdown], rfl, by simp [isRunnerEvent, isLoopEvent]⟩,
      fun _ => rfl⟩, rfl⟩
  · exact ⟨⟨⟨[Event.gracefulShutdown, Event.shuttingDown, Event.terminateAll, Event.killAll], by simp [Step.world, Navi.emit],
      by simp [isRunnerEvent, isLoopEvent]⟩, fun _ => rfl⟩, rfl⟩

theorem gracefulShutdown_exit_flag (env : Env) (w w1 : World)
    (h : gracefulShutdown env w = .exit w1) : w1.TerminatingProcesses = true := by
  have := (gracefulShutdown_inner env w).2
  rw [h] at this
  exact this

theorem step_bind_inner {α β : Type} {w : World} {s : Step α} {k : α → World → Step β}
    (h1 : Inner w s.world) (h2 : ∀ a w1, Inner w1 (k a w1).world) :
    Inner w (s.bind k).world := by
  cases s with
  | ret a w1 => exact inner_trans h1 (h2 a w1)
  | exit w1 => exact h1

theorem termOk_mono {r : Option Err} {w1 w2 : World} (h : TermOk r w1)
    (hm : w1.TerminatingProcesses = true → w2.TerminatingProcesses = true) : TermOk r w2 :=
  fun e he ht => hm (h e he ht)

theorem watchCycle_ok (env : Env) (cmd : ProjectCommand) (w : World) :
    StepOk w (watchCycle env cmd w) := by
  unfold watchCycle
  obtain ⟨h1, ht1⟩ := executeOneTime_inner env true cmd w
  rcases hr1 : executeOneTime env true cmd w with ⟨execErr, w1⟩
  rw [hr1] at h1 ht1
  have h2 := executeAfterHooks_inner env cmd execErr true w1
  simp only
  rcases hr2 : executeAfterHooks env cmd execErr true w1 with ⟨_ | afterErr, w2⟩
  · rw [hr2] at h2
    refine ⟨inner_trans h1 h2, fun r w' h => ?_, fun w' h => by cases h⟩
    cases h
    exact termOk_mono ht1 h2.2
  · rw [hr2] at h2
    have h3 : Inner w2 (emit (.afterFailed true afterErr) w2) := inner_emit _ _ rfl
    obtain ⟨h4, h4f⟩ := gracefulShutdown_inner env (emit (.afterFailed true afterErr) w2)
    simp only
    rcases hr3 : gracefulShutdown env (emit (.afterFailed true afterErr) w2) with ⟨u, w3⟩ | w3
    · rw [hr3] at h4
      have hi : Inner w w3 := inner_trans h1 (inner_trans h2 (inner_trans h3 h4))
      simp only [Step.bind]
      refine ⟨hi, fun r w' h => ?_, fun w' h => by cases h⟩
      cases h
      exact termOk_mono ht1 (inner_trans h2 (inner_trans h3 h4)).2
    · rw [hr3] at h4 h4f
      simp only [Step.bind]
      refine ⟨inner_trans h1 (inner_trans h2 (inner_trans h3 h4)), fun r w' h => (by cases h),
        fun w' h => ?_⟩
      cases h
      exact h4f

theorem stepOk_bind {w : World} {s : Step (Option Err)} {k : Option Err → World → Step (Option Err)}
    (h1 : StepOk w s) (h2 : ∀ r w1, s = .ret r w1 → StepOk w1 (k r w1)) :
    StepOk w (s.bind k) := by
  cases s with
  | ret r w1 =>
    obtain ⟨a, b, c⟩ := h2 r w1 rfl
    simp only [Step.bind]
    exact ⟨inner_trans h1.1 a, b, c⟩
  | exit w1 =>
    simp only [Step.bind]
    exact ⟨h1.1, fun r w' h => (by cases h), fun w' h => by cases h; exact h1.2.2 w1 rfl⟩

theorem stepOk_ret {r : Option Err} {w : World} (h : TermOk r w) : StepOk w (.ret r w) :=
  ⟨inner_refl w, fun r' w' h' => by cases h'; exact h, fun w' h' => by cases h'⟩

theorem watchLoop_ok (env : Env) (cmd : ProjectCommand) :
    ∀ (n : Nat) (w : World), StepOk w (watchLoop env cmd n w)
  | 0, w => by
    unfold watchLoop
    refine stepOk_bind (watchCycle_ok env cmd w) fun execErr w1 hr => ?_
    have ht := (watchCycle_ok env cmd w).2.1 execErr w1 hr
    rcases execErr with _ | e
    · exact stepOk_ret (termOk_none _)
    · simp only
      split_ifs
      · exact stepOk_ret (termOk_none _)
      · exact stepOk_ret ht
  | n + 1, w => by
    unfold watchLoop
    refine stepOk_bind (watchCycle_ok env cmd w) fun execErr w1 hr => ?_
    have ht := (watchCycle_ok env cmd w).2.1 execErr w1 hr
    rcases execErr with _ | e
    · exact watchLoop_ok env cmd n w1
    · simp only
      split_ifs
      · exact watchLoop_ok env cmd n w1
      · exact stepOk_ret ht

theorem execute_ok (env : Env) (cmd : ProjectCommand) (w : World) :
    StepOk w (execute env cmd w) := by
  unfold execute
  split_ifs
  · unfold executeWithFileWatcher
    have h0 : Inner w { emit .startingWatch w with WatchExecuted := true } :=
      ⟨⟨[Event.startingWatch], rfl, by simp [isRunnerEvent, isLoopEvent]⟩, id⟩
    simp only
    split
    · refine ⟨h0, fun r w' h => ?_, fun w' h => by cases h⟩
      cases h
      intro e he ht
      cases he
      simp [Err.isTerminated] at ht
    · obtain ⟨a, b, c⟩ := watchLoop_ok env cmd env.changes
        { emit .startingWatch w with WatchExecuted := true }
      exact ⟨inner_trans h0 a, b, c⟩
  · obtain ⟨h1, ht1⟩ := executeOneTime_inner env false cmd w
    rcases hr1 : executeOneTime env false cmd w with ⟨r, w1⟩
    rw [hr1] at h1 ht1
    exact ⟨h1, fun r' w' h => by cases h; exact ht1, fun w' h => by cases h⟩

theorem proj_of_inner {w1 w2 : World} (h : Inner w1 w2) : Proj w1 w2 [] := by
  obtain ⟨⟨E, ht, hE⟩, -⟩ := h
  refine ⟨E, ht, ?_⟩
  rw [List.filter_eq_nil_iff]
  intro e he
  simp [hE e he]

theorem proj_trans {w1 w2 w3 : World} {L1 L2 : List Event} (h1 : Proj w1 w2 L1)
    (h2 : Proj w2 w3 L2) : Proj w1 w3 (L1 ++ L2) := by
  obtain ⟨E1, ht1, hE1⟩ := h1
  obtain ⟨E2, ht2, hE2⟩ := h2
  exact ⟨E1 ++ E2, by rw [ht2, ht1, List.append_assoc], by rw [List.filter_append, hE1, hE2]⟩

theorem proj_emit (e : Event) (w : World) (he : isRunnerEvent e = true) :
    Proj w (emit e w) [e] :=
  ⟨[e], rfl, by simp [he]⟩

theorem proj_inner_left {w1 w2 w3 : World} {L : List Event} (h1 : Inner w1 w2)
    (h2 : Proj w2 w3 L) : Proj w1 w3 L := by
  simpa using proj_trans (proj_of_inner h1) h2

theorem proj_inner_right {w1 w2 w3 : World} {L : List Event} (h1 : Proj w1 w2 L)
    (h2 : Inner w2 w3) : Proj w1 w3 L := by
  simpa using proj_trans h1 (proj_of_inner h2)

theorem logError_inner (err : Option Err) (w : World) : Inner w (logError err w) := by
  unfold logError
  rcases err with _ | e
  · exact inner_refl _
  · simp only
    split_ifs
    · exact inner_emit _ _ rfl
    · exact inner_refl _

theorem logError_flag (err : Option Err) (w : World) :
    (logError err w).TerminatingProcesses = w.TerminatingProcesses := by
  unfold logError
  rcases err with _ | e
  · rfl
  · simp only
    split_ifs <;> rfl

/-- What the runner sees of `executeCommandWithAfterHandling`: one run, and a
process that exits only with the shutdown flag set. -/
theorem executeCommandWithAfterHandling_proj (env : Env) (cmd : ProjectCommand) (w : World) :
    (w.TerminatingProcesses = true →
      (executeCommandWithAfterHandling env cmd w).world.TerminatingProcesses = true) ∧
    (∀ r w1, executeCommandWithAfterHandling env cmd w = .ret r w1 →
      Proj w w1 [Event.run r] ∧ TermOk r w1) ∧
    (∀ w1, executeCommandWithAfterHandling env cmd w = .exit w1 →
      (Proj w w1 [] ∨ ∃ r, Proj w w1 [Event.run r]) ∧ w1.TerminatingProcesses = true) := by
  unfold executeCommandWithAfterHandling
  obtain ⟨hi, hret, hexit⟩ := execute_ok env cmd w
  rcases hr : execute env cmd w with ⟨err, w1⟩ | w1
  · rw [hr] at hi
    have hi1 : Inner w w1 := hi
    have ht1 : TermOk err w1 := hret err w1 hr
    simp only [step_bind_ret]
    have hp3 : Proj w (logError err (emit (.run err) w1)) [Event.run err] :=
      proj_inner_right (proj_inner_left hi1 (proj_emit _ _ rfl)) (logError_inner _ _)
    have hm3 : w1.TerminatingProcesses = true →
        (logError err (emit (.run err) w1)).TerminatingProcesses = true := by
      intro hh
      rw [logError_flag]
      exact hh
    generalize logError err (emit (.run err) w1) = w3 at hp3 hm3 ⊢
    split_ifs
    · have h4 := executeAfterHooks_inner env cmd err false w3
      rcases hr4 : executeAfterHooks env cmd err false w3 with ⟨_ | afterErr, w4⟩
      · rw [hr4] at h4
        simp only
        refine ⟨fun h => h4.2 (hm3 (hi1.2 h)), fun r w' h => ?_, fun w' h => by cases h⟩
        cases h
        exact ⟨proj_inner_right hp3 h4, termOk_mono ht1 fun h => h4.2 (hm3 h)⟩
      · rw [hr4] at h4
        simp only
        have h5 : Inner w4 (emit (.afterFailed false afterErr) w4) := inner_emit _ _ rfl
        obtain ⟨h6, h6f⟩ := gracefulShutdown_inner env (emit (.afterFailed false afterErr) w4)
        rcases hr6 : gracefulShutdown env (emit (.afterFailed false afterErr) w4) with
          ⟨u, w5⟩ | w5
        · rw [hr6] at h6
          have hin : Inner w3 w5 := inner_trans h4 (inner_trans h5 h6)
          simp only [Step.bind, Step.world]
          refine ⟨fun h => hin.2 (hm3 (hi1.2 h)), fun r w' h => ?_, fun w' h => by cases h⟩
          cases h
          exact ⟨proj_inner_right hp3 hin, termOk_mono ht1 fun h => hin.2 (hm3 h)⟩
        · rw [hr6] at h6 h6f
          have hin : Inner w3 w5 := inner_trans h4 (inner_trans h5 h6)
          simp only [Step.bind, Step.world]
          refine ⟨fun _ => h6f, fun r w' h => (by cases h), fun w' h => ?_⟩
          cases h
          exact ⟨Or.inr ⟨err, proj_inner_right hp3 hin⟩, h6f⟩
    · simp only [Step.world]
      refine ⟨fun h => hm3 (hi1.2 h), fun r w' h => ?_, fun w' h => by cases h⟩
      cases h
      exact ⟨hp3, termOk_mono ht1 hm3⟩
  · rw [hr] at hi
    have hi1 : Inner w w1 := hi
    simp only [Step.bind, Step.world]
    refine ⟨fun h => hi1.2 h, fun r w' h => (by cases h), fun w' h => ?_⟩
    cases h
    exact ⟨Or.inl (proj_of_inner hi1), hexit w1 hr⟩

theorem restartLoop_body (env : Env) (flags : RunnerFlags) (cmd : ProjectCommand)
    (cfg : RunnerCommand) (maxRetries : Int) (cond : String) (fuel : Nat) (c : Int) (w : World) :
    restartLoop env flags cmd cfg maxRetries cond (fuel + 1) c w =
      match loopBody env flags cmd cfg maxRetries cond c w with
      | .next c1 w1 => restartLoop env flags cmd cfg maxRetries cond fuel c1 w1
      | .stop s => some s := by
  rw [restartLoop_succ]
  unfold loopBody
  rcases tryWaitForPorts env cfg w with ⟨_ | err, w1⟩ <;> simp only
  · rcases readTerminating env (applyCommandDelay cfg w1) with ⟨_ | _, w2⟩ <;> simp only
    rcases runEntry env cmd w2 with ⟨_ | e, w3⟩ | w3 <;> simp only
    · split_ifs
      · rcases scheduleRetry maxRetries c w3 with ⟨_ | _, c1, w4⟩ <;> rfl
      · rfl
    · split_ifs
      · rfl
      · rcases scheduleRetry maxRetries c w3 with ⟨_ | _, c1, w4⟩ <;> rfl
      · rfl
  · rcases readTerminating env w1 with ⟨_ | _, w2⟩ <;> simp only
    rcases handlePortWaitError env err maxRetries c (emit (.portWaitFailed err) w2) with
      ⟨_ | _, c1, w3⟩ <;> rfl

theorem serialFailure_spec (env : Env) (flags : RunnerFlags) (cfg : RunnerCommand) (w : World) :
    Proj w (serialFailure env flags cfg w).world (serialEvents (cfg.Serial || flags.Serial)) ∧
    ((cfg.Serial || flags.Serial) = true →
      (serialFailure env flags cfg w).world.TerminatingProcesses = true) ∧
    (w.TerminatingProcesses = true →
      (serialFailure env flags cfg w).world.TerminatingProcesses = true) := by
  unfold serialFailure serialEvents
  split_ifs with h
  · obtain ⟨h1, h2⟩ := gracefulShutdown_inner env (emit .serialFailed w)
    exact ⟨proj_inner_right (proj_emit _ _ rfl) h1, fun _ => h2, fun _ => h2⟩
  · exact ⟨proj_of_inner (inner_refl _), fun h' => absurd h' h, id⟩

theorem dependentCompletion_spec (env : Env) (flags : RunnerFlags) (cfg : RunnerCommand)
    (w : World) :
    ∃ D, (D = [] ∨ D = [Event.dependentFailed]) ∧
      Proj w (dependentCompletion env flags cfg w).world D ∧
      ((cfg.Dependent || flags.Dependent) = true →
        (dependentCompletion env flags cfg w).world.TerminatingProcesses = true) ∧
      (w.TerminatingProcesses = true →
        (dependentCompletion env flags cfg w).world.TerminatingProcesses = true) := by
  unfold dependentCompletion
  split_ifs with h
  · obtain ⟨h1, h2⟩ := gracefulShutdown_inner env (emit .dependentFailed w)
    exact ⟨_, Or.inr rfl, proj_inner_right (proj_emit _ _ rfl) h1, fun _ => h2, fun _ => h2⟩
  · exact ⟨_, Or.inl rfl, proj_of_inner (inner_refl _), fun h' => absurd h' h, id⟩

theorem handlers_spec (env : Env) (flags : RunnerFlags) (cfg : RunnerCommand) (w : World) :
    ∃ D, (D = [] ∨ D = [Event.dependentFailed]) ∧
      Proj w ((serialFailure env flags cfg w).bind fun _ w1 =>
        dependentCompletion env flags cfg w1).world
        (serialEvents (cfg.Serial || flags.Serial) ++ D) ∧
      (((cfg.Serial || flags.Serial) || (cfg.Dependent || flags.Dependent)) = true →
        ((serialFailure env flags cfg w).bind fun _ w1 =>
          dependentCompletion env flags cfg w1).world.TerminatingProcesses = true) ∧
      (w.TerminatingProcesses = true →
        ((serialFailure env flags cfg w).bind fun _ w1 =>
          dependentCompletion env flags cfg w1).world.TerminatingProcesses = true) := by
  obtain ⟨hp, hs, hm⟩ := serialFailure_spec env flags cfg w
  rcases hr : serialFailure env flags cfg w with ⟨u, w1⟩ | w1
  · rw [hr] at hp hs hm
    simp only [Step.world] at hp hs hm
    obtain ⟨D, hD, hpd, hd, hmd⟩ := dependentCompletion_spec env flags cfg w1
    refine ⟨D, hD, ?_, ?_, ?_⟩
    · simpa only [Step.bind] using proj_trans hp hpd
    · intro h
      simp only [Step.bind]
      rcases Bool.or_eq_true _ _ ▸ h with h | h
      · exact hmd (hs h)
      · exact hd h
    · intro h
      simp only [Step.bind]
      exact hmd (hm h)
  · rw [hr] at hp hs hm
    simp only [Step.world] at hp hs hm
    have hf : w1.TerminatingProcesses = true := by
      unfold serialFailure at hr
      split_ifs at hr
      exact gracefulShutdown_exit_flag _ _ _ hr
    refine ⟨[], Or.inl rfl, ?_, fun _ => hf, fun _ => hf⟩
    simpa only [Step.bind, Step.world, List.append_nil] using hp

theorem runEntry_proj (env : Env) (cmd : ProjectCommand) (w : World) :
    (∀ r w1, runEntry env cmd w = .ret r w1 →
      Proj w w1 [Event.entered, Event.run r, Event.returned r] ∧ TermOk r w1) ∧
    (∀ w1, runEntry env cmd w = .exit w1 →
      (Proj w w1 [Event.entered] ∨ ∃ r, Proj w w1 [Event.entered, Event.run r]) ∧
        w1.TerminatingProcesses = true) := by
  obtain ⟨-, hret, hexit⟩ := executeCommandWithAfterHandling_proj env cmd (emit .entered w)
  have h0 : Proj w (emit .entered w) [Event.entered] := proj_emit _ _ rfl
  unfold runEntry
  rcases hr : executeCommandWithAfterHandling env cmd (emit .entered w) with ⟨r, w1⟩ | w1
  · obtain ⟨hp, ht⟩ := hret r w1 hr
    simp only [Step.bind]
    refine ⟨fun r' w' h => ?_, fun w' h => by cases h⟩
    cases h
    exact ⟨proj_trans h0 (proj_trans hp (proj_emit _ _ rfl)), ht⟩
  · simp only [Step.bind]
    refine ⟨fun r' w' h => (by cases h), fun w' h => ?_⟩
    cases h
    obtain ⟨hp, hfl⟩ := hexit w1 hr
    refine ⟨?_, hfl⟩
    rcases hp with hp | ⟨r, hp⟩
    · exact Or.inl (by simpa using proj_trans h0 hp)
    · exact Or.inr ⟨r, proj_trans h0 hp⟩

/-- A value in the range of `int64` is not changed by the wrap. -/
theorem int64_of_bounds (n : Int) (h0 : -2 ^ 63 ≤ n) (h1 : n < 2 ^ 63) : int64 n = n := by
  unfold int64
  have e1 : (2 : Int) ^ 63 = 9223372036854775808 := by norm_num
  have e2 : (2 : Int) ^ 64 = 18446744073709551616 := by norm_num
  rw [e1, e2] at *
  omega

theorem scheduleRetry_spec (maxRetries c : Int) (w : World) :
    ((scheduleRetry maxRetries c w).1 = true ∧
      (scheduleRetry maxRetries c w).2.1 = int64 (c + 1) ∧
      (0 < maxRetries → int64 (c + 1) ≤ maxRetries) ∧
      (scheduleRetry maxRetries c w).2.2 = emit (retryEvent maxRetries c) w) ∨
    ((scheduleRetry maxRetries c w).1 = false ∧ 0 < maxRetries ∧
      maxRetries < int64 (c + 1) ∧
      (scheduleRetry maxRetries c w).2.2 = emit (.maxRetriesReached maxRetries) w) := by
  unfold scheduleRetry retryEvent
  simp only
  split_ifs with h1 h2
  · exact Or.inr ⟨rfl, h1, h2, rfl⟩
  · exact Or.inl ⟨rfl, rfl, fun _ => by omega, rfl⟩
  · exact Or.inl ⟨rfl, rfl, fun h => absurd h h1, rfl⟩

theorem isRunnerEvent_retryEvent (maxRetries c : Int) :
    isRunnerEvent (retryEvent maxRetries c) = true := by
  unfold retryEvent
  split_ifs <;> rfl

theorem tryWaitForPorts_spec (env : Env) (cfg : RunnerCommand) (w : World) :
    Inner w (tryWaitForPorts env cfg w).2 ∧
    (∀ err, (tryWaitForPorts env cfg w).1 = some err →
      (tryWaitForPorts env cfg w).2.TerminatingProcesses = false → cfg.Awaits = true) := by
  unfold tryWaitForPorts waitForRequiredPorts
  have h := inner_readTerminating env w
  have hf := readTerminating_flag env w
  rcases hr : readTerminating env w with ⟨_ | _, w1⟩ <;> rw [hr] at h hf <;> simp only at h hf ⊢
  · split_ifs with ha
    · exact ⟨h, fun _ _ _ => ha⟩
    · exact ⟨h, fun err he => by cases he⟩
  · exact ⟨h, fun err _ hfl => by rw [hf] at hfl; cases hfl⟩

theorem applyCommandDelay_inner (cfg : RunnerCommand) (w : World) :
    Inner w (applyCommandDelay cfg w) := by
  unfold applyCommandDelay
  split_ifs
  · exact inner_trans (inner_emit .waitingDelay _ rfl) (inner_emit (.sleep _) _ rfl)
  · exact inner_refl _

/-- What the runner sees of `handlePortWaitError`. -/
theorem handlePortWaitError_spec (env : Env) (err : Err) (maxRetries c : Int) (w : World) :
    ((handlePortWaitError env err maxRetries c w).1 = true ∧
      (handlePortWaitError env err maxRetries c w).2.1 = int64 (c + 1) ∧
      (0 < maxRetries → int64 (c + 1) ≤ maxRetries) ∧
      Proj w (handlePortWaitError env err maxRetries c w).2.2 [retryEvent maxRetries c]) ∨
    ((handlePortWaitError env err maxRetries c w).1 = false ∧
      ((Proj w (handlePortWaitError env err maxRetries c w).2.2 [] ∧
          (handlePortWaitError env err maxRetries c w).2.2.TerminatingProcesses = true) ∨
        (0 < maxRetries ∧ maxRetries < int64 (c + 1) ∧
          Proj w (handlePortWaitError env err maxRetries c w).2.2
            [Event.maxRetriesReached maxRetries]))) := by
  unfold handlePortWaitError
  have h := inner_readTerminating env w
  have hf := readTerminating_flag env w
  rcases hr : readTerminating env w with ⟨_ | _, w1⟩ <;> rw [hr] at h hf <;> simp only at h hf ⊢
  · have hl : Inner w1 (if (!err.isTerminated) = true then emit (.errorLog err) w1 else w1) := by
      split_ifs
      · exact inner_emit _ _ rfl
      · exact inner_refl _
    generalize (if (!err.isTerminated) = true then emit (.errorLog err) w1 else w1) = w2 at hl ⊢
    have hi : Inner w w2 := inner_trans h hl
    rcases scheduleRetry_spec maxRetries c w2 with ⟨a, b, d, e⟩ | ⟨a, b, d, e⟩
    · refine Or.inl ⟨a, b, d, ?_⟩
      rw [e]
      exact proj_inner_left hi (proj_emit _ _ (isRunnerEvent_retryEvent _ _))
    · refine Or.inr ⟨a, Or.inr ⟨b, d, ?_⟩⟩
      rw [e]
      exact proj_inner_left hi (proj_emit _ _ rfl)
  · exact Or.inr ⟨trivial, Or.inl ⟨proj_of_inner h, hf⟩⟩

/-- One turn of the loop of `executeRestartableCommand`, as the runner sees it. -/
theorem loopBody_spec (env : Env) (flags : RunnerFlags) (cmd : ProjectCommand)
    (cfg : RunnerCommand) (maxRetries : Int) (cond : String) (k : Int) (w : World) :
    (∀ c w1, loopBody env flags cmd cfg maxRetries cond k w = .next c w1 →
      c = int64 (k + 1) ∧ (0 < maxRetries → int64 (k + 1) ≤ maxRetries) ∧
        ∃ L, NextShape maxRetries cond cfg.Awaits k L ∧ Proj w w1 L) ∧
    (∀ s, loopBody env flags cmd cfg maxRetries cond k w = .stop s →
      ∃ L, StopShape (cfg.Serial || flags.Serial) (cfg.Dependent || flags.Dependent)
        maxRetries cond cfg.Awaits k L s.world.TerminatingProcesses s.exited ∧
          Proj w s.world L) := by
  unfold loopBody
  obtain ⟨h1, ha1⟩ := tryWaitForPorts_spec env cfg w
  rcases hr1 : tryWaitForPorts env cfg w with ⟨_ | err, w1⟩ <;> rw [hr1] at h1 ha1 <;>
    simp only at h1 ha1 ⊢
  · -- the ports are ready
    have h2 := inner_trans (applyCommandDelay_inner cfg w1)
      (inner_readTerminating env (applyCommandDelay cfg w1))
    have hf2 := readTerminating_flag env (applyCommandDelay cfg w1)
    rcases hr2 : readTerminating env (applyCommandDelay cfg w1) with ⟨_ | _, w2⟩ <;>
      rw [hr2] at h2 hf2 <;> simp only at h2 hf2 ⊢
    · have hi2 : Inner w w2 := inner_trans h1 h2
      obtain ⟨hret, hexit⟩ := runEntry_proj env cmd w2
      rcases hr3 : runEntry env cmd w2 with ⟨_ | e, w3⟩ | w3 <;> simp only
      · -- the run succeeded
        have hp3 : Proj w w3 [Event.entered, Event.run none, Event.returned none] :=
          proj_inner_left hi2 (hret none w3 hr3).1
        split_ifs with hc
        · rcases scheduleRetry_spec maxRetries k w3 with ⟨a, b, d, e⟩ | ⟨a, b, d, e⟩
          · rcases hr4 : scheduleRetry maxRetries k w3 with ⟨_ | _, c1, w4⟩ <;>
              rw [hr4] at a b e <;> simp only at a b e
            · cases a
            · subst b e
              refine ⟨fun c w' h => ?_, fun s h => by cases h⟩
              cases h
              exact ⟨rfl, d, _, NextShape.succeeded hc,
                proj_trans hp3 (proj_emit _ _ (isRunnerEvent_retryEvent _ _))⟩
          · rcases hr4 : scheduleRetry maxRetries k w3 with ⟨_ | _, c1, w4⟩ <;>
              rw [hr4] at a e <;> simp only at a e
            · subst e
              refine ⟨fun c w' h => (by cases h), fun s h => ?_⟩
              cases h
              obtain ⟨D, hD, hpd, hd, -⟩ := dependentCompletion_spec env flags cfg
                (emit (.maxRetriesReached maxRetries) w3)
              exact ⟨_, StopShape.succeeded [Event.maxRetriesReached maxRetries] D _ _
                (Or.inr ⟨hc, rfl, b, d⟩) hD hd,
                proj_trans (proj_trans hp3 (proj_emit (.maxRetriesReached maxRetries) _ rfl)) hpd⟩
            · cases a
        · refine ⟨fun c w' h => (by cases h), fun s h => ?_⟩
          cases h
          obtain ⟨D, hD, hpd, hd, -⟩ := dependentCompletion_spec env flags cfg w3
          exact ⟨_, StopShape.succeeded [] D _ _ (Or.inl ⟨by simpa using hc, rfl⟩) hD hd,
            proj_trans hp3 hpd⟩
      · -- the run failed
        obtain ⟨hp, ht⟩ := hret (some e) w3 hr3
        have hp3 : Proj w w3 [Event.entered, Event.run (some e), Event.returned (some e)] :=
          proj_inner_left hi2 hp
        split_ifs with hterm hc
        · refine ⟨fun c w' h => (by cases h), fun s h => ?_⟩
          cases h
          simp only [Step.world]
          rw [ht e rfl hterm]
          exact ⟨_, StopShape.terminated e hterm, hp3⟩
        · rcases scheduleRetry_spec maxRetries k w3 with ⟨a, b, d, e'⟩ | ⟨a, b, d, e'⟩
          · rcases hr4 : scheduleRetry maxRetries k w3 with ⟨_ | _, c1, w4⟩ <;>
              rw [hr4] at a b e' <;> simp only at a b e'
            · cases a
            · subst b e'
              refine ⟨fun c w' h => ?_, fun s h => by cases h⟩
              cases h
              exact ⟨rfl, d, _, NextShape.failed e (by simpa using hterm) hc,
                proj_trans hp3 (proj_emit _ _ (isRunnerEvent_retryEvent _ _))⟩
          · rcases hr4 : scheduleRetry maxRetries k w3 with ⟨_ | _, c1, w4⟩ <;>
              rw [hr4] at a e' <;> simp only at a e'
            · subst e'
              refine ⟨fun c w' h => (by cases h), fun s h => ?_⟩
              cases h
              obtain ⟨D, hD, hpd, hd, -⟩ := handlers_spec env flags cfg
                (emit (.maxRetriesReached maxRetries) w3)
              refine ⟨_, StopShape.failed e [Event.maxRetriesReached maxRetries] D _ _
                (by simpa using hterm) (Or.inr ⟨hc, rfl, b, d⟩) hD hd, ?_⟩
              simpa using proj_trans (proj_trans hp3 (proj_emit (.maxRetriesReached maxRetries) _ rfl)) hpd
            · cases a
        · refine ⟨fun c w' h => (by cases h), fun s h => ?_⟩
          cases h
          obtain ⟨D, hD, hpd, hd, -⟩ := handlers_spec env flags cfg w3
          refine ⟨_, StopShape.failed e [] D _ _ (by simpa using hterm)
            (Or.inl ⟨by simpa using hc, rfl⟩) hD hd, ?_⟩
          simpa using proj_trans hp3 hpd
      · -- the process has exited
        obtain ⟨hp, hfl⟩ := hexit w3 hr3
        refine ⟨fun c w' h => (by cases h), fun s h => ?_⟩
        cases h
        simp only [Step.world]
        rw [hfl]
        rcases hp with hp | ⟨r, hp⟩
        · exact ⟨_, StopShape.exitedInside, proj_inner_left hi2 hp⟩
        · exact ⟨_, StopShape.exited r, proj_inner_left hi2 hp⟩
    · refine ⟨fun c w' h => (by cases h), fun s h => ?_⟩
      cases h
      simp only [Step.world]
      rw [hf2]
      exact ⟨_, StopShape.quiet, proj_of_inner (inner_trans h1 h2)⟩
  · -- the port wait failed
    have h2 := inner_readTerminating env w1
    have hf2 := readTerminating_flag env w1
    rcases hr2 : readTerminating env w1 with ⟨_ | _, w2⟩ <;>
      rw [hr2] at h2 hf2 <;> simp only at h2 hf2 ⊢
    · have hi2 : Inner w w2 := inner_trans h1 h2
      have haw : cfg.Awaits = true := by
        apply ha1 err rfl
        by_contra hne
        have := h2.2 (by simpa using hne)
        rw [hf2] at this
        cases this
      have hp2 : Proj w (emit (.portWaitFailed err) w2) [Event.portWaitFailed err] :=
        proj_inner_left hi2 (proj_emit _ _ rfl)
      rcases handlePortWaitError_spec env err maxRetries k (emit (.portWaitFailed err) w2) with
        ⟨a, b, d, e⟩ | ⟨a, e⟩
      · rcases hr3 : handlePortWaitError env err maxRetries k (emit (.portWaitFailed err) w2)
          with ⟨_ | _, c1, w3⟩ <;> rw [hr3] at a b e <;> simp only at a b e
        · cases a
        · subst b
          refine ⟨fun c w' h => ?_, fun s h => by cases h⟩
          cases h
          exact ⟨rfl, d, _, NextShape.port err haw, proj_trans hp2 e⟩
      · rcases hr3 : handlePortWaitError env err maxRetries k (emit (.portWaitFailed err) w2)
          with ⟨_ | _, c1, w3⟩ <;> rw [hr3] at a e <;> simp only at a e
        · refine ⟨fun c w' h => (by cases h), fun s h => ?_⟩
          cases h
          obtain ⟨D, hD, hpd, hd, hm⟩ := handlers_spec env flags cfg w3
          rcases e with ⟨e, hfl⟩ | ⟨b, d, e⟩
          · refine ⟨_, StopShape.port err [] D _ _ haw (Or.inl rfl) hD hd, ?_⟩
            simpa using proj_trans (proj_trans hp2 e) hpd
          · refine ⟨_, StopShape.port err [Event.maxRetriesReached maxRetries] D _ _ haw
              (Or.inr ⟨rfl, b, d⟩) hD hd, ?_⟩
            simpa using proj_trans (proj_trans hp2 e) hpd
        · cases a
    · refine ⟨fun c w' h => (by cases h), fun s h => ?_⟩
      cases h
      simp only [Step.world]
      rw [hf2]
      exact ⟨_, StopShape.quiet, proj_of_inner (inner_trans h1 h2)⟩

/-- The events of the runner in `executeOneTimeCommand`. -/
theorem executeOneTimeCommand_spec (env : Env) (flags : RunnerFlags) (cmd : ProjectCommand)
    (cfg : RunnerCommand) (w : World) :
    ∃ L, OneTimeShape (cfg.Serial || flags.Serial) (cfg.Dependent || flags.Dependent) L
        (executeOneTimeCommand env flags cmd cfg w).world.TerminatingProcesses ∧
      Proj w (executeOneTimeCommand env flags cmd cfg w).world L := by
  unfold executeOneTimeCommand
  obtain ⟨h1, -⟩ := tryWaitForPorts_spec env cfg w
  rcases hr1 : tryWaitForPorts env cfg w with ⟨_ | err, w1⟩ <;> rw [hr1] at h1 <;>
    simp only at h1 ⊢
  · have h2 := inner_trans (applyCommandDelay_inner cfg w1)
      (inner_readTerminating env (applyCommandDelay cfg w1))
    have hf2 := readTerminating_flag env (applyCommandDelay cfg w1)
    rcases hr2 : readTerminating env (applyCommandDelay cfg w1) with ⟨_ | _, w2⟩ <;>
      rw [hr2] at h2 hf2 <;> simp only at h2 hf2 ⊢
    · have hi2 : Inner w w2 := inner_trans h1 h2
      obtain ⟨hret, hexit⟩ := runEntry_proj env cmd w2
      rcases hr3 : runEntry env cmd w2 with ⟨_ | e, w3⟩ | w3 <;> simp only [Step.bind]
      · exact ⟨_, OneTimeShape.succeeded _, proj_inner_left hi2 (hret none w3 hr3).1⟩
      · obtain ⟨hp, ht⟩ := hret (some e) w3 hr3
        have hp3 : Proj w w3 [Event.entered, Event.run (some e), Event.returned (some e)] :=
          proj_inner_left hi2 hp
        split_ifs with hterm
        · obtain ⟨D, hD, hpd, hd, -⟩ := handlers_spec env flags cfg w3
          refine ⟨_, OneTimeShape.failed e D _ (by simpa using hterm) hD hd, ?_⟩
          simpa using proj_trans hp3 hpd
        · simp only [Step.world]
          rw [ht e rfl (by simpa using hterm)]
          exact ⟨_, OneTimeShape.terminated e (by simpa using hterm), hp3⟩
      · obtain ⟨hp, hfl⟩ := hexit w3 hr3
        simp only [Step.world]
        rw [hfl]
        rcases hp with hp | ⟨r, hp⟩
        · exact ⟨_, OneTimeShape.exitedInside, proj_inner_left hi2 hp⟩
        · exact ⟨_, OneTimeShape.exited r, proj_inner_left hi2 hp⟩
    · simp only [Step.world]
      rw [hf2]
      exact ⟨_, OneTimeShape.quiet, proj_of_inner (inner_trans h1 h2)⟩
  · have h2 := inner_readTerminating env w1
    have hf2 := readTerminating_flag env w1
    rcases hr2 : readTerminating env w1 with ⟨_ | _, w2⟩ <;>
      rw [hr2] at h2 hf2 <;> simp only at h2 hf2 ⊢
    · have hi2 : Inner w w2 := inner_trans h1 h2
      have hp2 : Proj w (emit (.portWaitFailed err) w2) [Event.portWaitFailed err] :=
        proj_inner_left hi2 (proj_emit _ _ rfl)
      have hl : Inner (emit (.portWaitFailed err) w2)
          (if (!err.isTerminated) = true then
            emit (.errorLog err) (emit (.portWaitFailed err) w2)
          else emit (.portWaitFailed err) w2) := by
        split_ifs
        · exact inner_emit _ _ rfl
        · exact inner_refl _
      have hp3 := proj_inner_right hp2 hl
      generalize (if (!err.isTerminated) = true then
            emit (.errorLog err) (emit (.portWaitFailed err) w2)
          else emit (.portWaitFailed err) w2) = w3 at hp3 ⊢
      obtain ⟨D, hD, hpd, hd, -⟩ := handlers_spec env flags cfg w3
      have hb : ((serialFailure env flags cfg w3).bind fun _ w3 =>
          (dependentCompletion env flags cfg w3).bind fun _ w4 =>
            match readTerminating env w4 with
            | (t, w5) =>
              if (cfg.Serial && !t) = true then Step.ret () (emit .closeNextStartSignal w5)
              else Step.ret () w5) =
          ((serialFailure env flags cfg w3).bind fun _ w3 =>
            dependentCompletion env flags cfg w3).bind fun _ w4 =>
            match readTerminating env w4 with
            | (t, w5) =>
              if (cfg.Serial && !t) = true then Step.ret () (emit .closeNextStartSignal w5)
              else Step.ret () w5 := by
        cases serialFailure env flags cfg w3 <;> rfl
      rw [hb]
      generalize ((serialFailure env flags cfg w3).bind fun _ w3 =>
            dependentCompletion env flags cfg w3) = s at hpd hd ⊢
      rcases s with ⟨u, w4⟩ | w4
      · simp only [Step.bind, Step.world] at hpd hd ⊢
        have h5 := inner_readTerminating env w4
        have hf5 := readTerminating_flag env w4
        rcases hr5 : readTerminating env w4 with ⟨t, w5⟩
        rw [hr5] at h5 hf5
        simp only at h5 hf5 ⊢
        have hfin : ∀ w6 : World, Inner w5 w6 →
            ∃ L, OneTimeShape (cfg.Serial || flags.Serial) (cfg.Dependent || flags.Dependent) L
              w6.TerminatingProcesses ∧ Proj w w6 L := by
          intro w6 h6
          refine ⟨_, OneTimeShape.port err D _ hD (fun h => h6.2 (h5.2 (hd h))), ?_⟩
          simpa using proj_inner_right (proj_trans hp3 hpd) (inner_trans h5 h6)
        split_ifs
        · exact hfin _ (inner_emit _ _ rfl)
        · exact hfin _ (inner_refl _)
      · simp only [Step.bind, Step.world] at hpd hd ⊢
        refine ⟨_, OneTimeShape.port err D _ hD hd, ?_⟩
        simpa using proj_trans hp3 hpd
    · simp only [Step.world]
      rw [hf2]
      exact ⟨_, OneTimeShape.quiet, proj_of_inner (inner_trans h1 h2)⟩

/-- Induction over the turns of the loop of `executeRestartableCommand`. -/
theorem restartLoop_induct (env : Env) (flags : RunnerFlags) (cmd : ProjectCommand)
    (cfg : RunnerCommand) (maxRetries : Int) (cond : String)
    (R : Int → List Event → Bool → Bool → Prop)
    (hstop : ∀ k L t x, StopShape (cfg.Serial || flags.Serial)
      (cfg.Dependent || flags.Dependent) maxRetries cond cfg.Awaits k L t x → R k L t x)
    (hnext : ∀ k L L1 t x, NextShape maxRetries cond cfg.Awaits k L →
      (0 < maxRetries → int64 (k + 1) ≤ maxRetries) → R (int64 (k + 1)) L1 t x →
        R k (L ++ L1) t x) :
    ∀ (fuel : Nat) (k : Int) (w : World) (s : Step Unit),
      restartLoop env flags cmd cfg maxRetries cond fuel k w = some s →
      ∃ L, Proj w s.world L ∧ R k L s.world.TerminatingProcesses s.exited
  | 0, k, w, s, h => by
    rw [restartLoop_zero] at h
    cases h
  | fuel + 1, k, w, s, h => by
    rw [restartLoop_body] at h
    obtain ⟨hn, hs⟩ := loopBody_spec env flags cmd cfg maxRetries cond k w
    rcases hr : loopBody env flags cmd cfg maxRetries cond k w with ⟨c, w1⟩ | s1
    · rw [hr] at h
      simp only at h
      obtain ⟨hc, hk, L, hL, hp⟩ := hn c w1 hr
      subst hc
      obtain ⟨L1, hp1, hR⟩ := restartLoop_induct env flags cmd cfg maxRetries cond R hstop hnext
        fuel (int64 (k + 1)) w1 s h
      exact ⟨L ++ L1, proj_trans hp hp1, hnext k L L1 _ _ hL hk hR⟩
    · rw [hr] at h
      simp only [Option.some.injEq] at h
      subst h
      obtain ⟨L, hL, hp⟩ := hs s1 hr
      exact ⟨L, hp, hstop k L _ _ hL⟩

/-- With a bound on the retries the loop of `executeRestartableCommand` ends. -/
theorem restartLoop_total (env : Env) (flags : RunnerFlags) (cmd : ProjectCommand)
    (cfg : RunnerCommand) (maxRetries : Int) (cond : String) (hN : 0 < maxRetries)
    (hM : maxRetries < 2 ^ 63 - 1) :
    ∀ (fuel : Nat) (k : Int) (w : World), 0 ≤ k → k ≤ maxRetries → maxRetries - k < fuel →
      ∃ s, restartLoop env flags cmd cfg maxRetries cond fuel k w = some s
  | 0, k, w, h0, hk, hf => by
    exfalso
    simp only [Nat.cast_zero] at hf
    omega
  | fuel + 1, k, w, h0, hk, hf => by
    rw [restartLoop_body]
    obtain ⟨hn, -⟩ := loopBody_spec env flags cmd cfg maxRetries cond k w
    rcases hr : loopBody env flags cmd cfg maxRetries cond k w with ⟨c, w1⟩ | s1
    · obtain ⟨hc, hk1, -⟩ := hn c w1 hr
      have hw : int64 (k + 1) = k + 1 := int64_of_bounds _ (by omega) (by omega)
      rw [hw] at hc hk1
      subst hc
      simp only
      refine restartLoop_total env flags cmd cfg maxRetries cond hN hM fuel (k + 1) w1
        (by omega) (hk1 hN) ?_
      push_cast at hf
      omega
    · exact ⟨s1, rfl⟩

theorem countP_filter_runner (p : Event → Bool) (hp : ∀ e, p e = true → isRunnerEvent e = true)
    (E : List Event) : (E.filter isRunnerEvent).countP p = E.countP p := by
  induction E with
  | nil => rfl
  | cons e E ih =>
    by_cases he : isRunnerEvent e = true
    · rw [List.filter_cons_of_pos he, List.countP_cons, List.countP_cons, ih]
    · have hpe : p e = false := by
        by_contra hne
        exact he (hp e (by simpa using hne))
      rw [List.filter_cons_of_neg he, List.countP_cons, ih, hpe]
      simp

theorem runCount_filter (E : List Event) : runCount (E.filter isRunnerEvent) = runCount E :=
  countP_filter_runner _ (fun e h => by cases e <;> simp_all [isRunnerEvent]) E

theorem failedReturns_filter (E : List Event) :
    failedReturns (E.filter isRunnerEvent) = failedReturns E :=
  countP_filter_runner _ (fun e h => by cases e <;> simp_all [isRunnerEvent, isLoopEvent]) E

theorem mem_filter_runner (e : Event) (he : isRunnerEvent e = true) (E : List Event) :
    e ∈ E.filter isRunnerEvent ↔ e ∈ E := by
  rw [List.mem_filter]
  exact ⟨fun h => h.1, fun h => ⟨h, he⟩⟩

theorem pendingStep_of_not_runner (b : Bool) (e : Event) (he : ¬ isRunnerEvent e = true) :
    pendingStep b e = b := by
  cases e <;> simp_all [pendingStep, isRunnerEvent, isLoopEvent]

theorem foldl_pendingStep_filter (E : List Event) :
    ∀ b, (E.filter isRunnerEvent).foldl pendingStep b = E.foldl pendingStep b := by
  induction E with
  | nil => intro b; rfl
  | cons e E ih =>
    intro b
    by_cases he : isRunnerEvent e = true
    · rw [List.filter_cons_of_pos he, List.foldl_cons, List.foldl_cons, ih]
    · rw [List.filter_cons_of_neg he, List.foldl_cons, ih, pendingStep_of_not_runner b e he]

theorem unanswered_filter (E : List Event) :
    unanswered (E.filter isRunnerEvent) = unanswered E :=
  foldl_pendingStep_filter E false

theorem callCount_filter (E : List Event) : callCount (E.filter isRunnerEvent) = callCount E :=
  countP_filter_runner _ (fun e h => by cases e <;> simp_all [isRunnerEvent, isLoopEvent]) E

theorem failedRuns_filter (E : List Event) :
    failedRuns (E.filter isRunnerEvent) = failedRuns E :=
  countP_filter_runner _ (fun e h => by cases e <;> simp_all [isRunnerEvent, isLoopEvent]) E

theorem stopShape_dependent_flag {serial : Bool} {maxRetries : Int} {cond : String}
    {awaits : Bool} {k : Int} {L : List Event} {t x : Bool}
    (h : StopShape serial true maxRetries cond awaits k L t x) : t = true := by
  cases h with
  | quiet => rfl
  | exitedInside => rfl
  | exited r => rfl
  | terminated e he => rfl
  | port err M D t x ha hM hD ht => exact ht (by simp)
  | failed e M D t x he hM hD ht => exact ht (by simp)
  | succeeded M D t x hM hD ht => exact ht rfl

theorem restartLoop_dependent_flag (env : Env) (flags : RunnerFlags) (cmd : ProjectCommand)
    (cfg : RunnerCommand) (maxRetries : Int) (cond : String)
    (hd : (cfg.Dependent || flags.Dependent) = true) (fuel : Nat) (k : Int) (w : World)
    (s : Step Unit) (h : restartLoop env flags cmd cfg maxRetries cond fuel k w = some s) :
    s.world.TerminatingProcesses = true := by
  obtain ⟨L, -, hR⟩ := restartLoop_induct env flags cmd cfg maxRetries cond
    (fun _ _ t _ => t = true)
    (fun k L t x hs => by rw [hd] at hs; exact stopShape_dependent_flag hs)
    (fun k L L1 t x _ _ h => h) fuel k w s h
  exact hR

theorem oneTimeShape_dependent {serial : Bool} {L : List Event} {t : Bool}
    (h : OneTimeShape serial true L t) :
    (Event.returned none ∈ L ∧ Event.dependentFailed ∉ L) ∨
      (Event.returned none ∉ L ∧ t = true) := by
  cases h with
  | quiet => simp
  | exitedInside => simp
  | exited r => simp
  | terminated e he => simp
  | port err D t hD ht =>
    have := ht (by simp)
    rcases hD with rfl | rfl <;> cases serial <;> simp [serialEvents, this]
  | failed e D t he hD ht =>
    have := ht (by simp)
    rcases hD with rfl | rfl <;> cases serial <;> simp [serialEvents, this]
  | succeeded t => simp

theorem nextShape_unanswered {maxRetries : Int} {cond : String} {awaits : Bool} {k : Int}
    {L : List Event} (h : NextShape maxRetries cond awaits k L) (b : Bool) :
    L.foldl pendingStep b = false := by
  cases h <;> unfold retryEvent <;> split_ifs <;> simp [pendingStep]

theorem stopShape_unanswered {dependent : Bool} {maxRetries : Int} {cond : String}
    {awaits : Bool} {k : Int} {L : List Event} {t x : Bool}
    (h : StopShape true dependent maxRetries cond awaits k L t x) :
    L.foldl pendingStep false = false := by
  cases h with
  | quiet => rfl
  | exitedInside => rfl
  | exited r => rfl
  | terminated e he => simp [pendingStep, he]
  | port err M D t x ha hM hD ht =>
    rcases hM with rfl | ⟨rfl, -, -⟩ <;> rcases hD with rfl | rfl <;>
      simp [serialEvents, pendingStep]
  | failed e M D t x he hM hD ht =>
    rcases hM with ⟨-, rfl⟩ | ⟨-, rfl, -, -⟩ <;> rcases hD with rfl | rfl <;>
      simp [serialEvents, pendingStep]
  | succeeded M D t x hM hD ht =>
    rcases hM with ⟨-, rfl⟩ | ⟨-, rfl, -, -⟩ <;> rcases hD with rfl | rfl <;>
      simp [pendingStep]

theorem oneTimeShape_unanswered {dependent : Bool} {L : List Event} {t : Bool}
    (h : OneTimeShape true dependent L t) : L.foldl pendingStep false = false := by
  cases h with
  | quiet => rfl
  | exitedInside => rfl
  | exited r => rfl
  | terminated e he => simp [pendingStep, he]
  | port err D t hD ht => rcases hD with rfl | rfl <;> simp [serialEvents, pendingStep]
  | failed e D t he hD ht => rcases hD with rfl | rfl <;> simp [serialEvents, pendingStep]
  | succeeded t => simp [pendingStep]

theorem nextShape_not_serialFailed {maxRetries : Int} {cond : String} {awaits : Bool} {k : Int}
    {L : List Event} (h : NextShape maxRetries cond awaits k L) :
    Event.serialFailed ∉ L := by
  cases h <;> unfold retryEvent <;> split_ifs <;> simp

theorem stopShape_not_serialFailed {dependent : Bool} {maxRetries : Int} {cond : String}
    {awaits : Bool} {k : Int} {L : List Event} {t x : Bool}
    (h : StopShape false dependent maxRetries cond awaits k L t x) :
    Event.serialFailed ∉ L := by
  cases h with
  | quiet => simp
  | exitedInside => simp
  | exited r => simp
  | terminated e he => simp
  | port err M D t x ha hM hD ht =>
    rcases hM with rfl | ⟨rfl, -, -⟩ <;> rcases hD with rfl | rfl <;> simp [serialEvents]
  | failed e M D t x he hM hD ht =>
    rcases hM with ⟨-, rfl⟩ | ⟨-, rfl, -, -⟩ <;> rcases hD with rfl | rfl <;>
      simp [serialEvents]
  | succeeded M D t x hM hD ht =>
    rcases hM with ⟨-, rfl⟩ | ⟨-, rfl, -, -⟩ <;> rcases hD with rfl | rfl <;> simp

theorem oneTimeShape_not_serialFailed {dependent : Bool} {L : List Event} {t : Bool}
    (h : OneTimeShape false dependent L t) : Event.serialFailed ∉ L := by
  cases h with
  | quiet => simp
  | exitedInside => simp
  | exited r => simp
  | terminated e he => simp
  | port err D t hD ht => rcases hD with rfl | rfl <;> simp [serialEvents]
  | failed e D t he hD ht => rcases hD with rfl | rfl <;> simp [serialEvents]
  | succeeded t => simp

theorem restartLoop_unanswered (env : Env) (flags : RunnerFlags) (cmd : ProjectCommand)
    (cfg : RunnerCommand) (maxRetries : Int) (cond : String)
    (hs : (cfg.Serial || flags.Serial) = true) (fuel : Nat) (k : Int) (w : World)
    (s : Step Unit) (h : restartLoop env flags cmd cfg maxRetries cond fuel k w = some s) :
    ∃ L, Proj w s.world L ∧ L.foldl pendingStep false = false :=
  restartLoop_induct env flags cmd cfg maxRetries cond
    (fun _ L _ _ => L.foldl pendingStep false = false)
    (fun k L t x hst => by rw [hs] at hst; exact stopShape_unanswered hst)
    (fun k L L1 t x hn _ h => by
      simp only at h ⊢
      rw [List.foldl_append, nextShape_unanswered hn]
      exact h)
    fuel k w s h

theorem restartLoop_not_serialFailed (env : Env) (flags : RunnerFlags) (cmd : ProjectCommand)
    (cfg : RunnerCommand) (maxRetries : Int) (cond : String)
    (hs : (cfg.Serial || flags.Serial) = false) (fuel : Nat) (k : Int) (w : World)
    (s : Step Unit) (h : restartLoop env flags cmd cfg maxRetries cond fuel k w = some s) :
    ∃ L, Proj w s.world L ∧ Event.serialFailed ∉ L :=
  restartLoop_induct env flags cmd cfg maxRetries cond
    (fun _ L _ _ => Event.serialFailed ∉ L)
    (fun k L t x hst => by rw [hs] at hst; exact stopShape_not_serialFailed hst)
    (fun k L L1 t x hn _ h => by
      simp only at h ⊢
      rw [List.mem_append]
      exact fun hm => hm.elim (nextShape_not_serialFailed hn) h)
    fuel k w s h

theorem proj_startingAutoRestart (maxRetries : Int) (w : World) :
    Inner w (emit (.startingAutoRestart maxRetries) w) :=
  inner_emit _ _ rfl

theorem restartLoop_failure_bounded (env : Env) (flags : RunnerFlags) (cmd : ProjectCommand)
    (cfg : RunnerCommand) (maxRetries : Int) (hN : 0 < maxRetries)
    (hM : maxRetries < 2 ^ 63 - 1) (ha : cfg.Awaits = false)
    (fuel : Nat) (k : Int) (w : World) (s : Step Unit)
    (h : restartLoop env flags cmd cfg maxRetries "failure" fuel k w = some s) :
    ∃ L, Proj w s.world L ∧ (0 ≤ k → k ≤ maxRetries →
      (callCount L : Int) + k ≤ maxRetries + 1 ∧ runCount L ≤ callCount L ∧
      failedReturns L ≤ callCount L ∧
      (Event.maxRetriesReached maxRetries ∈ L ↔
        (failedReturns L : Int) + k = maxRetries + 1) ∧
      (s.exited = false → failedRuns L = failedReturns L)) := by
  have hcf : shouldRestartOnCondition "failure" "failure" = true := by decide
  have hcs : shouldRestartOnCondition "success" "failure" = false := by decide
  obtain ⟨L, hp, hR⟩ := restartLoop_induct env flags cmd cfg maxRetries "failure"
    (fun k L _ x => 0 ≤ k → k ≤ maxRetries →
      (callCount L : Int) + k ≤ maxRetries + 1 ∧ runCount L ≤ callCount L ∧
      failedReturns L ≤ callCount L ∧
      (Event.maxRetriesReached maxRetries ∈ L ↔
        (failedReturns L : Int) + k = maxRetries + 1) ∧
      (x = false → failedRuns L = failedReturns L))
    (fun k L t x hst h0 hk => by
      have hw : int64 (k + 1) = k + 1 := int64_of_bounds _ (by omega) (by omega)
      cases hst with
      | quiet =>
        simp [callCount, runCount, failedReturns, failedRuns]
        omega
      | exitedInside =>
        simp [callCount, runCount, failedReturns]
        omega
      | exited r =>
        simp [callCount, runCount, failedReturns]
        omega
      | terminated e he =>
        simp [callCount, runCount, failedReturns, failedRuns, he]
        omega
      | port err M D t x ha1 hM hD ht =>
        rw [ha] at ha1
        cases ha1
      | failed e M D t x he hM hD ht =>
        rcases hM with ⟨hc, -⟩ | ⟨-, rfl, -, hlt⟩
        · rw [hcf] at hc
          cases hc
        · rw [hw] at hlt
          rcases hD with rfl | rfl <;> cases (cfg.Serial || flags.Serial) <;>
            simp [callCount, runCount, failedReturns, failedRuns, serialEvents, he] <;> omega
      | succeeded M D t x hM hD ht =>
        rcases hM with ⟨-, rfl⟩ | ⟨hc, -⟩
        · rcases hD with rfl | rfl <;> simp [callCount, runCount, failedReturns, failedRuns] <;> omega
        · rw [hcs] at hc
          cases hc)
    (fun k L L1 t x hn hk1 hR h0 hk => by
      have hw : int64 (k + 1) = k + 1 := int64_of_bounds _ (by omega) (by omega)
      rw [hw] at hk1 hR
      obtain ⟨h1, hr, h2, h3, h4⟩ := hR (by omega) (hk1 hN)
      cases hn with
      | port err ha1 =>
        rw [ha] at ha1
        cases ha1
      | failed e he hc =>
        have hre : retryEvent maxRetries k = Event.restartingIn (k + 1) maxRetries := by
          unfold retryEvent
          rw [if_pos hN, hw]
        rw [hre]
        simp only [callCount, runCount, failedReturns, failedRuns] at h1 hr h2 h3 h4 ⊢
        simp [he]
        refine ⟨by omega, by omega, by omega, ?_, fun hx => by rw [h4 hx]⟩
        rw [h3]
        constructor <;> intro <;> omega
      | succeeded hc =>
        rw [hcs] at hc
        cases hc)
    fuel k w s h
  exact ⟨L, hp, hR⟩

/-! ## Dependent entries (C8) -/

/-- C8, counterexample. A dependent entry without restart policy whose run
succeeds: `executeOneTimeCommand` returns, the runner has received nil, the
handler `dependentCompletion` has not been invoked, `gracefulShutdown` has not
been called and the shutdown flag is unset. -/
theorem executeOneTimeCommand_dependent_counterexample :
    (dependentEntry.Dependent || noFlags.Dependent) = true ∧
    Event.returned none ∈
      (executeOneTimeCommand envOk noFlags (.leaf ["build"]) dependentEntry world0).world.trace ∧
    Event.dependentFailed ∉
      (executeOneTimeCommand envOk noFlags (.leaf ["build"]) dependentEntry world0).world.trace ∧
    Event.gracefulShutdown ∉
      (executeOneTimeCommand envOk noFlags (.leaf ["build"]) dependentEntry world0).world.trace ∧
    (executeOneTimeCommand envOk noFlags (.leaf ["build"]) dependentEntry
      world0).world.TerminatingProcesses = false := by
  decide

/-- C8, amended. For every runner entry marked dependent (per-entry flag or
runner-wide flag): with a restart policy, the shutdown flag is set when
`executeRestartableCommand` ends, whether the last run succeeded or failed;
without a restart policy, either the runner has received nil from the run and
the handler `dependentCompletion` has not been invoked, or it has not
received nil and the shutdown flag is set when `executeOneTimeCommand` ends. -/
theorem dependent_entry_shutdown (env : Env) (flags : RunnerFlags) (cmd : ProjectCommand)
    (cfg : RunnerCommand) (w : World) (hd : (cfg.Dependent || flags.Dependent) = true) :
    (∀ (maxRetries : Int) (cond : String) (fuel : Nat) (s : Step Unit),
      executeRestartableCommand env flags cmd cfg maxRetries cond fuel w = some s →
        s.world.TerminatingProcesses = true) ∧
    ∃ E, (executeOneTimeCommand env flags cmd cfg w).world.trace = w.trace ++ E ∧
      ((Event.returned none ∈ E ∧ Event.dependentFailed ∉ E) ∨
        (Event.returned none ∉ E ∧
          (executeOneTimeCommand env flags cmd cfg w).world.TerminatingProcesses = true)) := by
  constructor
  · intro maxRetries cond fuel s h
    exact restartLoop_dependent_flag env flags cmd cfg maxRetries cond hd fuel 0 _ s h
  · obtain ⟨L, hL, E, hE, hf⟩ := executeOneTimeCommand_spec env flags cmd cfg w
    rw [hd] at hL
    refine ⟨E, hE, ?_⟩
    subst hf
    have := oneTimeShape_dependent hL
    rwa [mem_filter_runner (.returned none) rfl, mem_filter_runner .dependentFailed rfl] at this

/-- Witness of C8: a dependent entry that restarts on failure, in the
environment where every process succeeds; the only run succeeds and the
shutdown flag is set when the entry ends. -/
theorem dependent_entry_shutdown_witness :
    (dependentEntry.Dependent || noFlags.Dependent) = true ∧
    (executeRestartableCommand envOk noFlags (.leaf ["build"]) dependentEntry 2 "failure" 3
      world0).isSome = true ∧
    ∀ s, executeRestartableCommand envOk noFlags (.leaf ["build"]) dependentEntry 2 "failure" 3
      world0 = some s → s.world.TerminatingProcesses = true :=
  ⟨by decide, by decide, fun s h =>
    (dependent_entry_shutdown envOk noFlags (.leaf ["build"]) dependentEntry world0
      (by decide)).1 2 "failure" 3 s h⟩

/-! ## Serial entries (C9) -/

/-- C9. For a runner entry whose serial flag is set (per-entry or
runner-wide) the handler `serialFailure` is the call of `gracefulShutdown`,
after which the shutdown flag is set, and every failure the runner sees in
`executeOneTimeCommand` or in `executeRestartableCommand` (a result other than
nil and `ErrProcessTerminated`, or a failed port wait) is followed by the log
line of a retry or by the handler: no failure is left unanswered when the
function ends, so a final outcome that is such an error invokes the handler.
For an entry whose serial flag is not set the handler returns at once, and
its log line is never added. -/
theorem serial_entry_failure_shutdown (env : Env) (flags : RunnerFlags) (cmd : ProjectCommand)
    (cfg : RunnerCommand) (w : World) :
    ((cfg.Serial || flags.Serial) = true →
      (∀ w1, serialFailure env flags cfg w1 = gracefulShutdown env (emit .serialFailed w1)) ∧
      (∀ w1, (serialFailure env flags cfg w1).world.TerminatingProcesses = true) ∧
      (∃ E, (executeOneTimeCommand env flags cmd cfg w).world.trace = w.trace ++ E ∧
        unanswered E = false) ∧
      ∀ (maxRetries : Int) (cond : String) (fuel : Nat) (s : Step Unit),
        executeRestartableCommand env flags cmd cfg maxRetries cond fuel w = some s →
          ∃ E, s.world.trace = w.trace ++ E ∧ unanswered E = false) ∧
    ((cfg.Serial || flags.Serial) = false →
      (∀ w1, serialFailure env flags cfg w1 = .ret () w1) ∧
      (∃ E, (executeOneTimeCommand env flags cmd cfg w).world.trace = w.trace ++ E ∧
        Event.serialFailed ∉ E) ∧
      ∀ (maxRetries : Int) (cond : String) (fuel : Nat) (s : Step Unit),
        executeRestartableCommand env flags cmd cfg maxRetries cond fuel w = some s →
          ∃ E, s.world.trace = w.trace ++ E ∧ Event.serialFailed ∉ E) := by
  constructor
  · intro hs
    refine ⟨fun w1 => ?_, fun w1 => (serialFailure_spec env flags cfg w1).2.1 hs, ?_, ?_⟩
    · unfold serialFailure
      rw [if_pos hs]
    · obtain ⟨L, hL, E, hE, hf⟩ := executeOneTimeCommand_spec env flags cmd cfg w
      rw [hs] at hL
      refine ⟨E, hE, ?_⟩
      subst hf
      rw [← unanswered_filter]
      exact oneTimeShape_unanswered hL
    · intro maxRetries cond fuel s h
      obtain ⟨L, hp, hu⟩ := restartLoop_unanswered env flags cmd cfg maxRetries cond hs
        fuel 0 _ s h
      obtain ⟨E, hE, hf⟩ := proj_inner_left (proj_startingAutoRestart maxRetries w) hp
      refine ⟨E, hE, ?_⟩
      subst hf
      rw [← unanswered_filter]
      exact hu
  · intro hs
    refine ⟨fun w1 => ?_, ?_, ?_⟩
    · unfold serialFailure
      rw [if_neg (by simp [hs])]
    · obtain ⟨L, hL, E, hE, hf⟩ := executeOneTimeCommand_spec env flags cmd cfg w
      rw [hs] at hL
      refine ⟨E, hE, ?_⟩
      subst hf
      have := oneTimeShape_not_serialFailed hL
      rwa [mem_filter_runner .serialFailed rfl] at this
    · intro maxRetries cond fuel s h
      obtain ⟨L, hp, hu⟩ := restartLoop_not_serialFailed env flags cmd cfg maxRetries cond hs
        fuel 0 _ s h
      obtain ⟨E, hE, hf⟩ := proj_inner_left (proj_startingAutoRestart maxRetries w) hp
      refine ⟨E, hE, ?_⟩
      subst hf
      rwa [mem_filter_runner .serialFailed rfl] at hu

/-- Witness of C9: a serial entry without restart policy whose run fails; the
handler is invoked and the shutdown flag is set. -/
theorem serial_entry_failure_shutdown_witness :
    (serialEntry.Serial || noFlags.Serial) = true ∧
    Event.serialFailed ∈
      (executeOneTimeCommand envFail noFlags (.leaf ["build"]) serialEntry world0).world.trace ∧
    ∃ E, (executeOneTimeCommand envFail noFlags (.leaf ["build"]) serialEntry
        world0).world.trace = world0.trace ++ E ∧ unanswered E = false :=
  ⟨by decide, by decide,
    ((serial_entry_failure_shutdown envFail noFlags (.leaf ["build"]) serialEntry world0).1
      (by decide)).2.2.1⟩

/-! ## Bounded retries (C10) -/

/-- A node that is not watched is run once by `execute`. -/
theorem execute_not_watched (env : Env) (cmd : ProjectCommand) (w : World)
    (hw : hasFilesToWatch cmd = false) :
    execute env cmd w =
      .ret (executeOneTime env false cmd w).1 (executeOneTime env false cmd w).2 := by
  unfold execute
  rw [hw]
  rfl

/-- C10, counterexample. A watched entry with restart condition `failure` and
one retry, in an environment in which every process exits with status zero
and two file changes arrive: `executeCommandWithAfterHandling` is called once
and the command is executed three times, more than `N + 1 = 2`. -/
theorem restart_on_failure_watched_counterexample :
    hasFilesToWatch cmdWatchedPlain = true ∧ plainEntry.Awaits = false ∧
    ∃ s, executeRestartableCommand envTwoChanges noFlags cmdWatchedPlain plainEntry 1 "failure" 2
        world0 = some s ∧
      callCount s.world.trace = 1 ∧
      s.world.trace.count (Event.exec false ["serve"]) = 3 :=
  ⟨by decide, rfl, _, rfl, by decide, by decide⟩

/-- C10, amended. For every `N > 0` below the largest `int` and every
environment (hence every sequence of run outcomes), a runner entry without
port awaits, with restart condition `failure` and `N` retries:
`executeRestartableCommand` ends (`N + 1` turns of its loop are enough), it
calls `executeCommandWithAfterHandling` at most `N + 1` times, no more runs
return to it than it is called, and the warning
`Maximum retry attempts (N) reached` is emitted iff the runner has received a
failure, a result other than nil and `ErrProcessTerminated`, `N + 1` times:
from the first call and from all `N` retries. Unless the process has exited
inside the function, the failures the runner has received are the failed
runs. When the entry has no files to watch, each call executes the command
once: `execute` is one call of `executeOneTime`, so the command is executed
at most `N + 1` times. -/
theorem restart_on_failure_bounded (env : Env) (flags : RunnerFlags) (cmd : ProjectCommand)
    (cfg : RunnerCommand) (N fuel : Nat) (w : World) (hN : 0 < N)
    (hM : (N : Int) < 2 ^ 63 - 1) (ha : cfg.Awaits = false) (hf : N + 1 ≤ fuel) :
    (∃ s E, executeRestartableCommand env flags cmd cfg (N : Int) "failure" fuel w = some s ∧
      s.world.trace = w.trace ++ E ∧ callCount E ≤ N + 1 ∧ runCount E ≤ callCount E ∧
      failedReturns E ≤ callCount E ∧
      (Event.maxRetriesReached (N : Int) ∈ E ↔ failedReturns E = N + 1) ∧
      (s.exited = false → failedRuns E = failedReturns E)) ∧
    (hasFilesToWatch cmd = false →
      ∀ w0, execute env cmd w0 =
        .ret (executeOneTime env false cmd w0).1 (executeOneTime env false cmd w0).2) := by
  have hN1 : (0 : Int) < (N : Int) := by exact_mod_cast hN
  refine ⟨?_, fun hw w0 => execute_not_watched env cmd w0 hw⟩
  unfold executeRestartableCommand
  obtain ⟨s, hs⟩ := restartLoop_total env flags cmd cfg (N : Int) "failure" hN1 hM fuel 0
    (emit (.startingAutoRestart (N : Int)) w) le_rfl (by omega) (by omega)
  obtain ⟨L, hp, hR⟩ :=
    restartLoop_failure_bounded env flags cmd cfg (N : Int) hN1 hM ha fuel 0 _ s hs
  obtain ⟨E, hE, hfl⟩ := proj_inner_left (proj_startingAutoRestart (N : Int) w) hp
  obtain ⟨h1, hr, h2, h3, h4⟩ := hR le_rfl (by omega)
  subst hfl
  simp only [callCount_filter, runCount_filter, failedReturns_filter, failedRuns_filter,
    mem_filter_runner (.maxRetriesReached (N : Int)) rfl] at h1 hr h2 h3 h4
  refine ⟨s, E, hs, hE, by omega, hr, h2, ?_, h4⟩
  rw [h3]
  constructor <;> intro <;> omega

/-- Witness of C10: two retries in the environment where every process
fails, for an entry without files to watch. -/
theorem restart_on_failure_bounded_witness :
    0 < 2 ∧ plainEntry.Awaits = false ∧ 2 + 1 ≤ 3 ∧
    hasFilesToWatch (.leaf ["build"]) = false ∧
    ∃ s E, executeRestartableCommand envFail noFlags (.leaf ["build"]) plainEntry
        ((2 : Nat) : Int) "failure" 3 world0 = some s ∧
      s.world.trace = world0.trace ++ E ∧ callCount E ≤ 2 + 1 ∧
      runCount E ≤ callCount E ∧ failedReturns E ≤ callCount E ∧
      (Event.maxRetriesReached ((2 : Nat) : Int) ∈ E ↔ failedReturns E = 2 + 1) ∧
      (s.exited = false → failedRuns E = failedReturns E) :=
  ⟨by decide, rfl, by decide, rfl,
    (restart_on_failure_bounded envFail noFlags (.leaf ["build"]) plainEntry 2 3 world0
      (by decide) (by decide) rfl (by decide)).1⟩

/-! ## Retries (C11, C12) -/

/-- At the largest `int` the increment of `scheduleRetry` wraps around: the
counter becomes the smallest `int`, which exceeds no bound. -/
theorem scheduleRetry_wraps (w : World) :
    (scheduleRetry 3 (2 ^ 63 - 1) w).2.1 = -2 ^ 63 ∧ (scheduleRetry 3 (2 ^ 63 - 1) w).1 = true := by
  unfold scheduleRetry
  have e : int64 (2 ^ 63 - 1 + 1) = -2 ^ 63 := by
    unfold int64
    norm_num
  simp only [e]
  constructor
  · split_ifs <;> rfl
  · norm_num

/-- C11. `scheduleRetry` increments the retry counter by exactly one on every
call for which the incremented counter is an `int`, that is for every counter
but the largest `int`, `2^63 - 1`, where the source wraps around; it returns
false iff `maxRetries > 0` and the incremented counter exceeds `maxRetries`,
and it then logs the warning; when `maxRetries` is 0 it returns true for
every value of the counter. -/
theorem scheduleRetry_counter (maxRetries currentRetryCount : Int) (w : World)
    (hlo : -2 ^ 63 ≤ currentRetryCount) (hhi : currentRetryCount < 2 ^ 63 - 1) :
    (scheduleRetry maxRetries currentRetryCount w).2.1 = currentRetryCount + 1 ∧
    ((scheduleRetry maxRetries currentRetryCount w).1 = false ↔
      (maxRetries > 0 ∧ currentRetryCount + 1 > maxRetries)) ∧
    ((scheduleRetry maxRetries currentRetryCount w).1 = false ↔
      (scheduleRetry maxRetries currentRetryCount w).2.2 =
        emit (.maxRetriesReached maxRetries) w) ∧
    ∀ c : Int, (scheduleRetry 0 c w).1 = true := by
  have hw : int64 (currentRetryCount + 1) = currentRetryCount + 1 :=
    int64_of_bounds _ (by omega) (by omega)
  unfold scheduleRetry
  simp only [hw]
  refine ⟨?_, ?_, ?_, fun c => by simp⟩
  · split_ifs <;> rfl
  · split_ifs with h1 h2
    · simp [h1, h2]
    · simp [h1, h2]
    · simp [h1]
  · split_ifs with h1 h2
    · simp
    · simp [Navi.emit]
    · simp [Navi.emit]

/-- Witness of C11: with two retries allowed, the third retry is refused. -/
theorem scheduleRetry_counter_witness :
    (scheduleRetry 2 2 world0).2.1 = 3 ∧ (scheduleRetry 2 2 world0).1 = false ∧
      (scheduleRetry 2 1 world0).1 = true ∧ (scheduleRetry 0 1000 world0).1 = true :=
  ⟨(scheduleRetry_counter 2 2 world0 (by decide) (by decide)).1,
    (scheduleRetry_counter 2 2 world0 (by decide) (by decide)).2.1.2 (by decide), by decide,
    (scheduleRetry_counter 0 1000 world0 (by decide) (by decide)).2.2.2 1000⟩

theorem shouldRestartOnCondition_iff (outcome condition : String) :
    shouldRestartOnCondition outcome condition = true ↔
      (condition = "always" ∨ condition = outcome) := by
  unfold shouldRestartOnCondition
  simp only [Bool.or_eq_true, beq_iff_eq]
  exact Or.comm

/-- C12. `shouldRestartOnCondition(outcome, condition)` is true iff
`condition` is `always` or equals `outcome`. In a turn of the loop of
`executeRestartableCommand` in which the run has returned an error other than
`ErrProcessTerminated`, `scheduleRetry` is called iff the condition is
`failure` or `always`; in a turn in which the run has returned nil,
`scheduleRetry` is called iff the condition is `success` or `always`. With
the condition `always` and no bound on the retries, a run that succeeds is
followed by the next turn. -/
theorem restart_condition (env : Env) (flags : RunnerFlags) (cmd : ProjectCommand)
    (cfg : RunnerCommand) (maxRetries : Int) (cond : String) (k : Int) (w w1 w2 w3 : World)
    (r : Option Err)
    (hports : tryWaitForPorts env cfg w = (none, w1))
    (hflag : readTerminating env (applyCommandDelay cfg w1) = (false, w2))
    (hrun : runEntry env cmd w2 = .ret r w3) :
    (∀ outcome condition, shouldRestartOnCondition outcome condition = true ↔
      (condition = "always" ∨ condition = outcome)) ∧
    (∀ e, r = some e → e.isTerminated = false →
      loopBody env flags cmd cfg maxRetries cond k w =
        if cond = "failure" ∨ cond = "always" then
          match scheduleRetry maxRetries k w3 with
          | (true, c, w4) => .next c w4
          | (false, _, w4) =>
            .stop ((serialFailure env flags cfg w4).bind fun _ w5 =>
              dependentCompletion env flags cfg w5)
        else
          .stop ((serialFailure env flags cfg w3).bind fun _ w5 =>
            dependentCompletion env flags cfg w5)) ∧
    (r = none →
      loopBody env flags cmd cfg maxRetries cond k w =
        if cond = "success" ∨ cond = "always" then
          match scheduleRetry maxRetries k w3 with
          | (true, c, w4) => .next c w4
          | (false, _, w4) => .stop (dependentCompletion env flags cfg w4)
        else .stop (dependentCompletion env flags cfg w3)) ∧
    (r = none → cond = "always" → maxRetries = 0 →
      loopBody env flags cmd cfg maxRetries cond k w =
        .next (int64 (k + 1)) (emit .restarting w3)) := by
  have hbody : ∀ rr, runEntry env cmd w2 = .ret rr w3 →
      loopBody env flags cmd cfg maxRetries cond k w =
      match rr with
      | some e =>
        if e.isTerminated then .stop (.ret () w3)
        else if shouldRestartOnCondition "failure" cond then
          match scheduleRetry maxRetries k w3 with
          | (true, c, w4) => .next c w4
          | (false, _, w4) =>
            .stop ((serialFailure env flags cfg w4).bind fun _ w5 =>
              dependentCompletion env flags cfg w5)
        else
          .stop ((serialFailure env flags cfg w3).bind fun _ w5 =>
            dependentCompletion env flags cfg w5)
      | none =>
        if shouldRestartOnCondition "success" cond then
          match scheduleRetry maxRetries k w3 with
          | (true, c, w4) => .next c w4
          | (false, _, w4) => .stop (dependentCompletion env flags cfg w4)
        else .stop (dependentCompletion env flags cfg w3) := by
    intro rr hrr
    unfold loopBody
    rw [hports]
    simp only
    rw [hflag]
    simp only
    rw [hrr]
    cases rr <;> rfl
  have hf : (shouldRestartOnCondition "failure" cond = true) ↔
      (cond = "failure" ∨ cond = "always") := by
    rw [shouldRestartOnCondition_iff]
    exact Or.comm
  have hs : (shouldRestartOnCondition "success" cond = true) ↔
      (cond = "success" ∨ cond = "always") := by
    rw [shouldRestartOnCondition_iff]
    exact Or.comm
  refine ⟨shouldRestartOnCondition_iff, ?_, ?_, ?_⟩
  · intro e he hterm
    subst he
    rw [hbody _ hrun]
    simp only [hterm, Bool.false_eq_true, if_false]
    by_cases hc : cond = "failure" ∨ cond = "always"
    · rw [if_pos (hf.2 hc), if_pos hc]
    · rw [if_neg (fun h => hc (hf.1 h)), if_neg hc]
  · intro hr
    subst hr
    rw [hbody _ hrun]
    simp only
    by_cases hc : cond = "success" ∨ cond = "always"
    · rw [if_pos (hs.2 hc), if_pos hc]
    · rw [if_neg (fun h => hc (hs.1 h)), if_neg hc]
  · intro hr hc hm
    subst hr hc hm
    rw [hbody _ hrun]
    rfl

/-- Witness of C12: an entry with `restart: always` and no bound on the
retries whose run succeeds goes on to the next turn. -/
theorem restart_condition_witness :
    loopBody envOk noFlags (.leaf ["build"]) plainEntry 0 "always" 0 world0 =
      .next 1 (emit .restarting (runEntry envOk (.leaf ["build"])
        (readTerminating envOk (applyCommandDelay plainEntry
          (tryWaitForPorts envOk plainEntry world0).2)).2).world) :=
  (restart_condition envOk noFlags (.leaf ["build"]) plainEntry 0 "always" 0 world0
    (tryWaitForPorts envOk plainEntry world0).2
    (readTerminating envOk (applyCommandDelay plainEntry
      (tryWaitForPorts envOk plainEntry world0).2)).2
    (runEntry envOk (.leaf ["build"])
      (readTerminating envOk (applyCommandDelay plainEntry
        (tryWaitForPorts envOk plainEntry world0).2)).2).world
    none (by decide) (by decide) (by rfl)).2.2.2 rfl rfl rfl

/-! ## The result of a command (C13) -/

/-- C13. For a child process that fails to start, exits non-zero or exits
zero, `executeSingleCommand` returns `ErrProcessTerminated` when the shutdown
flag is set and the node is not an after-hook command; otherwise
`ErrWatchModeRestart` when the watch data's status is `ErrWatchModeRestart`;
otherwise the descriptive error of a failed start or of a non-zero exit, and
nil iff the process exited zero. While a shutdown (for a node that is not an
after-hook command) or a watch restart is in flight, the result is a
sentinel, never a descriptive error. -/
theorem executeSingleCommand_decision (env : Env) (watchData isAfterCmd : Bool)
    (cmdArgs : List String) (w : World)
    (hsetup : ∀ msg, env.proc w.trace ≠ .setupFailed msg) :
    (((readTerminating env (emit (.exec isAfterCmd cmdArgs) w)).1 && !isAfterCmd) = true →
      (executeSingleCommand env watchData isAfterCmd cmdArgs w).1 =
        some .ErrProcessTerminated) ∧
    (((readTerminating env (emit (.exec isAfterCmd cmdArgs) w)).1 && !isAfterCmd) = false →
      (watchData && env.restarted w.trace) = true →
      (executeSingleCommand env watchData isAfterCmd cmdArgs w).1 =
        some .ErrWatchModeRestart) ∧
    (((readTerminating env (emit (.exec isAfterCmd cmdArgs) w)).1 && !isAfterCmd) = false →
      (watchData && env.restarted w.trace) = false →
      (executeSingleCommand env watchData isAfterCmd cmdArgs w).1 =
        match env.proc w.trace with
        | .startFailed msg => some (.other ("The command has failed with error `" ++ msg ++ "`"))
        | .exitFailed msg => some (.other ("The command has failed with exit code " ++ msg))
        | _ => none) ∧
    ((executeSingleCommand env watchData isAfterCmd cmdArgs w).1 = none ↔
      (env.proc w.trace = .exited ∧
        ((readTerminating env (emit (.exec isAfterCmd cmdArgs) w)).1 && !isAfterCmd) = false ∧
        (watchData && env.restarted w.trace) = false)) ∧
    ((((readTerminating env (emit (.exec isAfterCmd cmdArgs) w)).1 && !isAfterCmd) ||
        (watchData && env.restarted w.trace)) = true →
      ∀ msg, (executeSingleCommand env watchData isAfterCmd cmdArgs w).1 ≠ some (.other msg)) := by
  unfold executeSingleCommand sentinelOr
  simp only
  generalize hT : ((readTerminating env (emit (.exec isAfterCmd cmdArgs) w)).1 && !isAfterCmd) = T
  generalize hR : (watchData && env.restarted w.trace) = R
  rcases hp : env.proc w.trace with m | m | m | _
  · exact absurd hp (hsetup m)
  all_goals
    simp only [hT, hR]
    cases T <;> cases R <;> simp

/-- Witness of C13: a process that exits non-zero, outside watch mode and
with no shutdown under way, gives the descriptive error. -/
theorem executeSingleCommand_decision_witness :
    (executeSingleCommand envFail false false ["build"] world0).1 =
      some (.other "The command has failed with exit code exit status 1") :=
  (executeSingleCommand_decision envFail false false ["build"] world0
    (fun msg h => by simp [envFail] at h)).2.2.1 (by decide) (by decide)

/-! ## Errors of hooks (C14, C15) -/

theorem andThen_none (r : Option Err × World) : andThen r (fun w => (none, w)) = r := by
  rcases r with ⟨_ | e, w⟩ <;> rfl

theorem executeCommand_eq (env : Env) (wd ia : Bool) (cmd : ProjectCommand) (isMain : Bool)
    (w : World) :
    executeCommand env wd ia cmd isMain w = runStages (chainStages env wd ia cmd isMain) w := by
  rcases cmd with ⟨cl, wi, pp, p, po, ppo, a, b, c, d, e, f⟩
  rw [executeCommand_mk]
  rcases p with _ | p <;> rcases po with _ | po <;>
    simp only [chainStages, preStages, postStages, runStages, List.cons_append, List.nil_append,
      hookStage, mainStage, ProjectCommand.ProjPreCommand, ProjectCommand.PreCommand,
      ProjectCommand.PostCommand, ProjectCommand.ProjPostCommand, ProjectCommand.CommandList,
      andThen_none, if_true]

theorem executePreHooks_eq (env : Env) (wd ia : Bool) (cmd : ProjectCommand) (w : World) :
    executePreHooks env wd ia cmd w = runStages (preStages env wd ia cmd) w := by
  rcases hp : cmd.PreCommand with _ | p <;>
    simp only [executePreHooks, preStages, runStages, hookStage, andThen_none, if_true, hp]

theorem executePostHooks_eq (env : Env) (wd ia : Bool) (cmd : ProjectCommand) (w : World) :
    executePostHooks env wd ia cmd w = runStages (postStages env wd ia cmd) w := by
  rcases hp : cmd.PostCommand with _ | p <;>
    simp only [executePostHooks, postStages, runStages, hookStage, andThen_none, if_true, hp]

/-- A stage that returns an error ends the chain: no later stage runs. -/
theorem runStages_stop :
    ∀ (l : List (World → Option Err × World)) (i : Nat) (s : World → Option Err × World)
      (w w1 w2 : World) (e : Err), l.get? i = some s → runStages (l.take i) w = (none, w1) →
      s w1 = (some e, w2) → runStages l w = (some e, w2)
  | [], i, s, w, w1, w2, e, hl, _, _ => by cases hl
  | a :: l, 0, s, w, w1, w2, e, hl, hp, hs => by
    simp only [List.get?_cons_zero, Option.some.injEq] at hl
    subst hl
    simp only [List.take_zero, runStages, Prod.mk.injEq, true_and] at hp
    subst hp
    simp only [runStages, hs, andThen]
  | a :: l, i + 1, s, w, w1, w2, e, hl, hp, hs => by
    simp only [List.get?_cons_succ] at hl
    simp only [List.take_succ_cons, runStages] at hp ⊢
    rcases ha : a w with ⟨_ | ea, wa⟩
    · rw [ha] at hp
      simp only [andThen] at hp ⊢
      exact runStages_stop l i s wa w1 w2 e hl hp hs
    · rw [ha] at hp
      simp only [andThen] at hp
      cases hp

theorem hookAt_stage (env : Env) (wd ia : Bool) (cmd : ProjectCommand) (isMain : Bool)
    (i : Nat) (role : String) (announce : Event) (hook : ProjectCommand)
    (hi : hookAt ia cmd i = some (role, announce, hook)) :
    (chainStages env wd ia cmd isMain).get? i =
      some (hookStage env wd ia role announce (some hook) true) := by
  rcases cmd with ⟨cl, wi, pp, p, po, ppo, a, b, c, d, e, f⟩
  match i with
  | 0 =>
    simp only [hookAt, ProjectCommand.ProjPreCommand] at hi
    split_ifs at hi with hia
    rcases pp with _ | h
    · cases hi
    · simp only [Option.map_some', Option.some.injEq, Prod.mk.injEq] at hi
      obtain ⟨rfl, rfl, rfl⟩ := hi
      simp [chainStages, preStages, hookStage, ProjectCommand.ProjPreCommand, hia]
  | 1 =>
    simp only [hookAt, ProjectCommand.PreCommand] at hi
    rcases p with _ | h
    · cases hi
    · simp only [Option.map_some', Option.some.injEq, Prod.mk.injEq] at hi
      obtain ⟨rfl, rfl, rfl⟩ := hi
      simp [chainStages, preStages, hookStage, ProjectCommand.PreCommand]
  | 2 => simp [hookAt] at hi
  | 3 =>
    simp only [hookAt, ProjectCommand.PostCommand] at hi
    rcases po with _ | h
    · cases hi
    · simp only [Option.map_some', Option.some.injEq, Prod.mk.injEq] at hi
      obtain ⟨rfl, rfl, rfl⟩ := hi
      simp [chainStages, preStages, postStages, hookStage, ProjectCommand.PostCommand]
  | 4 =>
    simp only [hookAt, ProjectCommand.ProjPostCommand] at hi
    split_ifs at hi with hia
    rcases ppo with _ | h
    · cases hi
    · simp only [Option.map_some', Option.some.injEq, Prod.mk.injEq] at hi
      obtain ⟨rfl, rfl, rfl⟩ := hi
      simp [chainStages, preStages, postStages, hookStage, ProjectCommand.ProjPostCommand, hia]
  | n + 5 => simp [hookAt] at hi

/-- The result of a hook call whose hook returns an error. -/
theorem hookStage_error (env : Env) (wd ia : Bool) (role : String) (announce : Event)
    (hook : ProjectCommand) (w w1 : World) (e : Err)
    (h : executeCommand env wd ia hook false (emit announce w) = (some e, w1)) :
    hookStage env wd ia role announce (some hook) true w =
      (some (preserveWatchModeErrorState e (.other (role ++ e.Error))), w1) := by
  simp only [hookStage, if_true, h, hookResult]

/-- The result of `executeCommand` when a hook of its chain returns an error. -/
theorem executeCommand_hook_error (env : Env) (wd ia : Bool) (cmd : ProjectCommand)
    (isMain : Bool) (w : World) (i : Nat) (role : String) (announce : Event)
    (hook : ProjectCommand) (w1 w2 : World) (e : Err)
    (hi : hookAt ia cmd i = some (role, announce, hook))
    (hpre : runStages ((chainStages env wd ia cmd isMain).take i) w = (none, w1))
    (h : executeCommand env wd ia hook false (emit announce w1) = (some e, w2)) :
    executeCommand env wd ia cmd isMain w =
      (some (preserveWatchModeErrorState e (.other (role ++ e.Error))), w2) := by
  rw [executeCommand_eq]
  exact runStages_stop _ i _ w w1 w2 _ (hookAt_stage env wd ia cmd isMain i role announce hook hi)
    hpre (hookStage_error env wd ia role announce hook w1 w2 e h)

theorem preserve_of_plain (e new : Err) (h1 : e.isRestart = false) (h2 : e.isTerminated = false) :
    preserveWatchModeErrorState e new = new := by
  simp [preserveWatchModeErrorState, h1, h2]

theorem preserve_of_sentinel (e new : Err) (h : (e.isRestart || e.isTerminated) = true) :
    preserveWatchModeErrorState e new = e := by
  simp only [preserveWatchModeErrorState, h, if_true]

theorem hookAt_cases (ia : Bool) (cmd : ProjectCommand) (i : Nat) (role : String)
    (announce : Event) (hook : ProjectCommand)
    (hi : hookAt ia cmd i = some (role, announce, hook)) :
    (i = 0 ∧ ia = false ∧ role = "Project `pre` command failed: " ∧
      cmd.ProjPreCommand = some hook) ∨
    (i = 1 ∧ role = "Command `pre` command failed: " ∧ cmd.PreCommand = some hook) ∨
    (i = 3 ∧ role = "Command `post` command failed: " ∧ cmd.PostCommand = some hook) ∨
    (i = 4 ∧ ia = false ∧ role = "Project `post` command failed: " ∧
      cmd.ProjPostCommand = some hook) := by
  match i with
  | 0 =>
    simp only [hookAt] at hi
    split_ifs at hi with hia
    rcases hp : cmd.ProjPreCommand with _ | h
    · rw [hp] at hi
      cases hi
    · rw [hp] at hi
      simp only [Option.map_some', Option.some.injEq, Prod.mk.injEq] at hi
      obtain ⟨rfl, rfl, rfl⟩ := hi
      exact Or.inl ⟨rfl, by simpa using hia, rfl, rfl⟩
  | 1 =>
    simp only [hookAt] at hi
    rcases hp : cmd.PreCommand with _ | h
    · rw [hp] at hi
      cases hi
    · rw [hp] at hi
      simp only [Option.map_some', Option.some.injEq, Prod.mk.injEq] at hi
      obtain ⟨rfl, rfl, rfl⟩ := hi
      exact Or.inr (Or.inl ⟨rfl, rfl, rfl⟩)
  | 2 => simp [hookAt] at hi
  | 3 =>
    simp only [hookAt] at hi
    rcases hp : cmd.PostCommand with _ | h
    · rw [hp] at hi
      cases hi
    · rw [hp] at hi
      simp only [Option.map_some', Option.some.injEq, Prod.mk.injEq] at hi
      obtain ⟨rfl, rfl, rfl⟩ := hi
      exact Or.inr (Or.inr (Or.inl ⟨rfl, rfl, rfl⟩))
  | 4 =>
    simp only [hookAt] at hi
    split_ifs at hi with hia
    rcases hp : cmd.ProjPostCommand with _ | h
    · rw [hp] at hi
      cases hi
    · rw [hp] at hi
      simp only [Option.map_some', Option.some.injEq, Prod.mk.injEq] at hi
      obtain ⟨rfl, rfl, rfl⟩ := hi
      exact Or.inr (Or.inr (Or.inr ⟨rfl, by simpa using hia, rfl, rfl⟩))
  | n + 5 => simp [hookAt] at hi

/-- C14. If a hook of the chain of a node is reached and fails with an error
that is not a sentinel, `executeCommand` returns, in the world in which the
hook has ended (no later stage is run), an error whose message is the role
prefix of the hook followed by the message of the hook's error; the prefixes
are those of the project-level pre hook, the command-level pre hook, the
command-level post hook and the project-level post hook. A failure of the
main command list, reached after the pre hooks, is returned as it is, in the
world in which the command list has ended. -/
theorem executeCommand_hook_failure (env : Env) (watchData isAfterCmd : Bool)
    (cmd : ProjectCommand) (isMainCommand : Bool) (w : World) :
    (∀ (i : Nat) (role : String) (announce : Event) (hook : ProjectCommand) (w1 w2 : World)
      (e : Err), hookAt isAfterCmd cmd i = some (role, announce, hook) →
      runStages ((chainStages env watchData isAfterCmd cmd isMainCommand).take i) w =
        (none, w1) →
      executeCommand env watchData isAfterCmd hook false (emit announce w1) = (some e, w2) →
      e.isRestart = false → e.isTerminated = false →
      executeCommand env watchData isAfterCmd cmd isMainCommand w =
        (some (.other (role ++ e.Error)), w2)) ∧
    (∀ (w1 w2 : World) (e : Err),
      executePreHooks env watchData isAfterCmd cmd w = (none, w1) →
      executeSingleCommand env watchData isAfterCmd cmd.CommandList
        (if hasHooks isAfterCmd cmd && isMainCommand then emit .runningMain w1 else w1) =
          (some e, w2) →
      executeCommand env watchData isAfterCmd cmd isMainCommand w = (some e, w2)) ∧
    (∀ (i : Nat) (role : String) (announce : Event) (hook : ProjectCommand),
      hookAt isAfterCmd cmd i = some (role, announce, hook) →
      (i = 0 ∧ isAfterCmd = false ∧ role = "Project `pre` command failed: " ∧
        cmd.ProjPreCommand = some hook) ∨
      (i = 1 ∧ role = "Command `pre` command failed: " ∧ cmd.PreCommand = some hook) ∨
      (i = 3 ∧ role = "Command `post` command failed: " ∧ cmd.PostCommand = some hook) ∨
      (i = 4 ∧ isAfterCmd = false ∧ role = "Project `post` command failed: " ∧
        cmd.ProjPostCommand = some hook)) ∧
    executeCommand env watchData isAfterCmd cmd isMainCommand w =
      runStages (chainStages env watchData isAfterCmd cmd isMainCommand) w := by
  refine ⟨?_, ?_, hookAt_cases isAfterCmd cmd, executeCommand_eq _ _ _ _ _ _⟩
  · intro i role announce hook w1 w2 e hi hpre h h1 h2
    rw [executeCommand_hook_error env watchData isAfterCmd cmd isMainCommand w i role announce
      hook w1 w2 e hi hpre h, preserve_of_plain _ _ h1 h2]
  · intro w1 w2 e hpre hmain
    rw [executeCommand_eq]
    rw [executePreHooks_eq] at hpre
    exact runStages_stop _ 2 (mainStage env watchData isAfterCmd cmd isMainCommand) w w1 w2 e
      rfl hpre hmain

/-- Witness of C14: the project-level pre hook of the sample command exits
non-zero. -/
theorem executeCommand_hook_failure_witness :
    (executeCommand envFail false false sampleCmd true world0).1 =
      some (.other
        "Project `pre` command failed: The command has failed with exit code exit status 1") :=
  congrArg Prod.fst
    ((executeCommand_hook_failure envFail false false sampleCmd true world0).1 0
      "Project `pre` command failed: " (.runningPre true) (.leaf ["setup"]) world0
      (executeCommand envFail false false (.leaf ["setup"]) false
        (emit (.runningPre true) world0)).2
      (.other "The command has failed with exit code exit status 1")
      (by rfl) (by rfl) (by rfl) (by rfl) (by rfl))

theorem raised_returns (env : Env) (wd ia : Bool) (e : Err)
    (hs : (e.isRestart || e.isTerminated) = true) (wEnd : World) (cmd : ProjectCommand)
    (isMain : Bool) (w : World) (h : Raised env wd ia e wEnd cmd isMain w) :
    executeCommand env wd ia cmd isMain w = (some e, wEnd) := by
  induction h with
  | here cmd isMain w h => exact h
  | inHook cmd isMain w i role announce hook w1 hi hpre _ ih =>
    rw [executeCommand_hook_error env wd ia cmd isMain w i role announce hook w1 wEnd e hi hpre ih,
      preserve_of_sentinel _ _ hs]

/-- C15. For every hook error `e` that is `ErrWatchModeRestart` or
`ErrProcessTerminated`: `preserveWatchModeErrorState` returns `e` whatever the
role-wrapped error is; `executePreHooks` and `executePostHooks` return `e`
itself when one of their hooks returns it; and `executeCommand` of the root
returns `e` itself when a hook at any depth below it raises it. -/
theorem sentinel_preserved (env : Env) (watchData isAfterCmd : Bool) (e : Err)
    (hs : (e.isRestart || e.isTerminated) = true) :
    (∀ newError, preserveWatchModeErrorState e newError = e) ∧
    (∀ (cmd : ProjectCommand) (w : World) (i : Nat) (role : String) (announce : Event)
      (hook : ProjectCommand) (w1 w2 : World), i < 2 →
      hookAt isAfterCmd cmd i = some (role, announce, hook) →
      runStages ((preStages env watchData isAfterCmd cmd).take i) w = (none, w1) →
      executeCommand env watchData isAfterCmd hook false (emit announce w1) = (some e, w2) →
      executePreHooks env watchData isAfterCmd cmd w = (some e, w2)) ∧
    (∀ (cmd : ProjectCommand) (w : World) (i : Nat) (role : String) (announce : Event)
      (hook : ProjectCommand) (w1 w2 : World),
      hookAt isAfterCmd cmd (i + 3) = some (role, announce, hook) →
      runStages ((postStages env watchData isAfterCmd cmd).take i) w = (none, w1) →
      executeCommand env watchData isAfterCmd hook false (emit announce w1) = (some e, w2) →
      executePostHooks env watchData isAfterCmd cmd w = (some e, w2)) ∧
    (∀ (cmd : ProjectCommand) (isMainCommand : Bool) (w wEnd : World),
      Raised env watchData isAfterCmd e wEnd cmd isMainCommand w →
      executeCommand env watchData isAfterCmd cmd isMainCommand w = (some e, wEnd)) := by
  refine ⟨fun new => preserve_of_sentinel e new hs, ?_, ?_, ?_⟩
  · intro cmd w i role announce hook w1 w2 hlt hi hpre h
    rw [executePreHooks_eq]
    have hst := hookAt_stage env watchData isAfterCmd cmd true i role announce hook hi
    have hget : (preStages env watchData isAfterCmd cmd).get? i =
        some (hookStage env watchData isAfterCmd role announce (some hook) true) := by
      rw [← hst]
      match i, hlt with
      | 0, _ => rfl
      | 1, _ => rfl
    have := runStages_stop _ i _ w w1 w2 _ hget hpre
      (hookStage_error env watchData isAfterCmd role announce hook w1 w2 e h)
    rw [this, preserve_of_sentinel _ _ hs]
  · intro cmd w i role announce hook w1 w2 hi hpre h
    rw [executePostHooks_eq]
    have hst := hookAt_stage env watchData isAfterCmd cmd true (i + 3) role announce hook hi
    have hget : (postStages env watchData isAfterCmd cmd).get? i =
        some (hookStage env watchData isAfterCmd role announce (some hook) true) := by
      rw [← hst]
      rfl
    have := runStages_stop _ i _ w w1 w2 _ hget hpre
      (hookStage_error env watchData isAfterCmd role announce hook w1 w2 e h)
    rw [this, preserve_of_sentinel _ _ hs]
  · intro cmd isMain w wEnd h
    exact raised_returns env watchData isAfterCmd e hs wEnd cmd isMain w h

/-- Witness of C15: in watch mode a file change interrupts the pre hook of the
pre hook of a node; the node returns `ErrWatchModeRestart` itself. -/
theorem sentinel_preserved_witness :
    (executeCommand envRestart true false nestedCmd true world0).1 =
      some .ErrWatchModeRestart :=
  congrArg Prod.fst
    ((sentinel_preserved envRestart true false .ErrWatchModeRestart rfl).2.2.2 nestedCmd true
      world0
      (executeCommand envRestart true false (.leaf ["fetch"]) false
        (emit (.runningPre false) (emit (.runningPre false) world0))).2
      (Raised.inHook nestedCmd true world0 1 "Command `pre` command failed: "
        (.runningPre false)
        (.mk ["prepare"] [] none (some (.leaf ["fetch"])) none none
          none none none none none none)
        world0 (by rfl) (by rfl)
        (Raised.inHook _ false (emit (.runningPre false) world0) 1
          "Command `pre` command failed: " (.runningPre false) (.leaf ["fetch"])
          (emit (.runningPre false) world0) (by rfl) (by rfl)
          (Raised.here _ false _ (by rfl)))))

/-! ## The delay of an entry (C16) -/

theorem int64_of_range (n : Int) (h0 : 0 ≤ n) (h1 : n < 2 ^ 63) : int64 n = n := by
  unfold int64
  have e1 : (2 : Int) ^ 63 = 9223372036854775808 := by norm_num
  have e2 : (2 : Int) ^ 64 = 18446744073709551616 := by norm_num
  rw [e1, e2] at *
  omega

/-- What `applyCommandDelay` sleeps: the whole seconds of the delay. -/
theorem applyCommandDelay_whole_seconds (cfg : RunnerCommand) (w : World) :
    (cfg.Delay ≤ 0 → applyCommandDelay cfg w = w) ∧
    (0 < cfg.Delay → cfg.Delay < 9223372036 →
      applyCommandDelay cfg w =
        emit (.sleep (⌊cfg.Delay⌋ * 1000000000)) (emit .waitingDelay w)) ∧
    (0 < cfg.Delay → cfg.Delay < 1 →
      applyCommandDelay cfg w = emit (.sleep 0) (emit .waitingDelay w)) := by
  have key : 0 < cfg.Delay → cfg.Delay < 9223372036 →
      applyCommandDelay cfg w =
        emit (.sleep (⌊cfg.Delay⌋ * 1000000000)) (emit .waitingDelay w) := by
    intro h0 h1
    unfold applyCommandDelay timeDuration timeSecond
    rw [if_pos h0, if_neg (not_lt.2 h0.le)]
    have hfl : Rat.floor cfg.Delay = ⌊cfg.Delay⌋ := rfl
    rw [hfl]
    have hnn : 0 ≤ ⌊cfg.Delay⌋ := Int.floor_nonneg.2 h0.le
    have hlt : ⌊cfg.Delay⌋ < 9223372036 := by
      rw [Int.floor_lt]
      exact_mod_cast h1
    rw [int64_of_range _ (by positivity) (by norm_num; omega)]
  refine ⟨fun h => ?_, key, fun h0 h1 => ?_⟩
  · unfold applyCommandDelay
    rw [if_neg (not_lt.2 h)]
  · rw [key h0 (lt_trans h1 (by norm_num))]
    have : ⌊cfg.Delay⌋ = 0 := Int.floor_eq_zero_iff.2 ⟨h0.le, h1⟩
    rw [this]
    rfl

/-- C16, the code at the failing input. For a delay of 0.2 seconds
`applyCommandDelay` logs the wait and then calls `time.Sleep(0)`: it does not
sleep 200 ms. For a delay of 1.5 seconds it sleeps one second, not 1500 ms. -/
theorem applyCommandDelay_drops_fraction :
    delayFifth = 1 / 5 ∧ delayThreeHalves = 3 / 2 ∧
    applyCommandDelay { plainEntry with Delay := delayFifth } world0 =
      emit (.sleep 0) (emit .waitingDelay world0) ∧
    applyCommandDelay { plainEntry with Delay := delayThreeHalves } world0 =
      emit (.sleep 1000000000) (emit .waitingDelay world0) := by
  refine ⟨?_, ?_, by decide, by decide⟩
  · rw [← Rat.num_div_den delayFifth]
    norm_num [delayFifth]
  · rw [← Rat.num_div_den delayThreeHalves]
    norm_num [delayThreeHalves]

/-! ## The top level's handling of a result (C17) -/

theorem gracefulShutdown_events (env : Env) (w : World) :
    ∃ G, (gracefulShutdown env w).world.trace = w.trace ++ Event.gracefulShutdown :: G ∧
      ∀ e ∈ G, isShutdownEffect e = true := by
  unfold gracefulShutdown readTerminating
  simp only
  split_ifs
  · exact ⟨[], rfl, by simp⟩
  · exact ⟨[], rfl, by simp⟩
  · exact ⟨[Event.shuttingDown, Event.terminateAll, Event.killAll],
      by simp [Step.world, Navi.emit], by simp [isShutdownEffect]⟩

theorem processAfterCommands_events (env : Env) (err : Option Err)
    (projectCmd : Option ProjectCommand) (w : World) :
    ∃ A, (processAfterCommands env err projectCmd w).2.trace = w.trace ++ A ∧
      Event.gracefulShutdown ∉ A ∧ ∀ e, Event.errorLog e ∉ A := by
  unfold processAfterCommands
  rcases projectCmd with _ | cmd
  · exact ⟨[], by simp, by simp, by simp⟩
  · simp only
    split_ifs
    · obtain ⟨⟨a, ht, hp⟩, -⟩ := executeAfterHooks_trace env cmd err false w
      have hg : Event.gracefulShutdown ∉ a := fun h => by
        have := hp _ h
        simp [isHookEvent, isPlain] at this
      have hl : ∀ e, Event.errorLog e ∉ a := fun e h => by
        have := hp _ h
        simp [isHookEvent, isPlain] at this
      rcases hr : executeAfterHooks env cmd err false w with ⟨_ | afterErr, w2⟩
      · rw [hr] at ht
        exact ⟨_, ht, by simpa using hg, by simpa using hl⟩
      · rw [hr] at ht
        refine ⟨Event.afterHooks err false :: a ++ [Event.afterFailed false afterErr], ?_, ?_, ?_⟩
        · simp only at ht
          simp [Navi.emit, ht]
        · simpa using hg
        · simpa using hl
    · exact ⟨[], by simp, by simp, by simp⟩

/-- Where the code agrees with the claim: when the deferred `processWg.Done()`
of `executeAfterHooks` does not panic, `processCommandError` calls
`gracefulShutdown` iff the error is not `ErrProcessTerminated` and the error
or the after-hook error is non-nil; it logs the error iff the error is
non-nil and not `ErrProcessTerminated`; with a nil error and no after-hook
error (no node, after hooks already run, none defined, or all successful) it
returns without a call of `gracefulShutdown`. -/
theorem processCommandError_shutdown_of_counter (env : Env) (err : Option Err)
    (projectCmd : Option ProjectCommand) (w : World)
    (hp : afterHooksPanic env err projectCmd (logError err w) = false) :
    (processCommandError env err projectCmd w =
      if (err.all (fun e => !e.isTerminated) &&
          (err.isSome || (processAfterCommands env err projectCmd (logError err w)).1.isSome)) then
        gracefulShutdown env (processAfterCommands env err projectCmd (logError err w)).2
      else .ret () (processAfterCommands env err projectCmd (logError err w)).2) ∧
    (∃ E, (processCommandError env err projectCmd w).world.trace = w.trace ++ E ∧
      (Event.gracefulShutdown ∈ E ↔
        (err.all (fun e => !e.isTerminated) &&
          (err.isSome ||
            (processAfterCommands env err projectCmd (logError err w)).1.isSome)) = true) ∧
      ((∃ e, Event.errorLog e ∈ E) ↔ err.any (fun e => !e.isTerminated) = true) ∧
      ∀ e, Event.errorLog e ∈ E → err = some e) ∧
    (err = none → (processAfterCommands env err projectCmd (logError err w)).1 = none →
      processCommandError env err projectCmd w =
        .ret () (processAfterCommands env err projectCmd (logError err w)).2) := by
  have heq : processCommandError env err projectCmd w =
      if (err.all (fun e => !e.isTerminated) &&
          (err.isSome || (processAfterCommands env err projectCmd (logError err w)).1.isSome)) then
        gracefulShutdown env (processAfterCommands env err projectCmd (logError err w)).2
      else .ret () (processAfterCommands env err projectCmd (logError err w)).2 := by
    rw [processCommandError_eq, hp]
    simp only [Bool.false_eq_true, if_false]
  refine ⟨heq, ?_, ?_⟩
  · rw [heq]
    obtain ⟨A, hA, hAg, hAl⟩ := processAfterCommands_events env err projectCmd (logError err w)
    obtain ⟨G, hG, hGe⟩ := gracefulShutdown_events env
      (processAfterCommands env err projectCmd (logError err w)).2
    have hGl : ∀ e, Event.errorLog e ∉ G := fun e h => by
      have := hGe _ h
      simp [isShutdownEffect] at this
    have hLog : ∃ M, (logError err w).trace = w.trace ++ M ∧ Event.gracefulShutdown ∉ M ∧
        ((∃ e, Event.errorLog e ∈ M) ↔ err.any (fun e => !e.isTerminated) = true) ∧
        ∀ e, Event.errorLog e ∈ M → err = some e := by
      unfold logError
      rcases err with _ | e
      · exact ⟨[], by simp, by simp, by simp, by simp⟩
      · cases hT : e.isTerminated
        · exact ⟨[Event.errorLog e], by simp [Navi.emit, hT], by simp, by simp [hT], by simp⟩
        · exact ⟨[], by simp [hT], by simp, by simp [hT], by simp⟩
    obtain ⟨M, hM, hMg, hMl, hMe⟩ := hLog
    split_ifs with hc
    · refine ⟨M ++ A ++ Event.gracefulShutdown :: G, ?_, ?_, ?_, ?_⟩
      · rw [hG, hA, hM]
        simp
      · simp [hc]
      · rw [← hMl]
        constructor
        · rintro ⟨e, he⟩
          simp only [List.append_assoc, List.mem_append, List.mem_cons] at he
          rcases he with he | he | he | he
          · exact ⟨e, he⟩
          · exact absurd he (hAl e)
          · cases he
          · exact absurd he (hGl e)
        · rintro ⟨e, he⟩
          exact ⟨e, by simp [he]⟩
      · intro e he
        simp only [List.append_assoc, List.mem_append, List.mem_cons] at he
        rcases he with he | he | he | he
        · exact hMe e he
        · exact absurd he (hAl e)
        · cases he
        · exact absurd he (hGl e)
    · refine ⟨M ++ A, ?_, ?_, ?_, ?_⟩
      · simp only [Step.world]
        rw [hA, hM]
        simp
      · simp only [List.mem_append, hMg, hAg, or_self, false_iff]
        exact hc
      · rw [← hMl]
        constructor
        · rintro ⟨e, he⟩
          rcases List.mem_append.1 he with he | he
          · exact ⟨e, he⟩
          · exact absurd he (hAl e)
        · rintro ⟨e, he⟩
          exact ⟨e, by simp [he]⟩
      · intro e he
        rcases List.mem_append.1 he with he | he
        · exact hMe e he
        · exact absurd he (hAl e)
  · intro he ha
    rw [heq]
    subst he
    simp [ha]

/-- An instance of the above: a nil error and a node whose after hooks
succeed, after a run that has raised the counter of `processWg`. -/
theorem processCommandError_shutdown_of_counter_example :
    processCommandError envOk none (some cmdWithAfter) { world0 with processWg := 1 } =
      .ret () (processAfterCommands envOk none (some cmdWithAfter)
        (logError none { world0 with processWg := 1 })).2 :=
  (processCommandError_shutdown_of_counter envOk none (some cmdWithAfter)
    { world0 with processWg := 1 } (by decide)).2.2 rfl (by decide)

/-- C17, where the code leaves the claim (the defect of C28). The file watcher
of a watch-enabled node with an after hook cannot be created: `execute`
returns the error of the watcher, which is non-nil and not
`ErrProcessTerminated`, in a world in which no run has raised the counter of
`processWg`. `processCommandError` logs the error and enters
`executeAfterHooks`, whose deferred `processWg.Done()` takes the counter below
zero and panics: the program ends there, `gracefulShutdown` is not called and
the shutdown flag is not set. -/
theorem processCommandError_panic_before_shutdown :
    execute envNoWatcher cmdWatchedAlways world0 =
      .ret (some (.other "too many open files")) worldWatcherFailed ∧
    (some (Err.other "too many open files")).all (fun e => !e.isTerminated) = true ∧
    (processCommandError envNoWatcher (some (.other "too many open files"))
      (some cmdWatchedAlways) worldWatcherFailed).exited = true ∧
    Event.errorLog (.other "too many open files") ∈
      (processCommandError envNoWatcher (some (.other "too many open files"))
        (some cmdWatchedAlways) worldWatcherFailed).world.trace ∧
    Event.wgPanic ∈
      (processCommandError envNoWatcher (some (.other "too many open files"))
        (some cmdWatchedAlways) worldWatcherFailed).world.trace ∧
    Event.gracefulShutdown ∉
      (processCommandError envNoWatcher (some (.other "too many open files"))
        (some cmdWatchedAlways) worldWatcherFailed).world.trace ∧
    (processCommandError envNoWatcher (some (.other "too many open files"))
      (some cmdWatchedAlways) worldWatcherFailed).world.TerminatingProcesses = false :=
  ⟨rfl, rfl, by decide, by decide, by decide, by decide, by decide⟩

/-! ## The functions of the process registry -/

theorem terminateLoop_spec (m : ProcessMap) :
    ∀ r : Registry, (m.foldl (fun acc p => TerminateProcess p.2 acc) r) =
      { r with sent := r.sent ++ signalsTo .SIGTERM (fun pid => -(pid : Int)) m } := by
  induction m with
  | nil => intro r; simp [signalsTo]
  | cons p m ih =>
    intro r
    rw [List.foldl_cons, ih]
    unfold TerminateProcess signalsTo
    rcases hp : p.2.Process with _ | pid <;> simp [hp]

theorem interruptLoop_spec (m : ProcessMap) :
    ∀ r : Registry, (m.foldl (fun acc p => InterruptProcess p.2 acc) r) =
      { r with sent := r.sent ++ signalsTo .SIGINT (fun pid => -(pid : Int)) m } := by
  induction m with
  | nil => intro r; simp [signalsTo]
  | cons p m ih =>
    intro r
    rw [List.foldl_cons, ih]
    unfold InterruptProcess signalsTo
    rcases hp : p.2.Process with _ | pid <;> simp [hp]

/-- The signals of `KillProcess` for the handles of a map. -/
theorem killLoop_main (m : ProcessMap) :
    ∀ r : Registry,
      (m.foldl (fun acc p =>
        { KillProcess p.2 acc with ProcessRegistry := mapDelete acc.ProcessRegistry p.1 }) r) =
      { r with
        ProcessRegistry := r.ProcessRegistry.filter fun q => !(pids m).contains q.1
        sent := r.sent ++ (m.filterMap fun p => p.2.Process).flatMap fun pid =>
          [(Signal.SIGKILL, (pid : Int)), (Signal.SIGKILL, (pid : Int))] } := by
  induction m with
  | nil => intro r; simp [pids]
  | cons p m ih =>
    intro r
    rw [List.foldl_cons, ih]
    unfold KillProcess mapDelete pids
    rcases hp : p.2.Process with _ | pid <;>
      simp [hp, List.filter_filter, Bool.and_comm, List.flatMap]
    all_goals
      apply List.filter_congr
      intro q _
      rfl

theorem killLoop_after (m : ProcessMap) :
    ∀ r : Registry,
      (m.foldl (fun acc p =>
        { KillProcess p.2 acc with
          afterProcessesRegistry := mapDelete acc.afterProcessesRegistry p.1 }) r) =
      { r with
        afterProcessesRegistry :=
          r.afterProcessesRegistry.filter fun q => !(pids m).contains q.1
        sent := r.sent ++ (m.filterMap fun p => p.2.Process).flatMap fun pid =>
          [(Signal.SIGKILL, (pid : Int)), (Signal.SIGKILL, (pid : Int))] } := by
  induction m with
  | nil => intro r; simp [pids]
  | cons p m ih =>
    intro r
    rw [List.foldl_cons, ih]
    unfold KillProcess mapDelete pids
    rcases hp : p.2.Process with _ | pid <;>
      simp [hp, List.filter_filter, Bool.and_comm, List.flatMap]
    all_goals
      apply List.filter_congr
      intro q _
      rfl

theorem filter_not_contains_self (m : ProcessMap) :
    (m.filter fun q => !(pids m).contains q.1) = [] := by
  rw [List.filter_eq_nil_iff]
  intro q hq
  have hm : q.1 ∈ pids m := List.mem_map.2 ⟨q, hq, rfl⟩
  simp [hm]

theorem KillAll_spec (r : Registry) :
    KillAll r =
      { r with
        ProcessRegistry := []
        afterProcessesRegistry := []
        sent := r.sent ++
          ((r.ProcessRegistry ++ r.afterProcessesRegistry).filterMap fun p =>
            p.2.Process).flatMap fun pid =>
              [(Signal.SIGKILL, (pid : Int)), (Signal.SIGKILL, (pid : Int))] } := by
  unfold KillAll
  simp only
  rw [killLoop_main, killLoop_after]
  simp only [filter_not_contains_self, List.filterMap_append, List.flatMap_append,
    List.append_assoc]

/-! ## Shutdown is idempotent (C18) -/

theorem readTerminating_of_set (env : Env) (w : World) (h : w.TerminatingProcesses = true) :
    readTerminating env w = (true, w) := by
  rcases w with ⟨t, s, a, x, p, tr⟩
  simp only at h
  subst h
  simp [readTerminating]

theorem gracefulShutdownSignal_of_set (env : Env) (windows : Bool) (signal : String)
    (w : World) (h : w.TerminatingProcesses = true) :
    gracefulShutdownSignal env windows signal w = .ret () (emit .gracefulShutdown w) := by
  unfold gracefulShutdownSignal
  simp only
  rw [readTerminating_of_set env (emit .gracefulShutdown w) h]
  rfl

theorem gracefulShutdown_eq_signal (env : Env) (windows : Bool) (w : World) :
    gracefulShutdown env w = gracefulShutdownSignal env windows "" w := by
  unfold gracefulShutdown gracefulShutdownSignal
  simp

theorem gracefulShutdownSignal_flag (env : Env) (windows : Bool) (signal : String)
    (w : World) :
    (gracefulShutdownSignal env windows signal w).world.TerminatingProcesses = true := by
  unfold gracefulShutdownSignal readTerminating
  simp only
  split_ifs with h <;> first | exact h | rfl

theorem tryWaitForPorts_of_set (env : Env) (cfg : RunnerCommand) (w : World)
    (h : w.TerminatingProcesses = true) :
    tryWaitForPorts env cfg w = (some .ErrProcessTerminated, w) := by
  unfold tryWaitForPorts
  rw [readTerminating_of_set env w h]

/-- With the shutdown flag set `executeOneTimeCommand` returns at once. -/
theorem executeOneTimeCommand_of_set (env : Env) (flags : RunnerFlags) (cmd : ProjectCommand)
    (cfg : RunnerCommand) (w : World) (h : w.TerminatingProcesses = true) :
    executeOneTimeCommand env flags cmd cfg w = .ret () w := by
  unfold executeOneTimeCommand
  rw [tryWaitForPorts_of_set env cfg w h]
  simp only
  rw [readTerminating_of_set env w h]

/-- With the shutdown flag set a turn of the loop of
`executeRestartableCommand` returns at once. -/
theorem loopBody_of_set (env : Env) (flags : RunnerFlags) (cmd : ProjectCommand)
    (cfg : RunnerCommand) (maxRetries : Int) (cond : String) (k : Int) (w : World)
    (h : w.TerminatingProcesses = true) :
    loopBody env flags cmd cfg maxRetries cond k w = .stop (.ret () w) := by
  unfold loopBody
  rw [tryWaitForPorts_of_set env cfg w h]
  simp only
  rw [readTerminating_of_set env w h]

theorem restartLoop_of_set (env : Env) (flags : RunnerFlags) (cmd : ProjectCommand)
    (cfg : RunnerCommand) (maxRetries : Int) (cond : String) (fuel : Nat) (k : Int)
    (w : World) (h : w.TerminatingProcesses = true) (s : Step Unit)
    (hs : restartLoop env flags cmd cfg maxRetries cond fuel k w = some s) :
    s = .ret () w := by
  cases fuel with
  | zero =>
    rw [restartLoop_zero] at hs
    cases hs
  | succ fuel =>
    rw [restartLoop_body, loopBody_of_set env flags cmd cfg maxRetries cond k w h] at hs
    simp only [Option.some.injEq] at hs
    exact hs.symm

theorem launchRunnerCommand_of_set (env : Env) (flags : RunnerFlags)
    (execution : RunnerExecution) (fuel : Nat) (w : World)
    (h : w.TerminatingProcesses = true) (s : Step Unit)
    (hs : launchRunnerCommand env flags execution fuel w = some s) :
    s.world.TerminatingProcesses = true := by
  unfold launchRunnerCommand at hs
  rw [readTerminating_of_set env w h] at hs
  simp only [Bool.not_true, Bool.and_false, Bool.false_eq_true, if_false] at hs
  by_cases hr : execution.enableRestart = true
  · rw [if_pos hr] at hs
    unfold executeRestartableCommand at hs
    rcases hb : restartLoop env flags execution.projectCmd execution.runnerCmd
      execution.maxRetries execution.restartCondition fuel 0
      (emit (.startingAutoRestart execution.maxRetries) w) with _ | s1
    · rw [hb] at hs
      cases hs
    · rw [hb] at hs
      have := restartLoop_of_set env flags execution.projectCmd execution.runnerCmd
        execution.maxRetries execution.restartCondition fuel 0
        (emit (.startingAutoRestart execution.maxRetries) w) h s1 hb
      subst this
      simp only [Option.map_some', Step.bind, Option.some.injEq] at hs
      rw [readTerminating_of_set env (emit (.startingAutoRestart execution.maxRetries) w) h] at hs
      simp only [Bool.not_true, Bool.and_false, Bool.false_eq_true, if_false] at hs
      subst hs
      exact h
  · rw [if_neg hr, executeOneTimeCommand_of_set env flags _ _ w h] at hs
    simp only [Option.map_some', Step.bind, Option.some.injEq] at hs
    rw [readTerminating_of_set env w h] at hs
    simp only [Bool.not_true, Bool.and_false, Bool.false_eq_true, if_false] at hs
    subst hs
    exact h

theorem processCommandError_flag (env : Env) (err : Option Err)
    (projectCmd : Option ProjectCommand) (w : World) (h : w.TerminatingProcesses = true) :
    (processCommandError env err projectCmd w).world.TerminatingProcesses = true := by
  rw [processCommandError_eq]
  have hl : (logError err w).TerminatingProcesses = true := by
    rw [logError_flag]
    exact h
  have hw : (afterHooksWorld env err projectCmd (logError err w)).TerminatingProcesses =
      true := by
    unfold afterHooksWorld
    rcases projectCmd with _ | cmd
    · exact hl
    · simp only
      split_ifs
      · exact (executeAfterHooks_inner env cmd err false (logError err w)).2 hl
      · exact hl
  have ha : (processAfterCommands env err projectCmd (logError err w)).2.TerminatingProcesses =
      true := by
    unfold processAfterCommands
    rcases projectCmd with _ | cmd
    · exact hl
    · simp only
      split_ifs
      · have hi := (executeAfterHooks_inner env cmd err false (logError err w)).2 hl
        rcases hr : executeAfterHooks env cmd err false (logError err w) with ⟨_ | afterErr, w2⟩
        · rw [hr] at hi
          exact hi
        · rw [hr] at hi
          exact hi
      · exact hl
  split_ifs
  · exact hw
  · exact (gracefulShutdown_inner env _).2
  · exact ha

theorem registry_flag_kept (cmd : ExecCmd) (r : Registry) :
    (Register cmd r).TerminatingProcesses = r.TerminatingProcesses ∧
    (RegisterAfter cmd r).TerminatingProcesses = r.TerminatingProcesses ∧
    (KillAll r).TerminatingProcesses = r.TerminatingProcesses ∧
    (TerminateAll r).TerminatingProcesses = true ∧
    (InterruptAll r).TerminatingProcesses = true := by
  refine ⟨?_, ?_, ?_, ?_, ?_⟩
  · unfold Register
    cases cmd.Process <;> rfl
  · unfold RegisterAfter
    cases cmd.Process <;> rfl
  · rw [KillAll_spec]
  · unfold TerminateAll TerminateProcessGroup
    rw [terminateLoop_spec]
  · unfold InterruptAll InterruptProcessGroup
    rw [interruptLoop_spec]

/-- C18. A call of `gracefulShutdown` made while the shutdown flag is set
returns at once: nothing is logged, no process is signalled or killed, the
flag and every other field of the state are as before, and only the ghost
event of the call is added. Whatever the state, the flag is set after a call,
so a second call adds nothing to the first. The flag, once set, is set after
every operation of the engine and of the package `process`. -/
theorem gracefulShutdown_idempotent (env : Env) (windows : Bool) (signal signal2 : String)
    (w : World) :
    (w.TerminatingProcesses = true →
      gracefulShutdownSignal env windows signal w = .ret () (emit .gracefulShutdown w) ∧
      gracefulShutdown env w = .ret () (emit .gracefulShutdown w)) ∧
    (gracefulShutdownSignal env windows signal w).world.TerminatingProcesses = true ∧
    (((gracefulShutdownSignal env windows signal w).bind fun _ w1 =>
        gracefulShutdownSignal env windows signal2 w1) =
      ((gracefulShutdownSignal env windows signal w).bind fun _ w1 =>
        .ret () (emit .gracefulShutdown w1))) ∧
    (w.TerminatingProcesses = true →
      (∀ e, (emit e w).TerminatingProcesses = true) ∧
      (readTerminating env w).2.TerminatingProcesses = true ∧
      (∀ wd ia cmds, (executeSingleCommand env wd ia cmds w).2.TerminatingProcesses = true) ∧
      (∀ wd ia cmd isMain, (executeCommand env wd ia cmd isMain w).2.TerminatingProcesses = true) ∧
      (∀ cmd err chg, (executeAfterHooks env cmd err chg w).2.TerminatingProcesses = true) ∧
      (∀ wd cmd, (executeOneTime env wd cmd w).2.TerminatingProcesses = true) ∧
      (∀ cmd, (execute env cmd w).world.TerminatingProcesses = true) ∧
      (∀ err cmd, (processCommandError env err cmd w).world.TerminatingProcesses = true) ∧
      (∀ cmd, (executeCommandWithAfterHandling env cmd w).world.TerminatingProcesses = true) ∧
      (∀ flags cmd cfg, executeOneTimeCommand env flags cmd cfg w = .ret () w) ∧
      (∀ flags cmd cfg maxRetries cond fuel s,
        executeRestartableCommand env flags cmd cfg maxRetries cond fuel w = some s →
          s.world.TerminatingProcesses = true) ∧
      (∀ flags execution fuel s, launchRunnerCommand env flags execution fuel w = some s →
        s.world.TerminatingProcesses = true)) ∧
    (∀ (r : Registry) (cmd : ExecCmd), r.TerminatingProcesses = true →
      (Register cmd r).TerminatingProcesses = true ∧
      (RegisterAfter cmd r).TerminatingProcesses = true ∧
      (KillAll r).TerminatingProcesses = true ∧
      (TerminateAll r).TerminatingProcesses = true ∧
      (InterruptAll r).TerminatingProcesses = true) := by
  refine ⟨fun h => ⟨gracefulShutdownSignal_of_set env windows signal w h, ?_⟩,
    gracefulShutdownSignal_flag env windows signal w, ?_, fun h => ?_, fun r cmd h => ?_⟩
  · rw [gracefulShutdown_eq_signal env windows w]
    exact gracefulShutdownSignal_of_set env windows "" w h
  · have hf := gracefulShutdownSignal_flag env windows signal w
    rcases hr : gracefulShutdownSignal env windows signal w with ⟨u, w1⟩ | w1
    · rw [hr] at hf
      simp only [Step.bind]
      exact gracefulShutdownSignal_of_set env windows signal2 w1 hf
    · rfl
  · refine ⟨fun e => h, ?_, fun wd ia cmds => ?_, fun wd ia cmd isMain => ?_,
      fun cmd err chg => ?_, fun wd cmd => ?_, fun cmd => ?_, fun err cmd => ?_, fun cmd => ?_,
      fun flags cmd cfg => ?_, fun flags cmd cfg maxRetries cond fuel s hs => ?_,
      fun flags execution fuel s hs => ?_⟩
    · rw [readTerminating_of_set env w h]
      exact h
    · exact (executeSingleCommand_extends (P := fun _ => True) env wd ia cmds w trivial).2.2.2.2.2 h
    · exact (executeCommand_extends env wd ia cmd isMain w).2.2.2.2.2 h
    · exact (executeAfterHooks_inner env cmd err chg w).2 h
    · exact (executeOneTime_inner env wd cmd w).1.2 h
    · exact (execute_ok env cmd w).1.2 h
    · exact processCommandError_flag env err cmd w h
    · exact (executeCommandWithAfterHandling_proj env cmd w).1 h
    · exact executeOneTimeCommand_of_set env flags cmd cfg w h
    · unfold executeRestartableCommand at hs
      have := restartLoop_of_set env flags cmd cfg maxRetries cond fuel 0
        (emit (.startingAutoRestart maxRetries) w) h s hs
      subst this
      exact h
    · exact launchRunnerCommand_of_set env flags execution fuel w h s hs
  · obtain ⟨h1, h2, h3, h4, h5⟩ := registry_flag_kept cmd r
    exact ⟨h1.trans h, h2.trans h, h3.trans h, h4, h5⟩

/-- Witness of C18: a world in which the shutdown flag is set. -/
theorem gracefulShutdown_idempotent_witness :
    ({ world0 with TerminatingProcesses := true } : World).TerminatingProcesses = true ∧
    gracefulShutdownSignal envFail false "interrupt" { world0 with TerminatingProcesses := true } =
      .ret () (emit .gracefulShutdown { world0 with TerminatingProcesses := true }) :=
  ⟨rfl, ((gracefulShutdown_idempotent envFail false "interrupt" ""
    { world0 with TerminatingProcesses := true }).1 rfl).1⟩

/-! ## Process registry (C19, C20) -/

theorem pids_mapDelete_subset (m : ProcessMap) (pid q : Nat) (h : q ∈ pids (mapDelete m pid)) :
    q ∈ pids m ∧ q ≠ pid := by
  simp only [pids, mapDelete, List.mem_map, List.mem_filter] at h ⊢
  obtain ⟨a, ⟨ha, hne⟩, rfl⟩ := h
  exact ⟨⟨a, ha, rfl⟩, by simpa using hne⟩

theorem mem_pids_mapDelete (m : ProcessMap) (pid q : Nat) (h : q ∈ pids m) (hne : q ≠ pid) :
    q ∈ pids (mapDelete m pid) := by
  simp only [pids, mapDelete, List.mem_map, List.mem_filter] at h ⊢
  obtain ⟨a, ha, rfl⟩ := h
  exact ⟨a, ⟨ha, by simpa using hne⟩, rfl⟩

theorem mem_pids_mapSet (m : ProcessMap) (pid : Nat) (cmd : ExecCmd) (q : Nat) :
    q ∈ pids (mapSet m pid cmd) ↔ q = pid ∨ q ∈ pids m := by
  unfold mapSet
  constructor
  · intro h
    simp only [pids, List.map_cons, List.mem_cons] at h
    rcases h with h | h
    · exact Or.inl h
    · exact Or.inr (pids_mapDelete_subset m pid q h).1
  · intro h
    simp only [pids, List.map_cons, List.mem_cons]
    by_cases hq : q = pid
    · exact Or.inl hq
    · rcases h with h | h
      · exact absurd h hq
      · exact Or.inr (mem_pids_mapDelete m pid q h hq)

theorem registry_step_pids (r : Registry) (e : RegistryEvent) (q : Nat) :
    (q ∈ pids (r.step e).ProcessRegistry →
      q ∈ pids r.ProcessRegistry ∨ ∃ cmd, e = .register cmd ∧ cmd.Process = some q) ∧
    (q ∈ pids (r.step e).afterProcessesRegistry →
      q ∈ pids r.afterProcessesRegistry ∨ ∃ cmd, e = .registerAfter cmd ∧ cmd.Process = some q) := by
  cases e with
  | register cmd =>
    simp only [Registry.step, Register]
    rcases hp : cmd.Process with _ | pid
    · exact ⟨Or.inl, Or.inl⟩
    · simp only [mem_pids_mapSet]
      refine ⟨fun h => h.elim (fun h => Or.inr ⟨cmd, rfl, by rw [hp, h]⟩) Or.inl, Or.inl⟩
  | registerAfter cmd =>
    simp only [Registry.step, RegisterAfter]
    rcases hp : cmd.Process with _ | pid
    · exact ⟨Or.inl, Or.inl⟩
    · simp only [mem_pids_mapSet]
      refine ⟨Or.inl, fun h => h.elim (fun h => Or.inr ⟨cmd, rfl, by rw [hp, h]⟩) Or.inl⟩
  | processExit pid => exact ⟨Or.inl, Or.inl⟩
  | killAll =>
    simp only [Registry.step, KillAll_spec, pids, List.map_nil, List.not_mem_nil]
    exact ⟨fun h => h.elim, fun h => h.elim⟩

/-- The two pools stay disjoint as long as no pid is registered twice. -/
theorem registry_run_disjoint :
    ∀ (events : List RegistryEvent) (r : Registry),
      (∀ q, q ∈ pids r.ProcessRegistry → q ∉ pids r.afterProcessesRegistry) →
      (∀ q, q ∈ pids r.ProcessRegistry ∨ q ∈ pids r.afterProcessesRegistry →
        q ∉ registeredPids events) →
      (registeredPids events).Nodup →
      ∀ q, q ∈ pids (r.run events).ProcessRegistry →
        q ∉ pids (r.run events).afterProcessesRegistry
  | [], r, hd, _, _ => hd
  | e :: es, r, hd, hf, hn => by
    have hrun : r.run (e :: es) = (r.step e).run es := rfl
    rw [hrun]
    have hsub : ∀ q, q ∈ registeredPids es → q ∈ registeredPids (e :: es) := by
      intro q hq
      cases e <;> simp [registeredPids, hq]
    have hn2 : (registeredPids es).Nodup := by
      cases e with
      | register cmd => exact (List.nodup_append.1 hn).2.1
      | registerAfter cmd => exact (List.nodup_append.1 hn).2.1
      | processExit pid => exact hn
      | killAll => exact hn
    have hnew : ∀ cmd q, (e = .register cmd ∨ e = .registerAfter cmd) → cmd.Process = some q →
        q ∈ registeredPids (e :: es) ∧ q ∉ registeredPids es := by
      intro cmd q he hq
      rcases he with rfl | rfl
      · simp only [registeredPids, hq, Option.toList_some] at hn ⊢
        exact ⟨by simp, fun h => (List.nodup_cons.1 hn).1 h⟩
      · simp only [registeredPids, hq, Option.toList_some] at hn ⊢
        exact ⟨by simp, fun h => (List.nodup_cons.1 hn).1 h⟩
    refine registry_run_disjoint es (r.step e) ?_ ?_ hn2
    · intro q hm ha
      rcases (registry_step_pids r e q).1 hm with hm1 | ⟨cmd, he, hq⟩
      · rcases (registry_step_pids r e q).2 ha with ha1 | ⟨cmd, he, hq⟩
        · exact hd q hm1 ha1
        · exact hf q (Or.inl hm1) (hnew cmd q (Or.inr he) hq).1
      · rcases (registry_step_pids r e q).2 ha with ha1 | ⟨cmd2, he2, hq2⟩
        · exact hf q (Or.inr ha1) (hnew cmd q (Or.inl he) hq).1
        · rw [he] at he2
          cases he2
    · intro q hq hmem
      rcases hq with hm | ha
      · rcases (registry_step_pids r e q).1 hm with hm1 | ⟨cmd, he, hq⟩
        · exact hf q (Or.inl hm1) (hsub q hmem)
        · exact (hnew cmd q (Or.inl he) hq).2 hmem
      · rcases (registry_step_pids r e q).2 ha with ha1 | ⟨cmd, he, hq⟩
        · exact hf q (Or.inr ha1) (hsub q hmem)
        · exact (hnew cmd q (Or.inr he) hq).2 hmem

theorem registry_step_keeps (r : Registry) (e : RegistryEvent) (he : e.isKillAll = false)
    (q : Nat) :
    (q ∈ pids r.ProcessRegistry → q ∈ pids (r.step e).ProcessRegistry) ∧
    (q ∈ pids r.afterProcessesRegistry → q ∈ pids (r.step e).afterProcessesRegistry) := by
  cases e with
  | register cmd =>
    simp only [Registry.step, Register]
    rcases hp : cmd.Process with _ | pid
    · exact ⟨id, id⟩
    · exact ⟨fun h => (mem_pids_mapSet _ _ _ _).2 (Or.inr h), id⟩
  | registerAfter cmd =>
    simp only [Registry.step, RegisterAfter]
    rcases hp : cmd.Process with _ | pid
    · exact ⟨id, id⟩
    · exact ⟨id, fun h => (mem_pids_mapSet _ _ _ _).2 (Or.inr h)⟩
  | processExit pid => exact ⟨id, id⟩
  | killAll => cases he

theorem registry_run_keeps :
    ∀ (events : List RegistryEvent) (r : Registry), (∀ e ∈ events, e.isKillAll = false) →
      ∀ q, (q ∈ pids r.ProcessRegistry → q ∈ pids (r.run events).ProcessRegistry) ∧
        (q ∈ pids r.afterProcessesRegistry → q ∈ pids (r.run events).afterProcessesRegistry)
  | [], r, _, q => ⟨id, id⟩
  | e :: es, r, h, q => by
    have hrun : r.run (e :: es) = (r.step e).run es := rfl
    rw [hrun]
    have h1 := registry_step_keeps r e (h e (by simp)) q
    have h2 := registry_run_keeps es (r.step e) (fun e' he' => h e' (by simp [he'])) q
    exact ⟨fun hq => h2.1 (h1.1 hq), fun hq => h2.2 (h1.2 hq)⟩

theorem registry_run_append (r : Registry) (es1 es2 : List RegistryEvent) :
    r.run (es1 ++ es2) = (r.run es1).run es2 := by
  simp [Registry.run, List.foldl_append]

/-- C19, counterexample. A process is registered in the main pool and exits;
its pid is still in the main pool. A later after-hook process is given the
same pid by the system: the pid is now in both pools. -/
theorem registry_exit_counterexample :
    7 ∈ pids (Registry.init.run
      [.register { id := 1, Process := some 7 }, .processExit 7]).ProcessRegistry ∧
    7 ∈ pids (Registry.init.run
      [.register { id := 1, Process := some 7 }, .processExit 7,
        .registerAfter { id := 2, Process := some 7 }]).ProcessRegistry ∧
    7 ∈ pids (Registry.init.run
      [.register { id := 1, Process := some 7 }, .processExit 7,
        .registerAfter { id := 2, Process := some 7 }]).afterProcessesRegistry := by
  decide

/-- C19, amended. After any sequence of `Register`, `RegisterAfter`,
process-exit and `KillAll` events that registers no pid twice, every pid is
in at most one of the two pools. The exit of a process does not change the
registry: a pid that is in a pool stays in it through every event that is not
`KillAll`, and `KillAll` empties both pools. -/
theorem registry_invariant (events : List RegistryEvent)
    (hn : (registeredPids events).Nodup) :
    (∀ pid, ¬(pid ∈ pids (Registry.init.run events).ProcessRegistry ∧
      pid ∈ pids (Registry.init.run events).afterProcessesRegistry)) ∧
    (∀ (r : Registry) (pid : Nat), r.step (.processExit pid) = r) ∧
    (∀ (later : List RegistryEvent), (∀ e ∈ later, e.isKillAll = false) → ∀ pid,
      (pid ∈ pids (Registry.init.run events).ProcessRegistry →
        pid ∈ pids (Registry.init.run (events ++ later)).ProcessRegistry) ∧
      (pid ∈ pids (Registry.init.run events).afterProcessesRegistry →
        pid ∈ pids (Registry.init.run (events ++ later)).afterProcessesRegistry)) ∧
    ((Registry.init.run (events ++ [.killAll])).ProcessRegistry = [] ∧
      (Registry.init.run (events ++ [.killAll])).afterProcessesRegistry = []) := by
  refine ⟨fun pid h => ?_, fun r pid => rfl, fun later hl pid => ?_, ?_⟩
  · exact registry_run_disjoint events Registry.init (fun q hq => by simp [Registry.init, pids] at hq)
      (fun q hq => by simp [Registry.init, pids] at hq) hn pid h.1 h.2
  · rw [registry_run_append]
    exact registry_run_keeps later _ hl pid
  · rw [registry_run_append]
    have : (Registry.init.run events).run [.killAll] = KillAll (Registry.init.run events) := rfl
    rw [this, KillAll_spec]
    exact ⟨rfl, rfl⟩

/-- Witness of C19: a main process and an after-hook process with different
pids; the main process exits. -/
theorem registry_invariant_witness :
    (registeredPids [.register { id := 1, Process := some 7 }, .processExit 7,
      .registerAfter { id := 2, Process := some 8 }]).Nodup ∧
    ∀ pid, ¬(pid ∈ pids (Registry.init.run [.register { id := 1, Process := some 7 },
        .processExit 7, .registerAfter { id := 2, Process := some 8 }]).ProcessRegistry ∧
      pid ∈ pids (Registry.init.run [.register { id := 1, Process := some 7 },
        .processExit 7, .registerAfter { id := 2, Process := some 8 }]).afterProcessesRegistry) :=
  ⟨by decide, (registry_invariant _ (by decide)).1⟩

/-- C20, counterexample. One process in each pool: `TerminateAll` and
`InterruptAll` signal the process of the main pool only, and both registries
still hold their entry when they return. -/
theorem TerminateAll_counterexample :
    (TerminateAll registryTwo).sent = [(.SIGTERM, -101)] ∧
    (InterruptAll registryTwo).sent = [(.SIGINT, -101)] ∧
    (TerminateAll registryTwo).ProcessRegistry = registryTwo.ProcessRegistry ∧
    (TerminateAll registryTwo).afterProcessesRegistry = registryTwo.afterProcessesRegistry ∧
    registryTwo.ProcessRegistry ≠ [] ∧ registryTwo.afterProcessesRegistry ≠ [] := by
  decide

/-- C20, amended. `KillAll` kills every handle registered in either pool,
main and after-hook, and leaves both registries empty when it returns.
`TerminateAll` and `InterruptAll` set the shutdown flag, apply their
operation to every handle registered in the main pool, and to no other, and
leave both registries as they are. -/
theorem registry_signal_all (r : Registry) :
    KillAll r =
      { r with
        ProcessRegistry := []
        afterProcessesRegistry := []
        sent := r.sent ++ killSignals (r.ProcessRegistry ++ r.afterProcessesRegistry) } ∧
    TerminateAll r =
      { r with
        TerminatingProcesses := true
        sent := r.sent ++ signalsTo .SIGTERM (fun pid => -(pid : Int)) r.ProcessRegistry } ∧
    InterruptAll r =
      { r with
        TerminatingProcesses := true
        sent := r.sent ++ signalsTo .SIGINT (fun pid => -(pid : Int)) r.ProcessRegistry } :=
  ⟨KillAll_spec r, terminateLoop_spec _ _, interruptLoop_spec _ _⟩

/-- Witness of C20: one process in each pool; `KillAll` kills both and
empties the registries. -/
theorem registry_signal_all_witness :
    (KillAll registryTwo).sent =
      [(.SIGKILL, 101), (.SIGKILL, 101), (.SIGKILL, 202), (.SIGKILL, 202)] ∧
    (KillAll registryTwo).ProcessRegistry = [] ∧
    (KillAll registryTwo).afterProcessesRegistry = [] := by
  rw [(registry_signal_all registryTwo).1]
  decide

/-! ## Log prefixes (C21, C22) -/

theorem trimLeft_of_head (fuel : Nat) (a : Nat) (s : GoString)
    (ha : a < 128 ∧ ¬(9 ≤ a ∧ a ≤ 13) ∧ a ≠ 32) : trimLeft fuel (a :: s) = a :: s := by
  cases fuel with
  | zero => rfl
  | succ n =>
    have h : (spaceEncodings.find? fun p => HasPrefix (a :: s) p) = none := by
      simp only [spaceEncodings, HasPrefix, List.find?, List.isPrefixOf]
      have h1 : (9 == a) = false := by simp; omega
      have h2 : (10 == a) = false := by simp; omega
      have h3 : (11 == a) = false := by simp; omega
      have h4 : (12 == a) = false := by simp; omega
      have h5 : (13 == a) = false := by simp; omega
      have h6 : (32 == a) = false := by simp; omega
      have h7 : (0xC2 == a) = false := by simp; omega
      have h8 : (0xE1 == a) = false := by simp; omega
      have h9 : (0xE2 == a) = false := by simp; omega
      have h10 : (0xE3 == a) = false := by simp; omega
      simp [h1, h2, h3, h4, h5, h6, h7, h8, h9, h10]
    simp only [trimLeft, h]

theorem trimRight_of_last (fuel : Nat) (a : Nat) (s : GoString)
    (ha : a < 128 ∧ ¬(9 ≤ a ∧ a ≤ 13) ∧ a ≠ 32) : trimRight fuel (s ++ [a]) = s ++ [a] := by
  cases fuel with
  | zero => rfl
  | succ n =>
    have h : (spaceEncodings.find? fun p => HasSuffix (s ++ [a]) p) = none := by
      simp only [spaceEncodings, HasSuffix, List.find?, List.isSuffixOf, List.reverse_append,
        List.reverse_cons, List.reverse_nil, List.nil_append, List.singleton_append,
        List.cons_append, List.isPrefixOf]
      have h1 : (9 == a) = false := by simp; omega
      have h2 : (10 == a) = false := by simp; omega
      have h3 : (11 == a) = false := by simp; omega
      have h4 : (12 == a) = false := by simp; omega
      have h5 : (13 == a) = false := by simp; omega
      have h6 : (32 == a) = false := by simp; omega
      have h7 : ∀ b, 128 ≤ b → (b == a) = false := by intro b hb; simp; omega
      simp [h1, h2, h3, h4, h5, h6, h7]
    simp only [trimRight, h]

/-- A string that starts and ends with an ASCII byte other than white space
is left as it is by `strings.TrimSpace`. -/
theorem TrimSpace_of_ends (s : GoString) (hne : s ≠ [])
    (h : ∀ b ∈ s, b < 128 ∧ ¬(9 ≤ b ∧ b ≤ 13) ∧ b ≠ 32) : TrimSpace s = s := by
  unfold TrimSpace
  obtain ⟨a, t, rfl⟩ := List.exists_cons_of_ne_nil hne
  rw [trimLeft_of_head _ a t (h a (by simp))]
  obtain ⟨u, b, hu⟩ : ∃ u b, a :: t = u ++ [b] :=
    ⟨(a :: t).dropLast, (a :: t).getLast (by simp), (List.dropLast_append_getLast _).symm⟩
  rw [hu]
  exact trimRight_of_last _ b u (h b (by rw [hu]; simp))

theorem itoaLoop_digits (fuel n : Nat) (acc : GoString) (hacc : ∀ b ∈ acc, 48 ≤ b ∧ b ≤ 57) :
    ∀ b ∈ itoaLoop fuel n acc, 48 ≤ b ∧ b ≤ 57 := by
  induction fuel generalizing n acc with
  | zero => simpa [itoaLoop] using hacc
  | succ k ih =>
    unfold itoaLoop
    split_ifs with h
    · intro b hb
      rcases List.mem_cons.1 hb with rfl | hb
      · omega
      · exact hacc b hb
    · apply ih
      intro b hb
      rcases List.mem_cons.1 hb with rfl | hb
      · omega
      · exact hacc b hb

theorem itoaLoop_ne_nil (fuel n : Nat) (acc : GoString) (hacc : acc ≠ []) :
    itoaLoop fuel n acc ≠ [] := by
  induction fuel generalizing n acc with
  | zero => simpa [itoaLoop] using hacc
  | succ k ih =>
    unfold itoaLoop
    split_ifs with h
    · simp
    · exact ih _ _ (by simp)

theorem Itoa_ne_nil (n : Nat) : Itoa n ≠ [] := by
  unfold Itoa itoaLoop
  split_ifs
  · simp
  · exact itoaLoop_ne_nil _ _ _ (by simp)

/-- The decimal form of a number is not blank. -/
theorem TrimSpace_Itoa (n : Nat) : TrimSpace (Itoa n) = Itoa n := by
  apply TrimSpace_of_ends _ (Itoa_ne_nil n)
  intro b hb
  have := itoaLoop_digits (n + 1) n [] (by simp) b hb
  omega

/-- No colour of the rotation is blank. -/
theorem GetLogPrefixColor_not_blank (i : Nat) : TrimSpace (GetLogPrefixColor i).1 ≠ [] := by
  unfold GetLogPrefixColor
  simp only
  split_ifs with h
  · decide
  · have h7 : i < 7 := by simpa [AnsiColors] using h
    interval_cases i <;> decide

theorem setupCommandLogPrefix_fields (defaultPrefix customName : GoString) (st : PrefixState) :
    (setupCommandLogPrefix defaultPrefix customName st).1.LogPrefix =
        prefixText (defaultPrefix, customName) ∧
      (setupCommandLogPrefix defaultPrefix customName st).1.LogPrefixId =
        Itoa (st.logPrefixCounterMap (prefixText (defaultPrefix, customName)) + 1) ∧
      TrimSpace (setupCommandLogPrefix defaultPrefix customName st).1.LogPrefixColor ≠ [] ∧
      ∀ k, (setupCommandLogPrefix defaultPrefix customName st).2.logPrefixCounterMap k =
        st.logPrefixCounterMap k +
          (if prefixText (defaultPrefix, customName) = k then 1 else 0) := by
  refine ⟨rfl, rfl, GetLogPrefixColor_not_blank _, ?_⟩
  intro k
  simp only [setupCommandLogPrefix, prefixText]
  by_cases h : k = (if customName ≠ [] ∧ TrimSpace customName ≠ [] then customName
      else defaultPrefix)
  · rw [if_pos h, if_pos h.symm, h]
  · rw [if_neg h, if_neg (fun h2 => h h2.symm)]; rfl

/-- The counter of a text after a series of registrations: what it was plus
the number of registrations with that text. -/
theorem registerAll_counter (regs : List (GoString × GoString)) (st : PrefixState)
    (k : GoString) :
    (registerAll regs st).2.logPrefixCounterMap k =
      st.logPrefixCounterMap k + regs.countP fun r => decide (prefixText r = k) := by
  induction regs generalizing st with
  | nil => simp [registerAll]
  | cons reg rest ih =>
    obtain ⟨d, c⟩ := reg
    simp only [registerAll]
    rw [ih, (setupCommandLogPrefix_fields d c st).2.2.2 k, List.countP_cons]
    by_cases h : prefixText (d, c) = k
    · simp [h]; omega
    · simp [h]

/-- The fields of the node of the registration at index `i`. -/
theorem registerAll_node (regs : List (GoString × GoString)) (st : PrefixState) (i : Nat)
    (reg : GoString × GoString) (hi : regs[i]? = some reg) :
    ∃ node, (registerAll regs st).1[i]? = some node ∧ node.LogPrefix = prefixText reg ∧
      node.LogPrefixId = Itoa (st.logPrefixCounterMap (prefixText reg) +
        (regs.take (i + 1)).countP fun r => decide (prefixText r = prefixText reg)) ∧
      TrimSpace node.LogPrefixColor ≠ [] := by
  induction regs generalizing st i with
  | nil => simp at hi
  | cons r rest ih =>
    obtain ⟨d, c⟩ := r
    cases i with
    | zero =>
      simp only [List.getElem?_cons_zero, Option.some.injEq] at hi
      subst hi
      obtain ⟨h1, h2, h3, -⟩ := setupCommandLogPrefix_fields d c st
      refine ⟨(setupCommandLogPrefix d c st).1, by simp [registerAll], h1, ?_, h3⟩
      rw [h2]
      simp
    | succ j =>
      simp only [List.getElem?_cons_succ] at hi
      obtain ⟨node, hn, h1, h2, h3⟩ := ih (setupCommandLogPrefix d c st).2 j hi
      refine ⟨node, by simpa [registerAll] using hn, h1, ?_, h3⟩
      rw [h2, (setupCommandLogPrefix_fields d c st).2.2.2 (prefixText reg), List.take_succ_cons,
        List.countP_cons]
      congr 1
      by_cases h : prefixText (d, c) = prefixText reg
      · simp only [h, if_true, decide_True]; omega
      · simp [h]

/-- C22: `setupCommandLogPrefix` gives the k-th node registered with a prefix
text the instance id k, and `GetLogPrefix` puts the instance id in front of
the rendered text exactly when more than one node has been registered with
that text. Here the nodes are registered one after the other from the state
at the start of the program, `reg` is the registration at index `i`, its text
is not blank (a blank text has no prefix at all), and `GetLogPrefix` is called
after all the registrations of `regs`, which stands for any moment after the
node's own registration. -/
theorem setupCommandLogPrefix_instance_id (testMode : Bool) (regs : List (GoString × GoString))
    (i : Nat) (reg : GoString × GoString) (hi : regs[i]? = some reg)
    (hne : TrimSpace (prefixText reg) ≠ []) :
    ∃ node, (registerAll regs PrefixState.init).1[i]? = some node ∧
      node.LogPrefix = prefixText reg ∧
      node.LogPrefixId =
        Itoa ((regs.take (i + 1)).countP fun r => decide (prefixText r = prefixText reg)) ∧
      GetLogPrefix testMode (registerAll regs PrefixState.init).2 node =
        (if testMode then [] else node.LogPrefixColor) ++
          ((if 1 < regs.countP (fun r => decide (prefixText r = prefixText reg)) then
              node.LogPrefixId ++ goString " "
            else []) ++
            (if RuneCountInString (prefixText reg) > 50 then
              (prefixText reg).take 47 ++ goString "..."
            else prefixText reg) ++ goString " ⟫") ++
          (if testMode then [] else colorReset) := by
  obtain ⟨node, hn, h1, h2, h3⟩ := registerAll_node regs PrefixState.init i reg hi
  have h2' : node.LogPrefixId =
      Itoa ((regs.take (i + 1)).countP fun r => decide (prefixText r = prefixText reg)) := by
    rw [h2]; simp [PrefixState.init]
  refine ⟨node, hn, h1, h2', ?_⟩
  have hid : TrimSpace node.LogPrefixId ≠ [] := by
    rw [h2', TrimSpace_Itoa]; exact Itoa_ne_nil _
  have hc : (registerAll regs PrefixState.init).2.logPrefixCounterMap (prefixText reg) =
      regs.countP fun r => decide (prefixText r = prefixText reg) := by
    rw [registerAll_counter]; simp [PrefixState.init]
  unfold GetLogPrefix GetColorizedPrefix
  rw [h1, hc]
  simp only [hid, hne, h3, decide_False, Bool.or_false, Bool.false_eq_true, if_false, gt_iff_lt]
  by_cases hcnt : 1 < regs.countP fun r => decide (prefixText r = prefixText reg)
  · cases testMode <;> simp [hcnt]
  · cases testMode <;> simp [hcnt]

theorem setupCommandLogPrefix_instance_id_witness :
    ∃ node, (registerAll [(goString "cmd-9", []), (goString "cmd-9", [])]
        PrefixState.init).1[1]? = some node ∧
      node.LogPrefix = goString "cmd-9" ∧ node.LogPrefixId = goString "2" ∧
      GetLogPrefix true (registerAll [(goString "cmd-9", []), (goString "cmd-9", [])]
        PrefixState.init).2 node = goString "2 cmd-9 ⟫" := by
  obtain ⟨node, h1, h2, h3, h4⟩ :=
    setupCommandLogPrefix_instance_id true [(goString "cmd-9", []), (goString "cmd-9", [])] 1
      (goString "cmd-9", []) (by decide) (by decide)
  refine ⟨node, h1, ?_, ?_, ?_⟩
  · rw [h2]; decide
  · rw [h3]; decide
  · rw [h4, h3]
    simp only [if_true]
    decide

theorem runeWidth_pos (b : Nat) (s : GoString) : 1 ≤ runeWidth (b :: s) := by
  simp only [runeWidth]
  split_ifs <;> first | omega | (split <;> (try split_ifs) <;> omega)

theorem runeCountLoop_le (fuel : Nat) (s : GoString) : runeCountLoop fuel s ≤ s.length := by
  induction fuel generalizing s with
  | zero => simp [runeCountLoop]
  | succ n ih =>
    cases s with
    | nil => simp [runeCountLoop]
    | cons b t =>
      simp only [runeCountLoop]
      have h1 := runeWidth_pos b t
      have h2 := ih ((b :: t).drop (runeWidth (b :: t)))
      rw [List.length_drop] at h2
      simp only [List.length_cons] at h2 ⊢
      omega

/-- A string has at least as many bytes as runes, so that the slice
`logPrefix[:47]` of `GetLogPrefix`, taken when there are more than 50 runes,
is within bounds. -/
theorem RuneCountInString_le_length (s : GoString) : RuneCountInString s ≤ s.length :=
  runeCountLoop_le _ s

theorem runeCountLoop_ascii (fuel : Nat) (s : GoString) (h : ∀ b ∈ s, b < 128)
    (hf : s.length ≤ fuel) : runeCountLoop fuel s = s.length := by
  induction fuel generalizing s with
  | zero =>
    have : s = [] := List.length_eq_zero.1 (by omega)
    subst this; rfl
  | succ n ih =>
    cases s with
    | nil => simp [runeCountLoop]
    | cons b t =>
      have hb : b < 128 := h b (by simp)
      have hw : runeWidth (b :: t) = 1 := by simp [runeWidth, hb]
      simp only [runeCountLoop, hw, List.drop_succ_cons, List.drop_zero, List.length_cons]
      rw [ih t (fun c hc => h c (by simp [hc])) (by simpa using hf)]
      omega

/-- In a text of ASCII bytes every byte is a rune. -/
theorem RuneCountInString_ascii (s : GoString) (h : ∀ b ∈ s, b < 128) :
    RuneCountInString s = s.length :=
  runeCountLoop_ascii _ s h le_rfl

/-- On a text of ASCII bytes `GetLogPrefix` does what it is meant to do: a
text of more than 50 bytes is rendered as its first 47 bytes and "...", 50
code points in all. -/
theorem GetLogPrefix_ascii (testMode : Bool) (st : PrefixState) (cmd : PrefixFields)
    (hid : TrimSpace cmd.LogPrefixId ≠ []) (hp : TrimSpace cmd.LogPrefix ≠ [])
    (hc : TrimSpace cmd.LogPrefixColor ≠ []) (ha : ∀ b ∈ cmd.LogPrefix, b < 128)
    (hl : 50 < cmd.LogPrefix.length) :
    GetLogPrefix testMode st cmd =
        GetColorizedPrefix testMode cmd.LogPrefixId (cmd.LogPrefix.take 47 ++ goString "...")
          cmd.LogPrefixColor (decide (st.logPrefixCounterMap cmd.LogPrefix > 1)) ∧
      RuneCountInString (cmd.LogPrefix.take 47 ++ goString "...") = 50 := by
  constructor
  · unfold GetLogPrefix
    simp [hid, hp, hc, RuneCountInString_ascii _ ha, hl]
  · have h3 : goString "..." = [46, 46, 46] := by decide
    rw [RuneCountInString_ascii]
    · rw [h3]; simp; omega
    · intro b hb
      rcases List.mem_append.1 hb with hb | hb
      · exact ha b (List.mem_of_mem_take hb)
      · have : b = 46 := by
          rw [h3] at hb
          simpa using hb
        omega

set_option maxRecDepth 4000 in
/-- C21, where the code leaves the claim: `GetLogPrefix` counts code points to
decide whether the text is too long, and then cuts bytes. The text of 51
times `é` is rendered as 23 times `é`, the first byte of the 24th and "...",
which `utf8` counts as 27 runes; the text `é` followed by fifty times `a` is
rendered as `é`, 45 times `a` and "...", 49 code points. The claim has 50 code
points in both cases, the first 47 of the text and "...". -/
theorem GetLogPrefix_truncates_bytes :
    RuneCountInString accentedText = 51 ∧
      GetLogPrefix true PrefixState.init
          { LogPrefix := accentedText, LogPrefixId := goString "1",
            LogPrefixColor := 27 :: goString "[0;36m" } =
        (List.replicate 23 (goString "é")).flatten ++ [0xC3] ++ goString "... ⟫" ∧
      RuneCountInString ((List.replicate 23 (goString "é")).flatten ++ [0xC3] ++ goString "...")
        = 27 ∧
      RuneCountInString accentFirstText = 51 ∧
      GetLogPrefix true PrefixState.init
          { LogPrefix := accentFirstText, LogPrefixId := goString "1",
            LogPrefixColor := 27 :: goString "[0;36m" } =
        goString "é" ++ List.replicate 45 97 ++ goString "... ⟫" ∧
      RuneCountInString (goString "é" ++ List.replicate 45 97 ++ goString "...") = 49 := by
  decide

/-! ## Runner keys (C23, C30) -/

theorem lastIndexFrom_le (s substr : GoString) (i : Nat) :
    -1 ≤ lastIndexFrom s substr i ∧ lastIndexFrom s substr i ≤ i := by
  induction i with
  | zero => unfold lastIndexFrom; split_ifs <;> simp
  | succ n ih =>
    unfold lastIndexFrom
    split_ifs
    · constructor <;> omega
    · constructor
      · exact ih.1
      · have := ih.2; push_cast; omega

theorem lastIndexFrom_spec (s substr : GoString) (i : Nat) (j : Nat)
    (h : lastIndexFrom s substr i = j) : HasPrefix (s.drop j) substr = true := by
  induction i with
  | zero =>
    unfold lastIndexFrom at h
    split_ifs at h with h1
    have : j = 0 := by omega
    subst this; simpa using h1
  | succ n ih =>
    unfold lastIndexFrom at h
    split_ifs at h with h1
    · have : j = n + 1 := by omega
      subst this; exact h1
    · exact ih h

/-- When `extractRunnerNameAndFlags` fails: the key has a `[` after its first
byte and ends with `]`, and the number of runes of the key, less one, is
below the index of the byte after the last `[`. -/
theorem extractRunnerNameAndFlags_eq_none (keyString : GoString)
    (existingFlags : List GoString) :
    extractRunnerNameAndFlags keyString existingFlags = none ↔
      0 < LastIndex keyString (goString "[") ∧ HasSuffix keyString (goString "]") = true ∧
        (RuneCountInString keyString : Int) - 1 < LastIndex keyString (goString "[") + 1 := by
  have hle := (lastIndexFrom_le keyString (goString "[") keyString.length).2
  have hr := RuneCountInString_le_length keyString
  unfold extractRunnerNameAndFlags
  simp only
  by_cases hb : LastIndex keyString (goString "[") ≤ 0
  · simp [hb]
  · by_cases hs : HasSuffix keyString (goString "]") = true
    · have h1 : sliceString keyString 0 (LastIndex keyString (goString "[")) =
          some ((keyString.take (LastIndex keyString (goString "[")).toNat).drop 0) := by
        unfold sliceString
        rw [if_pos]
        · rfl
        · unfold LastIndex at hb ⊢
          refine ⟨le_rfl, by omega, hle⟩
      by_cases hhi : (RuneCountInString keyString : Int) - 1 <
          LastIndex keyString (goString "[") + 1
      · have h2 : sliceString keyString (LastIndex keyString (goString "[") + 1)
            ((RuneCountInString keyString : Int) - 1) = none := by
          unfold sliceString
          rw [if_neg]
          intro h; omega
        simp [hb, hs, h1, h2, hhi]
        omega
      · have h2 : sliceString keyString (LastIndex keyString (goString "[") + 1)
            ((RuneCountInString keyString : Int) - 1) =
            some ((keyString.take ((RuneCountInString keyString : Int) - 1).toNat).drop
              (LastIndex keyString (goString "[") + 1).toNat) := by
          unfold sliceString
          rw [if_pos]
          refine ⟨by omega, by omega, by omega⟩
        simp only [hb, hs, h1, h2, hhi]
        simp
        split_ifs <;> simp
    · simp [hb, hs]

/-- On a key of ASCII bytes `extractRunnerNameAndFlags` returns. -/
theorem extractRunnerNameAndFlags_ascii (keyString : GoString) (existingFlags : List GoString)
    (ha : ∀ b ∈ keyString, b < 128) :
    (extractRunnerNameAndFlags keyString existingFlags).isSome = true := by
  rw [Option.isSome_iff_ne_none, Ne, extractRunnerNameAndFlags_eq_none]
  rintro ⟨h0, hs, hlt⟩
  rw [RuneCountInString_ascii _ ha] at hlt
  have hle := (lastIndexFrom_le keyString (goString "[") keyString.length).2
  obtain ⟨j, hj⟩ : ∃ j : Nat, LastIndex keyString (goString "[") = j :=
    ⟨(LastIndex keyString (goString "[")).toNat, by omega⟩
  have hp := lastIndexFrom_spec keyString (goString "[") keyString.length j hj
  have hlen : keyString.length = j + 1 ∨ keyString.length = j := by
    unfold LastIndex at hj hlt
    omega
  have h91 : goString "[" = [91] := by decide
  have h93 : goString "]" = [93] := by decide
  rw [h91] at hp
  rw [h93] at hs
  rcases hlen with hl | hl
  · -- the last byte is both `[` and `]`
    obtain ⟨u, b, hu⟩ : ∃ u b, keyString = u ++ [b] := by
      have hne : keyString ≠ [] := by intro h; simp [h] at hl
      exact ⟨keyString.dropLast, keyString.getLast hne,
        (List.dropLast_append_getLast hne).symm⟩
    have hul : u.length = j := by
      have := congrArg List.length hu
      simp at this; omega
    subst hu
    have hd : (u ++ [b]).drop j = [b] := by
      rw [← hul]; simp
    rw [hd] at hp
    simp [HasPrefix, HasSuffix, List.isSuffixOf] at hp hs
    omega
  · have hd : keyString.drop j = [] := by
      apply List.drop_eq_nil_of_le; omega
    rw [hd] at hp
    simp [HasPrefix] at hp

/-- C30, where the code leaves the claim: the lower bound of the slice is an
index in bytes, its upper bound a number of runes. In the key `éé[s]` the
last `[` is at byte 4 and there are 5 runes, so the slice is
`keyString[5:4]`, which is out of range. -/
theorem extractRunnerNameAndFlags_out_of_range :
    LastIndex (goString "éé[s]") (goString "[") = 4 ∧
      HasSuffix (goString "éé[s]") (goString "]") = true ∧
      RuneCountInString (goString "éé[s]") = 5 ∧
      sliceString (goString "éé[s]") (4 + 1) (5 - 1) = none ∧
      extractRunnerNameAndFlags (goString "éé[s]") [] = none ∧
      extractRunnerNameAndFlags (goString "é[serial]") [] =
        some (goString "é", [goString "seria"]) := by
  decide

/-- C23, where the code leaves the claim: with bracket flags in the key,
`extractRunnerNameAndFlags` returns the flags of the key alone. For the key
`name[dependent]` and the flag `serial` of the command line the result is
`dependent` only, and the runner flags made of it have `Serial` unset. -/
theorem extractRunnerNameAndFlags_drops_existing :
    GetFlags { Serial := true, Dependent := false } = [goString "serial"] ∧
      extractRunnerNameAndFlags (goString "name[dependent]")
          (GetFlags { Serial := true, Dependent := false }) =
        some (goString "name", [goString "dependent"]) ∧
      convertStringFlagsToRunnerFlags [goString "dependent"] =
        { Serial := false, Dependent := true } ∧
      extractRunnerNameAndFlags (goString "name")
          (GetFlags { Serial := true, Dependent := false }) =
        some (goString "name", [goString "serial"]) := by
  decide

/-! ## Port configuration (C24) -/

theorem portItems_allIntegers (items : List YamlValue) :
    (∀ ns, allIntegers items = some ns → portItems items = .ok ns) ∧
      (allIntegers items = none → ∃ val, portItems items = .error val) := by
  induction items with
  | nil => simp [allIntegers, portItems]
  | cons v rest ih =>
    cases v <;> simp [allIntegers, portItems, ToInt]
    rename_i n
    cases h : allIntegers rest with
    | none =>
      obtain ⟨val, hv⟩ := ih.2 h
      simp [hv]
    | some ns => simp [ih.1 ns h]

theorem extractPorts_portsShape (portsConfig : YamlValue) :
    (∀ ns, portsShape portsConfig = some ns → extractPorts portsConfig = (ns, none)) ∧
      (portsShape portsConfig = none → ∃ err, extractPorts portsConfig = ([], some err)) := by
  cases portsConfig <;> simp [portsShape, extractPorts, ToInt]
  rename_i items
  obtain ⟨h1, h2⟩ := portItems_allIntegers items
  cases h : allIntegers items with
  | none =>
    obtain ⟨val, hv⟩ := h2 h
    simp [hv]
  | some ns => simp [h1 ns h]

theorem ToFloat64_timeoutShape (timeoutConfig : YamlValue) :
    ToFloat64 timeoutConfig = timeoutShape timeoutConfig := by
  cases timeoutConfig <;> rfl

/-- C24: `ParsePortConfiguration` accepts exactly the shapes of the
specification: on an accepted value it returns the ports and the timeout of
that shape and no error, on every other value an error and no ports. -/
theorem ParsePortConfiguration_shapes (portConfig : YamlValue) :
    (∀ ports timeout, acceptedShape portConfig = some (ports, timeout) →
        ParsePortConfiguration portConfig = (ports, timeout, none)) ∧
      (acceptedShape portConfig = none →
        ∃ err, ParsePortConfiguration portConfig = ([], 0, some err)) := by
  cases portConfig with
  | int n => simp [acceptedShape, ParsePortConfiguration, ToInt]
  | float x => simp [acceptedShape, ParsePortConfiguration, ToInt]
  | str s => simp [acceptedShape, ParsePortConfiguration, ToInt]
  | bool b => simp [acceptedShape, ParsePortConfiguration, ToInt]
  | null => simp [acceptedShape, ParsePortConfiguration, ToInt]
  | other => simp [acceptedShape, ParsePortConfiguration, ToInt]
  | list items =>
    obtain ⟨h1, h2⟩ := portItems_allIntegers items
    simp only [acceptedShape, ParsePortConfiguration, ToInt, parsePortList]
    cases h : allIntegers items with
    | none =>
      obtain ⟨val, hv⟩ := h2 h
      simp [hv]
    | some ns => simp [h1 ns h]
  | map entries =>
    simp only [acceptedShape, ParsePortConfiguration, ToInt, parseConfigMap]
    cases hp : entries.lookup "ports" with
    | none =>
      cases ht : entries.lookup "timeout" with
      | none => simp
      | some t =>
        simp only [ToFloat64_timeoutShape]
        cases hts : timeoutShape t <;> simp [hts]
    | some p =>
      obtain ⟨h1, h2⟩ := extractPorts_portsShape p
      simp only [ToFloat64_timeoutShape]
      cases hs : portsShape p with
      | none =>
        obtain ⟨err, he⟩ := h2 hs
        simp [he]
      | some ns =>
        rw [h1 ns hs]
        cases ht : entries.lookup "timeout" with
        | none => simp
        | some t => cases hts : timeoutShape t <;> simp [hts]

/-- The shapes of the tests `runner-44` to `runner-48` and of a plain port. -/
theorem ParsePortConfiguration_shapes_witness :
    ParsePortConfiguration (.map [("ports", .list [.int 3000, .int 3001]), ("timeout", .float 5)])
        = ([3000, 3001], 5, none) ∧
      ∃ err, ParsePortConfiguration (.map [("ports", .str "3000")]) = ([], 0, some err) :=
  ⟨(ParsePortConfiguration_shapes _).1 _ _ rfl, (ParsePortConfiguration_shapes _).2 rfl⟩

/-! ## The completion signal of an entry (C29) -/

theorem sealed_refl (w : World) : Sealed w w :=
  grows_refl _ w

theorem sealed_trans {w1 w2 w3 : World} (h1 : Sealed w1 w2) (h2 : Sealed w2 w3) :
    Sealed w1 w3 :=
  grows_trans h1 h2

theorem sealed_emit (e : Event) (w : World) (he : isCloseSignal e = false) :
    Sealed w (emit e w) :=
  ⟨[e], rfl, by simpa using he⟩

theorem sealed_of_trace {w1 w2 : World} (h : w2.trace = w1.trace) : Sealed w1 w2 :=
  ⟨[], by simp [h], by simp⟩

theorem isCloseSignal_of_isPlain (e : Event) (h : isPlain e = true) :
    isCloseSignal e = false := by
  cases e <;> simp_all [isPlain, isCloseSignal]

theorem isCloseSignal_of_isHookEvent (e : Event) (h : isHookEvent e = true) :
    isCloseSignal e = false := by
  cases e <;> simp_all [isHookEvent, isPlain, isCloseSignal]

theorem isCloseSignal_of_isShutdownEvent (e : Event) (h : isShutdownEvent e = true) :
    isCloseSignal e = false := by
  cases e <;> simp_all [isShutdownEvent, isCloseSignal]

theorem sealed_readTerminating (env : Env) (w : World) : Sealed w (readTerminating env w).2 :=
  sealed_of_trace rfl

theorem step_bind_sealed {α β : Type} {w : World} {s : Step α} {k : α → World → Step β}
    (h1 : Sealed w s.world) (h2 : ∀ a w1, Sealed w1 (k a w1).world) :
    Sealed w (s.bind k).world := by
  cases s with
  | ret a w1 => exact sealed_trans h1 (h2 a w1)
  | exit w1 => exact h1

theorem closeCount_sealed {w1 w2 : World} (h : Sealed w1 w2) :
    closeCount w2.trace = closeCount w1.trace := by
  obtain ⟨a, ht, hp⟩ := h
  rw [ht]
  unfold closeCount
  have h0 : a.countP isCloseSignal = 0 :=
    List.countP_eq_zero.2 fun e he => by simp [hp e he]
  rw [List.countP_append, h0]
  rfl

theorem executeOneTime_sealed (env : Env) (wd : Bool) (cmd : ProjectCommand) (w : World) :
    Sealed w (executeOneTime env wd cmd w).2 := by
  unfold executeOneTime
  simp only
  have h0 : ∀ w0 : World, Sealed w0 (match executeCommand env wd false cmd true w0 with
      | (none, w3) => (none, emit .commandsCompleted w3)
      | (some e, w3) => (some e, w3)).2 := by
    intro w0
    have h : Sealed w0 (executeCommand env wd false cmd true w0).2 :=
      grows_of_extends isCloseSignal_of_isPlain (executeCommand_extends env wd false cmd true w0)
    rcases hr : executeCommand env wd false cmd true w0 with ⟨_ | e, w3⟩
    · rw [hr] at h
      exact sealed_trans h (sealed_emit _ _ (by rfl))
    · rw [hr] at h
      exact h
  refine sealed_trans ?_ (sealed_trans (h0 _) (sealed_of_trace (wgDone_world_trace _).1))
  split_ifs <;> exact sealed_of_trace rfl

theorem executeAfterHooks_sealed (env : Env) (cmd : ProjectCommand) (err : Option Err)
    (chg : Bool) (w : World) : Sealed w (executeAfterHooks env cmd err chg w).2 := by
  obtain ⟨⟨a, ht, hp⟩, -⟩ := executeAfterHooks_trace env cmd err chg w
  refine ⟨Event.afterHooks err chg :: a, ht, ?_⟩
  intro e he
  rcases List.mem_cons.1 he with rfl | h
  · rfl
  · exact isCloseSignal_of_isHookEvent e (hp e h)

theorem gracefulShutdown_sealed (env : Env) (w : World) :
    Sealed w (gracefulShutdown env w).world :=
  grows_mono isCloseSignal_of_isShutdownEvent (gracefulShutdown_grows env w).1

theorem logError_sealed (err : Option Err) (w : World) : Sealed w (logError err w) :=
  grows_mono isCloseSignal_of_isShutdownEvent (logError_grows err w).1

theorem watchCycle_sealed (env : Env) (cmd : ProjectCommand) (w : World) :
    Sealed w (watchCycle env cmd w).world := by
  unfold watchCycle
  have h1 := executeOneTime_sealed env true cmd w
  rcases hr1 : executeOneTime env true cmd w with ⟨execErr, w1⟩
  rw [hr1] at h1
  have h2 := executeAfterHooks_sealed env cmd execErr true w1
  simp only
  rcases hr2 : executeAfterHooks env cmd execErr true w1 with ⟨_ | afterErr, w2⟩
  · rw [hr2] at h2
    exact sealed_trans h1 h2
  · rw [hr2] at h2
    refine sealed_trans h1 (sealed_trans h2 ?_)
    refine step_bind_sealed
      (sealed_trans (sealed_emit _ _ (by rfl)) (gracefulShutdown_sealed env _)) ?_
    intro _ w3
    exact sealed_refl w3

theorem watchLoop_sealed (env : Env) (cmd : ProjectCommand) :
    ∀ (n : Nat) (w : World), Sealed w (watchLoop env cmd n w).world
  | 0, w => by
    unfold watchLoop
    refine step_bind_sealed (watchCycle_sealed env cmd w) fun execErr w1 => ?_
    rcases execErr with _ | e
    · exact sealed_refl _
    · simp only
      split_ifs <;> exact sealed_refl _
  | n + 1, w => by
    unfold watchLoop
    refine step_bind_sealed (watchCycle_sealed env cmd w) fun execErr w1 => ?_
    rcases execErr with _ | e
    · exact watchLoop_sealed env cmd n w1
    · simp only
      split_ifs
      · exact watchLoop_sealed env cmd n w1
      · exact sealed_refl _

theorem execute_sealed (env : Env) (cmd : ProjectCommand) (w : World) :
    Sealed w (execute env cmd w).world := by
  unfold execute
  split_ifs
  · unfold executeWithFileWatcher
    have h0 : Sealed w { emit .startingWatch w with WatchExecuted := true } :=
      ⟨[Event.startingWatch], rfl, by simp [isCloseSignal]⟩
    simp only
    split
    · exact h0
    · exact sealed_trans h0 (watchLoop_sealed env cmd env.changes _)
  · have h := executeOneTime_sealed env false cmd w
    rcases hr : executeOneTime env false cmd w with ⟨r, w1⟩
    rw [hr] at h
    exact h

theorem runEntry_sealed (env : Env) (cmd : ProjectCommand) (w : World) :
    Sealed w (runEntry env cmd w).world := by
  unfold runEntry executeCommandWithAfterHandling
  refine sealed_trans (sealed_emit .entered w rfl) ?_
  refine step_bind_sealed (step_bind_sealed (execute_sealed env cmd _) ?_) ?_
  · intro err w1
    have hL : Sealed w1 (logError err (emit (.run err) w1)) :=
      sealed_trans (sealed_emit _ _ (by rfl)) (logError_sealed _ _)
    simp only
    split_ifs
    · have h2 := executeAfterHooks_sealed env cmd err false (logError err (emit (.run err) w1))
      rcases hr2 : executeAfterHooks env cmd err false (logError err (emit (.run err) w1))
        with ⟨_ | afterErr, w4⟩
      · rw [hr2] at h2
        exact sealed_trans hL h2
      · rw [hr2] at h2
        refine sealed_trans hL (sealed_trans h2 ?_)
        refine step_bind_sealed
          (sealed_trans (sealed_emit _ _ (by rfl)) (gracefulShutdown_sealed env _)) ?_
        intro _ w5
        exact sealed_refl w5
    · exact hL
  · intro err w1
    exact sealed_emit _ _ (by rfl)

theorem tryWaitForPorts_sealed (env : Env) (cmdConfig : RunnerCommand) (w : World) :
    Sealed w (tryWaitForPorts env cmdConfig w).2 := by
  unfold tryWaitForPorts waitForRequiredPorts
  have h := sealed_readTerminating env w
  rcases hr : readTerminating env w with ⟨_ | _, w1⟩ <;> rw [hr] at h
  · simp only
    split_ifs <;> exact h
  · exact h

theorem scheduleRetry_sealed (maxRetries c : Int) (w : World) :
    Sealed w (scheduleRetry maxRetries c w).2.2 := by
  unfold scheduleRetry
  simp only
  split_ifs <;> exact sealed_emit _ _ (by rfl)

theorem handlePortWaitError_sealed (env : Env) (err : Err) (maxRetries c : Int) (w : World) :
    Sealed w (handlePortWaitError env err maxRetries c w).2.2 := by
  unfold handlePortWaitError
  have h := sealed_readTerminating env w
  rcases hr : readTerminating env w with ⟨_ | _, w1⟩ <;> rw [hr] at h
  · simp only
    refine sealed_trans h (sealed_trans ?_ (scheduleRetry_sealed _ _ _))
    split_ifs
    · exact sealed_emit _ _ (by rfl)
    · exact sealed_refl _
  · exact h

theorem applyCommandDelay_sealed (cmdConfig : RunnerCommand) (w : World) :
    Sealed w (applyCommandDelay cmdConfig w) := by
  unfold applyCommandDelay
  split_ifs
  · exact sealed_trans (sealed_emit .waitingDelay _ (by rfl)) (sealed_emit (.sleep _) _ (by rfl))
  · exact sealed_refl _

theorem serialFailure_sealed (env : Env) (flags : RunnerFlags) (c : RunnerCommand) (w : World) :
    Sealed w (serialFailure env flags c w).world := by
  unfold serialFailure
  split_ifs
  · exact sealed_trans (sealed_emit _ _ (by rfl)) (gracefulShutdown_sealed env _)
  · exact sealed_refl _

theorem dependentCompletion_sealed (env : Env) (flags : RunnerFlags) (c : RunnerCommand)
    (w : World) : Sealed w (dependentCompletion env flags c w).world := by
  unfold dependentCompletion
  split_ifs
  · exact sealed_trans (sealed_emit _ _ (by rfl)) (gracefulShutdown_sealed env _)
  · exact sealed_refl _

theorem handlers_sealed (env : Env) (flags : RunnerFlags) (c : RunnerCommand) (w : World) :
    Sealed w ((serialFailure env flags c w).bind fun _ w1 =>
      dependentCompletion env flags c w1).world :=
  step_bind_sealed (serialFailure_sealed env flags c w)
    fun _ w1 => dependentCompletion_sealed env flags c w1

/-- One turn of the loop of `executeRestartableCommand` closes no signal. -/
theorem loopBody_sealed (env : Env) (flags : RunnerFlags) (cmd : ProjectCommand)
    (cfg : RunnerCommand) (maxRetries : Int) (cond : String) (k : Int) (w : World) :
    (∀ c w1, loopBody env flags cmd cfg maxRetries cond k w = .next c w1 → Sealed w w1) ∧
      (∀ s, loopBody env flags cmd cfg maxRetries cond k w = .stop s → Sealed w s.world) := by
  have hT := tryWaitForPorts_sealed env cfg w
  unfold loopBody
  rcases hr : tryWaitForPorts env cfg w with ⟨_ | err, w1⟩ <;> rw [hr] at hT <;> simp only
  · have hD : Sealed w (readTerminating env (applyCommandDelay cfg w1)).2 :=
      sealed_trans hT (sealed_trans (applyCommandDelay_sealed cfg w1)
        (sealed_readTerminating env _))
    rcases hr2 : readTerminating env (applyCommandDelay cfg w1) with ⟨_ | _, w2⟩ <;>
      rw [hr2] at hD <;> simp only
    · have hE := sealed_trans hD (runEntry_sealed env cmd w2)
      rcases hr3 : runEntry env cmd w2 with ⟨_ | e, w3⟩ | w3 <;> rw [hr3] at hE <;> simp only
      · split_ifs
        · have hS := scheduleRetry_sealed maxRetries k w3
          rcases hr4 : scheduleRetry maxRetries k w3 with ⟨_ | _, c, w4⟩ <;> rw [hr4] at hS <;>
            simp only
          · refine ⟨fun _ _ h => (by cases h), fun s h => ?_⟩
            cases h
            exact sealed_trans hE (sealed_trans hS (dependentCompletion_sealed env flags cfg w4))
          · refine ⟨fun c1 w5 h => ?_, fun _ h => (by cases h)⟩
            cases h
            exact sealed_trans hE hS
        · refine ⟨fun _ _ h => (by cases h), fun s h => ?_⟩
          cases h
          exact sealed_trans hE (dependentCompletion_sealed env flags cfg w3)
      · split_ifs
        · refine ⟨fun _ _ h => (by cases h), fun s h => ?_⟩
          cases h
          exact hE
        · have hS := scheduleRetry_sealed maxRetries k w3
          rcases hr4 : scheduleRetry maxRetries k w3 with ⟨_ | _, c, w4⟩ <;> rw [hr4] at hS <;>
            simp only
          · refine ⟨fun _ _ h => (by cases h), fun s h => ?_⟩
            cases h
            exact sealed_trans hE (sealed_trans hS (handlers_sealed env flags cfg w4))
          · refine ⟨fun c1 w5 h => ?_, fun _ h => (by cases h)⟩
            cases h
            exact sealed_trans hE hS
        · refine ⟨fun _ _ h => (by cases h), fun s h => ?_⟩
          cases h
          exact sealed_trans hE (handlers_sealed env flags cfg w3)
      · refine ⟨fun _ _ h => (by cases h), fun s h => ?_⟩
        cases h
        exact hE
    · refine ⟨fun _ _ h => (by cases h), fun s h => ?_⟩
      cases h
      exact hD
  · have hD : Sealed w (readTerminating env w1).2 :=
      sealed_trans hT (sealed_readTerminating env _)
    rcases hr2 : readTerminating env w1 with ⟨_ | _, w2⟩ <;> rw [hr2] at hD <;> simp only
    · have hP := sealed_trans hD (sealed_trans (sealed_emit (.portWaitFailed err) w2 (by rfl))
        (handlePortWaitError_sealed env err maxRetries k _))
      rcases hr3 : handlePortWaitError env err maxRetries k (emit (.portWaitFailed err) w2)
        with ⟨_ | _, c, w3⟩ <;> rw [hr3] at hP <;> simp only
      · refine ⟨fun _ _ h => (by cases h), fun s h => ?_⟩
        cases h
        exact sealed_trans hP (handlers_sealed env flags cfg w3)
      · refine ⟨fun c1 w5 h => ?_, fun _ h => (by cases h)⟩
        cases h
        exact hP
    · refine ⟨fun _ _ h => (by cases h), fun s h => ?_⟩
      cases h
      exact hD

/-- The loop of `executeRestartableCommand` closes no signal. -/
theorem restartLoop_sealed (env : Env) (flags : RunnerFlags) (cmd : ProjectCommand)
    (cfg : RunnerCommand) (maxRetries : Int) (cond : String) :
    ∀ (fuel : Nat) (k : Int) (w : World) (s : Step Unit),
      restartLoop env flags cmd cfg maxRetries cond fuel k w = some s → Sealed w s.world
  | 0, k, w, s, h => by
    rw [restartLoop_zero] at h
    cases h
  | fuel + 1, k, w, s, h => by
    rw [restartLoop_body] at h
    obtain ⟨hn, hs⟩ := loopBody_sealed env flags cmd cfg maxRetries cond k w
    rcases hr : loopBody env flags cmd cfg maxRetries cond k w with ⟨c, w1⟩ | s1
    · rw [hr] at h
      simp only at h
      exact sealed_trans (hn c w1 hr)
        (restartLoop_sealed env flags cmd cfg maxRetries cond fuel c w1 s h)
    · rw [hr] at h
      simp only [Option.some.injEq] at h
      subst h
      exact hs s1 hr

/-- `executeOneTimeCommand` closes no signal: the close of its port-failure
branch is guarded by `cmdConfig.Serial && !process.TerminatingProcesses`, and
for such an entry the handler `serialFailure`, called just before, has set
the flag or ended the process. -/
theorem executeOneTimeCommand_sealed (env : Env) (flags : RunnerFlags) (cmd : ProjectCommand)
    (cfg : RunnerCommand) (w : World) :
    Sealed w (executeOneTimeCommand env flags cmd cfg w).world := by
  have hT := tryWaitForPorts_sealed env cfg w
  unfold executeOneTimeCommand
  rcases hr : tryWaitForPorts env cfg w with ⟨_ | err, w1⟩ <;> rw [hr] at hT <;> simp only
  · have hD : Sealed w (readTerminating env (applyCommandDelay cfg w1)).2 :=
      sealed_trans hT (sealed_trans (applyCommandDelay_sealed cfg w1)
        (sealed_readTerminating env _))
    rcases hr2 : readTerminating env (applyCommandDelay cfg w1) with ⟨_ | _, w2⟩ <;>
      rw [hr2] at hD <;> simp only
    · refine sealed_trans hD (step_bind_sealed (runEntry_sealed env cmd w2) ?_)
      intro e w3
      rcases e with _ | e
      · exact sealed_refl _
      · simp only
        split_ifs
        · exact handlers_sealed env flags cfg w3
        · exact sealed_refl _
    · exact hD
  · have hD : Sealed w (readTerminating env w1).2 :=
      sealed_trans hT (sealed_readTerminating env _)
    rcases hr2 : readTerminating env w1 with ⟨_ | _, w2⟩ <;> rw [hr2] at hD <;> simp only
    · have hL : Sealed w2 (if (!err.isTerminated) = true then
          emit (.errorLog err) (emit (.portWaitFailed err) w2)
          else emit (.portWaitFailed err) w2) := by
        split_ifs
        · exact sealed_trans (sealed_emit _ _ (by rfl)) (sealed_emit _ _ (by rfl))
        · exact sealed_emit _ _ (by rfl)
      refine sealed_trans hD (sealed_trans hL ?_)
      obtain ⟨-, hs, -⟩ := serialFailure_spec env flags cfg (if (!err.isTerminated) = true then
          emit (.errorLog err) (emit (.portWaitFailed err) w2)
          else emit (.portWaitFailed err) w2)
      have hS := serialFailure_sealed env flags cfg (if (!err.isTerminated) = true then
          emit (.errorLog err) (emit (.portWaitFailed err) w2)
          else emit (.portWaitFailed err) w2)
      rcases hsf : serialFailure env flags cfg (if (!err.isTerminated) = true then
          emit (.errorLog err) (emit (.portWaitFailed err) w2)
          else emit (.portWaitFailed err) w2) with ⟨u, w3⟩ | w3
      · rw [hsf] at hS hs
        simp only [Step.world] at hS hs
        simp only [Step.bind]
        obtain ⟨D, -, -, -, hm⟩ := dependentCompletion_spec env flags cfg w3
        have hDc := dependentCompletion_sealed env flags cfg w3
        rcases hdc : dependentCompletion env flags cfg w3 with ⟨u2, w4⟩ | w4
        · rw [hdc] at hDc hm
          simp only [Step.world] at hDc hm
          simp only [Step.bind]
          refine sealed_trans hS (sealed_trans hDc ?_)
          by_cases hser : cfg.Serial = true
          · have hf : w4.TerminatingProcesses = true := hm (hs (by simp [hser]))
            rw [readTerminating_of_set env w4 hf]
            simp only [Bool.not_true, Bool.and_false, Bool.false_eq_true, if_false, Step.world]
            exact sealed_refl _
          · have hr5 := sealed_readTerminating env w4
            rcases hrt : readTerminating env w4 with ⟨t, w5⟩
            rw [hrt] at hr5
            simp only [Bool.not_eq_true] at hser
            simp only [hser, Bool.false_and, Bool.false_eq_true, if_false, Step.world]
            exact hr5
        · rw [hdc] at hDc
          simp only [Step.world] at hDc
          simp only [Step.bind, Step.world]
          exact sealed_trans hS hDc
      · rw [hsf] at hS
        simp only [Step.world] at hS
        simp only [Step.bind, Step.world]
        exact hS
    · exact hD

/-- C29: the completion signal of an entry is closed at most once. The
goroutine of `launchRunnerCommand` adds at most one call
`close(nextStartSignal)` to the trace, whatever the entry, the environment and
the moment the shutdown flag is raised: `executeOneTimeCommand` and the loop
of `executeRestartableCommand` add none, the close of the port-failure branch
being unreachable once `serialFailure` has set the flag or ended the process,
and of the two closes of `launchRunnerCommand` one is for an entry that is not
serial and the other for a serial one. -/
theorem completion_signal_closed_once (env : Env) (runnerFlags : RunnerFlags)
    (execution : RunnerExecution) (fuel : Nat) (w : World) :
    closeCount (executeOneTimeCommand env runnerFlags execution.projectCmd
        execution.runnerCmd w).world.trace = closeCount w.trace ∧
      ∀ s, launchRunnerCommand env runnerFlags execution fuel w = some s →
        closeCount s.world.trace ≤ closeCount w.trace + 1 := by
  refine ⟨closeCount_sealed (executeOneTimeCommand_sealed _ _ _ _ _), ?_⟩
  intro s h
  unfold launchRunnerCommand at h
  simp only at h
  rcases hrt : readTerminating env w with ⟨t, w0⟩
  have h0 : w0.trace = w.trace := by
    have := congrArg (fun p => p.2.trace) hrt
    simpa [readTerminating] using this.symm
  rw [hrt] at h
  simp only [Option.map_eq_some'] at h
  obtain ⟨b, hb, hs⟩ := h
  generalize hw1 : (if (!execution.runnerCmd.Serial && !t) = true then
      emit .closeNextStartSignal w0 else w0) = w1 at hb
  -- the world after the first `if`
  have h4 : closeCount w1.trace ≤ closeCount w.trace +
      (if execution.runnerCmd.Serial = true then 0 else 1) := by
    subst hw1
    by_cases hser : execution.runnerCmd.Serial = true
    · simp [hser, h0]
    · simp only [Bool.not_eq_true] at hser
      simp only [hser, Bool.not_false, Bool.true_and, Bool.false_eq_true, if_false]
      split_ifs
      · simp [closeCount, Navi.emit, h0, List.countP_append, isCloseSignal]
      · simp [h0]
  -- the body closes nothing
  have h2 : Sealed w1 b.world := by
    split_ifs at hb with hre
    · unfold executeRestartableCommand at hb
      exact sealed_trans (sealed_emit (.startingAutoRestart execution.maxRetries) w1 (by rfl))
        (restartLoop_sealed _ _ _ _ _ _ _ _ _ _ hb)
    · simp only [Option.some.injEq] at hb
      subst hb
      exact executeOneTimeCommand_sealed _ _ _ _ _
  have h3 := closeCount_sealed h2
  subst hs
  rcases b with ⟨u, w2⟩ | w2
  · simp only [Step.bind, Step.world] at h3 ⊢
    rcases hrt2 : readTerminating env w2 with ⟨t2, w3⟩
    have h5 : w3.trace = w2.trace := by
      have := congrArg (fun p => p.2.trace) hrt2
      simpa [readTerminating] using this.symm
    simp only
    by_cases hser : execution.runnerCmd.Serial = true
    · simp only [hser, if_true, Nat.add_zero] at h4
      split_ifs
      · simp only [Step.world, closeCount, Navi.emit, List.countP_append, h5]
        simp only [closeCount] at h3 h4
        simp [isCloseSignal]
        omega
      · simp only [Step.world, closeCount, h5]
        simp only [closeCount] at h3 h4
        omega
    · simp only [Bool.not_eq_true] at hser
      simp only [hser, Bool.false_and, Bool.false_eq_true, if_false, Step.world, closeCount, h5]
      simp only [hser, Bool.false_eq_true, if_false, closeCount] at h3 h4
      omega
  · simp only [Step.bind, Step.world] at h3 ⊢
    split_ifs at h4 <;> omega

theorem completion_signal_closed_once_witness :
    ∃ s, launchRunnerCommand envPortsClosed noFlags serialAwaitingExecution 0 world0 = some s ∧
      closeCount s.world.trace ≤ closeCount world0.trace + 1 :=
  ⟨_, rfl, (completion_signal_closed_once envPortsClosed noFlags serialAwaitingExecution 0
    world0).2 _ rfl⟩

/-! ## Resolution of a command-line argument (C25) -/

/-- The first step of the resolution is as documented: an argument that names
a global command resolves to it, whatever the projects are. -/
theorem findGlobalCommandOrProjectOrProjectCommand_global (yamlConfig : YamlConfig)
    (arg : GoString) (h : arg ∈ yamlConfig.Commands) :
    findGlobalCommandOrProjectOrProjectCommand yamlConfig arg =
      { projectName := [], commandName := arg, found := true, isGlobalCommand := true,
        err := false } := by
  unfold findGlobalCommandOrProjectOrProjectCommand
  rw [if_pos (by simpa using h)]

/-- C25, where the code leaves the claim: in each iteration of its first loop
`findGlobalCommandOrProjectOrProjectCommand` compares the argument with the
name of the project before it looks at the commands of that project, so that
which of a project and a project command wins is decided by the order in
which the map of projects is visited. With the projects `a` (command `b`) and
`a:b`, the argument `a:b` resolves to the project `a:b` when that project is
visited first, and to the command `b` of the project `a` when `a` is visited
first. -/
theorem findGlobalCommandOrProjectOrProjectCommand_order :
    colonFirst.Projects.Perm colonLast.Projects ∧
      colonFirst.Commands = colonLast.Commands ∧
      findGlobalCommandOrProjectOrProjectCommand colonFirst (goString "a:b") =
        { projectName := goString "a:b", commandName := [], found := true,
          isGlobalCommand := false, err := false } ∧
      findGlobalCommandOrProjectOrProjectCommand colonLast (goString "a:b") =
        { projectName := goString "a", commandName := goString "b", found := true,
          isGlobalCommand := false, err := false } := by
  refine ⟨?_, rfl, by decide, by decide⟩
  exact List.Perm.swap _ _ _

/-! ## The wait group of the processes (C28) -/

theorem wgDone_processWg (r : Option Err × World) :
    (wgDone r).2.processWg = r.2.processWg - 1 :=
  rfl

theorem executeOneTime_processWg (env : Env) (wd : Bool) (cmd : ProjectCommand) (w : World) :
    (executeOneTime env wd cmd w).2.processWg =
        w.processWg + (if (cmd.AfterCommand.isSome || cmd.ProjAfterCommand.isSome) = true
          then 1 else 0) ∧
      (executeOneTime env wd cmd w).2.suppressNewAfterCommands = w.suppressNewAfterCommands ∧
      (executeOneTime env wd cmd w).2.AfterExecuted = w.AfterExecuted := by
  unfold executeOneTime
  simp only
  split_ifs with h
  · obtain ⟨-, hs, ha, -, hp, -⟩ :=
      executeCommand_extends env wd false cmd true { w with processWg := w.processWg + 1 + 1 }
    rcases hr : executeCommand env wd false cmd true
      { w with processWg := w.processWg + 1 + 1 } with ⟨_ | e, w3⟩ <;>
      rw [hr] at hs ha hp <;> simp only at hs ha hp <;>
      refine ⟨?_, hs, ha⟩ <;> simp only [wgDone, Navi.emit, hp] <;> omega
  · obtain ⟨-, hs, ha, -, hp, -⟩ :=
      executeCommand_extends env wd false cmd true { w with processWg := w.processWg + 1 }
    rcases hr : executeCommand env wd false cmd true
      { w with processWg := w.processWg + 1 } with ⟨_ | e, w3⟩ <;>
      rw [hr] at hs ha hp <;> simp only at hs ha hp <;>
      refine ⟨?_, hs, ha⟩ <;> simp only [wgDone, Navi.emit, hp] <;> omega

theorem executeAfterHooks_processWg (env : Env) (cmd : ProjectCommand) (err : Option Err)
    (chg : Bool) (w : World) :
    (executeAfterHooks env cmd err chg w).2.processWg =
      w.processWg - (if ((cmd.AfterCommand.isNone && cmd.ProjAfterCommand.isNone) ||
        w.suppressNewAfterCommands) = true then 0 else 1) := by
  by_cases hg : ((cmd.AfterCommand.isNone && cmd.ProjAfterCommand.isNone) ||
      w.suppressNewAfterCommands) = true
  · rw [executeAfterHooks_guard env cmd err chg w hg, if_pos hg]
    simp [Navi.emit]
  · rw [executeAfterHooks_run env cmd err chg w (Bool.eq_false_iff.2 hg), if_neg hg]
    have h : Extends (fun e => isHookEvent e = true) (afterEntry err chg w)
        (andThen (executeAfterCommandSet env err chg cmd.AfterCommand false
          (afterEntry err chg w)) fun w =>
            andThen (executeAfterCommandSet env err chg cmd.ProjAfterCommand true w)
              fun w => (none, emit .afterCompleted w)).2 := by
      refine extends_andThen ?_ fun w1 => extends_andThen ?_ fun w2 => ?_
      · exact extends_mono (fun e h => h.1) (executeAfterCommandSet_extends _ _ _ _ _ _)
      · exact extends_mono (fun e h => h.1) (executeAfterCommandSet_extends _ _ _ _ _ _)
      · exact extends_emit _ _ rfl
    obtain ⟨-, -, -, -, hp, -⟩ := h
    rw [wgDone_processWg, hp]
    rfl

theorem gracefulShutdown_processWg (env : Env) (w : World) :
    (gracefulShutdown env w).world.processWg = w.processWg := by
  unfold gracefulShutdown readTerminating
  simp only
  split_ifs <;> rfl

theorem logError_processWg (err : Option Err) (w : World) :
    (logError err w).processWg = w.processWg ∧
      (logError err w).suppressNewAfterCommands = w.suppressNewAfterCommands := by
  unfold logError
  rcases err with _ | e
  · exact ⟨rfl, rfl⟩
  · simp only
    split_ifs <;> exact ⟨rfl, rfl⟩

theorem processAfterCommands_processWg (env : Env) (err : Option Err) (cmd : ProjectCommand)
    (w : World) :
    w.processWg - (if ((cmd.AfterCommand.isNone && cmd.ProjAfterCommand.isNone) ||
        w.suppressNewAfterCommands) = true then 0 else 1) ≤
      (processAfterCommands env err (some cmd) w).2.processWg := by
  unfold processAfterCommands
  simp only
  have hA := executeAfterHooks_processWg env cmd err false w
  by_cases hae : (!w.AfterExecuted) = true
  · rw [if_pos hae]
    rcases hra : executeAfterHooks env cmd err false w with ⟨_ | afterErr, w2⟩ <;>
      rw [hra] at hA <;> simp only [Navi.emit] at hA ⊢ <;> omega
  · rw [if_neg hae]
    simp only
    split_ifs <;> omega

theorem afterHooksWorld_processWg (env : Env) (err : Option Err) (cmd : ProjectCommand)
    (w : World) :
    w.processWg - (if ((cmd.AfterCommand.isNone && cmd.ProjAfterCommand.isNone) ||
        w.suppressNewAfterCommands) = true then 0 else 1) ≤
      (afterHooksWorld env err (some cmd) w).processWg := by
  unfold afterHooksWorld
  simp only
  have hA := executeAfterHooks_processWg env cmd err false w
  by_cases hae : (!w.AfterExecuted) = true
  · rw [if_pos hae, hA]
  · rw [if_neg hae]
    split_ifs <;> omega

/-- After a run, the deferred `processWg.Done()` of `executeAfterHooks` does
not take the counter below its value before the run: the `Add` of
`executeOneTime` for the after commands matches it. -/
theorem executeAfterHooks_after_run_processWg (env : Env) (wd : Bool) (cmd : ProjectCommand)
    (w w1 : World) (r : Option Err) (chg : Bool)
    (hp : w1.processWg = (executeOneTime env wd cmd w).2.processWg) :
    w.processWg ≤ (executeAfterHooks env cmd r chg w1).2.processWg := by
  rw [executeAfterHooks_processWg, hp, (executeOneTime_processWg env wd cmd w).1]
  cases cmd.AfterCommand <;> cases cmd.ProjAfterCommand <;>
    cases w1.suppressNewAfterCommands <;> simp

/-- Where the code agrees with the claim: for a node without files to watch,
the counter of `processWg`, after the run and the handling of its result at
the top level, is not below what it was; and when it was not negative, the
call of `executeAfterHooks` that `processCommandError` makes after the run
does not panic. -/
theorem mainProjectCommand_processWg (env : Env) (cmd : ProjectCommand) (w : World)
    (hf : hasFilesToWatch cmd = false) :
    w.processWg ≤ (mainProjectCommand env cmd w).world.processWg ∧
      (0 ≤ w.processWg →
        afterHooksPanic env (executeOneTime env false cmd w).1 (some cmd)
          (logError (executeOneTime env false cmd w).1 (executeOneTime env false cmd w).2) =
            false) := by
  unfold mainProjectCommand execute
  rw [if_neg (by simp [hf])]
  obtain ⟨h1, h2, h3⟩ := executeOneTime_processWg env false cmd w
  rcases hr : executeOneTime env false cmd w with ⟨r, w1⟩
  rw [hr] at h1 h2 h3
  simp only at h1 h2 h3
  simp only [Step.bind]
  obtain ⟨hl1, hl2⟩ := logError_processWg r w1
  have hP := processAfterCommands_processWg env r cmd (logError r w1)
  have hW := afterHooksWorld_processWg env r cmd (logError r w1)
  rw [hl1, hl2, h1, h2] at hP hW
  have hle : ∀ x : Int, w.processWg + (if (cmd.AfterCommand.isSome ||
      cmd.ProjAfterCommand.isSome) = true then 1 else 0) -
        (if ((cmd.AfterCommand.isNone && cmd.ProjAfterCommand.isNone) ||
          w.suppressNewAfterCommands) = true then 0 else 1) ≤ x → w.processWg ≤ x := by
    intro x hx
    refine le_trans ?_ hx
    cases cmd.AfterCommand <;> cases cmd.ProjAfterCommand <;>
      cases w.suppressNewAfterCommands <;> simp
  have key := hle _ hP
  have keyW := hle _ hW
  rw [processCommandError_eq]
  constructor
  · split_ifs
    · exact keyW
    · rw [gracefulShutdown_processWg]; exact key
    · exact key
  · intro h0
    unfold afterHooksPanic
    simp only [Bool.and_eq_false_imp, decide_eq_false_iff_not, not_lt]
    intro _
    omega

/-- C28, where the code leaves the claim: when the file watcher of a
watch-enabled node with an after hook cannot be created,
`executeWithFileWatcher` returns the error before any `executeOneTime`, so
the counter of `processWg` is still 0 and `AfterExecuted` unset;
`processCommandError` then enters `executeAfterHooks`, which runs the after
hook and whose deferred `processWg.Done()` takes the counter to -1, on which
`sync.WaitGroup` panics: the program ends there. The command itself has not
been started. -/
theorem processWg_negative_without_run :
    hasFilesToWatch cmdWatchedAlways = true ∧
      execute envNoWatcher cmdWatchedAlways world0 =
        .ret (some (.other "too many open files"))
          { world0 with WatchExecuted := true, trace := [.startingWatch] } ∧
      (mainProjectCommand envNoWatcher cmdWatchedAlways world0).world.processWg = -1 ∧
      (mainProjectCommand envNoWatcher cmdWatchedAlways world0).exited = true ∧
      (mainProjectCommand envNoWatcher cmdWatchedAlways world0).world.trace =
        [.startingWatch, .errorLog (.other "too many open files"),
          .afterHooks (some (.other "too many open files")) false,
          .runningAfter false ".always", .exec true ["cleanup"], .afterCompleted,
          .wgPanic] := by
  refine ⟨by decide, rfl, by decide, by decide, by decide⟩

/-! ## The debounce of file changes (C27) -/

theorem debounce_inv_init : Debounce.init.Inv := by
  simp [Debounce.Inv, Debounce.init]

theorem debounce_run_append (s : Debounce) (l1 l2 : List WatchEvent) :
    s.run (l1 ++ l2) = (s.run l1).run l2 := by
  simp [Debounce.run, List.foldl_append]

theorem debounce_run_cons (s : Debounce) (e : WatchEvent) (l : List WatchEvent) :
    s.run (e :: l) = (s.step e).run l :=
  rfl

theorem debounce_run_nil (s : Debounce) : s.run [] = s :=
  rfl

theorem sequential_append (l1 l2 : List SeqEvent) :
    sequential (l1 ++ l2) = sequential l1 ++ sequential l2 := by
  induction l1 with
  | nil => rfl
  | cons e rest ih => simp [sequential, ih]

/-- The expiry of a timer followed at once by its function: a timer that is
pending leaves the pending timers, `isDebouncingActive` is reset and
`startOrRestartCommand` is called. -/
theorem debounce_expiry (s : Debounce) (t : Nat) (hs : s.started = []) :
    s.run (SeqEvent.expiry t).events =
      if t ∈ s.pending then
        { s with
          pending := s.pending.erase t
          isDebouncingActive := false
          restarts := s.restarts + 1 }
      else s := by
  rcases s with ⟨a, d, p, st, m, l, r⟩
  simp only at hs
  subst hs
  by_cases hm : t ∈ p
  · simp [SeqEvent.events, Debounce.run, Debounce.step, hm]
  · simp [SeqEvent.events, Debounce.run, Debounce.step, hm]

theorem debounce_pending_cases (s : Debounce) (h : s.Inv) :
    s.pending = [] ∨ ∃ t, s.pending = [t] := by
  obtain ⟨h1, -, -⟩ := h
  rcases hs : s.pending with _ | ⟨a, _ | ⟨b, l⟩⟩
  · exact Or.inl rfl
  · exact Or.inr ⟨a, rfl⟩
  · rw [hs] at h1; simp at h1

theorem debounce_inv_step (s : Debounce) (e : SeqEvent) (h : s.Inv) : (s.run e.events).Inv := by
  obtain ⟨h1, h2, h3, h4⟩ := h
  cases e with
  | change terminating restartInProcess =>
    simp only [SeqEvent.events, debounce_run_cons, debounce_run_nil]
    cases terminating with
    | true => exact ⟨h1, h2, h3, h4⟩
    | false =>
      by_cases ha : s.isDebouncingActive = true
      · -- a timer is pending: it is stopped and a new one is made
        have hne : s.pending ≠ [] := h3.1 ha
        obtain ⟨t, hp⟩ : ∃ t, s.pending = [t] := by
          rcases hs : s.pending with _ | ⟨a, _ | ⟨b, l⟩⟩
          · exact absurd hs hne
          · exact ⟨a, rfl⟩
          · rw [hs] at h1; simp at h1
        have hd : s.debounceTimer = some t := (h2 t (by simp [hp])).1
        simp [Debounce.step, Debounce.Inv, Debounce.afterFunc, Debounce.stop, hd, hp, ha, h4]
      · have hp : s.pending = [] := by
          by_contra hne
          exact ha (h3.2 hne)
        simp [Debounce.step, Debounce.Inv, Debounce.afterFunc, hp, ha, h4]
  | expiry timer =>
    rw [debounce_expiry s timer h4]
    split_ifs with hm
    · obtain ⟨t, hp⟩ : ∃ t, s.pending = [t] := by
        rcases hs : s.pending with _ | ⟨a, _ | ⟨b, l⟩⟩
        · rw [hs] at hm; simp at hm
        · exact ⟨a, rfl⟩
        · rw [hs] at h1; simp at h1
      have ht : timer = t := by simpa [hp] using hm
      subst ht
      simp [Debounce.Inv, hp, h4]
    · exact ⟨h1, h2, h3, h4⟩

theorem debounce_inv_run (s : Debounce) (events : List SeqEvent) (h : s.Inv) :
    (s.run (sequential events)).Inv := by
  induction events generalizing s with
  | nil => exact h
  | cons e rest ih =>
    simp only [sequential, debounce_run_append]
    exact ih _ (debounce_inv_step s e h)

/-- In a burst of notifications at most one line is logged, and none when a
timer is pending at its start; no timer expires. -/
theorem debounce_burst (s : Debounce) (burst : List SeqEvent) (h : s.Inv)
    (hb : ∀ e ∈ burst, e.isChange = true) :
    (s.run (sequential burst)).logged ≤
        s.logged + (if s.isDebouncingActive = true then 0 else 1) ∧
      (s.run (sequential burst)).restarts = s.restarts := by
  induction burst generalizing s with
  | nil => simp [Debounce.run, sequential]
  | cons e rest ih =>
    have hrest : ∀ e ∈ rest, e.isChange = true := fun x hx => hb x (by simp [hx])
    have he := hb e (by simp)
    obtain ⟨i1, i2⟩ := ih (s.run e.events) (debounce_inv_step s e h) hrest
    simp only [sequential, debounce_run_append]
    cases e with
    | expiry t => simp [SeqEvent.isChange] at he
    | change terminating restartInProcess =>
      simp only [SeqEvent.events, debounce_run_cons, debounce_run_nil] at i1 i2 ⊢
      cases terminating with
      | true => exact ⟨i1, i2⟩
      | false =>
        by_cases ha : s.isDebouncingActive = true
        · have e1 : (s.step (.change false restartInProcess)).logged = s.logged := by
            simp [Debounce.step, Debounce.afterFunc, Debounce.stop, ha]
            cases s.debounceTimer <;> rfl
          have e2 : (s.step (.change false restartInProcess)).isDebouncingActive = true := by
            simp [Debounce.step, Debounce.afterFunc, Debounce.stop, ha]
            cases s.debounceTimer <;> simp [ha]
          have e3 : (s.step (.change false restartInProcess)).restarts = s.restarts := by
            simp [Debounce.step, Debounce.afterFunc, Debounce.stop, ha]
            cases s.debounceTimer <;> rfl
          simp only [e1, e2, if_true, add_zero] at i1
          rw [e3] at i2
          rw [if_pos ha]
          exact ⟨i1, i2⟩
        · have e1 : (s.step (.change false restartInProcess)).logged ≤ s.logged + 1 := by
            simp [Debounce.step, Debounce.afterFunc, ha]
            split_ifs <;> omega
          have e2 : (s.step (.change false restartInProcess)).isDebouncingActive = true := by
            simp [Debounce.step, Debounce.afterFunc, ha]
          have e3 : (s.step (.change false restartInProcess)).restarts = s.restarts := by
            simp [Debounce.step, Debounce.afterFunc, ha]
          simp only [e2, if_true, add_zero] at i1
          rw [e3] at i2
          rw [if_neg ha]
          exact ⟨by omega, i2⟩

/-- A series of expiries calls `startOrRestartCommand` once for each timer
that is pending at its start. -/
theorem debounce_expiries (s : Debounce) (expiries : List SeqEvent) (h : s.Inv)
    (hx : ∀ e ∈ expiries, e.isChange = false) :
    (s.run (sequential expiries)).restarts ≤ s.restarts + s.pending.length := by
  induction expiries generalizing s with
  | nil => simp [Debounce.run, sequential]
  | cons e rest ih =>
    have hrest : ∀ e ∈ rest, e.isChange = false := fun x hx' => hx x (by simp [hx'])
    have he := hx e (by simp)
    have i1 := ih (s.run e.events) (debounce_inv_step s e h) hrest
    simp only [sequential, debounce_run_append]
    cases e with
    | change a b => simp [SeqEvent.isChange] at he
    | expiry t =>
      rw [debounce_expiry s t h.2.2.2] at i1 ⊢
      by_cases hm : t ∈ s.pending
      · rcases debounce_pending_cases s h with hp | ⟨u, hp⟩
        · rw [hp] at hm; simp at hm
        · have ht : t = u := by simpa [hp] using hm
          subst ht
          rw [if_pos hm] at i1 ⊢
          simp only [hp, List.erase_cons_head, List.length_nil, add_zero, List.length_singleton]
            at i1 ⊢
          exact i1
      · rw [if_neg hm] at i1 ⊢
        exact le_trans i1 (by omega)

/-- The lines logged are at most as many as the debounce windows: those a
timer has closed by expiring, and the one that is open. -/
theorem debounce_logged_le (events : List SeqEvent) :
    (Debounce.init.run (sequential events)).logged ≤
      (Debounce.init.run (sequential events)).restarts +
        (Debounce.init.run (sequential events)).pending.length := by
  have key : ∀ (evs : List SeqEvent) (s : Debounce), s.Inv →
      s.logged ≤ s.restarts + s.pending.length →
      (s.run (sequential evs)).logged ≤
        (s.run (sequential evs)).restarts + (s.run (sequential evs)).pending.length := by
    intro evs
    induction evs with
    | nil => intro s _ hj; exact hj
    | cons e rest ih =>
      intro s h hj
      simp only [sequential, debounce_run_append]
      refine ih (s.run e.events) (debounce_inv_step s e h) ?_
      cases e with
      | change terminating restartInProcess =>
        simp only [SeqEvent.events, debounce_run_cons, debounce_run_nil]
        cases terminating with
        | true => exact hj
        | false =>
          by_cases ha : s.isDebouncingActive = true
          · rcases debounce_pending_cases s h with hp | ⟨u, hp⟩
            · exact absurd hp (h.2.2.1.1 ha)
            · have hd : s.debounceTimer = some u := (h.2.1 u (by simp [hp])).1
              rw [hp] at hj
              simp [Debounce.step, Debounce.afterFunc, Debounce.stop, ha, hd, hp]
              simpa using hj
          · have hp : s.pending = [] := by
              by_contra hne
              exact ha (h.2.2.1.2 hne)
            rw [hp] at hj
            simp [Debounce.step, Debounce.afterFunc, ha, hp]
            simp at hj
            split_ifs <;> omega
      | expiry t =>
        rw [debounce_expiry s t h.2.2.2]
        by_cases hm : t ∈ s.pending
        · rcases debounce_pending_cases s h with hp | ⟨u, hp⟩
          · rw [hp] at hm; simp at hm
          · have ht : t = u := by simpa [hp] using hm
            subst ht
            rw [hp] at hj
            rw [if_pos hm]
            simp [hp]
            simpa using hj
        · rw [if_neg hm]
          exact hj
  exact key events Debounce.init debounce_inv_init (by simp [Debounce.init])

theorem debounce_logged_mono (s : Debounce) (events : List WatchEvent) :
    s.logged ≤ (s.run events).logged := by
  induction events generalizing s with
  | nil => exact le_rfl
  | cons e rest ih =>
    refine le_trans ?_ (ih (s.step e))
    cases e with
    | change terminating restartInProcess =>
      simp only [Debounce.step, Debounce.afterFunc, Debounce.stop]
      split_ifs <;> first | exact le_rfl | (simp only; omega) | (split <;> exact le_rfl)
    | expire t =>
      simp only [Debounce.step]
      split_ifs <;> exact le_rfl
    | timerFunc t =>
      simp only [Debounce.step]
      split_ifs <;> exact le_rfl

/-- Where the code debounces as intended: in a session in which the function
of a timer runs as soon as the timer has expired, before the loop handles the
next notification. For every such series of notifications and expiries, in
the state `s` it leads to: at most one timer is pending; the lines logged so
far are at most as many as the windows, those closed by an expiry and the
open one; a notification handled while a timer `t` is pending logs nothing
and leaves exactly one timer pending, a new one; and in a burst of
notifications that follows, at most one line is logged, none if a timer was
pending already, at most one timer is pending at its end, and the expiries
that follow it call `startOrRestartCommand` at most once. -/
theorem debounce_sequential_once_per_window (events : List SeqEvent) (s : Debounce)
    (hs : s = Debounce.init.run (sequential events)) :
    s.pending.length ≤ 1 ∧ s.logged ≤ s.restarts + s.pending.length ∧
      (∀ t restartInProcess, s.pending = [t] →
        (s.step (.change false restartInProcess)).logged = s.logged ∧
          (s.step (.change false restartInProcess)).pending = [s.made] ∧ t < s.made) ∧
      ∀ burst, (∀ e ∈ burst, e.isChange = true) →
        (s.run (sequential burst)).logged ≤ s.logged + 1 ∧
          (s.pending ≠ [] → (s.run (sequential burst)).logged = s.logged) ∧
          (s.run (sequential burst)).pending.length ≤ 1 ∧
          ∀ expiries, (∀ e ∈ expiries, e.isChange = false) →
            ((s.run (sequential burst)).run (sequential expiries)).restarts ≤ s.restarts + 1 := by
  have hinv : s.Inv := by
    rw [hs]; exact debounce_inv_run _ _ debounce_inv_init
  refine ⟨hinv.1, ?_, ?_, ?_⟩
  · rw [hs]; exact debounce_logged_le events
  · intro t r hp
    have ha : s.isDebouncingActive = true := hinv.2.2.1.2 (by simp [hp])
    obtain ⟨hd, hlt⟩ := hinv.2.1 t (by simp [hp])
    refine ⟨?_, ?_, hlt⟩
    · simp [Debounce.step, Debounce.afterFunc, Debounce.stop, ha, hd]
    · simp [Debounce.step, Debounce.afterFunc, Debounce.stop, ha, hd, hp]
  · intro burst hb
    obtain ⟨h1, h2⟩ := debounce_burst s burst hinv hb
    have hinv2 := debounce_inv_run s burst hinv
    refine ⟨?_, ?_, hinv2.1, ?_⟩
    · split_ifs at h1 <;> omega
    · intro hne
      rw [if_pos (hinv.2.2.1.2 hne)] at h1
      exact le_antisymm h1 (debounce_logged_mono s _)
    · intro expiries hx
      have h3 := debounce_expiries (s.run (sequential burst)) expiries hinv2 hx
      have h4 := hinv2.1
      omega

/-- C27. The debounce misses when a notification is handled between the
expiry of a timer and the run of its function. A first notification logs the
line and makes timer 0; timer 0 expires; a second notification finds
`isDebouncingActive` still set, so it logs nothing, stops nothing (timer 0 has
expired) and makes timer 1; the function of timer 0 runs and resets
`isDebouncingActive`; a third notification, handled while timer 1 is pending,
takes the other branch: it logs the line a second time and makes timer 2
without stopping timer 1. Two timers are pending, and when both have expired
`startOrRestartCommand` has been called three times for three
notifications. -/
theorem debounce_timers_overlap :
    (Debounce.init.run [.change false false, .expire 0, .change false false]).pending = [1] ∧
    (Debounce.init.run [.change false false, .expire 0, .change false false]).logged = 1 ∧
    (Debounce.init.run [.change false false, .expire 0, .change false false,
      .timerFunc 0]).pending = [1] ∧
    (Debounce.init.run [.change false false, .expire 0, .change false false,
      .timerFunc 0, .change false false]).pending = [1, 2] ∧
    (Debounce.init.run [.change false false, .expire 0, .change false false,
      .timerFunc 0, .change false false]).logged = 2 ∧
    (Debounce.init.run [.change false false, .expire 0, .change false false,
      .timerFunc 0, .change false false, .expire 1, .timerFunc 1, .expire 2,
      .timerFunc 2]).restarts = 3 := by
  decide

end Navi
